import Mathlib

/-!
# nilfs-utils: checkpoint-number parser and mkfs layout calculator

A shallow embedding of `lib/cno.c` and of the layout and superblock routines of
`sbin/mkfs/mkfs.c`, with the properties of the specification stated and proved
over it.

Conventions of the embedding.

* A C string is the list of its characters before the terminating NUL; a
  pointer into a string is an offset from its first character, so that
  `*p == 0` reads "the string dropped by `p` is empty" and pointer equality is
  equality of offsets.
* `unsigned long`, `__u64` and `nilfs_cno_t` are 64-bit (LP64); unsigned
  arithmetic that can wrap carries an explicit `% 2 ^ 64`.
* A function that can terminate the process (`perr`, `assert`) returns the
  reason in its result instead of returning normally.
-/

namespace Nilfs

/-! ## include/nilfs.h -/

/-- The constant `NILFS_CNO_MIN` of nilfs.h, `((nilfs_cno_t)1)`. -/
def NILFS_CNO_MIN : Nat := 1

/-- The constant `NILFS_CNO_MAX` of nilfs.h, `(~(nilfs_cno_t)0)`. -/
def NILFS_CNO_MAX : Nat := 2 ^ 64 - 1

/-! ## libc primitives used by lib/cno.c

`isspace`, `strstr` and `strtoull` belong to the C library, not to the
repository; they are written here after ISO C (C99 7.4.1.10, 7.21.5.7,
7.20.1.4) and the glibc implementation, for the "C" locale. -/

/-- The constant `ULLONG_MAX` for a 64-bit `unsigned long long`. -/
def ULLONG_MAX : Nat := 2 ^ 64 - 1

/-- The classifier `isspace` in the "C" locale: space, and `\t \n \v \f \r`. -/
def isspace (c : Char) : Bool :=
  c.toNat = 32 || (9 ≤ c.toNat && c.toNat ≤ 13)

/-- Value of a character as a digit of `strtoull`: `0-9`, then letters of
either case for 10 to 35; `none` for any other character. -/
def digitValue (c : Char) : Option Nat :=
  if 48 ≤ c.toNat ∧ c.toNat ≤ 57 then some (c.toNat - 48)
  else if 97 ≤ c.toNat ∧ c.toNat ≤ 122 then some (c.toNat - 87)
  else if 65 ≤ c.toNat ∧ c.toNat ≤ 90 then some (c.toNat - 55)
  else none

/-- The digit loop of `strtoull`: consumes the longest run of characters that
are digits of `base`, returning the exact value accumulated onto `acc` and the
number of characters consumed added to `n`. -/
def scanDigits (base : Nat) : List Char → Nat → Nat → Nat × Nat
  | [], acc, n => (acc, n)
  | c :: t, acc, n =>
    match digitValue c with
    | some d => if d < base then scanDigits base t (acc * base + d) (n + 1) else (acc, n)
    | none => (acc, n)

/-- Result of a conversion: the value returned and the offset (from the
pointer passed in) stored through `endptr`, or `none` when nothing is stored. -/
structure Conv where
  value : Nat
  endptr : Option Nat
  deriving DecidableEq

/-- Number of characters the optional sign of `strtoull` takes: one for a
leading `-` or `+`, none otherwise. -/
def signLength (s : List Char) : Nat :=
  if s.head? = some '-' ∨ s.head? = some '+' then 1 else 0

/-- Whether `strtoull` skips a `0x` or `0X`: only for base 0 or 16. -/
def hexMarker (base : Nat) (s : List Char) : Bool :=
  (base = 0 ∨ base = 16) ∧ s.head? = some '0' ∧
    (s.tail.head? = some 'x' ∨ s.tail.head? = some 'X')

/-- The base `strtoull` converts in: 16 after a hex prefix; for base 0, 8 after
a leading `0` and 10 otherwise; else the base given. -/
def effectiveBase (base : Nat) (s : List Char) : Nat :=
  if hexMarker base s then 16
  else if base = 0 then (if s.head? = some '0' then 8 else 10)
  else base

/-- The C library's `strtoull(nptr, endptr, base)` (C99 semantics, as in glibc):
skip white space, take an optional sign, take an optional `0x` when the base is
0 or 16, convert the longest digit run. Without any digit the value is 0 and
`endptr` is `nptr` (or the `x` of a bare `0x`). A value above `ULLONG_MAX`
gives `ULLONG_MAX`; a minus sign negates modulo `2 ^ 64`. For a base other
than 0 or 2..36 glibc returns 0 and stores nothing. -/
def strtoull (nptr : List Char) (base : Nat) : Conv :=
  if base = 1 ∨ 36 < base then ⟨0, none⟩
  else
    let ws := (nptr.takeWhile isspace).length
    let s := nptr.drop ws
    let s1 := s.drop (signLength s)
    let pre := if hexMarker base s1 then 2 else 0
    let r := scanDigits (effectiveBase base s1) (s1.drop pre) 0 0
    if r.2 = 0 then ⟨0, some (if hexMarker base s1 then ws + signLength s + 1 else 0)⟩
    else ⟨if ULLONG_MAX < r.1 then ULLONG_MAX
          else if s.head? = some '-' then (2 ^ 64 - r.1) % 2 ^ 64 else r.1,
          some (ws + signLength s + pre + r.2)⟩

/-- The C library's `strstr(haystack, needle)`: offset of the first occurrence
of `needle`, or `none` (a null pointer) when there is none. -/
def strstr : List Char → List Char → Option Nat
  | [], needle => if needle = [] then some 0 else none
  | c :: t, needle =>
    if needle.isPrefixOf (c :: t) then some 0 else (strstr t needle).map (· + 1)

/-! ## lib/cno.c -/

/-- Function `nilfs_parse_cno` of lib/cno.c: skip white space, answer
`NILFS_CNO_MAX` (storing nothing through `endptr`) when a minus sign follows,
otherwise hand the advanced pointer to `strtoull`. The stored offset counts
from the pointer the caller passed. -/
def nilfs_parse_cno (arg : List Char) (base : Nat) : Conv :=
  let ws := (arg.takeWhile isspace).length
  let a := arg.drop ws
  if a.head? = some '-' then ⟨NILFS_CNO_MAX, none⟩
  else
    let r := strtoull a base
    ⟨r.value, r.endptr.map (ws + ·)⟩

/-- Outcome of `nilfs_parse_cno_range`: the value returned and the contents of
the caller's `*start` and `*end` cells afterwards. -/
structure RangeOut where
  ret : Int
  start : Nat
  end_ : Nat
  deriving DecidableEq

/-- Function `nilfs_parse_cno_range` of lib/cno.c. `start` and `end_` are the
contents of `*start` and `*end` on entry. The result is `none` when the
process does not survive the call: the entry assertion fails on an empty
argument, or the local `endptr` would be read before anything was stored in
it. The three arms are the source's `..yyy`, `xxx` and `xxx..yyy`; `&&` is
evaluated left to right, so `endptr` is read only after the test on the
number passed; in the last arm a second conversion that stores nothing leaves
`endptr` at the value of the first. -/
def nilfs_parse_cno_range (arg : List Char) (start end_ : Nat) (base : Nat) :
    Option RangeOut :=
  if arg = [] then none
  else
    match strstr arg ['.', '.'] with
    | some 0 =>
      if arg.drop 2 ≠ [] then
        let r := nilfs_parse_cno (arg.drop 2) base
        if r.value < NILFS_CNO_MAX then
          match r.endptr with
          | none => none
          | some e =>
            if arg.drop (2 + e) = [] then some ⟨0, NILFS_CNO_MIN, r.value⟩
            else some ⟨-1, start, end_⟩
        else some ⟨-1, start, end_⟩
      else some ⟨-1, start, end_⟩
    | none =>
      let r := nilfs_parse_cno arg base
      if r.value < NILFS_CNO_MAX then
        match r.endptr with
        | none => none
        | some e =>
          if arg.drop e = [] then some ⟨0, r.value, r.value⟩
          else some ⟨-1, start, end_⟩
      else some ⟨-1, start, end_⟩
    | some d =>
      let r := nilfs_parse_cno arg base
      if r.value < NILFS_CNO_MAX then
        match r.endptr with
        | none => none
        | some e =>
          if e = d then
            if arg.drop (d + 2) = [] then some ⟨0, r.value, NILFS_CNO_MAX⟩
            else
              let r2 := nilfs_parse_cno (arg.drop (d + 2)) base
              if r2.value < NILFS_CNO_MAX then
                match (r2.endptr.map (d + 2 + ·)).orElse (fun _ => some e) with
                | none => none
                | some e2 =>
                  if arg.drop e2 = [] then some ⟨0, r.value, r2.value⟩
                  else some ⟨-1, start, end_⟩
              else some ⟨-1, start, end_⟩
          else some ⟨-1, start, end_⟩
      else some ⟨-1, start, end_⟩

/-- Decimal representation of a number, as `printf("%llu")` writes it. -/
def decimal (n : Nat) : List Char := (Nat.repr n).data


/-! ### The specification's reading of a range argument -/

/-- Spec: the bound texts of a range argument, split at its first `..`: the
whole argument when there is no `..`, otherwise the non-empty texts before and
after it. -/
def rangeBounds (arg : List Char) : List (List Char) :=
  match strstr arg ['.', '.'] with
  | none => [arg]
  | some d => (if d = 0 then [] else [arg.take d]) ++
      (if arg.drop (d + 2) = [] then [] else [arg.drop (d + 2)])

/-- Spec: a negative bound, one whose first non-blank character is `-`. -/
def negativeBound (b : List Char) : Prop :=
  (b.dropWhile isspace).head? = some '-'

/-- Spec: a bound the parser must refuse: it is negative, or it parses to
`NILFS_CNO_MAX`, or it is followed by characters the conversion did not
consume. -/
def badBound (b : List Char) (base : Nat) : Prop :=
  negativeBound b ∨ (nilfs_parse_cno b base).value = NILFS_CNO_MAX ∨
    ∃ e, (nilfs_parse_cno b base).endptr = some e ∧ e < b.length

/-- Spec: a malformed range argument: `..` alone, or one with a bad bound. -/
def malformed (arg : List Char) (base : Nat) : Prop :=
  arg = ['.', '.'] ∨ ∃ b ∈ rangeBounds arg, badBound b base

/-! ### Auxiliary notions for the proofs about decimal strings -/

/-- A decimal digit character. -/
def isDec (c : Char) : Prop := 48 ≤ c.toNat ∧ c.toNat ≤ 57

/-- Left fold of a digit string onto `acc`, most significant digit first. -/
def decFold (acc : Nat) (p : List Char) : Nat :=
  p.foldl (fun a c => a * 10 + (c.toNat - 48)) acc

/-- The text after a bound: the end of the string, or a dot. -/
def stopsScan (rest : List Char) : Prop := rest = [] ∨ ∃ t, rest = '.' :: t

/-! ## sbin/mkfs/mkfs.c -/

/-- Conversion of a signed value to `unsigned long` / `__u64`. -/
def toU64 (x : Int) : Nat := (x % 2 ^ 64).toNat

/-- Conversion of a signed value to `__u32`. -/
def toU32 (x : Int) : Nat := (x % 2 ^ 32).toNat

/-- Constants and structure sizes that mkfs.c takes from `mkfs.h` and
`nilfs2_fs.h`. Those headers are not among the sources at hand, so the values
are parameters of the model. -/
structure Consts where
  NILFS_DISKHDR_SIZE : Nat
  NILFS_PSEG_MIN_BLOCKS : Nat
  NILFS_MIN_NRSVSEGS : Nat
  NILFS_MIN_NUSERSEGS : Nat
  NILFS_MIN_BLOCKSIZE : Nat
  NILFS_SB_BYTES : Nat
  NILFS_CURRENT_REV : Nat
  NILFS_MINOR_REV : Nat
  NILFS_SUPER_MAGIC : Nat
  NILFS_DFL_MAX_MNT_COUNT : Nat
  NILFS_VALID_FS : Nat
  NILFS_DEF_CHECK_INTERVAL : Nat
  NILFS_OS_LINUX : Nat
  NILFS_USER_INO : Nat
  sizeof_nilfs_inode : Nat
  sizeof_nilfs_sufile_header : Nat
  sizeof_nilfs_segment_usage : Nat
  sizeof_nilfs_cpfile_header : Nat
  sizeof_nilfs_checkpoint : Nat
  sizeof_nilfs_dat_entry : Nat
  sizeof_nilfs_super_root : Nat
  sizeof_nilfs_super_block : Nat
  sizeof_nilfs_segment_summary : Nat
  sizeof_nilfs_finfo : Nat
  sizeof_nilfs_binfo_v : Nat
  sizeof_nilfs_persistent_group_desc : Nat
  NILFS_SB_OFFSET_BYTES : Nat
  NILFS_SR_BYTES : Nat
  NILFS_CHAR_BIT : Nat
  NILFS_INODE_BMAP_SIZE : Nat
  NILFS_MAX_BMAP_ROOT_PTRS : Nat
  NILFS_MAX_INITIAL_INO : Nat
  NILFS_SUFILE_FIRST_SEGMENT_USAGE_OFFSET : Nat
  NILFS_CPFILE_FIRST_CHECKPOINT_OFFSET : Nat
  NILFS_ROOT_INO : Nat
  NILFS_DAT_INO : Nat
  NILFS_CPFILE_INO : Nat
  NILFS_SUFILE_INO : Nat
  NILFS_IFILE_INO : Nat
  NILFS_SKETCH_INO : Nat
  NILFS_NILFS_INO : Nat

/-- A concrete instance of the constants, with the values of the nilfs-utils
headers (4096-byte disk header, 2-block minimum partial segment, 8 reserved and
8 user segments, 1024-byte minimum block size). The examples are evaluated at
it, and so are the theorems on the layouts that `main` reaches, which depend
on the sizes of the on-disk structures; the other theorems hold for the
constants as parameters. -/
def releaseConsts : Consts where
  NILFS_DISKHDR_SIZE := 4096
  NILFS_PSEG_MIN_BLOCKS := 2
  NILFS_MIN_NRSVSEGS := 8
  NILFS_MIN_NUSERSEGS := 8
  NILFS_MIN_BLOCKSIZE := 1024
  NILFS_SB_BYTES := 256
  NILFS_CURRENT_REV := 2
  NILFS_MINOR_REV := 0
  NILFS_SUPER_MAGIC := 0x3434
  NILFS_DFL_MAX_MNT_COUNT := 50
  NILFS_VALID_FS := 1
  NILFS_DEF_CHECK_INTERVAL := 60 * 60 * 24 * 180
  NILFS_OS_LINUX := 0
  NILFS_USER_INO := 11
  sizeof_nilfs_inode := 128
  sizeof_nilfs_sufile_header := 24
  sizeof_nilfs_segment_usage := 16
  sizeof_nilfs_cpfile_header := 32
  sizeof_nilfs_checkpoint := 192
  sizeof_nilfs_dat_entry := 32
  sizeof_nilfs_super_root := 400
  sizeof_nilfs_super_block := 1024
  sizeof_nilfs_segment_summary := 72
  sizeof_nilfs_finfo := 24
  sizeof_nilfs_binfo_v := 16
  sizeof_nilfs_persistent_group_desc := 4
  NILFS_SB_OFFSET_BYTES := 1024
  NILFS_SR_BYTES := 400
  NILFS_CHAR_BIT := 8
  NILFS_INODE_BMAP_SIZE := 7
  NILFS_MAX_BMAP_ROOT_PTRS := 6
  NILFS_MAX_INITIAL_INO := 12
  NILFS_SUFILE_FIRST_SEGMENT_USAGE_OFFSET := 2
  NILFS_CPFILE_FIRST_CHECKPOINT_OFFSET := 1
  NILFS_ROOT_INO := 2
  NILFS_DAT_INO := 3
  NILFS_CPFILE_INO := 4
  NILFS_SUFILE_INO := 5
  NILFS_IFILE_INO := 6
  NILFS_SKETCH_INO := 10
  NILFS_NILFS_INO := 11

/-- The static `nr_initial_segments` of mkfs.c: initial segment + next. -/
def nr_initial_segments : Nat := 2

/-- The struct `mkfs_options` of mkfs.c; the `long` fields are integers, the
volume label is its 16 bytes. -/
structure mkfs_options where
  blocksize : Int
  blocks_per_segment : Int
  r_segments_percentage : Int
  quiet : Int
  cflag : Int
  nflag : Int
  ctime : Int
  volume_label : List Nat
  deriving DecidableEq

/-- The struct `nilfs_disk_info` of mkfs.c, without the device name and the
per-segment table. -/
structure nilfs_disk_info where
  dev_size : Nat
  blkbits : Int
  ctime : Int
  crc_seed : Nat
  blocks_per_segment : Nat
  nsegments : Nat
  first_segment_block : Nat
  nblocks_to_write : Nat
  nblocks_used : Nat
  nsegments_to_write : Nat
  nseginfo : Nat
  deriving DecidableEq

/-- The struct `nilfs_segment_ref` of mkfs.c. -/
structure nilfs_segment_ref where
  seq : Nat
  start : Nat
  free_blocks_count : Nat
  cno : Nat
  deriving DecidableEq

/-- The ways mkfs ends other than by returning from the routine at hand: the
`perr` calls of the routines modelled, by message; a failed assertion
(`BUG_ON`); the arithmetic trap of an integer division by zero; and behaviour
that C leaves undefined (an access outside a buffer or through a null
pointer). -/
inductive Fatal where
  | invalid_blocksize (blocksize : Int)
  | too_small_segment (blocks_per_segment required_blocks : Nat)
  | too_small_device (dev_size required_size : Nat)
  | too_large_ondisk_structure
  | too_large_super_block
  | division_by_zero
  | too_many_segments
  | too_many_files
  | inode_number_out_of_range
  | too_many_initial_inodes
  | too_many_initial_dat_entries
  | illegal_disk_buffer_access (blocknr : Nat)
  | duplicated_entry_allocation
  | assertion_failed
  | currently_mounted
  | cannot_open_mounts
  | undefined_behaviour
  | command_line_buffer_overflow
  deriving DecidableEq

/-- The macro `ROUNDUP_DIV(n,m)` of mkfs.c, `(((n) - 1) / (m) + 1)`, on signed
operands (C division truncates towards zero). -/
def ROUNDUP_DIV (n m : Int) : Int := Int.tdiv (n - 1) m + 1

/-- The GNU C conditional with the middle operand omitted, `a ?: b`. -/
def cond_omitted (a b : Int) : Int := if a ≠ 0 then a else b

/-- The macro `max_t(type,x,y)` of mkfs.c at type `unsigned long`. -/
def max_t (x y : Nat) : Nat :=
  if x % 2 ^ 64 > y % 2 ^ 64 then x % 2 ^ 64 else y % 2 ^ 64

/-- The loop of `my_log2`, `for (n = 0; i > 1; i >>= 1) n++;`, unrolled `fuel`
times. -/
def my_log2_loop : Nat → Int → Int → Int
  | 0, _, n => n
  | fuel + 1, i, n => if i > 1 then my_log2_loop fuel (i / 2) (n + 1) else n

/-- Function `my_log2` of mkfs.c. The argument is a `long`, below `2 ^ 63`, so
the loop ends within 63 rounds; 64 are provided. -/
def my_log2 (i : Int) : Int := my_log2_loop 64 i 0

/-- Function `nilfs_min_nsegments` of mkfs.c, in `unsigned long` arithmetic:
`max((rp * nsegments - 1) / 100 + 1, NILFS_MIN_NRSVSEGS) +
 max(nr_initial_segments, NILFS_MIN_NUSERSEGS)`. -/
def nilfs_min_nsegments (c : Consts) (di : nilfs_disk_info) (rp : Int) : Nat :=
  let prod := (toU64 rp * di.nsegments) % 2 ^ 64
  let less := (prod + 2 ^ 64 - 1) % 2 ^ 64
  let rsv := (less / 100 + 1) % 2 ^ 64
  (max_t rsv c.NILFS_MIN_NRSVSEGS + max_t nr_initial_segments c.NILFS_MIN_NUSERSEGS) % 2 ^ 64

/-- Function `nilfs_check_ondisk_sizes` of mkfs.c: `true` when it calls `perr`. -/
def nilfs_check_ondisk_sizes (c : Consts) : Bool :=
  decide (c.sizeof_nilfs_inode > c.NILFS_MIN_BLOCKSIZE) ||
  decide (c.sizeof_nilfs_sufile_header > c.NILFS_MIN_BLOCKSIZE) ||
  decide (c.sizeof_nilfs_segment_usage > c.NILFS_MIN_BLOCKSIZE) ||
  decide (c.sizeof_nilfs_cpfile_header > c.NILFS_MIN_BLOCKSIZE) ||
  decide (c.sizeof_nilfs_checkpoint > c.NILFS_MIN_BLOCKSIZE) ||
  decide (c.sizeof_nilfs_dat_entry > c.NILFS_MIN_BLOCKSIZE) ||
  decide (c.sizeof_nilfs_super_root > c.NILFS_MIN_BLOCKSIZE)

/-- State of `*di` when `init_disk_layout` ends, and how it ends: `none` for a
normal return. -/
structure LayoutOut where
  di : nilfs_disk_info
  fatal : Option Fatal
  deriving DecidableEq

/-- Function `init_disk_layout` of mkfs.c, from the point where the device size
is known. `di` is the (uninitialised) contents of `*di` on entry, `dev_size`
what `fstat` or the `BLKGETSIZE64` ioctl reported, `nilfs_time` the value of
`time(NULL)` and `rnd` that of `mrand48()`. -/
def init_disk_layout (c : Consts) (di : nilfs_disk_info) (dev_size : Nat)
    (nilfs_time rnd : Int) (opts : mkfs_options) : LayoutOut :=
  let di := { di with
    dev_size := dev_size % 2 ^ 64
    blkbits := my_log2 opts.blocksize
    ctime := cond_omitted opts.ctime nilfs_time
    crc_seed := toU32 rnd
    blocks_per_segment := toU64 opts.blocks_per_segment }
  let segment_size := (di.blocks_per_segment * toU64 opts.blocksize) % 2 ^ 64
  if opts.blocksize = 0 then ⟨di, some .division_by_zero⟩
  else
    let first_segblk := toU64 (ROUNDUP_DIV c.NILFS_DISKHDR_SIZE opts.blocksize)
    let di := { di with first_segment_block := first_segblk }
    if (first_segblk + c.NILFS_PSEG_MIN_BLOCKS) % 2 ^ 64 > di.blocks_per_segment then
      ⟨di, some (.too_small_segment di.blocks_per_segment
        ((first_segblk + c.NILFS_PSEG_MIN_BLOCKS) % 2 ^ 64))⟩
    else if di.blocks_per_segment = 0 then ⟨di, some .division_by_zero⟩
    else
      let di := { di with
        nsegments := (di.dev_size >>> di.blkbits.toNat) / di.blocks_per_segment }
      let min_nsegments := nilfs_min_nsegments c di opts.r_segments_percentage
      if di.nsegments < min_nsegments then
        ⟨di, some (.too_small_device di.dev_size ((segment_size * min_nsegments) % 2 ^ 64))⟩
      else
        let di := { di with nseginfo := 0 }
        if nilfs_check_ondisk_sizes c then ⟨di, some .too_large_ondisk_structure⟩
        else ⟨di, none⟩

/-- Function `check_blocksize` of mkfs.c; `pagesize` is what
`sysconf(_SC_PAGESIZE)` returns. The result is the `perr` call made, `none`
when the function returns. The three tests are tried in order and the
bitwise one is reached only by sizes the first two let through. -/
def check_blocksize (c : Consts) (pagesize : Int) (blocksize : Int) : Option Fatal :=
  if blocksize > pagesize then some (.invalid_blocksize blocksize)
  else if blocksize < c.NILFS_MIN_BLOCKSIZE then some (.invalid_blocksize blocksize)
  else if Int.land (blocksize - 1) blocksize ≠ 0 then some (.invalid_blocksize blocksize)
  else none

/-- The fields of `struct nilfs_super_block` that mkfs.c assigns, as values;
`s_uuid` and `s_volume_name` are byte strings. -/
structure nilfs_super_block where
  s_rev_level : Nat
  s_minor_rev_level : Nat
  s_magic : Nat
  s_bytes : Nat
  s_flags : Nat
  s_crc_seed : Nat
  s_sum : Nat
  s_log_block_size : Nat
  s_nsegments : Nat
  s_dev_size : Nat
  s_first_data_block : Nat
  s_blocks_per_segment : Nat
  s_r_segments_percentage : Nat
  s_last_cno : Nat
  s_last_pseg : Nat
  s_last_seq : Nat
  s_free_blocks_count : Nat
  s_ctime : Nat
  s_mtime : Nat
  s_wtime : Nat
  s_mnt_count : Nat
  s_max_mnt_count : Nat
  s_state : Nat
  s_errors : Nat
  s_lastcheck : Nat
  s_checkinterval : Nat
  s_creator_os : Nat
  s_first_ino : Nat
  s_inode_size : Nat
  s_dat_entry_size : Nat
  s_checkpoint_size : Nat
  s_segment_usage_size : Nat
  s_uuid : List Nat
  s_volume_name : List Nat
  deriving DecidableEq

/-- The superblock after `memset(raw_sb, 0, sizeof(struct nilfs_super_block))`. -/
def zeroed_super_block : nilfs_super_block where
  s_rev_level := 0
  s_minor_rev_level := 0
  s_magic := 0
  s_bytes := 0
  s_flags := 0
  s_crc_seed := 0
  s_sum := 0
  s_log_block_size := 0
  s_nsegments := 0
  s_dev_size := 0
  s_first_data_block := 0
  s_blocks_per_segment := 0
  s_r_segments_percentage := 0
  s_last_cno := 0
  s_last_pseg := 0
  s_last_seq := 0
  s_free_blocks_count := 0
  s_ctime := 0
  s_mtime := 0
  s_wtime := 0
  s_mnt_count := 0
  s_max_mnt_count := 0
  s_state := 0
  s_errors := 0
  s_lastcheck := 0
  s_checkinterval := 0
  s_creator_os := 0
  s_first_ino := 0
  s_inode_size := 0
  s_dat_entry_size := 0
  s_checkpoint_size := 0
  s_segment_usage_size := 0
  s_uuid := List.replicate 16 0
  s_volume_name := List.replicate 16 0

/-- Function `prepare_super_block` of mkfs.c. `blocksize` is the static of that
name, `uuid` the 16 bytes `uuid_generate` produces. The result is the record
`raw_sb` points to, or the `perr` call made. -/
def prepare_super_block (c : Consts) (blocksize : Int) (uuid : List Nat)
    (di : nilfs_disk_info) (opts : mkfs_options) : Except Fatal nilfs_super_block :=
  if c.sizeof_nilfs_super_block > toU64 blocksize then .error .too_large_super_block
  else
    .ok { zeroed_super_block with
      s_rev_level := c.NILFS_CURRENT_REV % 2 ^ 32
      s_minor_rev_level := c.NILFS_MINOR_REV % 2 ^ 16
      s_magic := c.NILFS_SUPER_MAGIC % 2 ^ 16
      s_bytes := c.NILFS_SB_BYTES % 2 ^ 16
      s_flags := 0
      s_crc_seed := di.crc_seed % 2 ^ 32
      s_sum := 0
      s_log_block_size := toU32 (di.blkbits - 10)
      s_nsegments := di.nsegments % 2 ^ 64
      s_dev_size := di.dev_size % 2 ^ 64
      s_first_data_block := di.first_segment_block % 2 ^ 64
      s_blocks_per_segment := di.blocks_per_segment % 2 ^ 32
      s_r_segments_percentage := toU32 opts.r_segments_percentage
      s_ctime := toU64 di.ctime
      s_mtime := 0
      s_mnt_count := 0
      s_max_mnt_count := c.NILFS_DFL_MAX_MNT_COUNT % 2 ^ 16
      s_state := c.NILFS_VALID_FS % 2 ^ 16
      s_errors := 1
      s_lastcheck := toU64 di.ctime
      s_checkinterval := c.NILFS_DEF_CHECK_INTERVAL % 2 ^ 32
      s_creator_os := c.NILFS_OS_LINUX % 2 ^ 32
      s_first_ino := c.NILFS_USER_INO % 2 ^ 32
      s_inode_size := c.sizeof_nilfs_inode % 2 ^ 16
      s_dat_entry_size := c.sizeof_nilfs_dat_entry % 2 ^ 16
      s_checkpoint_size := c.sizeof_nilfs_checkpoint % 2 ^ 16
      s_segment_usage_size := c.sizeof_nilfs_segment_usage % 2 ^ 16
      s_uuid := uuid
      s_volume_name := opts.volume_label }

/-- Function `commit_super_block` of mkfs.c. `crc32_le` is the checksum
routine of the library (not among the sources at hand) and `sb_bytes` gives
the first `NILFS_SB_BYTES` bytes of the structure in memory, fixed by the
layout of `struct nilfs_super_block`; the checksum is truncated to the `__u32`
it is returned in. -/
def commit_super_block (c : Consts) (crc32_le : Nat → List Nat → Nat)
    (sb_bytes : nilfs_super_block → List Nat) (raw_sb : nilfs_super_block)
    (di : nilfs_disk_info) (segref : nilfs_segment_ref) : nilfs_super_block :=
  let raw_sb := { raw_sb with
    s_last_cno := segref.cno % 2 ^ 64
    s_last_pseg := segref.start % 2 ^ 64
    s_last_seq := segref.seq % 2 ^ 64
    s_free_blocks_count := segref.free_blocks_count % 2 ^ 64
    s_wtime := toU64 di.ctime }
  let sbsum := crc32_le (di.crc_seed % 2 ^ 32) ((sb_bytes raw_sb).take c.NILFS_SB_BYTES) % 2 ^ 32
  { raw_sb with s_sum := sbsum }

/-- Spec: `ceil(n / m)` for natural numbers. -/
def ceilDiv (n m : Nat) : Nat := (n + m - 1) / m

/-- Spec: the reservation bound
`max(ceil(r * N / 100), MIN_RESERVED) + max(INITIAL_SEGMENTS, MIN_USER)`. -/
def reservationBound (c : Consts) (r N : Nat) : Nat :=
  max (ceilDiv (r * N) 100) c.NILFS_MIN_NRSVSEGS + max nr_initial_segments c.NILFS_MIN_NUSERSEGS

/-- The contents of `*di` on entry taken in the examples: all fields zero. -/
def sampleDiskInfo : nilfs_disk_info := ⟨0, 0, 0, 0, 0, 0, 0, 0, 0, 0, 0⟩

/-- The options of `mkfs -b 4096 -B 2048 -m 5 -P 0`. -/
def sampleOptions : mkfs_options := ⟨4096, 2048, 5, 0, 0, 0, 0, List.replicate 16 0⟩

/-! ### Layout of the initial segment (mkfs.c, "Routines to decide disk layout") -/

/-- The constant `MAX_FILES` of mkfs.c. -/
def MAX_FILES : Nat := 10

/-- The static `group_desc_blocks_per_group` of mkfs.c. -/
def group_desc_blocks_per_group : Nat := 1

/-- The static `bitmap_blocks_per_group` of mkfs.c. -/
def bitmap_blocks_per_group : Nat := 1

/-- The static `nr_initial_inodes` of mkfs.c: root directory, .sketch, .nilfs. -/
def nr_initial_inodes : Nat := 3

/-- The static `first_cno` of mkfs.c, the number of the first checkpoint. -/
def first_cno : Nat := 1

/-- The macro `ROUNDUP_DIV(n,m)` of mkfs.c on `unsigned long` operands:
`n - 1` wraps when `n` is 0. A zero `m` traps in C; the model then gives the
quotient 0 of Lean, and no theorem uses it there. -/
def ROUNDUP_DIV_ul (n m : Nat) : Nat :=
  (((n % 2 ^ 64 + 2 ^ 64 - 1) % 2 ^ 64) / (m % 2 ^ 64) + 1) % 2 ^ 64

/-- The struct `nilfs_file_info` of mkfs.c, without the pointer `raw_inode`
(kept in the formatter state). -/
structure nilfs_file_info where
  ino : Nat
  start : Nat
  nblocks : Nat
  deriving DecidableEq

/-- The struct `nilfs_segment_info` of mkfs.c; `files` holds the first `nfiles`
entries of the array. -/
structure nilfs_segment_info where
  start : Nat
  nblocks : Nat
  nfinfo : Nat
  nfiles : Nat
  sumbytes : Nat
  nblk_sum : Nat
  files : List nilfs_file_info
  nvblocknrs : Nat
  nblocks_used : Nat
  deriving DecidableEq

/-- Function `count_free_blocks` of mkfs.c, in `unsigned long` arithmetic. -/
def count_free_blocks (di : nilfs_disk_info) : Nat :=
  (di.blocks_per_segment * ((di.nsegments + 2 ^ 64 - di.nsegments_to_write % 2 ^ 64) % 2 ^ 64))
    % 2 ^ 64

/-- Function `segment_start_blocknr` of mkfs.c. -/
def segment_start_blocknr (di : nilfs_disk_info) (segnum : Nat) : Nat :=
  if segnum > 0 then (di.blocks_per_segment * segnum) % 2 ^ 64 else di.first_segment_block

/-- Function `count_blockgrouped_file_blocks` of mkfs.c. The two `unsigned`
parameters are 32 bits wide, the division `blocksize / entry_size` is a signed
one whose quotient becomes an `unsigned long`, and `ROUNDUP_DIV` subtracts 1
from `nr_initial_entries` in 32 bits before it divides in 64 bits. A zero
divisor traps in C; the model then gives the quotient 0 of Lean, and no
theorem uses it there. -/
def count_blockgrouped_file_blocks (blocksize : Int) (entry_size nr_initial_entries : Nat) :
    Nat :=
  let entry_size : Nat := entry_size % 2 ^ 32
  let nr_initial_entries : Nat := nr_initial_entries % 2 ^ 32
  let entries_per_block := toU64 (Int.tdiv blocksize (entry_size : Int))
  (group_desc_blocks_per_group + bitmap_blocks_per_group +
    (((nr_initial_entries + 2 ^ 32 - 1) % 2 ^ 32) / entries_per_block + 1) % 2 ^ 64) % 2 ^ 32

/-- Function `count_ifile_blocks` of mkfs.c. -/
def count_ifile_blocks (c : Consts) (blocksize : Int) : Except Fatal Nat :=
  let entries_per_group := toU64 (blocksize * 8)
  let nblocks := count_blockgrouped_file_blocks blocksize c.sizeof_nilfs_inode
    c.NILFS_MAX_INITIAL_INO
  if c.NILFS_MAX_INITIAL_INO > entries_per_group ∨ nblocks > c.NILFS_MAX_BMAP_ROOT_PTRS then
    .error .too_many_initial_inodes
  else .ok nblocks

/-- Function `count_sufile_blocks` of mkfs.c. -/
def count_sufile_blocks (c : Consts) (blocksize : Int) : Nat :=
  let sufile_segment_usages_per_block := toU64 blocksize / c.sizeof_nilfs_segment_usage
  ROUNDUP_DIV_ul (nr_initial_segments + c.NILFS_SUFILE_FIRST_SEGMENT_USAGE_OFFSET)
    sufile_segment_usages_per_block % 2 ^ 32

/-- Function `count_cpfile_blocks` of mkfs.c. -/
def count_cpfile_blocks (c : Consts) (blocksize : Int) : Nat :=
  let nr_initial_checkpoints := 1
  let cpfile_checkpoints_per_block := toU64 blocksize / c.sizeof_nilfs_checkpoint
  ROUNDUP_DIV_ul ((nr_initial_checkpoints + c.NILFS_CPFILE_FIRST_CHECKPOINT_OFFSET +
      2 ^ 64 - 1) % 2 ^ 64)
    cpfile_checkpoints_per_block % 2 ^ 32

/-- Function `count_dat_blocks` of mkfs.c. -/
def count_dat_blocks (c : Consts) (blocksize : Int) (nr_dat_entries : Nat) : Except Fatal Nat :=
  let entries_per_group := toU64 (blocksize * 8)
  let nblocks := count_blockgrouped_file_blocks blocksize c.sizeof_nilfs_dat_entry
    nr_dat_entries
  if nr_dat_entries > entries_per_group ∨ nblocks > c.NILFS_MAX_BMAP_ROOT_PTRS then
    .error .too_many_initial_dat_entries
  else .ok nblocks

/-- Function `__increment_segsum_size` of mkfs.c. The block size is a `long`
used among `unsigned long` operands, but for the signed division that gives
`nitems_per_block`; `item_size`, `count` and the two locals are `unsigned`
(32 bits), and the arguments are the 32-bit values received. -/
def increment_segsum_size_raw (offset : Nat) (blocksize : Int) (item_size count : Nat) : Nat :=
  let b := toU64 blocksize
  let rest_items_in_block := (((b + 2 ^ 64 - offset % b) % 2 ^ 64) / item_size) % 2 ^ 32
  if count ≤ rest_items_in_block then
    (offset + (item_size * count) % 2 ^ 32) % 2 ^ 64
  else
    let nitems_per_block := toU64 (Int.tdiv blocksize item_size) % 2 ^ 32
    let count := count - rest_items_in_block
    (b * (offset / b + 1 + count / nitems_per_block) +
      (count % nitems_per_block * item_size) % 2 ^ 32) % 2 ^ 64

/-- Function `increment_segsum_size` of mkfs.c, as the new value of
`si->sumbytes`. -/
def increment_segsum_size (c : Consts) (si : nilfs_segment_info) (blocksize : Int)
    (nblocks_in_file : Nat) (dat_flag : Bool) : nilfs_segment_info :=
  let binfo_size := if dat_flag then 8 else c.sizeof_nilfs_binfo_v
  let s1 := increment_segsum_size_raw si.sumbytes blocksize c.sizeof_nilfs_finfo 1
  { si with sumbytes := increment_segsum_size_raw s1 blocksize binfo_size nblocks_in_file }

/-- The segment information after `memset(si, 0, sizeof(*si))`. -/
def zeroed_segment_info : nilfs_segment_info := ⟨0, 0, 0, 0, 0, 0, [], 0, 0⟩

/-- Function `new_segment` of mkfs.c; `blocksize` is the static of that name.
The result is the new `*di` and the segment information `di->seginfo[0]`. -/
def new_segment (c : Consts) (blocksize : Int) (di : nilfs_disk_info) :
    Except Fatal (nilfs_disk_info × nilfs_segment_info) :=
  if di.nseginfo ≠ 0 then .error .too_many_segments
  else
    let sumbytes := c.sizeof_nilfs_segment_summary
    .ok ({ di with nseginfo := di.nseginfo + 1 },
      { zeroed_segment_info with
        sumbytes := sumbytes
        nblk_sum := ROUNDUP_DIV_ul sumbytes (toU64 blocksize) % 2 ^ 32
        start := di.first_segment_block })

/-- Function `add_file` of mkfs.c. -/
def add_file (c : Consts) (blocksize : Int) (si : nilfs_segment_info) (ino nblocks : Nat)
    (dat_flag : Bool) : Except Fatal nilfs_segment_info :=
  if si.nfiles ≥ MAX_FILES then .error .too_many_files
  else if ino ≥ c.NILFS_MAX_INITIAL_INO then .error .inode_number_out_of_range
  else
    let si := { si with
      files := si.files ++ [⟨ino, 0, nblocks⟩]
      nfiles := si.nfiles + 1
      nblocks := (si.nblocks + nblocks) % 2 ^ 32 }
    if nblocks > 0 then
      let si := { si with nfinfo := (si.nfinfo + 1) % 2 ^ 32 }
      let si := increment_segsum_size c si blocksize nblocks dat_flag
      let si := if dat_flag then si
        else { si with nvblocknrs := (si.nvblocknrs + nblocks) % 2 ^ 32 }
      .ok { si with nblk_sum := ROUNDUP_DIV_ul si.sumbytes (toU64 blocksize) % 2 ^ 32 }
    else .ok si

/-- The calls of `main` that lay out the initial segment, from `new_segment`
to the last `add_file`; the argument `count_..._blocks(...)` of each call is
evaluated before the call. -/
def main_add_files (c : Consts) (blocksize : Int) (di : nilfs_disk_info) :
    Except Fatal (nilfs_disk_info × nilfs_segment_info) := do
  let (di, si) ← new_segment c blocksize di
  let si ← add_file c blocksize si c.NILFS_ROOT_INO 1 false
  let si ← add_file c blocksize si c.NILFS_SKETCH_INO 0 false
  let si ← add_file c blocksize si c.NILFS_NILFS_INO 0 false
  let n ← count_ifile_blocks c blocksize
  let si ← add_file c blocksize si c.NILFS_IFILE_INO n false
  let si ← add_file c blocksize si c.NILFS_CPFILE_INO (count_cpfile_blocks c blocksize) false
  let si ← add_file c blocksize si c.NILFS_SUFILE_INO (count_sufile_blocks c blocksize) false
  let n ← count_dat_blocks c blocksize si.nvblocknrs
  let si ← add_file c blocksize si c.NILFS_DAT_INO n true
  pure (di, si)

/-- The inner loop of `fix_disk_layout`: the files that have blocks get
consecutive start blocks from `blocknr` on. -/
def assign_file_starts : List nilfs_file_info → Nat → List nilfs_file_info
  | [], _ => []
  | fi :: t, blocknr =>
    if fi.nblocks = 0 then fi :: assign_file_starts t blocknr
    else { fi with start := blocknr } :: assign_file_starts t ((blocknr + fi.nblocks) % 2 ^ 64)

/-- State when `fix_disk_layout` ends: `*di`, the segment table and the `perr`
call made, if any. -/
structure FixOut where
  di : nilfs_disk_info
  seginfo : List nilfs_segment_info
  fatal : Option Fatal
  deriving DecidableEq

/-- The outer loop of `fix_disk_layout` over the segments still to visit;
`done` are the entries already visited. -/
def fix_segments (di : nilfs_disk_info) (done : List nilfs_segment_info) :
    List nilfs_segment_info → FixOut
  | [] => ⟨di, done, none⟩
  | si :: rest =>
    let blocknr := (si.start + si.nblk_sum) % 2 ^ 64
    let di := { di with nblocks_used := (di.nblocks_used + si.nblocks) % 2 ^ 64 }
    let si := { si with nblocks_used := di.nblocks_used % 2 ^ 32 }
    let si := { si with nblocks := (si.nblocks + (si.nblk_sum + 1) % 2 ^ 32) % 2 ^ 32 }
    if si.nblocks > di.blocks_per_segment then
      ⟨di, done ++ si :: rest, some (.too_small_segment di.blocks_per_segment si.nblocks)⟩
    else
      let si := { si with files := assign_file_starts si.files blocknr }
      let di := if di.nblocks_to_write < (si.start + si.nblocks) % 2 ^ 64 then
          { di with nblocks_to_write := (si.start + si.nblocks) % 2 ^ 64 }
        else di
      fix_segments di (done ++ [si]) rest

/-- Function `fix_disk_layout` of mkfs.c. `seginfo` is the table
`di->seginfo`, of which the first `di->nseginfo` entries are visited. -/
def fix_disk_layout (di : nilfs_disk_info) (seginfo : List nilfs_segment_info) : FixOut :=
  let di := { di with nblocks_used := 0, nblocks_to_write := di.first_segment_block }
  let out := fix_segments di [] (seginfo.take di.nseginfo)
  match out.fatal with
  | some f => ⟨out.di, out.seginfo ++ seginfo.drop di.nseginfo, some f⟩
  | none =>
    ⟨{ out.di with
        nsegments_to_write :=
          ROUNDUP_DIV_ul out.di.nblocks_to_write out.di.blocks_per_segment % 2 ^ 32 },
      out.seginfo ++ seginfo.drop di.nseginfo, none⟩

/-- The steps of `main` from `init_disk_layout` to `fix_disk_layout`; the
static `blocksize` is `opts->blocksize`. The result is `*di` and
`di->seginfo[0]` after `fix_disk_layout`, or the `perr` call that ends the
run. -/
def main_layout (c : Consts) (di : nilfs_disk_info) (dev_size : Nat) (nilfs_time rnd : Int)
    (opts : mkfs_options) : Except Fatal (nilfs_disk_info × nilfs_segment_info) :=
  let out := init_disk_layout c di dev_size nilfs_time rnd opts
  match out.fatal with
  | some f => .error f
  | none =>
    match main_add_files c opts.blocksize out.di with
    | .error f => .error f
    | .ok (di, si) =>
      let out := fix_disk_layout di [si]
      match out.fatal, out.seginfo with
      | some f, _ => .error f
      | none, si :: _ => .ok (out.di, si)
      | none, [] => .error .too_many_segments

/-- The end of `commit_segment` of mkfs.c: the four assignments to
`nilfs.last_segment_ref`, from the counters `nilfs.seq` and `nilfs.cno`, the
segment just built and the layout. -/
def commit_segment_ref (seq cno : Nat) (di : nilfs_disk_info) (si : nilfs_segment_info) :
    nilfs_segment_ref :=
  { seq := seq, start := si.start, cno := cno, free_blocks_count := count_free_blocks di }

/-- The layout `*di` that `main` computes for the sample options on a device
of 2^28 bytes (65536 blocks, 32 segments), with `time` and `mrand48` giving 0. -/
def sampleLayout : nilfs_disk_info :=
  { dev_size := 2 ^ 28, blkbits := 12, ctime := 0, crc_seed := 0, blocks_per_segment := 2048,
    nsegments := 32, first_segment_block := 1, nblocks_to_write := 12, nblocks_used := 9,
    nsegments_to_write := 1, nseginfo := 1 }

/-- The initial segment of `sampleLayout`: summary in block 1, root
directory in block 2, inode file in blocks 3-5, checkpoint file in block 6,
segment usage file in block 7, DAT in blocks 8-10, super root in block 11. -/
def sampleSegment : nilfs_segment_info :=
  { start := 1, nblocks := 11, nfinfo := 5, nfiles := 7, sumbytes := 312, nblk_sum := 1,
    files := [⟨2, 2, 1⟩, ⟨10, 0, 0⟩, ⟨11, 0, 0⟩, ⟨6, 3, 3⟩, ⟨4, 6, 1⟩, ⟨5, 7, 1⟩, ⟨3, 8, 3⟩],
    nvblocknrs := 6, nblocks_used := 9 }

/-- Options with a block size of 1024 bytes and segments of 12 blocks. -/
def smallSegmentOptions : mkfs_options := ⟨1024, 12, 5, 0, 0, 0, 0, List.replicate 16 0⟩

/-- Spec: the files that have blocks lie one after the other from block
`blocknr` on, in the order of the list. -/
def consecutiveFrom : Nat → List nilfs_file_info → Prop
  | _, [] => True
  | blocknr, fi :: t =>
    if fi.nblocks = 0 then consecutiveFrom blocknr t
    else fi.start = blocknr ∧ consecutiveFrom (blocknr + fi.nblocks) t

/-- Spec: the number of blocks of the files of a list. -/
def fileBlocks (files : List nilfs_file_info) : Nat := (files.map (fun fi => fi.nblocks)).sum

/-! ### The summary area (mkfs.c, `map_segsum_info`) -/

/-- What a call of `map_segsum_info` yields: the new value of `*offset`, the
pointer returned, as the block of the pool and the byte offset in it, and the
`perr` call of `map_disk_buffer`, if the block is outside the pool. -/
structure SegsumOut where
  offset : Nat
  blocknr : Nat
  offset_in_block : Nat
  fatal : Option Fatal
  deriving DecidableEq

/-- Function `map_segsum_info` of mkfs.c, in `unsigned long` arithmetic;
`blocksize` is the static of that name and `disk_buffer_size` the number of
blocks of the pool, against which `map_disk_buffer` tests the block number.
A zero block size traps in C; the model then gives the quotient and remainder
of Lean, and no theorem uses it there. -/
def map_segsum_info (blocksize : Int) (disk_buffer_size : Nat) (start offset item_size : Nat) :
    SegsumOut :=
  let b := toU64 blocksize
  let block_offset := offset / b
  let offset_in_block := offset % b
  let skip := item_size > (b + 2 ^ 64 - offset_in_block) % 2 ^ 64
  let offset_in_block := if skip then 0 else offset_in_block
  let block_offset := if skip then (block_offset + 1) % 2 ^ 64 else block_offset
  let offset := if skip then (block_offset * b) % 2 ^ 64 else offset
  let offset := (offset + item_size) % 2 ^ 64
  let blocknr := (start + block_offset) % 2 ^ 64
  { offset := offset, blocknr := blocknr, offset_in_block := offset_in_block,
    fatal := if blocknr ≥ disk_buffer_size then some (.illegal_disk_buffer_access blocknr)
      else none }

/-- Spec: the position in the summary area, counted in bytes from its first
block `start`, of byte `offset_in_block` of block `blocknr`. -/
def summaryPosition (blocksize : Int) (start blocknr offset_in_block : Nat) : Nat :=
  (blocknr - start) * blocksize.toNat + offset_in_block

/-- The offset that the assembler reaches when it asks `map_segsum_info` for
`count` records of `item_size` bytes, one after the other, from `offset`
on. -/
def place_records (blocksize : Int) (disk_buffer_size start item_size : Nat) : Nat → Nat → Nat
  | 0, offset => offset
  | count + 1, offset =>
    place_records blocksize disk_buffer_size start item_size count
      (map_segsum_info blocksize disk_buffer_size start offset item_size).offset

/-! ### The mount table (mkfs.c, `check_mount`) -/

/-- The constant `LINE_BUFFER_SIZE` of mkfs.c. -/
def LINE_BUFFER_SIZE : Nat := 256

/-- The calls `fgets(line, size, fp)` made until one returns `NULL`, as the
list of the strings they store: each takes characters of the stream up to and
including a newline, and at most `size - 1` of them. `cur` is what the call
under way has read so far. The stream holds no NUL. -/
def fgets_all (size : Nat) : List Char → List Char → List (List Char)
  | [], cur => if cur = [] then [] else [cur]
  | ch :: rest, cur =>
    if ch = Char.ofNat 10 ∨ (cur ++ [ch]).length + 1 ≥ size then
      (cur ++ [ch]) :: fgets_all size rest []
    else fgets_all size rest (cur ++ [ch])

/-- The call `strtok(s, delim)` of libc on a fresh string: the first token,
`none` for the null pointer returned when `s` holds delimiters only. -/
def strtok (s delim : List Char) : Option (List Char) :=
  match s.dropWhile (fun ch => delim.contains ch) with
  | [] => none
  | t => some (t.takeWhile (fun ch => !delim.contains ch))

/-- The test `strncmp(s1, s2, n) == 0` of libc on strings without NUL:
the first `n` characters agree, a shorter string ending both. -/
def strncmp_eq (s1 s2 : List Char) (n : Nat) : Bool :=
  decide (s1.take n = s2.take n)

/-- The loop of `check_mount` over the lines that `fgets` delivers. A line
without token hands the null pointer to `strncmp`. -/
def check_mount_lines (device : List Char) : List (List Char) → Option Fatal
  | [] => none
  | line :: rest =>
    match strtok line [' '] with
    | none => some .undefined_behaviour
    | some tok =>
      if strncmp_eq tok device device.length then some .currently_mounted
      else check_mount_lines device rest

/-- Function `check_mount` of mkfs.c; `mounts` is the contents of the file
`MOUNTS`, `none` when `fopen` fails. The result is the `perr` call made,
`none` when the function returns. -/
def check_mount (mounts : Option (List Char)) (device : List Char) : Option Fatal :=
  match mounts with
  | none => some .cannot_open_mounts
  | some stream => check_mount_lines device (fgets_all LINE_BUFFER_SIZE stream [])

/-- Spec: the first space-delimited field of a line of the mount table. -/
def firstField (line : List Char) : List Char :=
  (line.dropWhile (fun ch => ch = ' ')).takeWhile (fun ch => ch ≠ ' ')

/-- Spec: some line of the mount table has the device path as its first
space-delimited field. -/
def mountConflict (stream device : List Char) : Bool :=
  (stream.splitOn (Char.ofNat 10)).any (fun line => decide (firstField line = device))

/-! ### The scan for bad blocks (mkfs.c, `disk_scan`) -/

/-- The constant `COMMAND_BUFFER_SIZE` of mkfs.c. -/
def COMMAND_BUFFER_SIZE : Nat := 1024

/-- The conversion `%ld` of printf for a `long`. -/
def long_decimal (x : Int) : List Char :=
  if x < 0 then '-' :: decimal (-x).toNat else decimal x.toNat

/-- The text that the format `"badblocks -b %ld %s %s %s\n"` of `disk_scan`
produces from its four arguments. -/
def badblocks_command (device : List Char) (opts : mkfs_options) : List Char :=
  "badblocks -b ".data ++ long_decimal opts.blocksize ++ " ".data ++
    (if opts.quiet ≠ 0 then [] else "-s".data) ++ " ".data ++
    (if opts.cflag > 1 then "-w".data else []) ++ " ".data ++ device ++ [Char.ofNat 10]

/-- Function `disk_scan` of mkfs.c: the string handed to `system`, or the
`perr` call made. `snprintf` returns the length of the whole text and stores
at most `COMMAND_BUFFER_SIZE - 1` characters of it. -/
def disk_scan (device : List Char) (opts : mkfs_options) : Except Fatal (List Char) :=
  let text := badblocks_command device opts
  let buf := text.take (COMMAND_BUFFER_SIZE - 1)
  if text.length < COMMAND_BUFFER_SIZE then .error .command_line_buffer_overflow
  else .ok buf

/-- The statement `if (opts->cflag) disk_scan(device, opts);` of `main`:
`none` when no scan is asked for. -/
def main_disk_scan (device : List Char) (opts : mkfs_options) :
    Option (Except Fatal (List Char)) :=
  if opts.cflag ≠ 0 then some (disk_scan device opts) else none

/-! ### bin/chcp.c -/

/-- The constant `CHCP_BASE` of chcp.c. -/
def CHCP_BASE : Nat := 10

/-- The error number `ERANGE` of Linux. -/
def ERANGE : Nat := 34

/-- The error number `ENOENT` of Linux. -/
def ENOENT : Nat := 2

/-- Whether the C library's `strtoul(nptr, endptr, base)` sets `errno` to
`ERANGE`: the digits denote a value above `ULONG_MAX`. An `unsigned long` has
64 bits, so the conversion itself is `strtoull`. -/
def strtoul_overflows (nptr : List Char) (base : Nat) : Bool :=
  if base = 1 ∨ 36 < base then false
  else
    let ws := (nptr.takeWhile isspace).length
    let s := nptr.drop ws
    let s1 := s.drop (signLength s)
    let pre := if hexMarker base s1 then 2 else 0
    let r := scanDigits (effectiveBase base s1) (s1.drop pre) 0 0
    decide (r.2 ≠ 0 ∧ ULLONG_MAX < r.1)

/-- What the loop of `main` of chcp.c has done so far: the state `fs` of the
file system that `nilfs_change_cpmode` acts on, `errno`, the exit status and
the checkpoint numbers handed to `nilfs_change_cpmode`, in order. -/
structure ChcpState (σ : Type) where
  fs : σ
  errno : Nat
  status : Nat
  calls : List Nat

/-- The loop `for (; optind < argc; optind++)` of `main` of chcp.c over the
remaining arguments. `change fs cno mode` stands for the library call
`nilfs_change_cpmode(nilfs, cno, mode)` (lib/nilfs.c is not among the sources
at hand): the new state, the value returned and the `errno` it leaves. A
message goes to `stderr` wherever the status is set to 1. -/
def chcp_loop {σ : Type} (change : σ → Nat → Int → σ × Int × Nat) (mode : Int) :
    List (List Char) → ChcpState σ → ChcpState σ
  | [], st => st
  | arg :: rest, st =>
    let r := strtoull arg CHCP_BASE
    let errno := if strtoul_overflows arg CHCP_BASE then ERANGE else st.errno
    if r.endptr ≠ some arg.length then
      chcp_loop change mode rest { st with errno := errno, status := 1 }
    else if r.value = ULLONG_MAX ∧ errno = ERANGE then
      chcp_loop change mode rest { st with errno := errno, status := 1 }
    else
      let out := change st.fs r.value mode
      if out.2.1 < 0 then
        chcp_loop change mode rest
          { fs := out.1, errno := out.2.2, status := 1, calls := st.calls ++ [r.value] }
      else
        chcp_loop change mode rest
          { fs := out.1, errno := out.2.2, status := st.status, calls := st.calls ++ [r.value] }

/-- Spec: the argument is a base-10 number that `strtoul` consumes to its
end and that fits in an `unsigned long`. -/
def validCno (arg : List Char) : Bool :=
  decide ((strtoull arg CHCP_BASE).endptr = some arg.length) &&
    !strtoul_overflows arg CHCP_BASE

/-- Spec: `nilfs_change_cpmode` succeeds on each of the checkpoint numbers,
called on them in order. -/
def changesSucceed {σ : Type} (change : σ → Nat → Int → σ × Int × Nat) (mode : Int) :
    List Nat → σ → Bool
  | [], _ => true
  | cno :: rest, fs =>
    decide (0 ≤ (change fs cno mode).2.1) && changesSucceed change mode rest (change fs cno mode).1

/-- A file system for the examples: the state lists the checkpoints changed
so far, and checkpoint 2 does not exist. -/
def sampleChange (fs : List Nat) (cno : Nat) (_mode : Int) : List Nat × Int × Nat :=
  if cno = 2 then (fs, -1, ENOENT) else (fs ++ [cno], 0, 0)

/-! ### The pool of block buffers and the checksums of the segment
(mkfs.c, "I/O primitives" and `fill_in_checksums`) -/

/-- The static `disk_buffer` of mkfs.c with its size `disk_buffer_size`:
for each block number the bytes of its buffer, `none` for a null entry. -/
structure DiskBuffer where
  size : Nat
  block : Nat → Option (List Nat)

/-- Replace the buffer of block `blocknr`. -/
def DiskBuffer.set (p : DiskBuffer) (blocknr : Nat) (buf : List Nat) : DiskBuffer :=
  { p with block := fun n => if n = blocknr then some buf else p.block n }

/-- The bytes that `map_disk_buffer(blocknr, 1)` points to, which are also
the bytes that `write_disk` writes for the block: the buffer, or zeros for a
block not touched so far. -/
def DiskBuffer.image (blocksize : Nat) (p : DiskBuffer) (blocknr : Nat) : List Nat :=
  (p.block blocknr).getD (List.replicate blocksize 0)

/-- Function `map_disk_buffer` of mkfs.c with `clear_flag` 1, as in every
call outside `read_disk_header`: the pool after the call and the bytes of the
buffer returned. `blocksize` is the static of that name as the `size_t`
handed to `posix_memalign`; a failed allocation is left out. -/
def map_disk_buffer (blocksize : Nat) (p : DiskBuffer) (blocknr : Nat) :
    Except Fatal (DiskBuffer × List Nat) :=
  if blocknr ≥ p.size then .error (.illegal_disk_buffer_access blocknr)
  else
    match p.block blocknr with
    | some buf => .ok (p, buf)
    | none => .ok (p.set blocknr (List.replicate blocksize 0), List.replicate blocksize 0)

/-- The four bytes of a 32-bit value in little-endian order (`cpu_to_le32`). -/
def le32_bytes (v : Nat) : List Nat :=
  [v % 256, v / 256 % 256, v / 65536 % 256, v / 16777216 % 256]

/-- The value of four bytes in little-endian order (`le32_to_cpu`). -/
def le32_value : List Nat → Nat
  | [b0, b1, b2, b3] => b0 + 256 * b1 + 65536 * b2 + 16777216 * b3
  | _ => 0

/-- The `len` bytes of a buffer from offset `off` on. -/
def bytes_at (buf : List Nat) (off len : Nat) : List Nat := (buf.drop off).take len

/-- A read of `len` bytes at offset `off` of a buffer; outside the buffer the
behaviour is undefined. -/
def read_bytes (buf : List Nat) (off len : Nat) : Except Fatal (List Nat) :=
  if off + len > buf.length then .error .undefined_behaviour else .ok (bytes_at buf off len)

/-- The 32-bit little-endian field at offset `off` of a buffer. -/
def load_le32 (buf : List Nat) (off : Nat) : Nat := le32_value (bytes_at buf off 4)

/-- A store of a 32-bit little-endian field at offset `off` of a buffer. -/
def store_le32 (buf : List Nat) (off v : Nat) : Except Fatal (List Nat) :=
  if off + 4 > buf.length then .error .undefined_behaviour
  else .ok (buf.take off ++ le32_bytes v ++ buf.drop (off + 4))

/-- A store of a 32-bit little-endian field through a pointer to the start of
the buffer of block `blocknr`. -/
def DiskBuffer.store_le32 (p : DiskBuffer) (blocknr off v : Nat) : Except Fatal DiskBuffer :=
  match p.block blocknr with
  | none => .error .undefined_behaviour
  | some buf => do
    let buf ← Nilfs.store_le32 buf off v
    pure (p.set blocknr buf)

/-- Modelled from the spec: the summary starts with the two checksum fields
`ss_datasum` and `ss_sumsum`, of 4 bytes each, so that `ss_sumsum` covers the
bytes from `2 * 4` on; this is the size of each. -/
def sizeof_ss_checksum : Nat := 4

/-- Modelled from the spec: the super root starts with its checksum field
`sr_sum`, a 32-bit value like the two of the summary. -/
def sizeof_sr_sum : Nat := 4

/-- The block whose buffer `prepare_segment` of mkfs.c stores in
`nilfs.segsum`. -/
def segsum_blocknr (si : nilfs_segment_info) : Nat := si.start

/-- The block whose buffer `prepare_segment` of mkfs.c stores in
`nilfs.super_root`: `si->start + si->nblocks - 1`. -/
def super_root_blocknr (si : nilfs_segment_info) : Nat :=
  (si.start + si.nblocks + 2 ^ 64 - 1) % 2 ^ 64

/-- The loop `while (--rest_blocks > 0)` of `fill_in_checksums`, for `n`
more rounds: the checksum is carried over the whole of each following
block. -/
def checksum_blocks (crc32_le : Nat → List Nat → Nat) (blocksize : Nat) :
    Nat → DiskBuffer → Nat → Nat → Except Fatal (DiskBuffer × Nat)
  | 0, p, _, sum => .ok (p, sum)
  | n + 1, p, blocknr, sum => do
    let blocknr := (blocknr + 1) % 2 ^ 64
    let (p, buf) ← map_disk_buffer blocksize p blocknr
    let data ← read_bytes buf 0 blocksize
    checksum_blocks crc32_le blocksize n p blocknr (crc32_le sum data % 2 ^ 32)

/-- The part "fill in segment summary checksum" of `fill_in_checksums`.
`crc32_le` is the checksum routine of the library and `segsum` the block
whose buffer `nilfs.segsum` points to. The length handed to the checksum
routine is converted to `size_t`; the checksum is truncated to the `__u32` it
is kept in. -/
def fill_in_sumsum (crc32_le : Nat → List Nat → Nat) (p : DiskBuffer) (segsum : Nat)
    (si : nilfs_segment_info) (crc_seed : Nat) : Except Fatal DiskBuffer :=
  match p.block segsum with
  | none => .error .undefined_behaviour
  | some ss => do
    let crc_offset := sizeof_ss_checksum + sizeof_ss_checksum
    let data ← read_bytes ss crc_offset ((si.sumbytes + 2 ^ 64 - crc_offset) % 2 ^ 64)
    p.store_le32 segsum sizeof_ss_checksum (crc32_le crc_seed data % 2 ^ 32)

/-- The part "fill in super root checksum" of `fill_in_checksums`;
`super_root` is the block whose buffer `nilfs.super_root` points to. -/
def fill_in_sr_sum (crc32_le : Nat → List Nat → Nat) (c : Consts) (p : DiskBuffer)
    (super_root : Nat) (crc_seed : Nat) : Except Fatal DiskBuffer :=
  match p.block super_root with
  | none => .error .undefined_behaviour
  | some sr => do
    let crc_offset := sizeof_sr_sum
    let data ← read_bytes sr crc_offset ((c.NILFS_SR_BYTES + 2 ^ 64 - crc_offset) % 2 ^ 64)
    p.store_le32 super_root 0 (crc32_le crc_seed data % 2 ^ 32)

/-- The part "fill in segment checksum" of `fill_in_checksums`. -/
def fill_in_datasum (crc32_le : Nat → List Nat → Nat) (blocksize : Nat) (p : DiskBuffer)
    (segsum : Nat) (si : nilfs_segment_info) (crc_seed : Nat) : Except Fatal DiskBuffer :=
  if si.nblocks = 0 then .error .assertion_failed
  else do
    let crc_offset := sizeof_ss_checksum
    let (p, buf) ← map_disk_buffer blocksize p si.start
    let data ← read_bytes buf crc_offset ((blocksize + 2 ^ 64 - crc_offset) % 2 ^ 64)
    let (p, sum) ← checksum_blocks crc32_le blocksize (si.nblocks - 1) p si.start
      (crc32_le crc_seed data % 2 ^ 32)
    p.store_le32 segsum 0 sum

/-- Function `fill_in_checksums` of mkfs.c: its three parts in order. -/
def fill_in_checksums (crc32_le : Nat → List Nat → Nat) (c : Consts) (blocksize : Nat)
    (p : DiskBuffer) (segsum super_root : Nat) (si : nilfs_segment_info) (crc_seed : Nat) :
    Except Fatal DiskBuffer := do
  let p ← fill_in_sumsum crc32_le p segsum si crc_seed
  let p ← fill_in_sr_sum crc32_le c p super_root crc_seed
  fill_in_datasum crc32_le blocksize p segsum si crc_seed

/-- Spec: the checksum chained over the `n` blocks that follow block
`blocknr` of an image. -/
def chainBlocks (crc32_le : Nat → List Nat → Nat) (image : Nat → List Nat) :
    Nat → Nat → Nat → Nat
  | 0, _, sum => sum
  | n + 1, blocknr, sum =>
    chainBlocks crc32_le image n (blocknr + 1) (crc32_le sum (image (blocknr + 1)) % 2 ^ 32)

/-- Spec: the checksum chained, from the seed, over the bytes of block
`start` from offset `off` on and then over the full blocks of
`[start + 1, start + nblocks)` in ascending order. -/
def dataChecksum (crc32_le : Nat → List Nat → Nat) (blocksize : Nat) (image : Nat → List Nat)
    (seed start nblocks off : Nat) : Nat :=
  chainBlocks crc32_le image (nblocks - 1) start
    (crc32_le seed (bytes_at (image start) off (blocksize - off)) % 2 ^ 32)

/-- Modelled from the spec: the checksum routine `crc32_le` of the library
is the CRC32 of the little-endian polynomial 0xEDB88320, carried on from the
seed with no inversion; this is its step for one bit. -/
def crc32_le_bit (crc : Nat) : Nat :=
  if crc % 2 = 1 then (crc / 2) ^^^ 0xEDB88320 else crc / 2

/-- Modelled from the spec: the step of `crc32_le` for one byte. -/
def crc32_le_byte (crc byte : Nat) : Nat :=
  crc32_le_bit (crc32_le_bit (crc32_le_bit (crc32_le_bit (crc32_le_bit (crc32_le_bit
    (crc32_le_bit (crc32_le_bit (crc ^^^ byte))))))))

/-- Modelled from the spec: `crc32_le(seed, data, length)` of the library
(lib/crc32.c is not among the sources at hand). -/
def crc32_le_bitwise (seed : Nat) (data : List Nat) : Nat :=
  data.foldl crc32_le_byte seed

/-- Every buffer of the pool has the size of a block, as `map_disk_buffer`
allocates it. -/
def DiskBuffer.wellFormed (blocksize : Nat) (p : DiskBuffer) : Prop :=
  ∀ n buf, p.block n = some buf → buf.length = blocksize

/-- Function `commit_segment` of mkfs.c on the pool of buffers. Its steps
before `fill_in_checksums` are parameters: the loop of `update_blocknr` over
the files, `commit_cpfile` and `commit_sufile`; the assignments to
`nilfs.last_segment_ref` that end the function are `commit_segment_ref`. -/
def commit_segment (crc32_le : Nat → List Nat → Nat) (c : Consts) (blocksize : Nat)
    (update_blocknrs commit_cpfile commit_sufile : DiskBuffer → Except Fatal DiskBuffer)
    (p : DiskBuffer) (di : nilfs_disk_info) (si : nilfs_segment_info) :
    Except Fatal DiskBuffer := do
  let p ← update_blocknrs p
  let p ← commit_cpfile p
  let p ← commit_sufile p
  fill_in_checksums crc32_le c blocksize p (segsum_blocknr si) (super_root_blocknr si) si
    di.crc_seed

/-- The image that `write_disk` writes: the pool after `commit_segment`,
with the block of the superblock as `commit_super_block` leaves it. -/
def final_image (c : Consts) (blocksize : Nat) (p : DiskBuffer) (sb_block : List Nat) :
    Nat → List Nat :=
  (p.set (c.NILFS_SB_OFFSET_BYTES / blocksize) sb_block).image blocksize

/-- A pool for `sampleSegment`: 12 blocks of 4096 bytes, of which the summary
(block 1) and the super root (block 11) are mapped and hold the given
bytes. -/
def samplePool (summary super_root : List Nat) : DiskBuffer :=
  { size := 12,
    block := fun n => if n = 1 then some summary else if n = 11 then some super_root else none }

/-- The initial segment that `main` lays out for blocks of 1024 bytes and
segments of 16 blocks: it starts at block 4 and has 12 blocks. -/
def smallBlockSegment : nilfs_segment_info :=
  { start := 4, nblocks := 12, nfinfo := 5, nfiles := 7, sumbytes := 328, nblk_sum := 1,
    files := [⟨2, 5, 1⟩, ⟨10, 0, 0⟩, ⟨11, 0, 0⟩, ⟨6, 6, 4⟩, ⟨4, 10, 1⟩, ⟨5, 11, 1⟩, ⟨3, 12, 3⟩],
    nvblocknrs := 7, nblocks_used := 10 }

/-- A pool for `smallBlockSegment`: 16 blocks of 1024 bytes, of which the
summary (block 4) and the super root (block 15) are mapped; all bytes are
zero but the last byte of the summary, byte 327 of block 4, which is 1. -/
def smallBlockPool : DiskBuffer :=
  { size := 16,
    block := fun n =>
      if n = 4 then some (List.replicate 327 0 ++ 1 :: List.replicate 696 0)
      else if n = 15 then some (List.replicate 1024 0) else none }

/-- The layout `*di` that `main` computes for blocks of 1024 bytes and
segments of 16 blocks on a device of 2^28 bytes. -/
def smallBlockLayout : nilfs_disk_info :=
  { dev_size := 2 ^ 28, blkbits := 10, ctime := 0, crc_seed := 0, blocks_per_segment := 16,
    nsegments := 16384, first_segment_block := 4, nblocks_to_write := 16, nblocks_used := 10,
    nsegments_to_write := 1, nseginfo := 1 }

/-- The options of `mkfs -b 1024 -B 16 -m 5`. -/
def smallBlockOptions : mkfs_options := ⟨1024, 16, 5, 0, 0, 0, 0, List.replicate 16 0⟩
/-! ## The blocks of the initial segment by type

The functions of mkfs.c that format the metadata files write through typed
pointers into the buffers of the pool. In this section a buffer is read
through the type it is written with: group descriptors, bitmap, inodes, DAT
entries, segment usages, checkpoints, the two file headers, and the bytes of
a directory block. A buffer that was never written reads as zero, since
`map_disk_buffer` clears a buffer when it first maps the block. The records
of the segment summary and the checksums are bytes and belong to the section
on the buffer pool; they are left out here. -/

/-- The inode that a `raw_inode` pointer of mkfs.c points to: one of the three
inodes of the super root, the inline inode of a checkpoint, or an entry of
the inode file, the last two by block and index in the block. -/
inductive InodeRef where
  | sr_dat
  | sr_cpfile
  | sr_sufile
  | cp_ifile_inode (blocknr index : Nat)
  | ifile_entry (blocknr index : Nat)
  deriving DecidableEq

/-- The fields of `struct nilfs_inode` that mkfs.c stores. The struct is
declared in nilfs2_fs.h, which is not among the sources; its byte layout
plays no part here. -/
structure nilfs_inode where
  i_mode : Nat
  i_flags : Nat
  i_size : Nat
  i_blocks : Nat
  i_links_count : Nat
  i_ctime : Nat
  i_mtime : Nat
  i_bmap : Nat → Nat

/-- The fields of `struct nilfs_dat_entry` that mkfs.c stores. -/
structure nilfs_dat_entry where
  de_blocknr : Nat
  de_start : Nat
  de_end : Nat
  deriving DecidableEq

/-- The fields of `struct nilfs_segment_usage` that mkfs.c names. -/
structure nilfs_segment_usage where
  su_lastmod : Nat
  su_nblocks : Nat
  su_flags : Nat
  deriving DecidableEq

/-- The fields of `struct nilfs_sufile_header` that mkfs.c stores. -/
structure nilfs_sufile_header where
  sh_ncleansegs : Nat
  sh_ndirtysegs : Nat
  sh_last_alloc : Nat
  deriving DecidableEq

/-- The fields of `struct nilfs_checkpoint` that mkfs.c names, but for the
inline inode `cp_ifile_inode`, which is kept with the other inodes. -/
structure nilfs_checkpoint where
  cp_flags : Nat
  cp_checkpoints_count : Nat
  cp_snapshot_list_next : Nat
  cp_snapshot_list_prev : Nat
  cp_cno : Nat
  cp_create : Nat
  cp_nblk_inc : Nat
  cp_inodes_count : Nat
  cp_blocks_count : Nat
  deriving DecidableEq

/-- The fields of `struct nilfs_cpfile_header` that mkfs.c names. -/
structure nilfs_cpfile_header where
  ch_ncheckpoints : Nat
  ch_nsnapshots : Nat
  ch_snapshot_list_next : Nat
  ch_snapshot_list_prev : Nat
  deriving DecidableEq

/-- The inline helpers of nilfs2_fs.h that mkfs.c calls on segment usages and
checkpoints. The header is not among the sources, so the helpers are
parameters of the model. -/
structure Helpers where
  nilfs_segment_usage_set_active : nilfs_segment_usage → nilfs_segment_usage
  nilfs_segment_usage_set_dirty : nilfs_segment_usage → nilfs_segment_usage
  nilfs_segment_usage_set_clean : nilfs_segment_usage → nilfs_segment_usage
  nilfs_checkpoint_set_invalid : nilfs_checkpoint → nilfs_checkpoint

/-- Modelled from the spec: the helpers of nilfs2_fs.h, which is not among the
sources. The flags of a segment usage are active, dirty and error, bits 0, 1
and 2 of `su_flags`; a clean entry has no flag, no modification time and no
blocks. An invalid checkpoint has bit 1 of `cp_flags`. Only the examples
are evaluated at this instance. -/
def releaseHelpers : Helpers where
  nilfs_segment_usage_set_active := fun su => { su with su_flags := su.su_flags ||| 1 }
  nilfs_segment_usage_set_dirty := fun su => { su with su_flags := su.su_flags ||| 2 }
  nilfs_segment_usage_set_clean := fun _ => ⟨0, 0, 0⟩
  nilfs_checkpoint_set_invalid := fun cp => { cp with cp_flags := cp.cp_flags ||| 2 }

/-- A table of entries by block and index in the block, with one entry
replaced. -/
def setAt {α : Type} (t : Nat → Nat → α) (b i : Nat) (v : α) : Nat → Nat → α :=
  fun b1 i1 => if b1 = b ∧ i1 = i then v else t b1 i1

/-- A table with one key, with one entry replaced. -/
def setAt1 {α β : Type} [DecidableEq α] (t : α → β) (a : α) (v : β) : α → β :=
  fun a1 => if a1 = a then v else t a1

/-- The global `nilfs` of mkfs.c with the buffer pool read by type. The field
`raw_inode` of a `struct nilfs_file_info` is kept by inode number, as the
table `nilfs.files` holds one file for an inode number. -/
structure Formatter where
  diskinfo : nilfs_disk_info
  current_segment : nilfs_segment_info
  segsum : Option Nat
  super_root : Option Nat
  checkpoint : Option (Nat × Nat)
  files : Nat → Option nilfs_file_info
  raw_inode : Nat → Option InodeRef
  next : Nat
  seq : Nat
  cno : Nat
  vblocknr : Nat
  disk_buffer_size : Nat
  pg_nfrees : Nat → Nat → Nat
  bitmap : Nat → Nat → Bool
  inode : InodeRef → nilfs_inode
  dat : Nat → Nat → nilfs_dat_entry
  su : Nat → Nat → nilfs_segment_usage
  sh : Nat → nilfs_sufile_header
  cp : Nat → Nat → nilfs_checkpoint
  ch : Nat → nilfs_cpfile_header
  dir : Nat → Nat → Nat

/-- Function `init_nilfs` of mkfs.c, on the pool that
`init_disk_buffer(max_blocks)` has just made: no block is mapped yet. -/
def init_nilfs (di : nilfs_disk_info) (max_blocks : Nat) : Formatter where
  diskinfo := di
  current_segment := zeroed_segment_info
  segsum := none
  super_root := none
  checkpoint := none
  files := fun _ => none
  raw_inode := fun _ => none
  next := segment_start_blocknr di 1
  seq := 0
  cno := 1
  vblocknr := 1
  disk_buffer_size := max_blocks
  pg_nfrees := fun _ _ => 0
  bitmap := fun _ _ => false
  inode := fun _ => ⟨0, 0, 0, 0, 0, 0, 0, fun _ => 0⟩
  dat := fun _ _ => ⟨0, 0, 0⟩
  su := fun _ _ => ⟨0, 0, 0⟩
  sh := fun _ => ⟨0, 0, 0⟩
  cp := fun _ _ => ⟨0, 0, 0, 0, 0, 0, 0, 0, 0⟩
  ch := fun _ => ⟨0, 0, 0, 0⟩
  dir := fun _ _ => 0

/-- The test of `map_disk_buffer` of mkfs.c on the block number. -/
def map_block (st : Formatter) (blocknr : Nat) : Except Fatal Unit :=
  if blocknr ≥ st.disk_buffer_size then .error (.illegal_disk_buffer_access blocknr)
  else .ok ()

/-- The read of `nilfs.files[ino]` followed by a dereference: an index
outside the array or a null entry is undefined. -/
def Formatter.file (c : Consts) (st : Formatter) (ino : Nat) : Except Fatal nilfs_file_info :=
  if ino ≥ c.NILFS_MAX_INITIAL_INO then .error .undefined_behaviour
  else match st.files ino with
    | none => .error .undefined_behaviour
    | some fi => .ok fi

/-- The read of the `raw_inode` pointer of the file of an inode number,
followed by a dereference. -/
def Formatter.raw (st : Formatter) (ino : Nat) : Except Fatal InodeRef :=
  match st.raw_inode ino with
  | none => .error .undefined_behaviour
  | some r => .ok r

/-- The `perr` or failed assertion with which a run ends, if it does. -/
def failure {α : Type} : Except Fatal α → Option Fatal
  | .error e => some e
  | .ok _ => none

/-- Function `prepare_blockgrouped_file` of mkfs.c. -/
def prepare_blockgrouped_file (c : Consts) (blocksize : Int) (blocknr : Nat) (st : Formatter) :
    Except Fatal Formatter := do
  let group_descs_per_block :=
    (toU64 blocksize / c.sizeof_nilfs_persistent_group_desc) % 2 ^ 32
  map_block st blocknr
  let st := { st with
    pg_nfrees := fun b i =>
      if b = blocknr ∧ i < group_descs_per_block then toU32 (blocksize * (c.NILFS_CHAR_BIT : Int))
      else st.pg_nfrees b i }
  map_block st ((blocknr + 1) % 2 ^ 64)
  pure st

/-- Function `alloc_blockgrouped_file_entry` of mkfs.c. The macros
`nilfs_test_bit` and `nilfs_set_bit` read and set bit `nr` of the bitmap
block; a bit beyond the block is outside the buffer. -/
def alloc_blockgrouped_file_entry (blocksize : Int) (blocknr nr : Nat) (st : Formatter) :
    Except Fatal Formatter := do
  map_block st blocknr
  let bitmap := (blocknr + 1) % 2 ^ 64
  map_block st bitmap
  if nr ≥ toU64 blocksize * 8 then .error .undefined_behaviour
  else if st.bitmap bitmap nr then .error .duplicated_entry_allocation
  else if st.pg_nfrees blocknr 0 = 0 then .error .assertion_failed
  else pure { st with
    bitmap := setAt st.bitmap bitmap nr true,
    pg_nfrees := setAt st.pg_nfrees blocknr 0 ((st.pg_nfrees blocknr 0 - 1) % 2 ^ 32) }

/-- Function `reserve_ifile_inode` of mkfs.c. -/
def reserve_ifile_inode (c : Consts) (blocksize : Int) (ino : Nat) (st : Formatter) :
    Except Fatal Formatter := do
  let fi ← st.file c c.NILFS_IFILE_INO
  alloc_blockgrouped_file_entry blocksize fi.start ino st

/-- The file type `DT_DIR` of dirent.h. -/
def DT_DIR : Nat := 4

/-- The file type `DT_REG` of dirent.h. -/
def DT_REG : Nat := 8

/-- Function `init_inode` of mkfs.c; `size` is the `unsigned` received. -/
def init_inode (c : Consts) (blocksize : Int) (ino type mode size : Nat) (st : Formatter) :
    Except Fatal Formatter := do
  let fi ← st.file c ino
  let raw_inode ← st.raw ino
  let st := { st with
    inode := setAt1 st.inode raw_inode
      { st.inode raw_inode with
        i_mode := ((type * 2 ^ 12) ||| mode) % 2 ^ 16,
        i_flags := 0,
        i_size := size,
        i_blocks := fi.nblocks,
        i_links_count := 1,
        i_ctime := toU64 st.diskinfo.ctime,
        i_mtime := toU64 st.diskinfo.ctime } }
  if ino ≥ c.NILFS_USER_INO then reserve_ifile_inode c blocksize ino st else pure st

/-- Function `inc_link_count` of mkfs.c. -/
def inc_link_count (c : Consts) (ino : Nat) (st : Formatter) : Except Fatal Formatter := do
  let _ ← st.file c ino
  let raw_inode ← st.raw ino
  pure { st with
    inode := setAt1 st.inode raw_inode
      { st.inode raw_inode with
        i_links_count := ((st.inode raw_inode).i_links_count + 1) % 2 ^ 16 } }

/-! ### Directory blocks -/

/-- Modelled from the spec: offset of the field `inode` (8 bytes) in
`struct nilfs_dir_entry`; the declaration in nilfs2_fs.h is not among the
sources. -/
def nilfs_dir_entry_inode : Nat := 0

/-- Modelled from the spec: offset of the field `rec_len` (2 bytes) in
`struct nilfs_dir_entry`; the declaration is not among the sources. -/
def nilfs_dir_entry_rec_len : Nat := 8

/-- Modelled from the spec: offset of the field `name_len` (1 byte) in
`struct nilfs_dir_entry`; the declaration is not among the sources. -/
def nilfs_dir_entry_name_len : Nat := 10

/-- Modelled from the spec: offset of the field `file_type` (1 byte) in
`struct nilfs_dir_entry`; the declaration is not among the sources. -/
def nilfs_dir_entry_file_type : Nat := 11

/-- Modelled from the spec: offset of the field `name` in
`struct nilfs_dir_entry`; the declaration is not among the sources. -/
def nilfs_dir_entry_name : Nat := 12

/-- Modelled from the spec: the macro `NILFS_DIR_REC_LEN` of nilfs2_fs.h, not
among the sources: the 12 bytes before the name plus the name, rounded up to
a multiple of 8, in `unsigned` arithmetic. -/
def NILFS_DIR_REC_LEN (name_len : Nat) : Nat := (name_len + 12 + 7) % 2 ^ 32 / 8 * 8

/-- Modelled from the spec: the file type `NILFS_FT_REG_FILE` of nilfs2_fs.h,
not among the sources. -/
def NILFS_FT_REG_FILE : Nat := 1

/-- Modelled from the spec: the file type `NILFS_FT_DIR` of nilfs2_fs.h, not
among the sources. -/
def NILFS_FT_DIR : Nat := 2

/-- The `n` bytes of a value in little-endian order. -/
def le_bytes : Nat → Nat → List Nat
  | 0, _ => []
  | n + 1, v => v % 256 :: le_bytes n (v / 256)

/-- The value of the `n` bytes from offset `off` of a block, in
little-endian order. -/
def load_le (blk : Nat → Nat) : Nat → Nat → Nat
  | 0, _ => 0
  | n + 1, off => blk off + 256 * load_le blk n (off + 1)

/-- A store of bytes at offset `off` of a block of `blocksize` bytes; a store
that leaves the block is undefined. -/
def store_bytes (blocksize : Nat) (blk : Nat → Nat) (off : Nat) (bytes : List Nat) :
    Except Fatal (Nat → Nat) :=
  if off + bytes.length > blocksize then .error .undefined_behaviour
  else .ok (fun k => if off ≤ k ∧ k < off + bytes.length then bytes.getD (k - off) 0 else blk k)

/-- Function `next_dir_entry` of mkfs.c, on offsets in the block. -/
def next_dir_entry (blk : Nat → Nat) (de : Nat) : Nat :=
  de + load_le blk 2 (de + nilfs_dir_entry_rec_len)

/-- The stores of `make_empty_dir` of mkfs.c for one entry, in the order of
the source: inode number, name length, record length, file type, and the 8
bytes that `memcpy` copies into the name. -/
def store_dir_entry (blocksize : Nat) (blk : Nat → Nat) (de ino name_len rec_len file_type : Nat)
    (name : List Nat) : Except Fatal (Nat → Nat) := do
  let blk ← store_bytes blocksize blk (de + nilfs_dir_entry_inode) (le_bytes 8 ino)
  let blk ← store_bytes blocksize blk (de + nilfs_dir_entry_name_len) [name_len]
  let blk ← store_bytes blocksize blk (de + nilfs_dir_entry_rec_len) (le_bytes 2 rec_len)
  let blk ← store_bytes blocksize blk (de + nilfs_dir_entry_file_type) [file_type]
  store_bytes blocksize blk (de + nilfs_dir_entry_name) name

/-- The string literal `".\0\0\0\0\0\0"` of mkfs.c with its terminator. -/
def name_dot : List Nat := [46, 0, 0, 0, 0, 0, 0, 0]

/-- The string literal `"..\0\0\0\0\0"` of mkfs.c with its terminator. -/
def name_dotdot : List Nat := [46, 46, 0, 0, 0, 0, 0, 0]

/-- The string literal `".sketch"` of mkfs.c with its terminator. -/
def name_sketch : List Nat := [46, 115, 107, 101, 116, 99, 104, 0]

/-- The string literal `".nilfs\0"` of mkfs.c with its terminator. -/
def name_nilfs : List Nat := [46, 110, 105, 108, 102, 115, 0, 0]

/-- The stores of `make_empty_dir` of mkfs.c into the block of the
directory. -/
def make_empty_dir_block (c : Consts) (blocksize : Int) (blk : Nat → Nat)
    (dir_ino parent_ino : Nat) : Except Fatal (Nat → Nat) := do
  let b := toU64 blocksize
  let de := 0
  let rec_len := NILFS_DIR_REC_LEN 1
  let rec_len2 := rec_len
  let blk ← store_dir_entry b blk de dir_ino 1 rec_len NILFS_FT_DIR name_dot
  let de := next_dir_entry blk de
  let rec_len := NILFS_DIR_REC_LEN 2
  let rec_len2 := (rec_len2 + rec_len) % 2 ^ 32
  let blk ← store_dir_entry b blk de parent_ino 2 rec_len NILFS_FT_DIR name_dotdot
  let de := next_dir_entry blk de
  let rec_len := NILFS_DIR_REC_LEN 7
  let rec_len2 : Nat := (rec_len2 + rec_len) % 2 ^ 32
  let blk ← store_dir_entry b blk de c.NILFS_SKETCH_INO 7 rec_len NILFS_FT_REG_FILE name_sketch
  let de := next_dir_entry blk de
  store_dir_entry b blk de c.NILFS_NILFS_INO 6 (toU64 (blocksize - (rec_len2 : Int)))
    NILFS_FT_REG_FILE name_nilfs

/-- Function `make_empty_dir` of mkfs.c. -/
def make_empty_dir (c : Consts) (blocksize : Int) (dir_ino parent_ino : Nat) (st : Formatter) :
    Except Fatal Formatter := do
  let fi ← st.file c dir_ino
  map_block st fi.start
  let blk ← make_empty_dir_block c blocksize (st.dir fi.start) dir_ino parent_ino
  pure { st with dir := setAt1 st.dir fi.start blk }

/-- Function `make_rootdir` of mkfs.c. -/
def make_rootdir (c : Consts) (blocksize : Int) (st : Formatter) : Except Fatal Formatter := do
  let ino := c.NILFS_ROOT_INO
  let st ← init_inode c blocksize ino DT_DIR 0o755 (toU32 blocksize) st
  let st ← make_empty_dir c blocksize ino ino st
  inc_link_count c ino st

/-- Function `make_sketch` of mkfs.c. -/
def make_sketch (c : Consts) (blocksize : Int) (st : Formatter) : Except Fatal Formatter :=
  init_inode c blocksize c.NILFS_SKETCH_INO DT_REG 0o644 0 st

/-- Function `make_dot_nilfs` of mkfs.c. -/
def make_dot_nilfs (c : Consts) (blocksize : Int) (st : Formatter) : Except Fatal Formatter :=
  init_inode c blocksize c.NILFS_NILFS_INO DT_REG 0o644 0 st

/-- An entry of a directory block as a reader finds it. -/
structure DirEntry where
  inode : Nat
  rec_len : Nat
  name_len : Nat
  file_type : Nat
  name : List Nat
  deriving DecidableEq

/-- The entry at offset `de` of a directory block. -/
def read_dir_entry (blk : Nat → Nat) (de : Nat) : DirEntry where
  inode := load_le blk 8 (de + nilfs_dir_entry_inode)
  rec_len := load_le blk 2 (de + nilfs_dir_entry_rec_len)
  name_len := blk (de + nilfs_dir_entry_name_len)
  file_type := blk (de + nilfs_dir_entry_file_type)
  name := (List.range (blk (de + nilfs_dir_entry_name_len))).map
    (fun k => blk (de + nilfs_dir_entry_name + k))

/-- The walk over a directory block by `next_dir_entry` from offset `de` to
the end of the block, for at most `fuel` entries. -/
def walk_dir (blocksize : Nat) (blk : Nat → Nat) : Nat → Nat → List DirEntry
  | 0, _ => []
  | fuel + 1, de =>
    if de ≥ blocksize then []
    else read_dir_entry blk de :: walk_dir blocksize blk fuel (next_dir_entry blk de)

/-! ### Files of entries -/

/-- The inner loop that `prepare_ifile`, `prepare_cpfile`, `prepare_sufile`
and `prepare_dat` of mkfs.c share,
`for (; i < entries_per_block; i++, entry++, counter++)`, for `n` more
rounds. -/
def slot_loop {σ : Type} (body : Nat → Nat → Nat → σ → Except Fatal σ) (entry_block : Nat) :
    Nat → Nat → Nat → σ → Except Fatal (σ × Nat)
  | 0, _, counter, s => .ok (s, counter)
  | n + 1, i, counter, s => do
    let s ← body entry_block i counter s
    slot_loop body entry_block n (i + 1) ((counter + 1) % 2 ^ 64) s

/-- The outer loop that the same functions share,
`for (...; entry_block < blocknr + fi->nblocks; entry_block++)`, for `n` more
rounds: the block is mapped and its slots are visited from index `first` in
block `blocknr` and from index 0 in the other blocks. -/
def block_loop {σ : Type} (body : Nat → Nat → Nat → σ → Except Fatal σ)
    (size entries_per_block first blocknr : Nat) :
    Nat → Nat → Nat → σ → Except Fatal (σ × Nat)
  | 0, _, counter, s => .ok (s, counter)
  | n + 1, entry_block, counter, s =>
    if entry_block ≥ size then .error (.illegal_disk_buffer_access entry_block)
    else do
      let i := if entry_block = blocknr then first else 0
      let (s, counter) ← slot_loop body entry_block (entries_per_block - i) i counter s
      block_loop body size entries_per_block first blocknr n (entry_block + 1) counter s

/-- The loop of `prepare_ifile` that reserves the inodes below
`NILFS_USER_INO`, from `ino` on for `n` more rounds. -/
def reserve_loop (blocksize : Int) (blocknr : Nat) : Nat → Nat → Formatter → Except Fatal Formatter
  | 0, _, st => .ok st
  | n + 1, ino, st => do
    let st ← alloc_blockgrouped_file_entry blocksize blocknr ino st
    reserve_loop blocksize blocknr n (ino + 1) st

/-- Function `prepare_ifile` of mkfs.c. -/
def prepare_ifile (c : Consts) (blocksize : Int) (st : Formatter) : Except Fatal Formatter := do
  let fi ← st.file c c.NILFS_IFILE_INO
  let entries_per_block := (toU64 blocksize / c.sizeof_nilfs_inode) % 2 ^ 32
  let blocknr := fi.start
  let st ← prepare_blockgrouped_file c blocksize blocknr st
  let first_block := (blocknr + group_desc_blocks_per_group + bitmap_blocks_per_group) % 2 ^ 64
  let (st, _) ← block_loop
    (fun entry_block i ino (st : Formatter) =>
      if ino < c.NILFS_MAX_INITIAL_INO ∧ (st.files ino).isSome ∧ st.raw_inode ino = none then
        .ok { st with raw_inode := setAt1 st.raw_inode ino (some (.ifile_entry entry_block i)) }
      else .ok st)
    st.disk_buffer_size entries_per_block 0 first_block
    ((blocknr + fi.nblocks) % 2 ^ 64 - first_block) first_block 0 st
  let st ← reserve_loop blocksize blocknr c.NILFS_USER_INO 0 st
  init_inode c blocksize c.NILFS_IFILE_INO DT_REG 0 0 st

/-- The body of the loop of `prepare_cpfile` of mkfs.c for one checkpoint. -/
def prepare_cpfile_slot (h : Helpers) (c : Consts) (entry_block i cno : Nat) (st : Formatter) :
    Except Fatal Formatter :=
  let cp := { st.cp entry_block i with cp_cno := cno }
  if cno = first_cno then do
    let _ ← st.file c c.NILFS_IFILE_INO
    pure { st with
      cp := setAt st.cp entry_block i { cp with cp_create := toU64 st.diskinfo.ctime },
      checkpoint := some (entry_block, i),
      raw_inode := setAt1 st.raw_inode c.NILFS_IFILE_INO (some (.cp_ifile_inode entry_block i)) }
  else
    pure { st with cp := setAt st.cp entry_block i (h.nilfs_checkpoint_set_invalid cp) }

/-- Function `prepare_cpfile` of mkfs.c. -/
def prepare_cpfile (h : Helpers) (c : Consts) (blocksize : Int) (st : Formatter) :
    Except Fatal Formatter := do
  let fi ← st.file c c.NILFS_CPFILE_INO
  let entries_per_block := (toU64 blocksize / c.sizeof_nilfs_checkpoint) % 2 ^ 32
  let blocknr := fi.start
  map_block st blocknr
  let st := { st with ch := setAt1 st.ch blocknr { st.ch blocknr with ch_ncheckpoints := 1 } }
  let (st, _) ← block_loop (prepare_cpfile_slot h c) st.disk_buffer_size entries_per_block
    c.NILFS_CPFILE_FIRST_CHECKPOINT_OFFSET blocknr
    ((blocknr + fi.nblocks) % 2 ^ 64 - blocknr) blocknr 1 st
  init_inode c blocksize c.NILFS_CPFILE_INO DT_REG 0 0 st

/-- Function `commit_cpfile` of mkfs.c. -/
def commit_cpfile (st : Formatter) : Except Fatal Formatter :=
  match st.checkpoint with
  | none => .error .undefined_behaviour
  | some (b, i) =>
    .ok { st with
      cp := setAt st.cp b i
        { st.cp b i with
          cp_inodes_count := nr_initial_inodes,
          cp_blocks_count := st.diskinfo.nblocks_used,
          cp_nblk_inc := st.current_segment.nblocks } }

/-- The body of the loop of `prepare_sufile` of mkfs.c for one segment
usage. -/
def prepare_sufile_slot (h : Helpers) (entry_block i segnum : Nat) (st : Formatter) :
    Except Fatal Formatter :=
  let su := st.su entry_block i
  let su := if segnum < nr_initial_segments then
      h.nilfs_segment_usage_set_dirty (h.nilfs_segment_usage_set_active su)
    else h.nilfs_segment_usage_set_clean su
  .ok { st with su := setAt st.su entry_block i su }

/-- Function `prepare_sufile` of mkfs.c. -/
def prepare_sufile (h : Helpers) (c : Consts) (blocksize : Int) (st : Formatter) :
    Except Fatal Formatter := do
  let fi ← st.file c c.NILFS_SUFILE_INO
  let entries_per_block := (toU64 blocksize / c.sizeof_nilfs_segment_usage) % 2 ^ 32
  let blocknr := fi.start
  map_block st blocknr
  let st := { st with
    sh := setAt1 st.sh blocknr
      { sh_ncleansegs := (st.diskinfo.nsegments + 2 ^ 64 - nr_initial_segments) % 2 ^ 64,
        sh_ndirtysegs := nr_initial_segments,
        sh_last_alloc := (st.diskinfo.nsegments + 2 ^ 64 - 1) % 2 ^ 64 } }
  let (st, _) ← block_loop (prepare_sufile_slot h) st.disk_buffer_size entries_per_block
    c.NILFS_SUFILE_FIRST_SEGMENT_USAGE_OFFSET blocknr
    ((blocknr + fi.nblocks) % 2 ^ 64 - blocknr) blocknr 0 st
  init_inode c blocksize c.NILFS_SUFILE_INO DT_REG 0 0 st

/-- Function `commit_sufile` of mkfs.c. -/
def commit_sufile (c : Consts) (blocksize : Int) (st : Formatter) : Except Fatal Formatter := do
  let fi ← st.file c c.NILFS_SUFILE_INO
  let entries_per_block := (toU64 blocksize / c.sizeof_nilfs_segment_usage) % 2 ^ 32
  if st.diskinfo.blocks_per_segment = 0 then .error .division_by_zero
  else if entries_per_block = 0 then .error .division_by_zero
  else do
    let segnum := (fi.start / st.diskinfo.blocks_per_segment) % 2 ^ 32
    let slot := (segnum + c.NILFS_SUFILE_FIRST_SEGMENT_USAGE_OFFSET) % 2 ^ 32
    let blocknr := (fi.start + slot / entries_per_block) % 2 ^ 64
    map_block st blocknr
    let i := slot % entries_per_block
    pure { st with
      su := setAt st.su blocknr i
        { st.su blocknr i with
          su_lastmod := toU64 st.diskinfo.ctime,
          su_nblocks := st.current_segment.nblocks % 2 ^ 32 } }

/-- Function `prepare_dat` of mkfs.c. -/
def prepare_dat (c : Consts) (blocksize : Int) (st : Formatter) : Except Fatal Formatter := do
  let fi ← st.file c c.NILFS_DAT_INO
  let entries_per_block := (toU64 blocksize / c.sizeof_nilfs_dat_entry) % 2 ^ 32
  let blocknr := fi.start
  let st ← prepare_blockgrouped_file c blocksize blocknr st
  let first_block := (blocknr + group_desc_blocks_per_group + bitmap_blocks_per_group) % 2 ^ 64
  let (st, _) ← block_loop (fun _ _ _ (st : Formatter) => .ok st)
    st.disk_buffer_size entries_per_block 0 first_block
    ((blocknr + fi.nblocks) % 2 ^ 64 - first_block) first_block 0 st
  let st ← alloc_blockgrouped_file_entry blocksize blocknr 0 st
  init_inode c blocksize c.NILFS_DAT_INO DT_REG 0 0 st

/-- Function `assign_vblocknr` of mkfs.c: the new state and the virtual
block number returned. -/
def assign_vblocknr (c : Consts) (blocksize : Int) (blocknr : Nat) (st : Formatter) :
    Except Fatal (Formatter × Nat) := do
  let fi ← st.file c c.NILFS_DAT_INO
  let entries_per_block := (toU64 blocksize / c.sizeof_nilfs_dat_entry) % 2 ^ 32
  let vblocknr := st.vblocknr
  let st := { st with vblocknr := (st.vblocknr + 1) % 2 ^ 64 }
  if entries_per_block = 0 then .error .division_by_zero
  else do
    let entry_block := (fi.start + group_desc_blocks_per_group + bitmap_blocks_per_group +
      vblocknr / entries_per_block) % 2 ^ 64
    let st ← alloc_blockgrouped_file_entry blocksize fi.start vblocknr st
    if entry_block ≥ (fi.start + fi.nblocks) % 2 ^ 64 then .error .assertion_failed
    else do
      map_block st entry_block
      pure ({ st with
        dat := setAt st.dat entry_block (vblocknr % entries_per_block)
          { de_blocknr := blocknr, de_start := st.cno, de_end := NILFS_CNO_MAX } }, vblocknr)

/-- Successive calls of `assign_vblocknr` for the blocks of a list. -/
def assign_vblocknrs (c : Consts) (blocksize : Int) : List Nat → Formatter → Except Fatal Formatter
  | [], st => .ok st
  | blocknr :: rest, st => do
    let (st, _) ← assign_vblocknr c blocksize blocknr st
    assign_vblocknrs c blocksize rest st

/-- A store into `raw_inode->i_bmap[k]`; an index outside the array is
undefined. -/
def store_bmap (c : Consts) (raw_inode : InodeRef) (k v : Nat) (st : Formatter) :
    Except Fatal Formatter :=
  if k ≥ c.NILFS_INODE_BMAP_SIZE then .error .undefined_behaviour
  else .ok { st with
    inode := setAt1 st.inode raw_inode
      { st.inode raw_inode with i_bmap := setAt1 (st.inode raw_inode).i_bmap k v } }

/-- The loop of `update_blocknr` of mkfs.c over the blocks of the DAT file,
from block index `i` on for `n` more rounds. -/
def update_blocknr_dat (c : Consts) (fi : nilfs_file_info) (raw_inode : InodeRef) :
    Nat → Nat → Formatter → Except Fatal Formatter
  | 0, _, st => .ok st
  | n + 1, i, st => do
    let st ← store_bmap c raw_inode ((i + 1) % 2 ^ 32) ((fi.start + i) % 2 ^ 64) st
    update_blocknr_dat c fi raw_inode n (i + 1) st

/-- The loop of `update_blocknr` of mkfs.c over the blocks of another file,
from block index `i` on for `n` more rounds. -/
def update_blocknr_file (c : Consts) (blocksize : Int) (fi : nilfs_file_info)
    (raw_inode : InodeRef) : Nat → Nat → Formatter → Except Fatal Formatter
  | 0, _, st => .ok st
  | n + 1, i, st => do
    let (st, vblocknr) ← assign_vblocknr c blocksize ((fi.start + i) % 2 ^ 64) st
    let st ← store_bmap c raw_inode ((i + 1) % 2 ^ 32) vblocknr st
    update_blocknr_file c blocksize fi raw_inode n (i + 1) st

/-- Function `update_blocknr` of mkfs.c, but for the records that it writes
to the segment summary. -/
def update_blocknr (c : Consts) (blocksize : Int) (fi : nilfs_file_info) (st : Formatter) :
    Except Fatal Formatter := do
  let raw_inode ← st.raw fi.ino
  if fi.nblocks = 0 then store_bmap c raw_inode 0 0 st
  else if fi.ino = c.NILFS_DAT_INO then do
    let st ← store_bmap c raw_inode 0 0 st
    update_blocknr_dat c fi raw_inode fi.nblocks 0 st
  else do
    let st ← store_bmap c raw_inode 0 0 st
    update_blocknr_file c blocksize fi raw_inode fi.nblocks 0 st

/-- The loop of `commit_segment` of mkfs.c over the files of the segment. -/
def update_blocknrs (c : Consts) (blocksize : Int) : List nilfs_file_info → Formatter →
    Except Fatal Formatter
  | [], st => .ok st
  | fi :: rest, st => do
    let st ← update_blocknr c blocksize fi st
    update_blocknrs c blocksize rest st

/-- The loop of `prepare_segment` of mkfs.c that enters the files of the
segment in `nilfs.files`. -/
def enter_files (c : Consts) : List nilfs_file_info → Formatter → Except Fatal Formatter
  | [], st => .ok st
  | fi :: rest, st =>
    if fi.ino ≥ c.NILFS_MAX_INITIAL_INO then .error .undefined_behaviour
    else enter_files c rest { st with files := setAt1 st.files fi.ino (some fi) }

/-- The store `nilfs.files[ino]->raw_inode = r` of `prepare_segment`. -/
def set_raw_inode (c : Consts) (ino : Nat) (r : InodeRef) (st : Formatter) :
    Except Fatal Formatter := do
  let _ ← st.file c ino
  pure { st with raw_inode := setAt1 st.raw_inode ino (some r) }

/-- Function `prepare_segment` of mkfs.c, but for the fields that it stores in
the segment summary and the super root. -/
def prepare_segment (h : Helpers) (c : Consts) (blocksize : Int) (si : nilfs_segment_info)
    (st : Formatter) : Except Fatal Formatter := do
  let st := { st with current_segment := si, files := fun _ => none }
  let st ← enter_files c si.files st
  map_block st si.start
  let st := { st with segsum := some si.start }
  map_block st (super_root_blocknr si)
  let st := { st with super_root := some (super_root_blocknr si) }
  let st ← set_raw_inode c c.NILFS_CPFILE_INO .sr_cpfile st
  let st ← set_raw_inode c c.NILFS_SUFILE_INO .sr_sufile st
  let st ← set_raw_inode c c.NILFS_DAT_INO .sr_dat st
  let st ← prepare_dat c blocksize st
  let st ← prepare_sufile h c blocksize st
  let st ← prepare_cpfile h c blocksize st
  prepare_ifile c blocksize st

/-- The part of `commit_segment` of mkfs.c that comes before
`fill_in_checksums`: the block numbers of the files, the checkpoint and the
segment usage. -/
def commit_segment_files (c : Consts) (blocksize : Int) (st : Formatter) :
    Except Fatal Formatter := do
  if st.segsum = none then .error .assertion_failed
  else do
    let st ← update_blocknrs c blocksize st.current_segment.files st
    let st ← commit_cpfile st
    commit_sufile c blocksize st

/-- The calls of `main` of mkfs.c from `init_nilfs` to `commit_segment`, on
the pool that `init_disk_buffer(di->nblocks_to_write)` has made. -/
def main_format (h : Helpers) (c : Consts) (blocksize : Int) (di : nilfs_disk_info)
    (si : nilfs_segment_info) : Except Fatal Formatter := do
  let st := init_nilfs di di.nblocks_to_write
  let st ← prepare_segment h c blocksize si st
  let st ← make_sketch c blocksize st
  let st ← make_dot_nilfs c blocksize st
  let st ← make_rootdir c blocksize st
  commit_segment_files c blocksize st

/-- The sample layout with a creation time of 1262304000 seconds. -/
def datedLayout : nilfs_disk_info := { sampleLayout with ctime := 1262304000 }

/-- The state in which `main` ends for the sample layout with blocks of 4096
bytes. -/
def sampleFormat : Formatter :=
  match main_format releaseHelpers releaseConsts 4096 datedLayout sampleSegment with
  | .ok st => st
  | .error _ => init_nilfs datedLayout 0

/-- The state in which `prepare_segment` calls `prepare_dat` for the sample
layout: the files of the segment are entered, the pool has 12 blocks and
nothing is written yet. -/
def sampleEntered : Formatter :=
  { init_nilfs datedLayout 12 with
    current_segment := sampleSegment
    files := fun ino => sampleSegment.files.find? (fun fi => fi.ino = ino)
    segsum := some 1
    super_root := some 11
    raw_inode := fun ino =>
      if ino = 4 then some .sr_cpfile else if ino = 5 then some .sr_sufile
      else if ino = 3 then some .sr_dat else none }

/-- A pool of 64 blocks whose only file is a DAT file of `nblocks` blocks
from block 1 on, after `prepare_dat`. -/
def datOnly (c : Consts) (blocksize : Int) (nblocks : Nat) : Except Fatal Formatter := do
  let st := init_nilfs sampleLayout 64
  let st ← enter_files c [⟨c.NILFS_DAT_INO, 1, nblocks⟩] st
  let st ← set_raw_inode c c.NILFS_DAT_INO .sr_dat st
  prepare_dat c blocksize st

/-- The part of the state that no function called after the files are
entered changes: the layout, the table of files and the size of the pool. -/
def Formatter.layout (st : Formatter) :
    nilfs_disk_info × nilfs_segment_info × Option Nat × Option Nat ×
      (Nat → Option nilfs_file_info) × Nat × Nat × Nat × Nat :=
  (st.diskinfo, st.current_segment, st.segsum, st.super_root, st.files, st.next, st.seq, st.cno,
    st.disk_buffer_size)

/-- The file that `prepare_segment` leaves in `nilfs.files[ino]`: the last
file of the segment with that inode number. -/
def file_of : List nilfs_file_info → Nat → Option nilfs_file_info
  | [], _ => none
  | fi :: rest, ino =>
    match file_of rest ino with
    | some f => some f
    | none => if fi.ino = ino then some fi else none

/-- The blocks of the inode file before `prepare_ifile`: with the group
descriptors in block `d`, no bit of the bitmap is set and the first
descriptor counts no free entry. -/
def ifile_fresh (d : Nat) (st : Formatter) : Prop :=
  (∀ k, st.bitmap ((d + 1) % 2 ^ 64) k = false) ∧ st.pg_nfrees d 0 = 0

/-- The blocks of the inode file after `prepare_ifile`: the list `s` holds
the set bits of the bitmap, each once, and the first descriptor counts `n`
less the length of the list. -/
def ifile_bits (d n : Nat) (s : List Nat) (st : Formatter) : Prop :=
  s.Nodup ∧ (∀ k, st.bitmap ((d + 1) % 2 ^ 64) k = true ↔ k ∈ s) ∧
    st.pg_nfrees d 0 + s.length = n

/-- The calls of `main` of mkfs.c that build the initial segment, from
`init_nilfs` to `make_rootdir`. -/
def initial_segment (h : Helpers) (c : Consts) (blocksize : Int) (di : nilfs_disk_info)
    (si : nilfs_segment_info) : Except Fatal Formatter := do
  let st := init_nilfs di di.nblocks_to_write
  let st ← prepare_segment h c blocksize si st
  let st ← make_sketch c blocksize st
  let st ← make_dot_nilfs c blocksize st
  make_rootdir c blocksize st

/-- The state in which the initial segment of the sample layout is built,
with blocks of 4096 bytes. -/
def sampleBuilt : Formatter :=
  match initial_segment releaseHelpers releaseConsts 4096 datedLayout sampleSegment with
  | .ok st => st
  | .error _ => init_nilfs datedLayout 0


/-- The blocks of the files of a list that `update_blocknr` hands to
`assign_vblocknr`: those of the files other than the DAT file. -/
def vblocks (c : Consts) : List nilfs_file_info → Nat
  | [] => 0
  | fi :: rest => (if fi.ino = c.NILFS_DAT_INO then 0 else fi.nblocks) + vblocks c rest

/-- The DAT entry of a virtual block number, read at the place where
`assign_vblocknr` writes it in the DAT file `fi`. -/
def dat_entry (c : Consts) (blocksize : Int) (fi : nilfs_file_info) (st : Formatter)
    (vblocknr : Nat) : nilfs_dat_entry :=
  let entries_per_block := (toU64 blocksize / c.sizeof_nilfs_dat_entry) % 2 ^ 32
  st.dat ((fi.start + group_desc_blocks_per_group + bitmap_blocks_per_group +
    vblocknr / entries_per_block) % 2 ^ 64) (vblocknr % entries_per_block)

/-! ### The options that reach the layout (mkfs.c, `parse_options`) -/

/-- Function `check_blocks_per_segment` of mkfs.c: `true` when it calls
`perr`. `seg_min_blocks` stands for the constant `NILFS_SEG_MIN_BLOCKS` of
nilfs2_fs.h, which is not among the sources. -/
def check_blocks_per_segment (seg_min_blocks blocks_per_segment : Int) : Bool :=
  decide (blocks_per_segment < seg_min_blocks) ||
    decide (Int.land (blocks_per_segment - 1) blocks_per_segment ≠ 0)

/-- The sizes with which `main` of mkfs.c reaches `init_disk_layout`:
`parse_options` has tested the block size with `check_blocksize` (the size
given with `-b`; the default of 4096 bytes passes the test where a page has
4096 bytes or more) and the blocks per segment with
`check_blocks_per_segment`. The header constants are those of the release,
whose `NILFS_SEG_MIN_BLOCKS` is 16; the page size is below 2^31 and the
`long` of the blocks per segment below 2^63. -/
def checked_options (pagesize seg_min_blocks : Int) (opts : mkfs_options) : Prop :=
  check_blocksize releaseConsts pagesize opts.blocksize = none ∧ pagesize < 2 ^ 31 ∧
    check_blocks_per_segment seg_min_blocks opts.blocks_per_segment = false ∧
    16 ≤ seg_min_blocks ∧ opts.blocks_per_segment < 2 ^ 63

/-! ### The records of the summary that `commit_segment` places -/

theorem digitChar_isDec (d : Nat) (h : d < 10) :
    isDec (Nat.digitChar d) ∧ (Nat.digitChar d).toNat - 48 = d := by
  interval_cases d <;> exact ⟨by unfold isDec; decide, by decide⟩

theorem toDigitsCore_spec (fuel : Nat) : ∀ (n : Nat) (ds : List Char), n < fuel →
    ∃ p, Nat.toDigitsCore 10 fuel n ds = p ++ ds ∧ p ≠ [] ∧ (∀ c ∈ p, isDec c) ∧
      ∀ acc, decFold acc p = acc * 10 ^ p.length + n := by
  induction fuel with
  | zero => intro n ds h; omega
  | succ f ih =>
    intro n ds h
    have hd := digitChar_isDec (n % 10) (Nat.mod_lt _ (by decide))
    unfold Nat.toDigitsCore
    by_cases h0 : n / 10 = 0
    · refine ⟨[Nat.digitChar (n % 10)], by simp [h0], by simp, ?_, ?_⟩
      · intro c hc
        simp at hc
        subst hc
        exact hd.1
      · intro acc
        simp [decFold, hd.2]
        omega
    · obtain ⟨p, hp, hne, hall, hval⟩ := ih (n / 10) (Nat.digitChar (n % 10) :: ds) (by omega)
      refine ⟨p ++ [Nat.digitChar (n % 10)], by simp [h0, hp], by simp, ?_, ?_⟩
      · intro c hc
        rcases List.mem_append.1 hc with hc | hc
        · exact hall c hc
        · simp at hc
          subst hc
          exact hd.1
      · intro acc
        have := hval acc
        simp only [decFold] at this
        simp only [decFold, List.foldl_append, List.foldl_cons, List.foldl_nil, this, hd.2,
          List.length_append, List.length_singleton, pow_succ]
        have := Nat.div_add_mod n 10
        nlinarith [this]

theorem decimal_spec (n : Nat) :
    decimal n ≠ [] ∧ (∀ c ∈ decimal n, isDec c) ∧
      ∀ acc, decFold acc (decimal n) = acc * 10 ^ (decimal n).length + n := by
  obtain ⟨p, hp, hne, hall, hval⟩ := toDigitsCore_spec (n + 1) n [] (by omega)
  have : decimal n = p := by
    simp [decimal, Nat.repr, Nat.toDigits, hp, List.asString]
  rw [this]
  exact ⟨hne, hall, hval⟩

theorem digitValue_of_isDec (c : Char) (h : isDec c) :
    digitValue c = some (c.toNat - 48) ∧ c.toNat - 48 < 10 := by
  unfold isDec at h
  simp [digitValue, h]
  omega

theorem scanDigits_dec (p : List Char) : (∀ c ∈ p, isDec c) → ∀ rest acc cnt,
    scanDigits 10 (p ++ rest) acc cnt = scanDigits 10 rest (decFold acc p) (cnt + p.length) := by
  induction p with
  | nil => intro _ rest acc cnt; simp [decFold]
  | cons c t ih =>
    intro h rest acc cnt
    have hc := digitValue_of_isDec c (h c (by simp))
    have := ih (fun x hx => h x (by simp [hx])) rest (acc * 10 + (c.toNat - 48)) (cnt + 1)
    rw [show cnt + 1 + t.length = cnt + (c :: t).length by simp; omega] at this
    simp only [List.cons_append, scanDigits, hc.1, hc.2, if_true]
    exact this


theorem scanDigits_stop (b : Nat) (rest : List Char) (h : stopsScan rest) (acc cnt : Nat) :
    scanDigits b rest acc cnt = (acc, cnt) := by
  rcases h with h | ⟨t, h⟩
  · subst h; rfl
  · subst h
    have : digitValue '.' = none := by decide
    simp [scanDigits, this]

theorem isDec_facts (c : Char) (h : isDec c) :
    isspace c = false ∧ c ≠ '-' ∧ c ≠ '+' ∧ c ≠ '.' := by
  unfold isDec at h
  refine ⟨?_, ?_, ?_, ?_⟩
  · simp [isspace]; omega
  · rintro rfl; revert h; decide
  · rintro rfl; revert h; decide
  · rintro rfl; revert h; decide

theorem nilfs_parse_cno_decimal (n : Nat) (rest : List Char) (h : stopsScan rest) :
    nilfs_parse_cno (decimal n ++ rest) 10 =
      ⟨if ULLONG_MAX < n then ULLONG_MAX else n, some (decimal n).length⟩ := by
  obtain ⟨hne, hall, hval⟩ := decimal_spec n
  have hscan := scanDigits_dec (decimal n) hall rest 0 0
  rw [scanDigits_stop 10 rest h, hval 0] at hscan
  obtain ⟨c, t, hct⟩ := List.exists_cons_of_ne_nil hne
  have hc := isDec_facts c (hall c (by simp [hct]))
  rw [hct] at hscan ⊢
  simp only [zero_mul, zero_add, List.cons_append] at hscan
  simp [nilfs_parse_cno, strtoull, signLength, hexMarker, effectiveBase, hc.1, hc.2.1, hc.2.2.1, hscan]


theorem strstr_dotdot_none (p : List Char) (h : ∀ c ∈ p, c ≠ '.') :
    strstr p ['.', '.'] = none := by
  induction p with
  | nil => simp [strstr]
  | cons c t ih =>
    have hc : c ≠ '.' := h c (by simp)
    have hc2 : ¬ ('.' = c) := fun e => hc e.symm
    simp [strstr, List.isPrefixOf, hc2, ih (fun x hx => h x (by simp [hx]))]

theorem strstr_dotdot_append (p rest : List Char) (h : ∀ c ∈ p, c ≠ '.') :
    strstr (p ++ '.' :: '.' :: rest) ['.', '.'] = some p.length := by
  induction p with
  | nil => simp [strstr, List.isPrefixOf]
  | cons c t ih =>
    have hc : c ≠ '.' := h c (by simp)
    have hc2 : ¬ ('.' = c) := fun e => hc e.symm
    simp [strstr, List.isPrefixOf, hc2, ih (fun x hx => h x (by simp [hx]))]

theorem decimal_no_dot (n : Nat) : ∀ c ∈ decimal n, c ≠ '.' :=
  fun c hc => (isDec_facts c ((decimal_spec n).2.1 c hc)).2.2.2

theorem decimal_length_pos (n : Nat) : ∃ k, (decimal n).length = k + 1 := by
  have := (decimal_spec n).1
  cases h : decimal n with
  | nil => exact absurd h this
  | cons c t => exact ⟨t.length, rfl⟩

theorem range_single (n : Nat) (hn : n < NILFS_CNO_MAX) (s e : Nat) :
    nilfs_parse_cno_range (decimal n) s e 10 = some ⟨0, n, n⟩ := by
  have hp := nilfs_parse_cno_decimal n [] (Or.inl rfl)
  rw [List.append_nil] at hp
  have hmax : ¬ ULLONG_MAX < n := by unfold ULLONG_MAX; unfold NILFS_CNO_MAX at hn; omega
  simp [nilfs_parse_cno_range, (decimal_spec n).1, strstr_dotdot_none _ (decimal_no_dot n), hp,
    hmax, hn]

theorem range_upper (n : Nat) (hn : n < NILFS_CNO_MAX) (s e : Nat) :
    nilfs_parse_cno_range ('.' :: '.' :: decimal n) s e 10 = some ⟨0, NILFS_CNO_MIN, n⟩ := by
  have hp := nilfs_parse_cno_decimal n [] (Or.inl rfl)
  rw [List.append_nil] at hp
  have hmax : ¬ ULLONG_MAX < n := by unfold ULLONG_MAX; unfold NILFS_CNO_MAX at hn; omega
  simp [nilfs_parse_cno_range, (decimal_spec n).1, strstr, List.isPrefixOf, hp, hmax, hn]
  omega

theorem range_lower (n : Nat) (hn : n < NILFS_CNO_MAX) (s e : Nat) :
    nilfs_parse_cno_range (decimal n ++ ['.', '.']) s e 10 = some ⟨0, n, NILFS_CNO_MAX⟩ := by
  have hp := nilfs_parse_cno_decimal n ['.', '.'] (Or.inr ⟨_, rfl⟩)
  have hmax : ¬ ULLONG_MAX < n := by unfold ULLONG_MAX; unfold NILFS_CNO_MAX at hn; omega
  obtain ⟨k, hk⟩ := decimal_length_pos n
  have hs := strstr_dotdot_append (decimal n) [] (decimal_no_dot n)
  rw [hk] at hs
  simp [nilfs_parse_cno_range, (decimal_spec n).1, hs, hp, hmax, hn, hk]

theorem range_both (n m : Nat) (hn : n < NILFS_CNO_MAX) (hm : m < NILFS_CNO_MAX) (s e : Nat) :
    nilfs_parse_cno_range (decimal n ++ '.' :: '.' :: decimal m) s e 10 = some ⟨0, n, m⟩ := by
  have hp := nilfs_parse_cno_decimal n ('.' :: '.' :: decimal m) (Or.inr ⟨_, rfl⟩)
  have hp2 := nilfs_parse_cno_decimal m [] (Or.inl rfl)
  rw [List.append_nil] at hp2
  have hmax : ¬ ULLONG_MAX < n := by unfold ULLONG_MAX; unfold NILFS_CNO_MAX at hn; omega
  have hmax2 : ¬ ULLONG_MAX < m := by unfold ULLONG_MAX; unfold NILFS_CNO_MAX at hm; omega
  obtain ⟨k, hk⟩ := decimal_length_pos n
  have hs := strstr_dotdot_append (decimal n) (decimal m) (decimal_no_dot n)
  rw [hk] at hs
  have hd : List.drop (k + 1 + 2) (decimal n ++ '.' :: '.' :: decimal m) = decimal m := by
    rw [← hk, show (decimal n).length + 2 = (decimal n ++ ['.', '.']).length by simp,
      show decimal n ++ '.' :: '.' :: decimal m = (decimal n ++ ['.', '.']) ++ decimal m by simp,
      List.drop_left]
  have hd2 : List.drop (k + 1 + 2 + (decimal m).length)
      (decimal n ++ '.' :: '.' :: decimal m) = [] := by
    rw [List.drop_eq_nil_iff]
    simp [hk]; omega
  simp [nilfs_parse_cno_range, (decimal_spec n).1, hs, hp, hmax, hn, hk, hd, hp2, hmax2, hm,
    (decimal_spec m).1, hd2]


/-! ## Bounds on what a conversion stores -/

theorem scanDigits_count (b : Nat) (l : List Char) : ∀ acc cnt,
    cnt ≤ (scanDigits b l acc cnt).2 ∧ (scanDigits b l acc cnt).2 ≤ cnt + l.length := by
  induction l with
  | nil => intro acc cnt; simp [scanDigits]
  | cons c t ih =>
    intro acc cnt
    unfold scanDigits
    cases hd : digitValue c with
    | none => simp
    | some d =>
      by_cases hlt : d < b
      · have := ih (acc * b + d) (cnt + 1)
        simp only [hlt, if_true, List.length_cons]
        omega
      · simp [hlt]

theorem takeWhile_length_le (l : List Char) : (l.takeWhile isspace).length ≤ l.length :=
  (List.takeWhile_sublist _).length_le

theorem drop_takeWhile_eq_dropWhile (l : List Char) :
    l.drop (l.takeWhile isspace).length = l.dropWhile isspace := by
  induction l with
  | nil => rfl
  | cons c t ih =>
    by_cases h : isspace c = true
    · simp [List.takeWhile_cons, List.dropWhile_cons, h, ih]
    · simp [List.takeWhile_cons, List.dropWhile_cons, h]

theorem signLength_le (s : List Char) : signLength s ≤ s.length := by
  cases s with
  | nil => simp [signLength]
  | cons c t => unfold signLength; split_ifs <;> simp

theorem hexMarker_length (base : Nat) (s : List Char) (h : hexMarker base s = true) :
    2 ≤ s.length := by
  rcases s with _ | ⟨c, _ | ⟨c2, t⟩⟩
  · simp [hexMarker] at h
  · simp [hexMarker] at h
  · simp

theorem strtoull_bounds (nptr : List Char) (base : Nat) (hb : base ≠ 1 ∧ base ≤ 36) :
    (strtoull nptr base).value ≤ ULLONG_MAX ∧
      ∃ e, (strtoull nptr base).endptr = some e ∧ e ≤ nptr.length := by
  have hb2 : ¬ (base = 1 ∨ 36 < base) := by omega
  have hws := takeWhile_length_le nptr
  unfold strtoull
  simp only [hb2, if_false]
  generalize hs : List.drop (List.takeWhile isspace nptr).length nptr = s
  have hlen : s.length + (List.takeWhile isspace nptr).length = nptr.length := by
    rw [← hs, List.length_drop]; omega
  generalize (List.takeWhile isspace nptr).length = ws at *
  have hsg := signLength_le s
  generalize hs1 : List.drop (signLength s) s = s1
  have hlen1 : s1.length + signLength s = s.length := by
    rw [← hs1, List.length_drop]; omega
  have hhex := hexMarker_length base s1
  generalize hexMarker base s1 = hex at *
  generalize hr : scanDigits (effectiveBase base s1) (List.drop (if hex = true then 2 else 0) s1) 0 0 = r
  have hcnt := (scanDigits_count (effectiveBase base s1)
    (List.drop (if hex = true then 2 else 0) s1) 0 0).2
  rw [hr, List.length_drop] at hcnt
  cases hex with
  | false =>
    simp only [Bool.false_eq_true, if_false] at hcnt ⊢
    split_ifs <;> simp only [ULLONG_MAX] at * <;> refine ⟨by omega, _, rfl, by omega⟩
  | true =>
    have := hhex rfl
    simp only [if_true] at hcnt ⊢
    split_ifs <;> simp only [ULLONG_MAX] at * <;> refine ⟨by omega, _, rfl, by omega⟩


theorem nilfs_parse_cno_neg (arg : List Char) (base : Nat)
    (h : (arg.dropWhile isspace).head? = some '-') :
    nilfs_parse_cno arg base = ⟨NILFS_CNO_MAX, none⟩ := by
  unfold nilfs_parse_cno
  simp only [drop_takeWhile_eq_dropWhile, h, if_true]

theorem nilfs_parse_cno_nonneg (arg : List Char) (base : Nat) (hb : base ≠ 1 ∧ base ≤ 36)
    (h : (arg.dropWhile isspace).head? ≠ some '-') :
    (nilfs_parse_cno arg base).value ≤ NILFS_CNO_MAX ∧
      ∃ e, (nilfs_parse_cno arg base).endptr = some e ∧ e ≤ arg.length := by
  unfold nilfs_parse_cno
  simp only [drop_takeWhile_eq_dropWhile, h, if_false]
  obtain ⟨hv, e, he, hle⟩ := strtoull_bounds (arg.dropWhile isspace) base hb
  refine ⟨hv, (arg.takeWhile isspace).length + e, by simp [he], ?_⟩
  have : (arg.takeWhile isspace).length + (arg.dropWhile isspace).length = arg.length := by
    rw [← List.length_append, List.takeWhile_append_dropWhile]
  omega

/-! ## A bound parsed in place stops at the delimiter -/

theorem takeWhile_append_dot (q r : List Char) :
    ((q ++ '.' :: r).takeWhile isspace).length = (q.takeWhile isspace).length := by
  induction q with
  | nil =>
    have : isspace '.' = false := by decide
    simp [List.takeWhile_cons, this]
  | cons c t ih =>
    by_cases h : isspace c = true
    · simp [List.takeWhile_cons, h, ih]
    · simp [List.takeWhile_cons, h]

theorem head?_append_dot (q r : List Char) (c : Char) (hc : c ≠ '.') :
    ((q ++ '.' :: r).head? = some c) = (q.head? = some c) := by
  cases q with
  | nil => simp; exact fun e => hc e.symm
  | cons a t => simp

theorem signLength_append_dot (q r : List Char) :
    signLength (q ++ '.' :: r) = signLength q := by
  unfold signLength
  simp only [head?_append_dot q r '-' (by decide), head?_append_dot q r '+' (by decide)]

theorem hexMarker_append_dot (base : Nat) (q r : List Char) :
    hexMarker base (q ++ '.' :: r) = hexMarker base q := by
  rcases q with _ | ⟨c, _ | ⟨c2, t⟩⟩ <;> simp [hexMarker]

theorem effectiveBase_append_dot (base : Nat) (q r : List Char) :
    effectiveBase base (q ++ '.' :: r) = effectiveBase base q := by
  unfold effectiveBase
  simp only [hexMarker_append_dot, head?_append_dot q r '0' (by decide)]

theorem scanDigits_append_dot (b : Nat) (q r : List Char) : ∀ acc cnt,
    scanDigits b (q ++ '.' :: r) acc cnt = scanDigits b q acc cnt := by
  induction q with
  | nil =>
    intro acc cnt
    have : digitValue '.' = none := by decide
    simp [scanDigits, this]
  | cons c t ih =>
    intro acc cnt
    simp only [List.cons_append, scanDigits]
    cases digitValue c with
    | none => rfl
    | some d => simp only [List.append_eq, ih]

theorem drop_append_dot (n : Nat) (q r : List Char) (h : n ≤ q.length) :
    (q ++ '.' :: r).drop n = q.drop n ++ '.' :: r :=
  List.drop_append_of_le_length h

theorem strtoull_append_dot (q r : List Char) (base : Nat) :
    strtoull (q ++ '.' :: r) base = strtoull q base := by
  unfold strtoull
  by_cases hb : base = 1 ∨ 36 < base
  · simp only [hb, if_true]
  · simp only [hb, if_false]
    rw [takeWhile_append_dot, drop_append_dot _ q r (takeWhile_length_le q)]
    generalize List.drop (List.takeWhile isspace q).length q = s
    simp only [signLength_append_dot, drop_append_dot _ s r (signLength_le s),
      head?_append_dot s r '-' (by decide)]
    generalize List.drop (signLength s) s = s1
    simp only [hexMarker_append_dot, effectiveBase_append_dot]
    have hh := hexMarker_length base s1
    cases hhex : hexMarker base s1 with
    | false => simp only [Bool.false_eq_true, if_false, List.drop_zero, scanDigits_append_dot]
    | true =>
      rw [hhex] at hh
      simp only [if_true, drop_append_dot 2 s1 r (hh rfl), scanDigits_append_dot]

theorem nilfs_parse_cno_append_dot (q r : List Char) (base : Nat) :
    nilfs_parse_cno (q ++ '.' :: r) base = nilfs_parse_cno q base := by
  unfold nilfs_parse_cno
  simp only [takeWhile_append_dot, drop_append_dot _ q r (takeWhile_length_le q),
    head?_append_dot _ r '-' (by decide), strtoull_append_dot]


/-! ## Failure of the range parser -/

theorem strstr_dotdot_some : ∀ (arg : List Char) (d : Nat), strstr arg ['.', '.'] = some d →
    arg = arg.take d ++ '.' :: '.' :: arg.drop (d + 2) := by
  intro arg
  induction arg with
  | nil => intro d h; simp [strstr] at h
  | cons c t ih =>
    intro d h
    unfold strstr at h
    by_cases hp : List.isPrefixOf ['.', '.'] (c :: t) = true
    · simp only [hp, if_true, Option.some.injEq] at h
      subst h
      rcases t with _ | ⟨c2, t2⟩
      · simp [List.isPrefixOf] at hp
      · simp [List.isPrefixOf] at hp
        obtain ⟨h1, h2⟩ := hp
        subst h1
        subst h2
        simp
    · simp only [hp] at h
      cases hs : strstr t ['.', '.'] with
      | none => simp [hs] at h
      | some k =>
        simp [hs] at h
        subst h
        have := ih k hs
        simp only [List.take_succ_cons, List.drop_succ_cons, List.cons_append]
        rw [← this]

theorem bound_cases (b : List Char) (base : Nat) (hb : base ≠ 1 ∧ base ≤ 36) :
    (badBound b base ∧ ((nilfs_parse_cno b base).value < NILFS_CNO_MAX →
        ∃ e, (nilfs_parse_cno b base).endptr = some e ∧ e < b.length)) ∨
    (¬ badBound b base ∧ (nilfs_parse_cno b base).value < NILFS_CNO_MAX ∧
      (nilfs_parse_cno b base).endptr = some b.length) := by
  by_cases hneg : (b.dropWhile isspace).head? = some '-'
  · left
    refine ⟨Or.inl hneg, ?_⟩
    rw [nilfs_parse_cno_neg b base hneg]
    intro h
    exact absurd h (lt_irrefl _)
  · obtain ⟨hv, e, he, hle⟩ := nilfs_parse_cno_nonneg b base hb hneg
    by_cases hbad : badBound b base
    · left
      refine ⟨hbad, fun hlt => ?_⟩
      rcases hbad with h | h | ⟨e2, he2, hlt2⟩
      · exact absurd h hneg
      · omega
      · exact ⟨e2, he2, hlt2⟩
    · right
      refine ⟨hbad, ?_, ?_⟩
      · rcases Nat.lt_or_ge (nilfs_parse_cno b base).value NILFS_CNO_MAX with h | h
        · exact h
        · exact absurd (Or.inr (Or.inl (le_antisymm hv h))) hbad
      · rcases Nat.lt_or_ge e b.length with h | h
        · exact absurd (Or.inr (Or.inr ⟨e, he, h⟩)) hbad
        · rw [he, le_antisymm hle h]


/-- C5: for every non-empty argument (and every base `strtoull` accepts),
`nilfs_parse_cno_range` returns 0 or -1; it returns -1 exactly when the
argument is malformed (`..` alone, or a bound that is negative, parses to
`NILFS_CNO_MAX` or is followed by unconsumed characters); and when it returns
-1 the cells `*start` and `*end` hold what they held before the call. -/
theorem cno_range_failure (arg : List Char) (base : Nat) (hb : base ≠ 1 ∧ base ≤ 36)
    (hne : arg ≠ []) (s e : Nat) :
    ∃ r, nilfs_parse_cno_range arg s e base = some r ∧ (r.ret = 0 ∨ r.ret = -1) ∧
      (r.ret = -1 ↔ malformed arg base) ∧ (r.ret = -1 → r.start = s ∧ r.end_ = e) := by
  unfold nilfs_parse_cno_range malformed rangeBounds
  simp only [hne, if_false]
  cases hs : strstr arg ['.', '.'] with
  | none =>
    have hdd : arg ≠ ['.', '.'] := by
      rintro rfl
      simp [strstr, List.isPrefixOf] at hs
    rcases bound_cases arg base hb with ⟨hbad, hcond⟩ | ⟨hok, hv, he⟩
    · by_cases hv : (nilfs_parse_cno arg base).value < NILFS_CNO_MAX
      · obtain ⟨e1, he1, hlt⟩ := hcond hv
        have hdrop : ¬ (List.drop e1 arg = []) := by
          rw [List.drop_eq_nil_iff]; omega
        simp only [hv, if_true, he1, hdrop, if_false]
        exact ⟨_, rfl, Or.inr rfl, by simp [hdd, hbad], fun _ => ⟨rfl, rfl⟩⟩
      · simp only [hv, if_false]
        exact ⟨_, rfl, Or.inr rfl, by simp [hdd, hbad], fun _ => ⟨rfl, rfl⟩⟩
    · have hdrop : List.drop arg.length arg = [] := by simp
      simp only [hv, if_true, he, hdrop]
      exact ⟨_, rfl, Or.inl rfl, by simp [hdd, hok], by simp⟩
  | some d =>
    have harg := strstr_dotdot_some arg d hs
    cases d with
    | zero =>
      simp only [List.take_zero, List.nil_append, zero_add] at harg
      by_cases hrest : List.drop 2 arg = []
      · have hdd : arg = ['.', '.'] := by rw [harg, hrest]
        simp only [hrest, ne_eq, not_true_eq_false, if_false]
        exact ⟨_, rfl, Or.inr rfl, by simp [hdd], fun _ => ⟨rfl, rfl⟩⟩
      · have hdd : arg ≠ ['.', '.'] := by
          intro h
          rw [h] at hrest
          simp at hrest
        have hlen : arg.length = 2 + (List.drop 2 arg).length := by
          conv_lhs => rw [harg]
          simp; omega
        simp only [hrest, ne_eq, not_false_eq_true, if_true, if_false, zero_add, List.nil_append,
          List.mem_singleton, exists_eq_left, hdd, false_or]
        rcases bound_cases (List.drop 2 arg) base hb with ⟨hbad, hcond⟩ | ⟨hok, hv, he⟩
        · by_cases hv : (nilfs_parse_cno (List.drop 2 arg) base).value < NILFS_CNO_MAX
          · obtain ⟨e1, he1, hlt⟩ := hcond hv
            have hdrop : ¬ (List.drop (2 + e1) arg = []) := by
              rw [List.drop_eq_nil_iff]; omega
            simp only [hv, if_true, he1, hdrop, if_false]
            exact ⟨_, rfl, Or.inr rfl, by simp [hbad], fun _ => ⟨rfl, rfl⟩⟩
          · simp only [hv, if_false]
            exact ⟨_, rfl, Or.inr rfl, by simp [hbad], fun _ => ⟨rfl, rfl⟩⟩
        · have hdrop : List.drop (2 + (List.drop 2 arg).length) arg = [] := by
            rw [List.drop_eq_nil_iff]; omega
          simp only [hv, if_true, he, hdrop]
          exact ⟨_, rfl, Or.inl rfl, by simp [hok], by simp⟩
    | succ k =>
      have hlen : arg.length = (List.take (k + 1) arg).length + 2 +
          (List.drop (k + 1 + 2) arg).length := by
        conv_lhs => rw [harg]
        simp; omega
      have hk : k + 1 ≤ arg.length := by
        by_contra hcon
        have : List.take (k + 1) arg = arg := List.take_of_length_le (by omega)
        have h2 : List.drop (k + 1 + 2) arg = [] := List.drop_eq_nil_iff.2 (by omega)
        rw [this, h2] at hlen
        simp at hlen
      have htl : (List.take (k + 1) arg).length = k + 1 := by
        rw [List.length_take]; omega
      have hdd : arg ≠ ['.', '.'] := by
        intro h
        rw [h] at hlen
        simp at hlen
      have hpar : nilfs_parse_cno arg base = nilfs_parse_cno (List.take (k + 1) arg) base := by
        conv_lhs => rw [harg]
        exact nilfs_parse_cno_append_dot _ _ _
      simp only [hpar, hdd, false_or, Nat.succ_ne_zero, if_false, List.singleton_append,
        Nat.add_eq_zero, one_ne_zero, and_false]
      rcases bound_cases (List.take (k + 1) arg) base hb with ⟨hbad, hcond⟩ | ⟨hok, hv, he⟩
      · by_cases hv : (nilfs_parse_cno (List.take (k + 1) arg) base).value < NILFS_CNO_MAX
        · obtain ⟨e1, he1, hlt⟩ := hcond hv
          have hne1 : ¬ (e1 = k + 1) := by omega
          simp only [hv, if_true, he1, hne1, if_false]
          exact ⟨_, rfl, Or.inr rfl, by simp [hbad], fun _ => ⟨rfl, rfl⟩⟩
        · simp only [hv, if_false]
          exact ⟨_, rfl, Or.inr rfl, by simp [hbad], fun _ => ⟨rfl, rfl⟩⟩
      · rw [htl] at he
        simp only [hv, if_true, he]
        by_cases hrest : List.drop (k + 1 + 2) arg = []
        · simp only [hrest, if_true]
          exact ⟨_, rfl, Or.inl rfl, by simp [hok], by simp⟩
        · simp only [hrest, if_false]
          rcases bound_cases (List.drop (k + 1 + 2) arg) base hb with
            ⟨hbad2, hcond2⟩ | ⟨hok2, hv2, he2⟩
          · by_cases hv2 : (nilfs_parse_cno (List.drop (k + 1 + 2) arg) base).value <
                NILFS_CNO_MAX
            · obtain ⟨e1, he1, hlt⟩ := hcond2 hv2
              have hdrop : ¬ (List.drop (k + 1 + 2 + e1) arg = []) := by
                rw [List.drop_eq_nil_iff]; omega
              simp only [hv2, if_true, he1, Option.map_some', Option.orElse, hdrop, if_false]
              exact ⟨_, rfl, Or.inr rfl, by simp [hbad2], fun _ => ⟨rfl, rfl⟩⟩
            · simp only [hv2, if_false]
              exact ⟨_, rfl, Or.inr rfl, by simp [hbad2], fun _ => ⟨rfl, rfl⟩⟩
          · have hdrop : List.drop (k + 1 + 2 + (List.drop (k + 1 + 2) arg).length) arg = [] := by
              rw [List.drop_eq_nil_iff]; omega
            simp only [hv2, if_true, he2, Option.map_some', Option.orElse, hdrop]
            exact ⟨_, rfl, Or.inl rfl, by simp [hok, hok2], by simp⟩


/-- Witness of C5 at the argument `1..2..3` in base 10. -/
theorem cno_range_failure_witness :
    (10 ≠ 1 ∧ 10 ≤ 36) ∧ ['1', '.', '.', '2', '.', '.', '3'] ≠ [] ∧
      ∃ r, nilfs_parse_cno_range ['1', '.', '.', '2', '.', '.', '3'] 5 6 10 = some r ∧
        (r.ret = 0 ∨ r.ret = -1) ∧
        (r.ret = -1 ↔ malformed ['1', '.', '.', '2', '.', '.', '3'] 10) ∧
        (r.ret = -1 → r.start = 5 ∧ r.end_ = 6) :=
  ⟨by decide, by decide, cno_range_failure _ 10 (by decide) (by decide) 5 6⟩

/-- The malformed arguments the specification names all return -1 in base 10
and leave the cells alone, as does a bound equal to `NILFS_CNO_MAX`. -/
theorem cno_range_failure_examples :
    nilfs_parse_cno_range ['.', '.'] 5 6 10 = some ⟨-1, 5, 6⟩ ∧
    nilfs_parse_cno_range ['5', 'x'] 5 6 10 = some ⟨-1, 5, 6⟩ ∧
    nilfs_parse_cno_range ['1', '.', '.', '2', '.', '.', '3'] 5 6 10 = some ⟨-1, 5, 6⟩ ∧
    nilfs_parse_cno_range ['.', '.', '-', '5'] 5 6 10 = some ⟨-1, 5, 6⟩ ∧
    nilfs_parse_cno_range ['1', '.', '.', '-', '2'] 5 6 10 = some ⟨-1, 5, 6⟩ ∧
    nilfs_parse_cno_range ('.' :: '.' :: decimal (2 ^ 64 - 1)) 5 6 10 = some ⟨-1, 5, 6⟩ := by
  decide

/-! ## The range-parser laws -/

/-- C1 (amended): for every `N < NILFS_CNO_MAX`, `nilfs_parse_cno_range` called
in base 10 on the decimal representation of `N`, a string that contains no
`..`, returns 0 and sets `*start = *end = N`, whatever the cells held. -/
theorem cno_range_single_number (n : Nat) (hn : n < NILFS_CNO_MAX) (s e : Nat) :
    strstr (decimal n) ['.', '.'] = none ∧
      nilfs_parse_cno_range (decimal n) s e 10 = some ⟨0, n, n⟩ :=
  ⟨strstr_dotdot_none _ (decimal_no_dot n), range_single n hn s e⟩

/-- Witness of C1 (amended) at `N = 5`. -/
theorem cno_range_single_number_witness :
    5 < NILFS_CNO_MAX ∧ strstr (decimal 5) ['.', '.'] = none ∧
      nilfs_parse_cno_range (decimal 5) 0 0 10 = some ⟨0, 5, 5⟩ :=
  ⟨by decide, cno_range_single_number 5 (by decide) 0 0⟩

/-- C1 as stated fails: `2 ^ 64 - 1` is an unsigned 64-bit value, and on its
decimal representation the parser returns -1 and leaves both cells as they
were. -/
theorem cno_range_single_number_max_refused :
    2 ^ 64 - 1 < 2 ^ 64 ∧ decimal (2 ^ 64 - 1) = "18446744073709551615".data ∧
      nilfs_parse_cno_range (decimal (2 ^ 64 - 1)) 7 9 10 = some ⟨-1, 7, 9⟩ := by
  decide

/-- C2: an omitted bound defaults to the extreme checkpoint number. For every
`N < NILFS_CNO_MAX` in decimal, `..N` returns 0 with
`(*start, *end) = (NILFS_CNO_MIN, N)` and `N..` returns 0 with
`(*start, *end) = (N, NILFS_CNO_MAX)`. -/
theorem cno_range_open_bound (n : Nat) (hn : n < NILFS_CNO_MAX) (s e : Nat) :
    nilfs_parse_cno_range ('.' :: '.' :: decimal n) s e 10 = some ⟨0, NILFS_CNO_MIN, n⟩ ∧
      nilfs_parse_cno_range (decimal n ++ ['.', '.']) s e 10 = some ⟨0, n, NILFS_CNO_MAX⟩ :=
  ⟨range_upper n hn s e, range_lower n hn s e⟩

/-- Witness of C2 at `N = 42`. -/
theorem cno_range_open_bound_witness :
    42 < NILFS_CNO_MAX ∧
      nilfs_parse_cno_range ('.' :: '.' :: decimal 42) 0 0 10 = some ⟨0, NILFS_CNO_MIN, 42⟩ ∧
      nilfs_parse_cno_range (decimal 42 ++ ['.', '.']) 0 0 10 = some ⟨0, 42, NILFS_CNO_MAX⟩ :=
  ⟨by decide, cno_range_open_bound 42 (by decide) 0 0⟩

/-- C3: for every pair `N, M < NILFS_CNO_MAX` in decimal, `N..M` returns 0 with
`*start = N` and `*end = M`; no order between the bounds is asked for. -/
theorem cno_range_two_bounds (n m : Nat) (hn : n < NILFS_CNO_MAX) (hm : m < NILFS_CNO_MAX)
    (s e : Nat) :
    nilfs_parse_cno_range (decimal n ++ '.' :: '.' :: decimal m) s e 10 = some ⟨0, n, m⟩ :=
  range_both n m hn hm s e

/-- Witness of C3: the input `7..3` yields `(7, 3)`. -/
theorem cno_range_two_bounds_witness :
    7 < NILFS_CNO_MAX ∧ 3 < NILFS_CNO_MAX ∧
      decimal 7 ++ '.' :: '.' :: decimal 3 = ['7', '.', '.', '3'] ∧
      nilfs_parse_cno_range (decimal 7 ++ '.' :: '.' :: decimal 3) 0 0 10 = some ⟨0, 7, 3⟩ :=
  ⟨by decide, by decide, by decide, cno_range_two_bounds 7 3 (by decide) (by decide) 0 0⟩

/-- C4: for every input whose first non-blank character is `-`,
`nilfs_parse_cno` returns the sentinel `NILFS_CNO_MAX`, which is `2 ^ 64 - 1`,
in every base. -/
theorem parse_cno_negative (arg : List Char) (base : Nat)
    (h : (arg.dropWhile isspace).head? = some '-') :
    (nilfs_parse_cno arg base).value = NILFS_CNO_MAX ∧ NILFS_CNO_MAX = 2 ^ 64 - 1 := by
  rw [nilfs_parse_cno_neg arg base h]
  exact ⟨rfl, rfl⟩

/-- Witness of C4: the input `-5` returns `NILFS_CNO_MAX`, where `strtoull`
alone would give the wrapped value `2 ^ 64 - 5`. -/
theorem parse_cno_negative_witness :
    (['-', '5'].dropWhile isspace).head? = some '-' ∧
      ((nilfs_parse_cno ['-', '5'] 10).value = NILFS_CNO_MAX ∧ NILFS_CNO_MAX = 2 ^ 64 - 1) ∧
      (strtoull ['-', '5'] 10).value = 2 ^ 64 - 5 :=
  ⟨by decide, parse_cno_negative ['-', '5'] 10 (by decide), by decide⟩

/-! ## Layout calculator -/

theorem ceilDiv_spec (n m : Nat) (hm : 0 < m) :
    n ≤ ceilDiv n m * m ∧ ∀ q, n ≤ q * m → ceilDiv n m ≤ q := by
  unfold ceilDiv
  constructor
  · have h1 := Nat.div_add_mod (n + m - 1) m
    have h2 := Nat.mod_lt (n + m - 1) hm
    have h3 : m * ((n + m - 1) / m) = (n + m - 1) / m * m := Nat.mul_comm _ _
    omega
  · intro q hq
    have : n + m - 1 < (q + 1) * m := by
      have : (q + 1) * m = q * m + m := by ring
      omega
    exact Nat.lt_succ_iff.1 ((Nat.div_lt_iff_lt_mul hm).2 this)

theorem my_log2_loop_spec : ∀ (fuel : Nat) (i n : Int), 1 ≤ i → i < 2 ^ fuel →
    ∃ k : Nat, my_log2_loop fuel i n = n + k ∧ (2 : Int) ^ k ≤ i ∧ i < 2 ^ (k + 1) := by
  intro fuel
  induction fuel with
  | zero => intro i n h1 h2; simp at h2; omega
  | succ f ih =>
    intro i n h1 h2
    unfold my_log2_loop
    by_cases hi : i > 1
    · have hlt : i / 2 < 2 ^ f := by
        rw [pow_succ] at h2
        omega
      obtain ⟨k, hk, hlo, hhi⟩ := ih (i / 2) (n + 1) (by omega) hlt
      refine ⟨k + 1, ?_, ?_, ?_⟩
      · simp only [hi, if_true, hk]
        push_cast
        ring
      · rw [pow_succ]; omega
      · rw [pow_succ] at hhi ⊢
        rw [pow_succ]
        omega
    · refine ⟨0, ?_, ?_, ?_⟩
      · simp [hi]
      · simpa using h1
      · simp; omega

theorem my_log2_spec (i : Int) (h1 : 1 ≤ i) (h2 : i < 2 ^ 63) :
    ∃ k : Nat, my_log2 i = k ∧ (2 : Int) ^ k ≤ i ∧ i < 2 ^ (k + 1) := by
  obtain ⟨k, hk, hlo, hhi⟩ := my_log2_loop_spec 64 i 0 h1 (by omega)
  exact ⟨k, by simpa [my_log2] using hk, hlo, hhi⟩

theorem my_log2_pow (k : Nat) (hk : k ≤ 62) : my_log2 (2 ^ k) = k := by
  have hlt : (2 : Int) ^ k < 2 ^ 63 := pow_lt_pow_right₀ (by norm_num) (by omega)
  obtain ⟨j, hj, hlo, hhi⟩ := my_log2_spec (2 ^ k) (by have := pow_pos (by norm_num : (0 : Int) < 2) k; omega) hlt
  have h1 : j ≤ k := (pow_le_pow_iff_right₀ (by norm_num : (1 : Int) < 2)).1 hlo
  have h2 : k < j + 1 := (pow_lt_pow_iff_right₀ (by norm_num : (1 : Int) < 2)).1 hhi
  rw [hj]
  congr 1
  omega

theorem first_segblk_eq (H : Nat) (b : Int) (hH : 1 ≤ H) (hH2 : H < 2 ^ 63) (hb : 0 < b) :
    toU64 (ROUNDUP_DIV H b) = ceilDiv H b.toNat ∧ ceilDiv H b.toNat ≤ H := by
  obtain ⟨bn, rfl⟩ : ∃ bn : Nat, b = (bn : Int) := ⟨b.toNat, by omega⟩
  have hbn : 0 < bn := by omega
  have hc : ceilDiv H bn = (H - 1) / bn + 1 := by
    unfold ceilDiv
    rw [show H + bn - 1 = (H - 1) + bn by omega, Nat.add_div_right _ hbn]
  have hle : (H - 1) / bn ≤ H - 1 := Nat.div_le_self _ _
  have hcast : Int.tdiv ((H : Int) - 1) (bn : Int) = (((H - 1) / bn : Nat) : Int) := by
    rw [Int.tdiv_eq_ediv (by omega) (by omega), show (H : Int) - 1 = ((H - 1 : Nat) : Int) by omega]
    norm_cast
  simp only [Int.toNat_ofNat, hc]
  refine ⟨?_, by omega⟩
  unfold toU64 ROUNDUP_DIV
  rw [hcast]
  omega


theorem init_disk_layout_segment (c : Consts) (di : nilfs_disk_info) (dev_size : Nat)
    (nilfs_time rnd : Int) (opts : mkfs_options)
    (hb : 0 < opts.blocksize) (hH : 1 ≤ c.NILFS_DISKHDR_SIZE)
    (hH2 : c.NILFS_DISKHDR_SIZE < 2 ^ 31) (hP : c.NILFS_PSEG_MIN_BLOCKS < 2 ^ 31) :
    (init_disk_layout c di dev_size nilfs_time rnd opts).di.first_segment_block =
        ceilDiv c.NILFS_DISKHDR_SIZE opts.blocksize.toNat ∧
    (init_disk_layout c di dev_size nilfs_time rnd opts).di.blkbits = my_log2 opts.blocksize ∧
    (ceilDiv c.NILFS_DISKHDR_SIZE opts.blocksize.toNat + c.NILFS_PSEG_MIN_BLOCKS >
        toU64 opts.blocks_per_segment →
      (init_disk_layout c di dev_size nilfs_time rnd opts).fatal =
        some (.too_small_segment (toU64 opts.blocks_per_segment)
          (ceilDiv c.NILFS_DISKHDR_SIZE opts.blocksize.toNat + c.NILFS_PSEG_MIN_BLOCKS))) ∧
    (¬ ceilDiv c.NILFS_DISKHDR_SIZE opts.blocksize.toNat + c.NILFS_PSEG_MIN_BLOCKS >
        toU64 opts.blocks_per_segment →
      (∀ x y, (init_disk_layout c di dev_size nilfs_time rnd opts).fatal ≠
        some (.too_small_segment x y)) ∧
      0 < toU64 opts.blocks_per_segment ∧
      (init_disk_layout c di dev_size nilfs_time rnd opts).di.nsegments =
        (dev_size % 2 ^ 64) / 2 ^ (my_log2 opts.blocksize).toNat /
          toU64 opts.blocks_per_segment) := by
  obtain ⟨hF, hFle⟩ := first_segblk_eq c.NILFS_DISKHDR_SIZE opts.blocksize hH (by omega) hb
  have hmod : (ceilDiv c.NILFS_DISKHDR_SIZE opts.blocksize.toNat + c.NILFS_PSEG_MIN_BLOCKS) %
      2 ^ 64 = ceilDiv c.NILFS_DISKHDR_SIZE opts.blocksize.toNat + c.NILFS_PSEG_MIN_BLOCKS :=
    Nat.mod_eq_of_lt (by omega)
  have hFpos : 0 < ceilDiv c.NILFS_DISKHDR_SIZE opts.blocksize.toNat := by
    have := (ceilDiv_spec c.NILFS_DISKHDR_SIZE opts.blocksize.toNat (by omega)).1
    by_contra h0
    have h00 : ceilDiv c.NILFS_DISKHDR_SIZE opts.blocksize.toNat = 0 := by omega
    rw [h00] at this
    omega
  unfold init_disk_layout
  simp only [hb.ne', if_false, hF, hmod]
  by_cases hseg : ceilDiv c.NILFS_DISKHDR_SIZE opts.blocksize.toNat + c.NILFS_PSEG_MIN_BLOCKS >
      toU64 opts.blocks_per_segment
  · simp [hseg]
  · have hbps : ¬ (toU64 opts.blocks_per_segment = 0) := by omega
    simp only [hseg, if_false, hbps]
    refine ⟨?_, ?_, fun h => h.elim, fun _ => ⟨?_, by omega, ?_⟩⟩
    · split_ifs <;> rfl
    · split_ifs <;> rfl
    · intro x y
      split_ifs <;> simp
    · split_ifs <;> simp [Nat.shiftRight_eq_div_pow]


theorem max_t_eq (x y : Nat) (hx : x < 2 ^ 64) (hy : y < 2 ^ 64) : max_t x y = max x y := by
  unfold max_t
  rw [Nat.mod_eq_of_lt hx, Nat.mod_eq_of_lt hy]
  split_ifs <;> omega

theorem min_nsegments_eq (c : Consts) (di : nilfs_disk_info) (rp : Int)
    (hr1 : 1 ≤ rp) (hr2 : rp ≤ 99) (hN : 1 ≤ di.nsegments) (hNb : 99 * di.nsegments < 2 ^ 64)
    (hR : c.NILFS_MIN_NRSVSEGS < 2 ^ 31) (hU : c.NILFS_MIN_NUSERSEGS < 2 ^ 31) :
    nilfs_min_nsegments c di rp = reservationBound c rp.toNat di.nsegments := by
  obtain ⟨r, rfl⟩ : ∃ r : Nat, rp = (r : Int) := ⟨rp.toNat, by omega⟩
  have hr : toU64 (r : Int) = r := by unfold toU64; omega
  have hP1 : 1 ≤ r * di.nsegments := Nat.mul_pos (by omega) hN
  have hP2 : r * di.nsegments ≤ 99 * di.nsegments := Nat.mul_le_mul_right _ (by omega)
  unfold nilfs_min_nsegments reservationBound ceilDiv nr_initial_segments
  simp only [hr, Int.toNat_ofNat]
  generalize r * di.nsegments = P at *
  have h1 : ((P % 2 ^ 64 + 2 ^ 64 - 1) % 2 ^ 64 / 100 + 1) % 2 ^ 64 = (P + 100 - 1) / 100 := by
    omega
  rw [h1, max_t_eq _ _ (by omega) (by omega), max_t_eq _ _ (by omega) (by omega)]
  omega

theorem nsegments_small (c : Consts) (dev_size : Nat) (b : Int) (bps : Nat)
    (hb : 0 < b) (hb2 : b < 2 ^ 63) (hH : 256 ≤ c.NILFS_DISKHDR_SIZE)
    (hseg : ceilDiv c.NILFS_DISKHDR_SIZE b.toNat + c.NILFS_PSEG_MIN_BLOCKS ≤ bps) :
    99 * ((dev_size % 2 ^ 64) / 2 ^ (my_log2 b).toNat / bps) < 2 ^ 64 := by
  obtain ⟨k, hk, hlo, hhi⟩ := my_log2_spec b (by omega) hb2
  obtain ⟨bn, rfl⟩ : ∃ bn : Nat, b = (bn : Int) := ⟨b.toNat, by omega⟩
  have hhi' : bn < 2 ^ (k + 1) := by exact_mod_cast hhi
  rw [hk]
  simp only [Int.toNat_ofNat] at hseg ⊢
  have hF := (ceilDiv_spec c.NILFS_DISKHDR_SIZE bn (by omega)).1
  have h1 : ceilDiv c.NILFS_DISKHDR_SIZE bn * bn ≤ bps * bn :=
    Nat.mul_le_mul_right _ (by omega)
  have h2 : bps * bn ≤ bps * 2 ^ (k + 1) := Nat.mul_le_mul_left _ (by omega)
  rw [pow_succ] at h2
  rw [Nat.div_div_eq_div_mul]
  have hD : dev_size % 2 ^ 64 < 2 ^ 64 := Nat.mod_lt _ (by norm_num)
  generalize dev_size % 2 ^ 64 = D at *
  have hM : 128 ≤ 2 ^ k * bps := by
    have : bps * (2 ^ k * 2) = 2 * (2 ^ k * bps) := by ring
    omega
  have h3 : D / (2 ^ k * bps) * (2 ^ k * bps) ≤ D := Nat.div_mul_le_self _ _
  have h4 : D / (2 ^ k * bps) * 128 ≤ D / (2 ^ k * bps) * (2 ^ k * bps) :=
    Nat.mul_le_mul_left _ hM
  omega

theorem init_disk_layout_device (c : Consts) (di : nilfs_disk_info) (dev_size : Nat)
    (nilfs_time rnd : Int) (opts : mkfs_options)
    (hb : 0 < opts.blocksize) (hH : 1 ≤ c.NILFS_DISKHDR_SIZE)
    (hH2 : c.NILFS_DISKHDR_SIZE < 2 ^ 31) (hP : c.NILFS_PSEG_MIN_BLOCKS < 2 ^ 31)
    (hseg : ceilDiv c.NILFS_DISKHDR_SIZE opts.blocksize.toNat + c.NILFS_PSEG_MIN_BLOCKS ≤
      toU64 opts.blocks_per_segment) :
    ((∃ x y, (init_disk_layout c di dev_size nilfs_time rnd opts).fatal =
        some (.too_small_device x y)) ↔
      (init_disk_layout c di dev_size nilfs_time rnd opts).di.nsegments <
        nilfs_min_nsegments c (init_disk_layout c di dev_size nilfs_time rnd opts).di
          opts.r_segments_percentage) ∧
    ((init_disk_layout c di dev_size nilfs_time rnd opts).fatal = none →
      nilfs_min_nsegments c (init_disk_layout c di dev_size nilfs_time rnd opts).di
          opts.r_segments_percentage ≤
        (init_disk_layout c di dev_size nilfs_time rnd opts).di.nsegments) := by
  obtain ⟨hF, hFle⟩ := first_segblk_eq c.NILFS_DISKHDR_SIZE opts.blocksize hH (by omega) hb
  have hmod : (ceilDiv c.NILFS_DISKHDR_SIZE opts.blocksize.toNat + c.NILFS_PSEG_MIN_BLOCKS) %
      2 ^ 64 = ceilDiv c.NILFS_DISKHDR_SIZE opts.blocksize.toNat + c.NILFS_PSEG_MIN_BLOCKS :=
    Nat.mod_eq_of_lt (by omega)
  have hFpos : 0 < ceilDiv c.NILFS_DISKHDR_SIZE opts.blocksize.toNat := by
    have := (ceilDiv_spec c.NILFS_DISKHDR_SIZE opts.blocksize.toNat (by omega)).1
    by_contra h0
    have h00 : ceilDiv c.NILFS_DISKHDR_SIZE opts.blocksize.toNat = 0 := by omega
    rw [h00] at this
    omega
  have hseg' : ¬ ceilDiv c.NILFS_DISKHDR_SIZE opts.blocksize.toNat + c.NILFS_PSEG_MIN_BLOCKS >
      toU64 opts.blocks_per_segment := by omega
  have hbps : ¬ (toU64 opts.blocks_per_segment = 0) := by omega
  have hmin : ∀ d1 d2 : nilfs_disk_info, d1.nsegments = d2.nsegments →
      nilfs_min_nsegments c d1 opts.r_segments_percentage =
        nilfs_min_nsegments c d2 opts.r_segments_percentage := by
    intro d1 d2 h
    unfold nilfs_min_nsegments
    rw [h]
  unfold init_disk_layout
  simp only [hb.ne', if_false, hF, hmod, hseg', hbps]
  split_ifs with h1 h2
  · exact ⟨⟨fun _ => h1, fun _ => ⟨_, _, rfl⟩⟩, fun h => by simp at h⟩
  · refine ⟨⟨fun ⟨x, y, h⟩ => by simp at h, fun h => absurd ?_ h1⟩, fun h => by simp at h⟩
    rw [hmin _ _ rfl] at h
    exact h
  · refine ⟨⟨fun ⟨x, y, h⟩ => by simp at h, fun h => absurd ?_ h1⟩, fun _ => ?_⟩
    · rw [hmin _ _ rfl] at h
      exact h
    · rw [hmin _ _ rfl]
      exact Nat.le_of_not_lt h1


theorem land_pred_eq_zero_iff (n : Nat) (hn : 1 ≤ n) :
    (n - 1) &&& n = 0 ↔ ∃ k : Nat, n = 2 ^ k := by
  constructor
  · intro h
    refine ⟨Nat.log 2 n, ?_⟩
    have hlo := Nat.pow_log_le_self 2 (x := n) (by omega)
    have hhi := Nat.lt_pow_succ_log_self (b := 2) (by norm_num) n
    generalize Nat.log 2 n = k at *
    by_contra hne
    rw [Nat.pow_succ] at hhi
    have h1 : n = 2 ^ k + (n - 2 ^ k) := by omega
    have h2 : n - 1 = 2 ^ k + (n - 1 - 2 ^ k) := by omega
    have t1 : n.testBit k = true := by
      rw [h1, Nat.testBit_two_pow_add_eq, Nat.testBit_lt_two_pow (by omega)]
      rfl
    have t2 : (n - 1).testBit k = true := by
      rw [h2, Nat.testBit_two_pow_add_eq, Nat.testBit_lt_two_pow (by omega)]
      rfl
    have t3 : ((n - 1) &&& n).testBit k = true := by
      rw [Nat.testBit_land, t1, t2]
      rfl
    rw [h] at t3
    simp at t3
  · rintro ⟨k, rfl⟩
    rw [Nat.land_comm, Nat.and_pow_two_sub_one_eq_mod, Nat.mod_self]

theorem int_land_pred_eq_zero_iff (b : Int) (hb : 1 ≤ b) :
    Int.land (b - 1) b = 0 ↔ ∃ k : Nat, b = 2 ^ k := by
  obtain ⟨n, rfl⟩ : ∃ n : Nat, b = (n : Int) := ⟨b.toNat, by omega⟩
  have hn : 1 ≤ n := by omega
  have h1 : (n : Int) - 1 = ((n - 1 : Nat) : Int) := by omega
  have h2 : Int.land ((n - 1 : Nat) : Int) (n : Int) = (((n - 1) &&& n : Nat) : Int) := rfl
  rw [h1, h2]
  constructor
  · intro h
    obtain ⟨k, hk⟩ := (land_pred_eq_zero_iff n hn).1 (by exact_mod_cast h)
    exact ⟨k, by exact_mod_cast hk⟩
  · rintro ⟨k, hk⟩
    have := (land_pred_eq_zero_iff n hn).2 ⟨k, by exact_mod_cast hk⟩
    exact_mod_cast this

theorem check_blocksize_spec (c : Consts) (pagesize b : Int) (hmin : 1 ≤ c.NILFS_MIN_BLOCKSIZE) :
    (check_blocksize c pagesize b = none ↔
      (∃ k : Nat, b = 2 ^ k) ∧ (c.NILFS_MIN_BLOCKSIZE : Int) ≤ b ∧ b ≤ pagesize) ∧
    (check_blocksize c pagesize b ≠ none →
      check_blocksize c pagesize b = some (.invalid_blocksize b)) := by
  unfold check_blocksize
  by_cases h1 : b > pagesize
  · simp only [h1, if_true]
    exact ⟨⟨fun h => by simp at h, fun h => absurd h.2.2 (by omega)⟩, fun _ => trivial⟩
  · by_cases h2 : b < c.NILFS_MIN_BLOCKSIZE
    · simp only [h1, h2, if_true, if_false]
      exact ⟨⟨fun h => by simp at h, fun h => absurd h.2.1 (by omega)⟩, fun _ => trivial⟩
    · have hb : 1 ≤ b := by omega
      have hl := int_land_pred_eq_zero_iff b hb
      by_cases h3 : Int.land (b - 1) b = 0
      · simp only [h1, h2, h3, if_false, ne_eq, not_true_eq_false]
        exact ⟨⟨fun _ => ⟨hl.1 h3, by omega, by omega⟩, fun _ => trivial⟩, fun h => h.elim⟩
      · simp only [h1, h2, h3, if_false, if_true, ne_eq, not_false_eq_true]
        exact ⟨⟨fun h => by simp at h, fun h => absurd (hl.2 h.1) h3⟩, fun _ => trivial⟩


/-! ## The layout calculator and the superblock -/

/-- C6 (amended): for every block size `b = 2 ^ k`, every blocks-per-segment
count `Bps ≥ 1` and every device size `D`, `init_disk_layout` sets
`blkbits = my_log2(b) = k`, so that `2 ^ blkbits = b`; when the segment-size
check passes (`ceil(NILFS_DISKHDR_SIZE / b) + NILFS_PSEG_MIN_BLOCKS ≤ Bps`) it
computes `nsegments = floor(floor(D / b) / Bps)`; and `prepare_super_block`
then stores `s_log_block_size = blkbits - 10`. -/
theorem init_disk_layout_blkbits_nsegments (c : Consts) (di : nilfs_disk_info)
    (dev_size : Nat) (nilfs_time rnd : Int) (opts : mkfs_options) (k : Nat)
    (hk : k ≤ 62) (hb : opts.blocksize = 2 ^ k)
    (hbps1 : 1 ≤ opts.blocks_per_segment) (hbps2 : opts.blocks_per_segment < 2 ^ 63)
    (hD : dev_size < 2 ^ 64)
    (hH : 1 ≤ c.NILFS_DISKHDR_SIZE) (hH2 : c.NILFS_DISKHDR_SIZE < 2 ^ 31)
    (hP : c.NILFS_PSEG_MIN_BLOCKS < 2 ^ 31) :
    (init_disk_layout c di dev_size nilfs_time rnd opts).di.blkbits = my_log2 opts.blocksize ∧
    my_log2 opts.blocksize = k ∧
    (2 : Int) ^ ((init_disk_layout c di dev_size nilfs_time rnd opts).di.blkbits).toNat =
      opts.blocksize ∧
    (ceilDiv c.NILFS_DISKHDR_SIZE (2 ^ k) + c.NILFS_PSEG_MIN_BLOCKS ≤
        opts.blocks_per_segment.toNat →
      (init_disk_layout c di dev_size nilfs_time rnd opts).di.nsegments =
        dev_size / 2 ^ k / opts.blocks_per_segment.toNat) ∧
    (c.sizeof_nilfs_super_block ≤ 2 ^ k → ∀ uuid, ∃ sb,
      prepare_super_block c opts.blocksize uuid
        (init_disk_layout c di dev_size nilfs_time rnd opts).di opts = .ok sb ∧
      sb.s_log_block_size = toU32 ((k : Int) - 10)) := by
  have hpos : 0 < opts.blocksize := by rw [hb]; positivity
  have hlog : my_log2 opts.blocksize = k := by rw [hb]; exact my_log2_pow k hk
  have hbn : opts.blocksize.toNat = 2 ^ k := by
    rw [hb]
    have : ((2 : Int) ^ k) = ((2 ^ k : Nat) : Int) := by push_cast; rfl
    rw [this, Int.toNat_ofNat]
  have hu : toU64 opts.blocks_per_segment = opts.blocks_per_segment.toNat := by
    unfold toU64; omega
  have hub : toU64 opts.blocksize = 2 ^ k := by
    have : opts.blocksize < 2 ^ 63 := by
      rw [hb]; exact pow_lt_pow_right₀ (by norm_num) (by omega)
    rw [← hbn]; unfold toU64; omega
  obtain ⟨h1, h2, _, h4⟩ := init_disk_layout_segment c di dev_size nilfs_time rnd opts hpos hH hH2 hP
  rw [hbn, hu] at h4
  refine ⟨h2, hlog, ?_, fun hseg => ?_, fun hsz uuid => ?_⟩
  · rw [h2, hlog, Int.toNat_ofNat, hb]
  · have := (h4 (by omega)).2.2
    rw [this, hlog, Int.toNat_ofNat, Nat.mod_eq_of_lt hD]
  · have hsz' : ¬ c.sizeof_nilfs_super_block > toU64 opts.blocksize := by rw [hub]; omega
    unfold prepare_super_block
    simp only [hsz', if_false]
    exact ⟨_, rfl, by simp only [h2, hlog]⟩

/-- Witness of C6 (amended): with the header constants of nilfs-utils,
`b = 4096`, `Bps = 2048` and `D` = 256 MiB give `blkbits = 12`, 32 segments and
`s_log_block_size = 2`. -/
theorem init_disk_layout_blkbits_nsegments_witness :
    (init_disk_layout releaseConsts sampleDiskInfo (2 ^ 28) 0 0 sampleOptions).di.blkbits = 12 ∧
    (init_disk_layout releaseConsts sampleDiskInfo (2 ^ 28) 0 0 sampleOptions).di.nsegments =
      32 ∧
    ∃ sb, prepare_super_block releaseConsts 4096 (List.replicate 16 0)
        (init_disk_layout releaseConsts sampleDiskInfo (2 ^ 28) 0 0 sampleOptions).di
        sampleOptions = .ok sb ∧ sb.s_log_block_size = 2 := by
  have h := init_disk_layout_blkbits_nsegments releaseConsts sampleDiskInfo (2 ^ 28) 0 0
    sampleOptions 12 (by decide) (by decide) (by decide) (by decide) (by decide) (by decide)
    (by decide) (by decide)
  refine ⟨h.1.trans h.2.1, (h.2.2.2.1 (by decide)).trans (by decide), ?_⟩
  obtain ⟨sb, h1, h2⟩ := h.2.2.2.2 (by decide) (List.replicate 16 0)
  exact ⟨sb, h1, h2.trans (by decide)⟩

/-- C6 as stated fails: with `b = 4096` and `Bps = 1` (header constants of
nilfs-utils, `D` = 256 MiB) `init_disk_layout` ends in the too-small-segment
error before the segment count is computed: `nsegments` still holds what it
held on entry, not `floor(floor(D / b) / Bps) = 65536`. -/
theorem init_disk_layout_nsegments_not_computed :
    (4096 : Int) = 2 ^ 12 ∧ (1 : Int) ≤ 1 ∧ 2 ^ 28 / 4096 / 1 = 65536 ∧
    (init_disk_layout releaseConsts sampleDiskInfo (2 ^ 28) 0 0
      { sampleOptions with blocks_per_segment := 1 }).fatal =
        some (.too_small_segment 1 3) ∧
    (init_disk_layout releaseConsts sampleDiskInfo (2 ^ 28) 0 0
      { sampleOptions with blocks_per_segment := 1 }).di.nsegments = sampleDiskInfo.nsegments ∧
    (init_disk_layout releaseConsts sampleDiskInfo (2 ^ 28) 0 0
      { sampleOptions with blocks_per_segment := 1 }).di.nsegments ≠ 2 ^ 28 / 4096 / 1 := by
  decide

/-- C7: for every reservation percentage `r` in 1..99 and every segment count
`N ≥ 1` that `init_disk_layout` computes, `nilfs_min_nsegments` equals
`max(ceil(r * N / 100), NILFS_MIN_NRSVSEGS) +
 max(nr_initial_segments, NILFS_MIN_NUSERSEGS)`; the device is rejected as too
small exactly when `N` is below that bound; so every layout accepted has `N`
at least the bound. The header constants are parameters; they are taken to be
`int` constants and the disk header to be at least 256 bytes. -/
theorem init_disk_layout_reservation (c : Consts) (di : nilfs_disk_info) (dev_size : Nat)
    (nilfs_time rnd : Int) (opts : mkfs_options)
    (hb : 0 < opts.blocksize) (hb2 : opts.blocksize < 2 ^ 63)
    (hr1 : 1 ≤ opts.r_segments_percentage) (hr2 : opts.r_segments_percentage ≤ 99)
    (hH : 256 ≤ c.NILFS_DISKHDR_SIZE) (hH2 : c.NILFS_DISKHDR_SIZE < 2 ^ 31)
    (hP : c.NILFS_PSEG_MIN_BLOCKS < 2 ^ 31)
    (hR : c.NILFS_MIN_NRSVSEGS < 2 ^ 31) (hU : c.NILFS_MIN_NUSERSEGS < 2 ^ 31)
    (hseg : ceilDiv c.NILFS_DISKHDR_SIZE opts.blocksize.toNat + c.NILFS_PSEG_MIN_BLOCKS ≤
      toU64 opts.blocks_per_segment)
    (hN : 1 ≤ (init_disk_layout c di dev_size nilfs_time rnd opts).di.nsegments) :
    nilfs_min_nsegments c (init_disk_layout c di dev_size nilfs_time rnd opts).di
        opts.r_segments_percentage =
      reservationBound c opts.r_segments_percentage.toNat
        (init_disk_layout c di dev_size nilfs_time rnd opts).di.nsegments ∧
    ((∃ x y, (init_disk_layout c di dev_size nilfs_time rnd opts).fatal =
        some (.too_small_device x y)) ↔
      (init_disk_layout c di dev_size nilfs_time rnd opts).di.nsegments <
        reservationBound c opts.r_segments_percentage.toNat
          (init_disk_layout c di dev_size nilfs_time rnd opts).di.nsegments) ∧
    ((init_disk_layout c di dev_size nilfs_time rnd opts).fatal = none →
      reservationBound c opts.r_segments_percentage.toNat
          (init_disk_layout c di dev_size nilfs_time rnd opts).di.nsegments ≤
        (init_disk_layout c di dev_size nilfs_time rnd opts).di.nsegments) := by
  obtain ⟨_, _, _, h4⟩ :=
    init_disk_layout_segment c di dev_size nilfs_time rnd opts hb (by omega) hH2 hP
  have hns := (h4 (by omega)).2.2
  have hsmall := nsegments_small c dev_size opts.blocksize (toU64 opts.blocks_per_segment)
    hb hb2 hH hseg
  rw [← hns] at hsmall
  have heq := min_nsegments_eq c (init_disk_layout c di dev_size nilfs_time rnd opts).di
    opts.r_segments_percentage hr1 hr2 hN hsmall hR hU
  have hdev := init_disk_layout_device c di dev_size nilfs_time rnd opts hb (by omega) hH2 hP hseg
  rw [heq] at hdev
  exact ⟨heq, hdev.1, hdev.2⟩

/-- Witness of C7: the layout of `mkfs -b 4096 -B 2048 -m 5` on 256 MiB, with
the header constants of nilfs-utils. -/
theorem init_disk_layout_reservation_witness :
    reservationBound releaseConsts 5 32 = 16 ∧
    nilfs_min_nsegments releaseConsts
        (init_disk_layout releaseConsts sampleDiskInfo (2 ^ 28) 0 0 sampleOptions).di
        sampleOptions.r_segments_percentage =
      reservationBound releaseConsts sampleOptions.r_segments_percentage.toNat
        (init_disk_layout releaseConsts sampleDiskInfo (2 ^ 28) 0 0 sampleOptions).di.nsegments :=
  ⟨by decide,
   (init_disk_layout_reservation releaseConsts sampleDiskInfo (2 ^ 28) 0 0 sampleOptions
    (by decide) (by decide) (by decide) (by decide) (by decide) (by decide) (by decide)
    (by decide) (by decide) (by decide) (by decide)).1⟩

/-- C8: `init_disk_layout` sets `first_segment_block` to
`F = ceil(NILFS_DISKHDR_SIZE / blocksize)` and ends in the too-small-segment
error if and only if `F + NILFS_PSEG_MIN_BLOCKS > blocks_per_segment`, with
`F + NILFS_PSEG_MIN_BLOCKS` reported as the required size; the test comes
before the device-size test, so the device size has no part in it. -/
theorem init_disk_layout_segment_check (c : Consts) (di : nilfs_disk_info) (dev_size : Nat)
    (nilfs_time rnd : Int) (opts : mkfs_options)
    (hb : 0 < opts.blocksize) (hH : 1 ≤ c.NILFS_DISKHDR_SIZE)
    (hH2 : c.NILFS_DISKHDR_SIZE < 2 ^ 31) (hP : c.NILFS_PSEG_MIN_BLOCKS < 2 ^ 31) :
    (init_disk_layout c di dev_size nilfs_time rnd opts).di.first_segment_block =
        ceilDiv c.NILFS_DISKHDR_SIZE opts.blocksize.toNat ∧
    ((∃ x y, (init_disk_layout c di dev_size nilfs_time rnd opts).fatal =
        some (.too_small_segment x y)) ↔
      ceilDiv c.NILFS_DISKHDR_SIZE opts.blocksize.toNat + c.NILFS_PSEG_MIN_BLOCKS >
        toU64 opts.blocks_per_segment) ∧
    (ceilDiv c.NILFS_DISKHDR_SIZE opts.blocksize.toNat + c.NILFS_PSEG_MIN_BLOCKS >
        toU64 opts.blocks_per_segment →
      (init_disk_layout c di dev_size nilfs_time rnd opts).fatal =
        some (.too_small_segment (toU64 opts.blocks_per_segment)
          (ceilDiv c.NILFS_DISKHDR_SIZE opts.blocksize.toNat + c.NILFS_PSEG_MIN_BLOCKS))) := by
  obtain ⟨h1, _, h3, h4⟩ :=
    init_disk_layout_segment c di dev_size nilfs_time rnd opts hb hH hH2 hP
  refine ⟨h1, ⟨fun ⟨x, y, hxy⟩ => ?_, fun h => ⟨_, _, h3 h⟩⟩, h3⟩
  by_contra hcon
  exact (h4 hcon).1 x y hxy

/-- Witness of C8: `b = 4096` and `Bps = 1` with the header constants of
nilfs-utils: `F = 1` and the segment is refused with 3 blocks required, on a
device that is large enough. -/
theorem init_disk_layout_segment_check_witness :
    ceilDiv releaseConsts.NILFS_DISKHDR_SIZE (4096 : Int).toNat = 1 ∧
    (init_disk_layout releaseConsts sampleDiskInfo (2 ^ 28) 0 0
      { sampleOptions with blocks_per_segment := 1 }).di.first_segment_block =
        ceilDiv releaseConsts.NILFS_DISKHDR_SIZE (4096 : Int).toNat ∧
    (init_disk_layout releaseConsts sampleDiskInfo (2 ^ 28) 0 0
      { sampleOptions with blocks_per_segment := 1 }).fatal = some (.too_small_segment 1 3) := by
  have h := init_disk_layout_segment_check releaseConsts sampleDiskInfo (2 ^ 28) 0 0
    { sampleOptions with blocks_per_segment := 1 } (by decide) (by decide) (by decide) (by decide)
  exact ⟨by decide, h.1, (h.2.2 (by decide)).trans (by decide)⟩

/-- C9: `check_blocksize` accepts a block size `b` if and only if `b` is a
power of two with `NILFS_MIN_BLOCKSIZE ≤ b ≤ page size`; every other value is
refused with the invalid-blocksize error. The minimum is a parameter, taken
to be at least 1. -/
theorem check_blocksize_accepts_iff (c : Consts) (pagesize b : Int)
    (hmin : 1 ≤ c.NILFS_MIN_BLOCKSIZE) :
    (check_blocksize c pagesize b = none ↔
      (∃ k : Nat, b = 2 ^ k) ∧ (c.NILFS_MIN_BLOCKSIZE : Int) ≤ b ∧ b ≤ pagesize) ∧
    (check_blocksize c pagesize b ≠ none →
      check_blocksize c pagesize b = some (.invalid_blocksize b)) :=
  check_blocksize_spec c pagesize b hmin

/-- Witness of C9: with a minimum of 1024 and 4096-byte pages, 2048 is
accepted; 0, -4096, 3000, 512 and 8192 are refused. -/
theorem check_blocksize_accepts_iff_witness :
    1 ≤ releaseConsts.NILFS_MIN_BLOCKSIZE ∧
    (check_blocksize releaseConsts 4096 2048 = none ↔
      (∃ k : Nat, (2048 : Int) = 2 ^ k) ∧
        (releaseConsts.NILFS_MIN_BLOCKSIZE : Int) ≤ 2048 ∧ (2048 : Int) ≤ 4096) ∧
    check_blocksize releaseConsts 4096 2048 = none ∧
    check_blocksize releaseConsts 4096 0 = some (.invalid_blocksize 0) ∧
    check_blocksize releaseConsts 4096 (-4096) = some (.invalid_blocksize (-4096)) ∧
    check_blocksize releaseConsts 4096 3000 = some (.invalid_blocksize 3000) ∧
    check_blocksize releaseConsts 4096 512 = some (.invalid_blocksize 512) ∧
    check_blocksize releaseConsts 4096 8192 = some (.invalid_blocksize 8192) :=
  ⟨by decide, (check_blocksize_accepts_iff releaseConsts 4096 2048 (by decide)).1,
   by decide, by decide, by decide, by decide, by decide, by decide⟩

/-- C10: after `prepare_super_block` and `commit_super_block`, the stored
`s_sum` is the CRC32, seeded with the stored `s_crc_seed`, of the first
`NILFS_SB_BYTES` bytes of the superblock with `s_sum` set to zero; this for
every checksum routine, every layout of the structure and every option
combination for which the superblock fits in a block. -/
theorem super_block_checksum (c : Consts) (crc32_le : Nat → List Nat → Nat)
    (sb_bytes : nilfs_super_block → List Nat) (blocksize : Int) (uuid : List Nat)
    (di : nilfs_disk_info) (opts : mkfs_options) (segref : nilfs_segment_ref)
    (hsz : c.sizeof_nilfs_super_block ≤ toU64 blocksize) :
    ∃ sb0, prepare_super_block c blocksize uuid di opts = .ok sb0 ∧
      (commit_super_block c crc32_le sb_bytes sb0 di segref).s_sum =
        crc32_le (commit_super_block c crc32_le sb_bytes sb0 di segref).s_crc_seed
          ((sb_bytes { commit_super_block c crc32_le sb_bytes sb0 di segref with s_sum := 0 }).take
            c.NILFS_SB_BYTES) % 2 ^ 32 := by
  have hsz' : ¬ c.sizeof_nilfs_super_block > toU64 blocksize := by omega
  unfold prepare_super_block
  simp only [hsz', if_false]
  exact ⟨_, rfl, rfl⟩

/-- Witness of C10: the sample options, a byte-sum in place of CRC32 and a
layout that lists four of the fields. -/
theorem super_block_checksum_witness :
    releaseConsts.sizeof_nilfs_super_block ≤ toU64 4096 ∧
    ∃ sb0, prepare_super_block releaseConsts 4096 (List.replicate 16 7) sampleDiskInfo
        sampleOptions = .ok sb0 ∧
      (commit_super_block releaseConsts (fun seed bytes => seed + bytes.sum)
          (fun sb => [sb.s_magic, sb.s_crc_seed, sb.s_sum, sb.s_last_cno]) sb0 sampleDiskInfo
          ⟨0, 1, 63488, 1⟩).s_sum =
        (fun seed bytes => seed + bytes.sum)
          (commit_super_block releaseConsts (fun seed bytes => seed + bytes.sum)
            (fun sb => [sb.s_magic, sb.s_crc_seed, sb.s_sum, sb.s_last_cno]) sb0 sampleDiskInfo
            ⟨0, 1, 63488, 1⟩).s_crc_seed
          (((fun sb => [sb.s_magic, sb.s_crc_seed, sb.s_sum, sb.s_last_cno])
            { commit_super_block releaseConsts (fun seed bytes => seed + bytes.sum)
                (fun sb => [sb.s_magic, sb.s_crc_seed, sb.s_sum, sb.s_last_cno]) sb0
                sampleDiskInfo ⟨0, 1, 63488, 1⟩ with s_sum := 0 }).take
            releaseConsts.NILFS_SB_BYTES) % 2 ^ 32 :=
  ⟨by decide, super_block_checksum releaseConsts (fun seed bytes => seed + bytes.sum)
    (fun sb => [sb.s_magic, sb.s_crc_seed, sb.s_sum, sb.s_last_cno]) 4096 (List.replicate 16 7)
    sampleDiskInfo sampleOptions ⟨0, 1, 63488, 1⟩ (by decide)⟩


/-! ## Blocks to write and free blocks -/

theorem ROUNDUP_DIV_ul_eq (n m : Nat) (hn : 1 ≤ n) (hn2 : n < 2 ^ 64) (hm : 0 < m)
    (hm2 : m < 2 ^ 64) : ROUNDUP_DIV_ul n m = ceilDiv n m := by
  unfold ROUNDUP_DIV_ul ceilDiv
  have h1 : (n % 2 ^ 64 + 2 ^ 64 - 1) % 2 ^ 64 = n - 1 := by omega
  have h2 : m % 2 ^ 64 = m := by omega
  rw [h1, h2, show n + m - 1 = (n - 1) + m by omega, Nat.add_div_right _ hm]
  have : (n - 1) / m ≤ n - 1 := Nat.div_le_self _ _
  generalize (n - 1) / m = q at *
  omega

theorem ceilDiv_le_two (n m : Nat) (hm : 0 < m) (h : n ≤ 2 * m) : ceilDiv n m ≤ 2 := by
  have := (ceilDiv_spec n m hm).2 2 (by omega)
  exact this

theorem ceilDiv_eq_one_iff (n m : Nat) (hn : 1 ≤ n) (hm : 0 < m) :
    ceilDiv n m = 1 ↔ n ≤ m := by
  have hs := ceilDiv_spec n m hm
  constructor
  · intro h
    have := hs.1
    rw [h] at this
    omega
  · intro h
    have h1 := hs.2 1 (by omega)
    have h2 : ceilDiv n m ≠ 0 := by
      intro h0
      have := hs.1
      rw [h0] at this
      omega
    omega

theorem nilfs_min_nsegments_ge (c : Consts) (di : nilfs_disk_info) (rp : Int)
    (hR : c.NILFS_MIN_NRSVSEGS < 2 ^ 31) (hU : c.NILFS_MIN_NUSERSEGS < 2 ^ 31) :
    2 ≤ nilfs_min_nsegments c di rp := by
  unfold nilfs_min_nsegments max_t nr_initial_segments
  dsimp only
  generalize (toU64 rp * di.nsegments) % 2 ^ 64 = prod
  split_ifs <;> omega

/-- What `fix_disk_layout` does to a table of one segment. -/
theorem fix_disk_layout_single (di : nilfs_disk_info) (si : nilfs_segment_info)
    (h1 : di.nseginfo = 1) :
    fix_disk_layout di [si] =
      if (si.nblocks + (si.nblk_sum + 1) % 2 ^ 32) % 2 ^ 32 > di.blocks_per_segment then
        ⟨{ di with nblocks_used := (0 + si.nblocks) % 2 ^ 64,
                   nblocks_to_write := di.first_segment_block },
          [{ si with nblocks_used := ((0 + si.nblocks) % 2 ^ 64) % 2 ^ 32,
                     nblocks := (si.nblocks + (si.nblk_sum + 1) % 2 ^ 32) % 2 ^ 32 }],
          some (.too_small_segment di.blocks_per_segment
            ((si.nblocks + (si.nblk_sum + 1) % 2 ^ 32) % 2 ^ 32))⟩
      else
        ⟨{ di with
            nblocks_used := (0 + si.nblocks) % 2 ^ 64,
            nblocks_to_write :=
              if di.first_segment_block <
                  (si.start + (si.nblocks + (si.nblk_sum + 1) % 2 ^ 32) % 2 ^ 32) % 2 ^ 64 then
                (si.start + (si.nblocks + (si.nblk_sum + 1) % 2 ^ 32) % 2 ^ 32) % 2 ^ 64
              else di.first_segment_block,
            nsegments_to_write :=
              ROUNDUP_DIV_ul
                (if di.first_segment_block <
                    (si.start + (si.nblocks + (si.nblk_sum + 1) % 2 ^ 32) % 2 ^ 32) % 2 ^ 64 then
                  (si.start + (si.nblocks + (si.nblk_sum + 1) % 2 ^ 32) % 2 ^ 32) % 2 ^ 64
                else di.first_segment_block) di.blocks_per_segment % 2 ^ 32 },
          [{ si with nblocks_used := ((0 + si.nblocks) % 2 ^ 64) % 2 ^ 32,
                     nblocks := (si.nblocks + (si.nblk_sum + 1) % 2 ^ 32) % 2 ^ 32,
                     files := assign_file_starts si.files ((si.start + si.nblk_sum) % 2 ^ 64) }],
          none⟩ := by
  unfold fix_disk_layout
  simp only [h1, List.take_succ_cons, List.take_zero, List.drop_succ_cons, List.drop_zero,
    List.drop_nil, List.append_nil, fix_segments, List.nil_append]
  by_cases hlt : (si.nblocks + (si.nblk_sum + 1) % 2 ^ 32) % 2 ^ 32 > di.blocks_per_segment
  · simp only [hlt, if_true]
  · simp only [hlt, if_false]
    split_ifs <;> rfl

theorem init_disk_layout_bps (c : Consts) (di : nilfs_disk_info) (dev_size : Nat)
    (nilfs_time rnd : Int) (opts : mkfs_options) :
    (init_disk_layout c di dev_size nilfs_time rnd opts).di.blocks_per_segment =
      toU64 opts.blocks_per_segment := by
  unfold init_disk_layout
  dsimp only
  split_ifs <;> rfl

/-- What an accepted call of `init_disk_layout` leaves in `*di`. -/
theorem init_disk_layout_accepted (c : Consts) (di : nilfs_disk_info) (dev_size : Nat)
    (nilfs_time rnd : Int) (opts : mkfs_options)
    (hb : 0 < opts.blocksize) (hH : 1 ≤ c.NILFS_DISKHDR_SIZE)
    (hH2 : c.NILFS_DISKHDR_SIZE < 2 ^ 31) (hP : c.NILFS_PSEG_MIN_BLOCKS < 2 ^ 31)
    (hR : c.NILFS_MIN_NRSVSEGS < 2 ^ 31) (hU : c.NILFS_MIN_NUSERSEGS < 2 ^ 31)
    (hacc : (init_disk_layout c di dev_size nilfs_time rnd opts).fatal = none) :
    (init_disk_layout c di dev_size nilfs_time rnd opts).di.first_segment_block =
        ceilDiv c.NILFS_DISKHDR_SIZE opts.blocksize.toNat ∧
    1 ≤ (init_disk_layout c di dev_size nilfs_time rnd opts).di.first_segment_block ∧
    (init_disk_layout c di dev_size nilfs_time rnd opts).di.first_segment_block +
        c.NILFS_PSEG_MIN_BLOCKS ≤
      (init_disk_layout c di dev_size nilfs_time rnd opts).di.blocks_per_segment ∧
    0 < (init_disk_layout c di dev_size nilfs_time rnd opts).di.blocks_per_segment ∧
    (init_disk_layout c di dev_size nilfs_time rnd opts).di.blocks_per_segment < 2 ^ 64 ∧
    2 ≤ (init_disk_layout c di dev_size nilfs_time rnd opts).di.nsegments ∧
    (init_disk_layout c di dev_size nilfs_time rnd opts).di.blocks_per_segment *
        (init_disk_layout c di dev_size nilfs_time rnd opts).di.nsegments < 2 ^ 64 := by
  obtain ⟨hF, -, hrej, hok⟩ :=
    init_disk_layout_segment c di dev_size nilfs_time rnd opts hb hH hH2 hP
  have hbps := init_disk_layout_bps c di dev_size nilfs_time rnd opts
  have hseg : ¬ ceilDiv c.NILFS_DISKHDR_SIZE opts.blocksize.toNat + c.NILFS_PSEG_MIN_BLOCKS >
      toU64 opts.blocks_per_segment := by
    intro h
    rw [hrej h] at hacc
    exact Option.noConfusion hacc
  obtain ⟨-, hpos, hN⟩ := hok hseg
  have hmin := (init_disk_layout_device c di dev_size nilfs_time rnd opts hb hH hH2 hP
    (by omega)).2 hacc
  have h2 := nilfs_min_nsegments_ge c (init_disk_layout c di dev_size nilfs_time rnd opts).di
    opts.r_segments_percentage hR hU
  have hFpos : 0 < ceilDiv c.NILFS_DISKHDR_SIZE opts.blocksize.toNat := by
    have := (ceilDiv_spec c.NILFS_DISKHDR_SIZE opts.blocksize.toNat (by omega)).1
    by_contra h0
    have h00 : ceilDiv c.NILFS_DISKHDR_SIZE opts.blocksize.toNat = 0 := by omega
    rw [h00] at this
    omega
  have hU64 : toU64 opts.blocks_per_segment < 2 ^ 64 := by unfold toU64; omega
  rw [hF, hbps, hN]
  refine ⟨rfl, hFpos, by omega, hpos, hU64, ?_, ?_⟩
  · rw [← hN]; omega
  · have hD : dev_size % 2 ^ 64 / 2 ^ (my_log2 opts.blocksize).toNat < 2 ^ 64 :=
      lt_of_le_of_lt (Nat.div_le_self _ _) (Nat.mod_lt _ (by norm_num))
    have := Nat.mul_div_le (dev_size % 2 ^ 64 / 2 ^ (my_log2 opts.blocksize).toNat)
      (toU64 opts.blocks_per_segment)
    omega

/-- What an accepted call of `fix_disk_layout` on the table of the single
segment that starts at the first segment block leaves in `*di`. -/
theorem fix_disk_layout_accepted (di : nilfs_disk_info) (si : nilfs_segment_info)
    (h1 : di.nseginfo = 1) (hs : si.start = di.first_segment_block)
    (hF : 1 ≤ di.first_segment_block) (hFB : di.first_segment_block ≤ di.blocks_per_segment)
    (hF2 : di.first_segment_block < 2 ^ 63) (hB : di.blocks_per_segment < 2 ^ 64)
    (hacc : (fix_disk_layout di [si]).fatal = none) :
    ∃ n : Nat, n ≤ di.blocks_per_segment ∧
      n = (si.nblocks + (si.nblk_sum + 1) % 2 ^ 32) % 2 ^ 32 ∧
      (fix_disk_layout di [si]).seginfo.map (fun s => (s.start, s.nblocks)) = [(si.start, n)] ∧
      (fix_disk_layout di [si]).di.nblocks_to_write = di.first_segment_block + n ∧
      (fix_disk_layout di [si]).di.nsegments_to_write =
        ceilDiv (di.first_segment_block + n) di.blocks_per_segment ∧
      (fix_disk_layout di [si]).di.blocks_per_segment = di.blocks_per_segment ∧
      (fix_disk_layout di [si]).di.nsegments = di.nsegments ∧
      (fix_disk_layout di [si]).di.first_segment_block = di.first_segment_block := by
  rw [fix_disk_layout_single di si h1] at hacc ⊢
  by_cases hlt : (si.nblocks + (si.nblk_sum + 1) % 2 ^ 32) % 2 ^ 32 > di.blocks_per_segment
  · simp only [hlt, if_true] at hacc
    exact Option.noConfusion hacc
  · simp only [hlt, if_false]
    refine ⟨_, Nat.le_of_not_lt hlt, rfl, rfl, ?_⟩
    have hn32 : (si.nblocks + (si.nblk_sum + 1) % 2 ^ 32) % 2 ^ 32 < 2 ^ 32 :=
      Nat.mod_lt _ (by norm_num)
    generalize (si.nblocks + (si.nblk_sum + 1) % 2 ^ 32) % 2 ^ 32 = n at *
    have hmod : (si.start + n) % 2 ^ 64 = di.first_segment_block + n := by
      rw [hs]; omega
    simp only [hmod]
    have hmax : (if di.first_segment_block < di.first_segment_block + n then
        di.first_segment_block + n else di.first_segment_block) = di.first_segment_block + n := by
      split_ifs <;> omega
    simp only [hmax]
    refine ⟨trivial, ?_, trivial, trivial, trivial⟩
    rw [ROUNDUP_DIV_ul_eq _ _ (by omega) (by omega) (by omega) hB]
    have := ceilDiv_le_two (di.first_segment_block + n) di.blocks_per_segment (by omega)
      (by omega)
    omega

theorem except_bind_ok {ε α β : Type} (x : Except ε α) (f : α → Except ε β) (b : β)
    (h : x >>= f = .ok b) : ∃ a, x = .ok a ∧ f a = .ok b := by
  cases x with
  | error e => exact Except.noConfusion h
  | ok a => exact ⟨a, rfl, h⟩

theorem add_file_start (c : Consts) (blocksize : Int) (si si1 : nilfs_segment_info)
    (ino nblocks : Nat) (dat_flag : Bool)
    (h : add_file c blocksize si ino nblocks dat_flag = .ok si1) : si1.start = si.start := by
  unfold add_file at h
  split_ifs at h
  all_goals first
    | exact Except.noConfusion h
    | (cases h; rfl)

theorem init_disk_layout_nseginfo (c : Consts) (di : nilfs_disk_info) (dev_size : Nat)
    (nilfs_time rnd : Int) (opts : mkfs_options)
    (hacc : (init_disk_layout c di dev_size nilfs_time rnd opts).fatal = none) :
    (init_disk_layout c di dev_size nilfs_time rnd opts).di.nseginfo = 0 := by
  unfold init_disk_layout at hacc ⊢
  dsimp only at hacc ⊢
  split_ifs at hacc ⊢
  all_goals rfl

/-- The segment that `main` lays out starts at the first segment block, and
is the only one of the table. -/
theorem main_add_files_ok (c : Consts) (blocksize : Int) (di di1 : nilfs_disk_info)
    (si1 : nilfs_segment_info) (h0 : di.nseginfo = 0)
    (h : main_add_files c blocksize di = .ok (di1, si1)) :
    di1 = { di with nseginfo := 1 } ∧ si1.start = di.first_segment_block := by
  unfold main_add_files at h
  obtain ⟨⟨d, s0⟩, hn, h⟩ := except_bind_ok _ _ _ h
  obtain ⟨s1, e1, h⟩ := except_bind_ok _ _ _ h
  obtain ⟨s2, e2, h⟩ := except_bind_ok _ _ _ h
  obtain ⟨s3, e3, h⟩ := except_bind_ok _ _ _ h
  obtain ⟨n4, -, h⟩ := except_bind_ok _ _ _ h
  obtain ⟨s4, e4, h⟩ := except_bind_ok _ _ _ h
  obtain ⟨s5, e5, h⟩ := except_bind_ok _ _ _ h
  obtain ⟨s6, e6, h⟩ := except_bind_ok _ _ _ h
  obtain ⟨n7, -, h⟩ := except_bind_ok _ _ _ h
  obtain ⟨s7, e7, h⟩ := except_bind_ok _ _ _ h
  have hp : (d, s7) = (di1, si1) := by
    have : (pure (d, s7) : Except Fatal (nilfs_disk_info × nilfs_segment_info)) =
        .ok (di1, si1) := h
    exact Except.ok.inj this
  obtain ⟨rfl, rfl⟩ := Prod.mk.inj hp
  unfold new_segment at hn
  simp only [h0, ne_eq, not_true_eq_false, if_false] at hn
  obtain ⟨rfl, rfl⟩ := Prod.mk.inj (Except.ok.inj hn)
  refine ⟨rfl, ?_⟩
  rw [add_file_start _ _ _ _ _ _ _ e7, add_file_start _ _ _ _ _ _ _ e6,
    add_file_start _ _ _ _ _ _ _ e5, add_file_start _ _ _ _ _ _ _ e4,
    add_file_start _ _ _ _ _ _ _ e3, add_file_start _ _ _ _ _ _ _ e2,
    add_file_start _ _ _ _ _ _ _ e1]

/-- The layout that `main` accepts: what `init_disk_layout` and
`fix_disk_layout` have established when both return. -/
theorem main_layout_ok (c : Consts) (di0 : nilfs_disk_info) (dev_size : Nat)
    (nilfs_time rnd : Int) (opts : mkfs_options) (di : nilfs_disk_info)
    (si : nilfs_segment_info)
    (hb : 0 < opts.blocksize) (hH : 1 ≤ c.NILFS_DISKHDR_SIZE)
    (hH2 : c.NILFS_DISKHDR_SIZE < 2 ^ 31) (hP : c.NILFS_PSEG_MIN_BLOCKS < 2 ^ 31)
    (hR : c.NILFS_MIN_NRSVSEGS < 2 ^ 31) (hU : c.NILFS_MIN_NUSERSEGS < 2 ^ 31)
    (h : main_layout c di0 dev_size nilfs_time rnd opts = .ok (di, si)) :
    di.first_segment_block = ceilDiv c.NILFS_DISKHDR_SIZE opts.blocksize.toNat ∧
    si.start = di.first_segment_block ∧
    1 ≤ di.first_segment_block ∧
    di.first_segment_block + c.NILFS_PSEG_MIN_BLOCKS ≤ di.blocks_per_segment ∧
    si.nblocks ≤ di.blocks_per_segment ∧
    di.blocks_per_segment < 2 ^ 64 ∧
    2 ≤ di.nsegments ∧
    di.blocks_per_segment * di.nsegments < 2 ^ 64 ∧
    di.nblocks_to_write = di.first_segment_block + si.nblocks ∧
    di.nsegments_to_write = ceilDiv di.nblocks_to_write di.blocks_per_segment ∧
    di.nsegments_to_write ≤ 2 := by
  unfold main_layout at h
  dsimp only at h
  split at h
  · exact Except.noConfusion h
  · rename_i hacc
    obtain ⟨hF, hF1, hFP, hBpos, hB, hN, hBN⟩ := init_disk_layout_accepted c di0 dev_size
      nilfs_time rnd opts hb hH hH2 hP hR hU hacc
    have hnseg := init_disk_layout_nseginfo c di0 dev_size nilfs_time rnd opts hacc
    generalize (init_disk_layout c di0 dev_size nilfs_time rnd opts).di = d0 at *
    split at h
    · exact Except.noConfusion h
    · rename_i d1 s1 hadd
      obtain ⟨rfl, hs1⟩ := main_add_files_ok c opts.blocksize d0 d1 s1 hnseg hadd
      have hFle : d0.first_segment_block ≤ c.NILFS_DISKHDR_SIZE := by
        have := (first_segblk_eq c.NILFS_DISKHDR_SIZE opts.blocksize hH (by omega) hb).2
        omega
      split at h
      · exact Except.noConfusion h
      · rename_i s2 rest hf hseg
        obtain ⟨n, hn, -, hmap, hnb, hntw, hb', hN', hF'⟩ := fix_disk_layout_accepted
          { d0 with nseginfo := 1 } s1 rfl hs1 hF1 (by dsimp only; omega) (by dsimp only; omega)
          hB hf
        rw [hseg] at hmap
        simp only [List.map_cons, List.cons.injEq, Prod.mk.injEq] at hmap
        obtain ⟨⟨hst, hnn⟩, -⟩ := hmap
        obtain ⟨rfl, rfl⟩ := Prod.mk.inj (Except.ok.inj h)
        dsimp only at hn hnb hntw hb' hN' hF'
        have := ceilDiv_le_two (d0.first_segment_block + n) d0.blocks_per_segment hBpos
          (by omega)
        rw [hF', hb', hN', hnb, hntw, hst, hnn, hs1, ← hF]
        exact ⟨rfl, rfl, hF1, hFP, hn, hB, hN, hBN, rfl, rfl, this⟩
      · exact Except.noConfusion h

/-! ## Records of the summary area -/

/-- What `map_segsum_info` computes when nothing wraps: the record lies in
the block of `offset` if it fits there and at the start of the next block
otherwise; it ends where the new offset is and does not start before the old
one. -/
theorem map_segsum_info_spec (blocksize : Int) (size start offset s : Nat)
    (hb : 0 < blocksize) (hb2 : blocksize < 2 ^ 63) (hs : s ≤ blocksize.toNat)
    (ho : offset + blocksize.toNat + s < 2 ^ 64) (hst : start + offset < 2 ^ 64 - 1) :
    (map_segsum_info blocksize size start offset s).offset_in_block + s ≤ blocksize.toNat ∧
    (map_segsum_info blocksize size start offset s).blocknr =
      (if blocksize.toNat - offset % blocksize.toNat < s then
        start + offset / blocksize.toNat + 1 else start + offset / blocksize.toNat) ∧
    (map_segsum_info blocksize size start offset s).offset_in_block =
      (if blocksize.toNat - offset % blocksize.toNat < s then 0
        else offset % blocksize.toNat) ∧
    (map_segsum_info blocksize size start offset s).offset =
      summaryPosition blocksize start (map_segsum_info blocksize size start offset s).blocknr
        (map_segsum_info blocksize size start offset s).offset_in_block + s ∧
    offset ≤
      summaryPosition blocksize start (map_segsum_info blocksize size start offset s).blocknr
        (map_segsum_info blocksize size start offset s).offset_in_block := by
  obtain ⟨b, rfl⟩ : ∃ b : Nat, blocksize = (b : Int) := ⟨blocksize.toNat, by omega⟩
  have hbpos : 0 < b := by omega
  have hbu : toU64 (b : Int) = b := by unfold toU64; omega
  simp only [Int.toNat_ofNat] at hs ho ⊢
  have hdm := Nat.div_add_mod offset b
  have hlt := Nat.mod_lt offset hbpos
  have hq : offset / b ≤ offset := Nat.div_le_self _ _
  have hmul : (offset / b + 1) * b = b * (offset / b) + b := by ring
  have hmul2 : offset / b * b = b * (offset / b) := by ring
  unfold map_segsum_info summaryPosition
  simp only [hbu, Int.toNat_ofNat]
  have hsub : (b + 2 ^ 64 - offset % b) % 2 ^ 64 = b - offset % b := by omega
  simp only [hsub]
  generalize offset % b = r at *
  generalize offset / b = q at *
  have hq1 : (q + 1) % 2 ^ 64 = q + 1 := by omega
  have hqb : (q + 1) * b % 2 ^ 64 = (q + 1) * b := by rw [hmul]; omega
  have hsq1 : (start + (q + 1)) % 2 ^ 64 = start + (q + 1) := by omega
  have hsq : (start + q) % 2 ^ 64 = start + q := by omega
  have hd1 : start + (q + 1) - start = q + 1 := by omega
  have hd : start + q - start = q := by omega
  by_cases hskip : b - r < s
  · have hgt : s > b - r := hskip
    simp only [hgt, hskip, if_true, hq1, hqb, hsq1, hd1]
    rw [hmul]
    have h4 : (b * q + b + s) % 2 ^ 64 = b * q + b + s := by omega
    rw [h4]
    exact ⟨by omega, by omega, trivial, by omega, by omega⟩
  · have hgt : ¬ s > b - r := hskip
    simp only [hgt, hskip, if_false, hsq, hd]
    have h4 : (offset + s) % 2 ^ 64 = offset + s := by omega
    rw [h4, hmul2]
    exact ⟨by omega, trivial, trivial, by omega, by omega⟩

/-! ## The mount table -/

/-- The comparison of `check_mount` succeeds exactly when the device path is
an initial part of the token. -/
theorem strncmp_eq_iff (tok device : List Char) :
    strncmp_eq tok device device.length = true ↔ ∃ rest, tok = device ++ rest := by
  unfold strncmp_eq
  rw [decide_eq_true_iff, List.take_length]
  constructor
  · intro h
    have h2 := (List.take_append_drop device.length tok).symm
    rw [h] at h2
    exact ⟨tok.drop device.length, h2⟩
  · rintro ⟨rest, rfl⟩
    rw [List.take_left]

/-! ## The scan for bad blocks -/

/-- The test of `disk_scan` as written: the internal error is raised exactly
when the command line fits in the buffer, and `system` is reached exactly
when it does not. -/
theorem disk_scan_aborts_iff (device : List Char) (opts : mkfs_options) :
    (disk_scan device opts = .error .command_line_buffer_overflow ↔
      (badblocks_command device opts).length < COMMAND_BUFFER_SIZE) ∧
    ((∃ cmd, disk_scan device opts = .ok cmd) ↔
      COMMAND_BUFFER_SIZE ≤ (badblocks_command device opts).length) := by
  unfold disk_scan
  dsimp only
  by_cases h : (badblocks_command device opts).length < COMMAND_BUFFER_SIZE
  · rw [if_pos h]
    exact ⟨⟨fun _ => h, fun _ => rfl⟩,
      ⟨fun ⟨_, e⟩ => Except.noConfusion e, fun h2 => absurd h (Nat.not_lt.mpr h2)⟩⟩
  · rw [if_neg h]
    exact ⟨⟨fun e => Except.noConfusion e, fun h2 => absurd h2 h⟩,
      ⟨fun _ => Nat.le_of_not_lt h, fun _ => ⟨_, rfl⟩⟩⟩

/-! ## The loop of chcp -/

/-- What the loop of chcp does with its arguments, when a value of
`ULONG_MAX` comes from an overflow only: every valid argument is handed to
`nilfs_change_cpmode`, in order, whatever happened to the others; the status
stays as it was when all arguments are valid and all calls succeed, and
becomes 1 otherwise. -/
theorem chcp_loop_spec {σ : Type} (change : σ → Nat → Int → σ × Int × Nat) (mode : Int) :
    ∀ (args : List (List Char)) (st : ChcpState σ),
      (∀ arg ∈ args, (strtoull arg CHCP_BASE).value = ULLONG_MAX →
        strtoul_overflows arg CHCP_BASE = true) →
      (chcp_loop change mode args st).calls =
        st.calls ++ (args.filter validCno).map (fun arg => (strtoull arg CHCP_BASE).value) ∧
      ((chcp_loop change mode args st).status =
        if (args.all validCno &&
            changesSucceed change mode
              ((args.filter validCno).map (fun arg => (strtoull arg CHCP_BASE).value)) st.fs) =
            true
        then st.status else 1) := by
  intro args
  induction args with
  | nil =>
    intro st _
    exact ⟨(List.append_nil _).symm, rfl⟩
  | cons arg rest ih =>
    intro st hmax
    have hrest : ∀ a ∈ rest, (strtoull a CHCP_BASE).value = ULLONG_MAX →
        strtoul_overflows a CHCP_BASE = true :=
      fun a ha => hmax a (List.mem_cons_of_mem _ ha)
    have harg := hmax arg (List.mem_cons_self _ _)
    unfold chcp_loop
    dsimp only
    by_cases hend : (strtoull arg CHCP_BASE).endptr = some arg.length
    · by_cases hov : strtoul_overflows arg CHCP_BASE = true
      · -- out of range
        have hval : (strtoull arg CHCP_BASE).value = ULLONG_MAX := by
          unfold strtoul_overflows at hov
          unfold strtoull
          split_ifs at hov ⊢ with hb
          dsimp only at hov ⊢
          have hov' := of_decide_eq_true hov
          rw [if_neg hov'.1]
          dsimp only
          rw [if_pos hov'.2]
        have hv : validCno arg = false := by
          unfold validCno
          rw [hov]
          simp
        rw [if_neg (not_not.mpr hend), hov, if_pos rfl, if_pos ⟨hval, rfl⟩]
        obtain ⟨h1, h2⟩ := ih { st with errno := ERANGE, status := 1 } hrest
        rw [h1, h2, List.filter_cons, hv, List.all_cons, hv]
        simp
      · have hov' : strtoul_overflows arg CHCP_BASE = false := by
          cases h : strtoul_overflows arg CHCP_BASE
          · rfl
          · exact absurd h hov
        have hne : (strtoull arg CHCP_BASE).value ≠ ULLONG_MAX := fun h => hov (harg h)
        have hv : validCno arg = true := by
          unfold validCno
          rw [hov']
          simp [hend]
        rw [if_neg (not_not.mpr hend), if_neg (fun h => hne h.1)]
        rw [List.filter_cons, hv, List.all_cons, hv]
        simp only [if_true, List.map_cons, Bool.true_and, changesSucceed]
        by_cases hret : (change st.fs (strtoull arg CHCP_BASE).value mode).2.1 < 0
        · rw [if_pos hret]
          obtain ⟨h1, h2⟩ := ih _ hrest
          rw [h1, h2]
          have hd : decide (0 ≤ (change st.fs (strtoull arg CHCP_BASE).value mode).2.1) =
              false := decide_eq_false (by omega)
          rw [hd]
          simp
        · rw [if_neg hret]
          obtain ⟨h1, h2⟩ := ih _ hrest
          rw [h1, h2]
          have hd : decide (0 ≤ (change st.fs (strtoull arg CHCP_BASE).value mode).2.1) =
              true := decide_eq_true (by omega)
          rw [hd]
          simp
    · have hv : validCno arg = false := by
        unfold validCno
        simp [hend]
      rw [if_pos hend]
      obtain ⟨h1, h2⟩ := ih _ hrest
      rw [h1, h2, List.filter_cons, hv, List.all_cons, hv]
      simp

/-! ## The pool of block buffers -/

theorem le32_bytes_length (v : Nat) : (le32_bytes v).length = 4 := rfl

theorem le32_value_bytes (v : Nat) : le32_value (le32_bytes v) = v % 2 ^ 32 := by
  simp only [le32_value, le32_bytes]
  omega

theorem bytes_at_eq_of_drop (buf buf2 : List Nat) (off len : Nat)
    (h : buf.drop off = buf2.drop off) : bytes_at buf off len = bytes_at buf2 off len := by
  unfold bytes_at
  rw [h]

theorem drop_store (buf : List Nat) (off v k : Nat) (ho : off + 4 ≤ buf.length)
    (hk : off + 4 ≤ k) :
    (buf.take off ++ le32_bytes v ++ buf.drop (off + 4)).drop k = buf.drop k := by
  have h1 : (buf.take off ++ le32_bytes v).length = off + 4 := by
    rw [List.length_append, List.length_take, le32_bytes_length]
    omega
  rw [show k = (buf.take off ++ le32_bytes v).length + (k - (off + 4)) by omega,
    List.drop_append, List.drop_drop]
  congr 1
  omega

theorem length_store (buf : List Nat) (off v : Nat) (ho : off + 4 ≤ buf.length) :
    (buf.take off ++ le32_bytes v ++ buf.drop (off + 4)).length = buf.length := by
  rw [List.length_append, List.length_append, List.length_take, le32_bytes_length,
    List.length_drop]
  omega

theorem take_store (buf : List Nat) (off v k : Nat) (hk : k ≤ off) (ho : off ≤ buf.length) :
    (buf.take off ++ le32_bytes v ++ buf.drop (off + 4)).take k = buf.take k := by
  rw [List.append_assoc, List.take_append_of_le_length (by rw [List.length_take]; omega),
    List.take_take, Nat.min_eq_left hk]

theorem load_store (buf : List Nat) (off v : Nat) (ho : off + 4 ≤ buf.length) :
    load_le32 (buf.take off ++ le32_bytes v ++ buf.drop (off + 4)) off = v % 2 ^ 32 := by
  unfold load_le32 bytes_at
  have h1 : (buf.take off).length = off := by rw [List.length_take]; omega
  rw [List.append_assoc, List.drop_append_of_le_length (by omega)]
  rw [List.drop_of_length_le (by omega), List.nil_append,
    List.take_append_of_le_length (by rw [le32_bytes_length]),
    List.take_of_length_le (by rw [le32_bytes_length])]
  exact le32_value_bytes v

theorem bytes_at_full (buf : List Nat) (n : Nat) (h : buf.length = n) :
    bytes_at buf 0 n = buf := by
  unfold bytes_at
  rw [List.drop_zero, List.take_of_length_le (by omega)]

theorem read_bytes_ok (buf : List Nat) (off len : Nat) (h : off + len ≤ buf.length) :
    read_bytes buf off len = .ok (bytes_at buf off len) := by
  unfold read_bytes
  rw [if_neg (by omega)]

theorem store_le32_ok (buf : List Nat) (off v : Nat) (h : off + 4 ≤ buf.length) :
    store_le32 buf off v = .ok (buf.take off ++ le32_bytes v ++ buf.drop (off + 4)) := by
  unfold store_le32
  rw [if_neg (by omega)]

theorem pool_store_ok (p : DiskBuffer) (blocknr off v : Nat) (buf : List Nat)
    (hb : p.block blocknr = some buf) (h : off + 4 ≤ buf.length) :
    p.store_le32 blocknr off v =
      .ok (p.set blocknr (buf.take off ++ le32_bytes v ++ buf.drop (off + 4))) := by
  unfold DiskBuffer.store_le32
  rw [hb]
  simp only [store_le32_ok buf off v h]
  rfl

theorem set_block_same (p : DiskBuffer) (n : Nat) (buf : List Nat) :
    (p.set n buf).block n = some buf := by
  unfold DiskBuffer.set
  simp only [if_true]

theorem set_block_other (p : DiskBuffer) (n m : Nat) (buf : List Nat) (h : m ≠ n) :
    (p.set n buf).block m = p.block m := by
  unfold DiskBuffer.set
  simp only [h, if_false]

theorem set_wellFormed (bs : Nat) (p : DiskBuffer) (n : Nat) (buf : List Nat)
    (hp : p.wellFormed bs) (hl : buf.length = bs) : (p.set n buf).wellFormed bs := by
  intro m b hm
  by_cases h : m = n
  · rw [h, set_block_same] at hm
    cases hm
    exact hl
  · rw [set_block_other p n m buf h] at hm
    exact hp m b hm

theorem image_of_some (bs : Nat) (p : DiskBuffer) (n : Nat) (buf : List Nat)
    (h : p.block n = some buf) : p.image bs n = buf := by
  unfold DiskBuffer.image
  rw [h]
  rfl

theorem image_set_same (bs : Nat) (p : DiskBuffer) (n : Nat) (buf : List Nat) :
    (p.set n buf).image bs n = buf :=
  image_of_some bs _ n buf (set_block_same p n buf)

theorem image_set_other (bs : Nat) (p : DiskBuffer) (n m : Nat) (buf : List Nat) (h : m ≠ n) :
    (p.set n buf).image bs m = p.image bs m := by
  unfold DiskBuffer.image
  rw [set_block_other p n m buf h]

theorem image_length (bs : Nat) (p : DiskBuffer) (hp : p.wellFormed bs) (n : Nat) :
    (p.image bs n).length = bs := by
  unfold DiskBuffer.image
  cases h : p.block n with
  | none => simp
  | some buf => simpa using hp n buf h

/-- A call of `map_disk_buffer` inside the pool returns the bytes of the
image and leaves the image, the size and the buffers there are as they
were. -/
theorem map_disk_buffer_ok (bs : Nat) (p : DiskBuffer) (n : Nat) (hp : p.wellFormed bs)
    (hn : n < p.size) :
    ∃ q, map_disk_buffer bs p n = .ok (q, p.image bs n) ∧ q.wellFormed bs ∧ q.size = p.size ∧
      (∀ m, q.image bs m = p.image bs m) ∧
      (∀ m buf, p.block m = some buf → q.block m = some buf) := by
  unfold map_disk_buffer
  rw [if_neg (by omega)]
  cases h : p.block n with
  | some buf =>
    refine ⟨p, ?_, hp, rfl, fun _ => rfl, fun _ _ hm => hm⟩
    rw [image_of_some bs p n buf h]
  | none =>
    refine ⟨p.set n (List.replicate bs 0), ?_, ?_, rfl, ?_, ?_⟩
    · unfold DiskBuffer.image
      rw [h]
      rfl
    · exact set_wellFormed bs p n _ hp (List.length_replicate _ _)
    · intro m
      by_cases hm : m = n
      · rw [hm, image_set_same]
        unfold DiskBuffer.image
        rw [h]
        rfl
      · exact image_set_other bs p n m _ hm
    · intro m buf hm
      have hne : m ≠ n := by
        intro e
        rw [e, h] at hm
        exact Option.noConfusion hm
      rw [set_block_other p n m _ hne]
      exact hm

/-- The loop of `fill_in_checksums` over blocks inside the pool computes the
chained checksum of the image. -/
theorem checksum_blocks_ok (crc : Nat → List Nat → Nat) (bs : Nat) :
    ∀ (n : Nat) (p : DiskBuffer) (blocknr sum : Nat), p.wellFormed bs →
      blocknr + n < p.size → p.size ≤ 2 ^ 64 →
      ∃ q, checksum_blocks crc bs n p blocknr sum =
          .ok (q, chainBlocks crc (p.image bs) n blocknr sum) ∧
        q.wellFormed bs ∧ q.size = p.size ∧ (∀ m, q.image bs m = p.image bs m) ∧
        (∀ m buf, p.block m = some buf → q.block m = some buf) := by
  intro n
  induction n with
  | zero =>
    intro p blocknr sum hp _ _
    exact ⟨p, rfl, hp, rfl, fun _ => rfl, fun _ _ h => h⟩
  | succ n ih =>
    intro p blocknr sum hp hb hsz
    have hmod : (blocknr + 1) % 2 ^ 64 = blocknr + 1 := Nat.mod_eq_of_lt (by omega)
    obtain ⟨q, hq, hqwf, hqs, hqi, hqb⟩ := map_disk_buffer_ok bs p (blocknr + 1) hp (by omega)
    obtain ⟨q2, hq2, hq2wf, hq2s, hq2i, hq2b⟩ := ih q (blocknr + 1)
      (crc sum (p.image bs (blocknr + 1)) % 2 ^ 32) hqwf (by omega) (by omega)
    refine ⟨q2, ?_, hq2wf, by omega, fun m => by rw [hq2i, hqi],
      fun m buf h => hq2b m buf (hqb m buf h)⟩
    have hlen := image_length bs p hp (blocknr + 1)
    have hrd := read_bytes_ok (p.image bs (blocknr + 1)) 0 bs (by omega)
    rw [bytes_at_full _ _ hlen] at hrd
    have hfun : q.image bs = p.image bs := funext hqi
    unfold checksum_blocks
    simp only [hmod, hq, bind, Except.bind, hrd]
    rw [hq2, hfun]
    rfl

theorem super_root_blocknr_eq (si : nilfs_segment_info) (size : Nat) (hn : 1 ≤ si.nblocks)
    (hpool : si.start + si.nblocks ≤ size) (hsz : size ≤ 2 ^ 64) :
    super_root_blocknr si = si.start + si.nblocks - 1 := by
  unfold super_root_blocknr
  omega

set_option maxRecDepth 8192 in
theorem except_ok_bind {ε α β : Type} (a : α) (f : α → Except ε β) :
    (Except.ok a >>= f) = f a := rfl

theorem fill_in_sumsum_ok (crc : Nat → List Nat → Nat) (p : DiskBuffer)
    (si : nilfs_segment_info) (seed : Nat) (ss : List Nat) (bs : Nat)
    (hss : p.block si.start = some ss) (hssl : ss.length = bs) (hbs2 : bs < 2 ^ 63)
    (hsum : 8 ≤ si.sumbytes ∧ si.sumbytes ≤ bs) :
    fill_in_sumsum crc p si.start si seed =
      .ok (p.set si.start (ss.take 4 ++
        le32_bytes (crc seed (bytes_at ss 8 (si.sumbytes - 8)) % 2 ^ 32) ++ ss.drop 8)) := by
  have e1 : (si.sumbytes + 2 ^ 64 - 8) % 2 ^ 64 = si.sumbytes - 8 := by omega
  have r1 := read_bytes_ok ss 8 (si.sumbytes - 8) (by omega)
  have s1 := pool_store_ok p si.start 4 (crc seed (bytes_at ss 8 (si.sumbytes - 8)) % 2 ^ 32)
    ss hss (by omega)
  unfold fill_in_sumsum
  simp only [hss, show sizeof_ss_checksum = 4 from rfl, Nat.reduceAdd]
  rw [e1, r1, except_ok_bind]
  exact s1

theorem fill_in_sr_sum_ok (crc : Nat → List Nat → Nat) (c : Consts) (p : DiskBuffer)
    (srb seed : Nat) (sr : List Nat) (bs : Nat)
    (hsr : p.block srb = some sr) (hsrl : sr.length = bs) (hbs2 : bs < 2 ^ 63)
    (hsrb : 4 ≤ c.NILFS_SR_BYTES ∧ c.NILFS_SR_BYTES ≤ bs) :
    fill_in_sr_sum crc c p srb seed =
      .ok (p.set srb
        (le32_bytes (crc seed (bytes_at sr 4 (c.NILFS_SR_BYTES - 4)) % 2 ^ 32) ++ sr.drop 4)) := by
  have e2 : (c.NILFS_SR_BYTES + 2 ^ 64 - 4) % 2 ^ 64 = c.NILFS_SR_BYTES - 4 := by omega
  have r2 := read_bytes_ok sr 4 (c.NILFS_SR_BYTES - 4) (by omega)
  have s2 := pool_store_ok p srb 0 (crc seed (bytes_at sr 4 (c.NILFS_SR_BYTES - 4)) % 2 ^ 32)
    sr hsr (by omega)
  rw [List.take_zero, List.nil_append, Nat.zero_add] at s2
  unfold fill_in_sr_sum
  simp only [hsr, show sizeof_sr_sum = 4 from rfl]
  rw [e2, r2, except_ok_bind]
  exact s2

theorem fill_in_datasum_ok (crc : Nat → List Nat → Nat) (bs : Nat) (p : DiskBuffer)
    (si : nilfs_segment_info) (seed : Nat) (ss : List Nat)
    (hbs : 8 ≤ bs) (hbs2 : bs < 2 ^ 63) (hp : p.wellFormed bs)
    (hss : p.block si.start = some ss)
    (hn : 1 ≤ si.nblocks) (hpool : si.start + si.nblocks ≤ p.size) (hsz : p.size ≤ 2 ^ 64) :
    ∃ q, fill_in_datasum crc bs p si.start si seed = .ok q ∧ q.wellFormed bs ∧
      ∀ m, q.image bs m =
        if m = si.start then
          le32_bytes (chainBlocks crc (p.image bs) (si.nblocks - 1) si.start
            (crc seed (bytes_at ss 4 (bs - 4)) % 2 ^ 32)) ++ ss.drop 4
        else p.image bs m := by
  have hssl : ss.length = bs := hp _ _ hss
  obtain ⟨q, hq, hqwf, hqs, hqi, hqb⟩ := map_disk_buffer_ok bs p si.start hp (by omega)
  rw [image_of_some bs p si.start ss hss] at hq
  have e3 : (bs + 2 ^ 64 - 4) % 2 ^ 64 = bs - 4 := by omega
  have r3 := read_bytes_ok ss 4 (bs - 4) (by omega)
  obtain ⟨q2, hq2, hq2wf, hq2s, hq2i, hq2b⟩ := checksum_blocks_ok crc bs (si.nblocks - 1) q
    si.start (crc seed (bytes_at ss 4 (bs - 4)) % 2 ^ 32) hqwf (by omega) (by omega)
  have hfun : q.image bs = p.image bs := funext hqi
  rw [hfun] at hq2
  generalize chainBlocks crc (p.image bs) (si.nblocks - 1) si.start
    (crc seed (bytes_at ss 4 (bs - 4)) % 2 ^ 32) = D at hq2 ⊢
  have hb3 : q2.block si.start = some ss := hq2b _ _ (hqb _ _ hss)
  have s3 := pool_store_ok q2 si.start 0 D ss hb3 (by omega)
  have hl3 := length_store ss 0 D (by omega)
  rw [List.take_zero, List.nil_append, Nat.zero_add] at s3 hl3
  refine ⟨q2.set si.start (le32_bytes D ++ ss.drop 4), ?_, ?_, ?_⟩
  · unfold fill_in_datasum
    rw [if_neg (by omega)]
    simp only [show sizeof_ss_checksum = 4 from rfl]
    rw [e3, hq, except_ok_bind]
    dsimp only
    rw [r3, except_ok_bind, hq2, except_ok_bind]
    exact s3
  · exact set_wellFormed bs q2 si.start _ hq2wf (hl3.trans hssl)
  · intro m
    by_cases hm : m = si.start
    · rw [hm, image_set_same, if_pos rfl]
    · rw [image_set_other bs q2 si.start m _ hm, hq2i, hqi, if_neg hm]

/-- What `fill_in_checksums` leaves in the pool when the summary and the
super root are distinct blocks of a well-formed pool that holds the whole
segment: the three checksums stored one after the other, each computed on
the bytes present at that time. -/
theorem fill_in_checksums_ok (crc : Nat → List Nat → Nat) (c : Consts) (bs : Nat)
    (p : DiskBuffer) (si : nilfs_segment_info) (seed : Nat) (ss sr : List Nat)
    (hbs : 8 ≤ bs) (hbs2 : bs < 2 ^ 63) (hp : p.wellFormed bs)
    (hss : p.block si.start = some ss) (hsr : p.block (super_root_blocknr si) = some sr)
    (hn : 2 ≤ si.nblocks) (hpool : si.start + si.nblocks ≤ p.size) (hsz : p.size ≤ 2 ^ 64)
    (hsum : 8 ≤ si.sumbytes ∧ si.sumbytes ≤ bs)
    (hsrb : 4 ≤ c.NILFS_SR_BYTES ∧ c.NILFS_SR_BYTES ≤ bs) :
    ∃ p1, fill_in_checksums crc c bs p (segsum_blocknr si) (super_root_blocknr si) si seed =
        .ok p1 ∧
      p1.wellFormed bs ∧
      (∀ m, p1.image bs m =
        if m = si.start then
          le32_bytes (chainBlocks crc
              (((p.set si.start
                  (ss.take 4 ++ le32_bytes (crc seed (bytes_at ss 8 (si.sumbytes - 8)) % 2 ^ 32)
                    ++ ss.drop 8)).set (super_root_blocknr si)
                  (le32_bytes (crc seed (bytes_at sr 4 (c.NILFS_SR_BYTES - 4)) % 2 ^ 32)
                    ++ sr.drop 4)).image bs)
              (si.nblocks - 1) si.start
              (crc seed (bytes_at
                (ss.take 4 ++ le32_bytes (crc seed (bytes_at ss 8 (si.sumbytes - 8)) % 2 ^ 32)
                    ++ ss.drop 8) 4 (bs - 4)) % 2 ^ 32))
            ++ (le32_bytes (crc seed (bytes_at ss 8 (si.sumbytes - 8)) % 2 ^ 32) ++ ss.drop 8)
        else if m = super_root_blocknr si then
          le32_bytes (crc seed (bytes_at sr 4 (c.NILFS_SR_BYTES - 4)) % 2 ^ 32) ++ sr.drop 4
        else p.image bs m) := by
  have hsrn := super_root_blocknr_eq si p.size (by omega) hpool hsz
  have hne : super_root_blocknr si ≠ si.start := by omega
  have hsrlt : super_root_blocknr si < p.size := by omega
  clear hsrn
  generalize super_root_blocknr si = srb at hsr hne hsrlt ⊢
  have hssl : ss.length = bs := hp _ _ hss
  have hsrl : sr.length = bs := hp _ _ hsr
  generalize hS : crc seed (bytes_at ss 8 (si.sumbytes - 8)) % 2 ^ 32 = S
  generalize hR : crc seed (bytes_at sr 4 (c.NILFS_SR_BYTES - 4)) % 2 ^ 32 = R
  -- the summary checksum
  have hl1 := length_store ss 4 S (by omega)
  have hp1 := set_wellFormed bs p si.start _ hp (hl1.trans hssl)
  have f1 := fill_in_sumsum_ok crc p si seed ss bs hss hssl hbs2 hsum
  rw [hS] at f1
  generalize hss1 : ss.take 4 ++ le32_bytes S ++ ss.drop 8 = ss1 at f1 hl1 hp1 ⊢
  -- the super root checksum
  have hsr1 : (p.set si.start ss1).block srb = some sr := by
    rw [set_block_other p si.start _ ss1 hne]
    exact hsr
  have hl2 := length_store sr 0 R (by omega)
  rw [List.take_zero, List.nil_append, Nat.zero_add] at hl2
  have hp2 := set_wellFormed bs _ srb _ hp1 (hl2.trans hsrl)
  have f2 := fill_in_sr_sum_ok crc c (p.set si.start ss1) srb seed sr bs hsr1 hsrl hbs2 hsrb
  rw [hR] at f2
  generalize hsr1' : le32_bytes R ++ sr.drop 4 = sr1 at f2 hl2 hp2 ⊢
  generalize hp2' : (p.set si.start ss1).set srb sr1 = p2 at f2 hp2 ⊢
  -- the data checksum
  have hb2 : p2.block si.start = some ss1 := by
    rw [← hp2', set_block_other _ _ _ _ (Ne.symm hne), set_block_same]
  have hsize2 : p2.size = p.size := by rw [← hp2']; rfl
  obtain ⟨q2, f3, hq2wf, hq2i⟩ := fill_in_datasum_ok crc bs p2 si seed ss1 hbs hbs2 hp2 hb2
    (by omega) (by omega) (by omega)
  have hdrop : ss1.drop 4 = le32_bytes S ++ ss.drop 8 := by
    rw [← hss1]
    have h4 : (ss.take 4).length = 4 := by rw [List.length_take]; omega
    rw [List.append_assoc, List.drop_append_of_le_length (by omega),
      List.drop_of_length_le (by omega), List.nil_append]
  refine ⟨q2, ?_, hq2wf, ?_⟩
  · unfold fill_in_checksums segsum_blocknr
    rw [f1, except_ok_bind, f2, except_ok_bind]
    exact f3
  · intro m
    rw [hq2i]
    by_cases hm : m = si.start
    · rw [if_pos hm, if_pos hm, hdrop]
    · rw [if_neg hm, if_neg hm, ← hp2']
      by_cases hm2 : m = srb
      · rw [hm2, image_set_same, if_pos rfl]
      · rw [image_set_other _ _ _ _ _ hm2, image_set_other _ _ _ _ _ hm, if_neg hm2]

/-! ## The checksum is injective in its seed -/

theorem crc32_le_bit_lt (x : Nat) (hx : x < 2 ^ 32) : crc32_le_bit x < 2 ^ 32 := by
  unfold crc32_le_bit
  split_ifs
  · exact Nat.xor_lt_two_pow (by omega) (by norm_num)
  · omega

theorem xor_poly_ge (a : Nat) (ha : a < 2 ^ 31) : 2 ^ 31 ≤ a ^^^ 0xEDB88320 := by
  apply Nat.testBit_implies_ge
  rw [Nat.testBit_xor, Nat.testBit_lt_two_pow ha]
  decide

theorem xor_cancel_right (a b k : Nat) (h : a ^^^ k = b ^^^ k) : a = b := by
  have h1 := Nat.xor_cancel_right k a
  have h2 := Nat.xor_cancel_right k b
  rw [← h1, h, h2]

theorem crc32_le_bit_inj (x y : Nat) (hx : x < 2 ^ 32) (hy : y < 2 ^ 32)
    (h : crc32_le_bit x = crc32_le_bit y) : x = y := by
  unfold crc32_le_bit at h
  have hx2 := xor_poly_ge (x / 2) (by omega)
  have hy2 := xor_poly_ge (y / 2) (by omega)
  split_ifs at h with h1 h2 h2
  · have := xor_cancel_right _ _ _ h
    omega
  · omega
  · omega
  · omega

theorem crc32_le_byte_lt (x b : Nat) (hx : x < 2 ^ 32) (hb : b < 256) :
    crc32_le_byte x b < 2 ^ 32 := by
  unfold crc32_le_byte
  have h0 : x ^^^ b < 2 ^ 32 := Nat.xor_lt_two_pow hx (by omega)
  exact crc32_le_bit_lt _ (crc32_le_bit_lt _ (crc32_le_bit_lt _ (crc32_le_bit_lt _
    (crc32_le_bit_lt _ (crc32_le_bit_lt _ (crc32_le_bit_lt _ (crc32_le_bit_lt _ h0)))))))

theorem crc32_le_byte_inj (x y b : Nat) (hx : x < 2 ^ 32) (hy : y < 2 ^ 32) (hb : b < 256)
    (h : crc32_le_byte x b = crc32_le_byte y b) : x = y := by
  unfold crc32_le_byte at h
  have hx0 : x ^^^ b < 2 ^ 32 := Nat.xor_lt_two_pow hx (by omega)
  have hy0 : y ^^^ b < 2 ^ 32 := Nat.xor_lt_two_pow hy (by omega)
  have hx1 := crc32_le_bit_lt _ hx0
  have hy1 := crc32_le_bit_lt _ hy0
  have hx2 := crc32_le_bit_lt _ hx1
  have hy2 := crc32_le_bit_lt _ hy1
  have hx3 := crc32_le_bit_lt _ hx2
  have hy3 := crc32_le_bit_lt _ hy2
  have hx4 := crc32_le_bit_lt _ hx3
  have hy4 := crc32_le_bit_lt _ hy3
  have hx5 := crc32_le_bit_lt _ hx4
  have hy5 := crc32_le_bit_lt _ hy4
  have hx6 := crc32_le_bit_lt _ hx5
  have hy6 := crc32_le_bit_lt _ hy5
  have hx7 := crc32_le_bit_lt _ hx6
  have hy7 := crc32_le_bit_lt _ hy6
  have e7 := crc32_le_bit_inj _ _ hx7 hy7 h
  have e6 := crc32_le_bit_inj _ _ hx6 hy6 e7
  have e5 := crc32_le_bit_inj _ _ hx5 hy5 e6
  have e4 := crc32_le_bit_inj _ _ hx4 hy4 e5
  have e3 := crc32_le_bit_inj _ _ hx3 hy3 e4
  have e2 := crc32_le_bit_inj _ _ hx2 hy2 e3
  have e1 := crc32_le_bit_inj _ _ hx1 hy1 e2
  have e0 := crc32_le_bit_inj _ _ hx0 hy0 e1
  exact xor_cancel_right _ _ _ e0

theorem crc32_le_bitwise_lt (data : List Nat) : ∀ (x : Nat), x < 2 ^ 32 →
    (∀ b ∈ data, b < 256) → crc32_le_bitwise x data < 2 ^ 32 := by
  induction data with
  | nil => intro x hx _; exact hx
  | cons b t ih =>
    intro x hx hb
    exact ih _ (crc32_le_byte_lt x b hx (hb b (List.mem_cons_self _ _)))
      (fun b' hb' => hb b' (List.mem_cons_of_mem _ hb'))

theorem crc32_le_bitwise_inj (data : List Nat) : ∀ (x y : Nat), x < 2 ^ 32 → y < 2 ^ 32 →
    (∀ b ∈ data, b < 256) → crc32_le_bitwise x data = crc32_le_bitwise y data → x = y := by
  induction data with
  | nil => intro x y _ _ _ h; exact h
  | cons b t ih =>
    intro x y hx hy hb h
    have hb0 := hb b (List.mem_cons_self _ _)
    have := ih _ _ (crc32_le_byte_lt x b hx hb0) (crc32_le_byte_lt y b hy hb0)
      (fun b' hb' => hb b' (List.mem_cons_of_mem _ hb')) h
    exact crc32_le_byte_inj x y b hx hy hb0 this

theorem crc32_le_bitwise_append (x : Nat) (d1 d2 : List Nat) :
    crc32_le_bitwise x (d1 ++ d2) = crc32_le_bitwise (crc32_le_bitwise x d1) d2 := by
  unfold crc32_le_bitwise
  rw [List.foldl_append]

theorem crc32_le_bitwise_zeros (n : Nat) : crc32_le_bitwise 0 (List.replicate n 0) = 0 := by
  induction n with
  | zero => rfl
  | succ n ih =>
    rw [List.replicate_succ]
    exact ih

theorem chainBlocks_inj (image : Nat → List Nat) :
    ∀ (n blocknr x y : Nat), x < 2 ^ 32 → y < 2 ^ 32 →
      (∀ m, blocknr < m → m ≤ blocknr + n → ∀ b ∈ image m, b < 256) →
      chainBlocks crc32_le_bitwise image n blocknr x =
        chainBlocks crc32_le_bitwise image n blocknr y → x = y := by
  intro n
  induction n with
  | zero => intro _ x y _ _ _ h; exact h
  | succ n ih =>
    intro blocknr x y hx hy himg h
    have hb := himg (blocknr + 1) (by omega) (by omega)
    have hx1 := crc32_le_bitwise_lt (image (blocknr + 1)) x hx hb
    have hy1 := crc32_le_bitwise_lt (image (blocknr + 1)) y hy hb
    have := ih (blocknr + 1) _ _ (Nat.mod_lt _ (by norm_num)) (Nat.mod_lt _ (by norm_num))
      (fun m h1 h2 => himg m (by omega) (by omega)) h
    rw [Nat.mod_eq_of_lt hx1, Nat.mod_eq_of_lt hy1] at this
    exact crc32_le_bitwise_inj _ x y hx hy hb this

theorem chainBlocks_lt (crc : Nat → List Nat → Nat) (image : Nat → List Nat) :
    ∀ (n blocknr sum : Nat), sum < 2 ^ 32 → chainBlocks crc image n blocknr sum < 2 ^ 32 := by
  intro n
  induction n with
  | zero => intro _ sum h; exact h
  | succ n ih =>
    intro blocknr sum _
    exact ih (blocknr + 1) _ (Nat.mod_lt _ (by norm_num))

theorem chainBlocks_congr (crc : Nat → List Nat → Nat) (img1 img2 : Nat → List Nat) :
    ∀ (n blocknr sum : Nat), (∀ m, blocknr < m → m ≤ blocknr + n → img1 m = img2 m) →
      chainBlocks crc img1 n blocknr sum = chainBlocks crc img2 n blocknr sum := by
  intro n
  induction n with
  | zero => intro _ _ _; rfl
  | succ n ih =>
    intro blocknr sum h
    unfold chainBlocks
    rw [h (blocknr + 1) (by omega) (by omega)]
    exact ih (blocknr + 1) _ (fun m h1 h2 => h m (by omega) (by omega))

/-- The final image when the three steps of `commit_segment` before the
checksums leave the pool `p`: block by block, what `fill_in_checksums`
stored, the superblock being in a block before the segment. -/
theorem final_image_spec (crc : Nat → List Nat → Nat) (c : Consts) (bs : Nat)
    (u1 u2 u3 : DiskBuffer → Except Fatal DiskBuffer) (p0 p : DiskBuffer)
    (di : nilfs_disk_info) (si : nilfs_segment_info) (ss sr sb_block : List Nat)
    (hu : (do let a ← u1 p0; let b ← u2 a; u3 b) = .ok p)
    (hbs : 8 ≤ bs) (hbs2 : bs < 2 ^ 63) (hp : p.wellFormed bs)
    (hss : p.block si.start = some ss) (hsr : p.block (super_root_blocknr si) = some sr)
    (hn : 2 ≤ si.nblocks) (hpool : si.start + si.nblocks ≤ p.size) (hsz : p.size ≤ 2 ^ 64)
    (hsum : 8 ≤ si.sumbytes ∧ si.sumbytes ≤ bs)
    (hsrb : 4 ≤ c.NILFS_SR_BYTES ∧ c.NILFS_SR_BYTES ≤ bs)
    (hsb : c.NILFS_SB_OFFSET_BYTES / bs < si.start) :
    ∃ p1 D, commit_segment crc c bs u1 u2 u3 p0 di si = .ok p1 ∧
      super_root_blocknr si = si.start + si.nblocks - 1 ∧
      final_image c bs p1 sb_block si.start =
        le32_bytes D ++
          (le32_bytes (crc di.crc_seed (bytes_at ss 8 (si.sumbytes - 8)) % 2 ^ 32) ++
            ss.drop 8) ∧
      final_image c bs p1 sb_block (super_root_blocknr si) =
        le32_bytes (crc di.crc_seed (bytes_at sr 4 (c.NILFS_SR_BYTES - 4)) % 2 ^ 32) ++
          sr.drop 4 ∧
      (∀ m, si.start < m → m ≠ super_root_blocknr si →
        final_image c bs p1 sb_block m = p.image bs m) ∧
      D = chainBlocks crc (final_image c bs p1 sb_block) (si.nblocks - 1) si.start
        (crc di.crc_seed
          (le32_bytes (crc di.crc_seed (bytes_at ss 8 (si.sumbytes - 8)) % 2 ^ 32) ++
            ss.drop 8) % 2 ^ 32) := by
  obtain ⟨p1, hf, -, himg⟩ := fill_in_checksums_ok crc c bs p si di.crc_seed ss sr hbs hbs2 hp
    hss hsr hn hpool hsz hsum hsrb
  have hsrn := super_root_blocknr_eq si p.size (by omega) hpool hsz
  have hfin : ∀ m, si.start ≤ m → final_image c bs p1 sb_block m = p1.image bs m := by
    intro m hm
    unfold final_image
    exact image_set_other bs p1 _ m sb_block (by omega)
  have hssl : ss.length = bs := hp _ _ hss
  generalize hS : crc di.crc_seed (bytes_at ss 8 (si.sumbytes - 8)) % 2 ^ 32 = S at himg ⊢
  generalize hR : crc di.crc_seed (bytes_at sr 4 (c.NILFS_SR_BYTES - 4)) % 2 ^ 32 = R at himg ⊢
  have hb4 : bytes_at (ss.take 4 ++ le32_bytes S ++ ss.drop 8) 4 (bs - 4) =
      le32_bytes S ++ ss.drop 8 := by
    unfold bytes_at
    have h4 : (ss.take 4).length = 4 := by rw [List.length_take]; omega
    rw [List.append_assoc, List.drop_append_of_le_length (by omega),
      List.drop_of_length_le (by omega), List.nil_append,
      List.take_of_length_le (by rw [List.length_append, le32_bytes_length, List.length_drop]
                                 omega)]
  rw [hb4] at himg
  generalize hD0 : chainBlocks crc
    (((p.set si.start (ss.take 4 ++ le32_bytes S ++ ss.drop 8)).set (super_root_blocknr si)
      (le32_bytes R ++ sr.drop 4)).image bs) (si.nblocks - 1) si.start
    (crc di.crc_seed (le32_bytes S ++ ss.drop 8) % 2 ^ 32) = D at himg
  have h1 : final_image c bs p1 sb_block si.start =
      le32_bytes D ++ (le32_bytes S ++ ss.drop 8) := by
    rw [hfin _ (le_refl _), himg, if_pos rfl]
  have h2 : final_image c bs p1 sb_block (super_root_blocknr si) =
      le32_bytes R ++ sr.drop 4 := by
    rw [hfin _ (by omega), himg, if_neg (by omega), if_pos rfl]
  have h3 : ∀ m, si.start < m → m ≠ super_root_blocknr si →
      final_image c bs p1 sb_block m = p.image bs m := by
    intro m h1 h2
    rw [hfin _ (by omega), himg, if_neg (by omega), if_neg h2]
  have hc : commit_segment crc c bs u1 u2 u3 p0 di si = .ok p1 := by
    unfold commit_segment
    have hu' : (u1 p0 >>= fun a => u2 a >>= fun b => u3 b) = .ok p := hu
    obtain ⟨a, ha, hu2⟩ := except_bind_ok _ _ _ hu'
    obtain ⟨b, hb, hu3⟩ := except_bind_ok _ _ _ hu2
    rw [ha, except_ok_bind, hb, except_ok_bind, hu3, except_ok_bind]
    exact hf
  refine ⟨p1, D, hc, hsrn, h1, h2, h3, ?_⟩
  rw [← hD0]
  apply chainBlocks_congr
  intro m hm1 hm2
  by_cases hm : m = super_root_blocknr si
  · rw [hm, h2, image_set_same]
  · rw [h3 m hm1 hm, image_set_other _ _ _ _ _ hm, image_set_other _ _ _ _ _ (by omega)]

/-! ## The accepted layout -/

/-- C16: for every layout that `init_disk_layout` and `fix_disk_layout`
accept, `nsegments_to_write` is `ceil(nblocks_to_write / blocks_per_segment)`,
it does not exceed `nsegments`, and the `s_free_blocks_count` that
`commit_super_block` stores, taken from the segment reference that
`commit_segment` fills in, is `blocks_per_segment * (nsegments -
nsegments_to_write)` without any wrap. The header constants are assumed to
fit in an `int`. -/
theorem free_blocks_count (c : Consts) (crc32_le : Nat → List Nat → Nat)
    (sb_bytes : nilfs_super_block → List Nat) (raw_sb : nilfs_super_block)
    (di0 : nilfs_disk_info) (dev_size : Nat) (nilfs_time rnd : Int) (opts : mkfs_options)
    (di : nilfs_disk_info) (si : nilfs_segment_info) (seq cno : Nat)
    (hb : 0 < opts.blocksize) (hH : 1 ≤ c.NILFS_DISKHDR_SIZE)
    (hH2 : c.NILFS_DISKHDR_SIZE < 2 ^ 31) (hP : c.NILFS_PSEG_MIN_BLOCKS < 2 ^ 31)
    (hR : c.NILFS_MIN_NRSVSEGS < 2 ^ 31) (hU : c.NILFS_MIN_NUSERSEGS < 2 ^ 31)
    (h : main_layout c di0 dev_size nilfs_time rnd opts = .ok (di, si)) :
    di.nsegments_to_write = ceilDiv di.nblocks_to_write di.blocks_per_segment ∧
    di.nsegments_to_write ≤ di.nsegments ∧
    (commit_super_block c crc32_le sb_bytes raw_sb di
        (commit_segment_ref seq cno di si)).s_free_blocks_count =
      di.blocks_per_segment * (di.nsegments - di.nsegments_to_write) := by
  obtain ⟨-, -, hF1, hFP, -, hB, hN, hBN, -, hntw, h2⟩ :=
    main_layout_ok c di0 dev_size nilfs_time rnd opts di si hb hH hH2 hP hR hU h
  refine ⟨hntw, by omega, ?_⟩
  show count_free_blocks di % 2 ^ 64 = _
  unfold count_free_blocks
  have h1 : (di.nsegments + 2 ^ 64 - di.nsegments_to_write % 2 ^ 64) % 2 ^ 64 =
      di.nsegments - di.nsegments_to_write := by
    have : di.nsegments ≤ di.blocks_per_segment * di.nsegments :=
      Nat.le_mul_of_pos_left di.nsegments (by omega)
    omega
  rw [h1]
  have h3 : di.blocks_per_segment * (di.nsegments - di.nsegments_to_write) ≤
      di.blocks_per_segment * di.nsegments := Nat.mul_le_mul_left _ (Nat.sub_le _ _)
  rw [Nat.mod_mod, Nat.mod_eq_of_lt (lt_of_le_of_lt h3 hBN)]

/-- Witness of C16: the sample options on a device of 2^28 bytes leave
2048 * (32 - 1) free blocks. -/
theorem free_blocks_count_witness :
    main_layout releaseConsts sampleDiskInfo (2 ^ 28) 0 0 sampleOptions =
      .ok (sampleLayout, sampleSegment) ∧
    sampleLayout.nsegments_to_write =
      ceilDiv sampleLayout.nblocks_to_write sampleLayout.blocks_per_segment ∧
    sampleLayout.nsegments_to_write ≤ sampleLayout.nsegments ∧
    (commit_super_block releaseConsts (fun seed bytes => seed + bytes.sum)
        (fun sb => [sb.s_magic]) zeroed_super_block sampleLayout
        (commit_segment_ref 0 1 sampleLayout sampleSegment)).s_free_blocks_count =
      sampleLayout.blocks_per_segment *
        (sampleLayout.nsegments - sampleLayout.nsegments_to_write) :=
  ⟨by rfl, free_blocks_count releaseConsts (fun seed bytes => seed + bytes.sum)
    (fun sb => [sb.s_magic]) zeroed_super_block sampleDiskInfo (2 ^ 28) 0 0 sampleOptions
    sampleLayout sampleSegment 0 1 (by decide) (by decide) (by decide) (by decide) (by decide)
    (by decide) (by rfl)⟩

/-- The two layout functions without the option check of `parse_options`,
at a block size of 1024 bytes and segments of 12 blocks on a device of 2^28
bytes: `init_disk_layout` and `fix_disk_layout` both accept, the partial
segment starts at block 4 and has 12 blocks, so it ends at block 16, past the
12 blocks of segment 0; `nsegments_to_write` is 2. A segment of 12 blocks
does not pass `check_blocks_per_segment`. -/
theorem partial_segment_crosses_segment_end :
    (main_layout releaseConsts sampleDiskInfo (2 ^ 28) 0 0 smallSegmentOptions).toOption.map
        (fun p => (p.1.first_segment_block, p.2.start, p.2.nblocks, p.1.blocks_per_segment,
          p.1.nsegments_to_write, segment_start_blocknr p.1 1)) =
      some (4, 4, 12, 12, 2, 12) ∧
    (init_disk_layout releaseConsts sampleDiskInfo (2 ^ 28) 0 0 smallSegmentOptions).fatal =
      none := by
  decide

/-! ## Block counts of the block-grouped files -/

/-- The number of blocks that `count_blockgrouped_file_blocks` returns when
an entry fits in a block and nothing wraps. -/
theorem count_blockgrouped_eq (b : Int) (s n : Nat) (hs : 0 < s) (hsb : (s : Int) ≤ b)
    (hb : b < 2 ^ 63) (hs2 : s < 2 ^ 32) (hn : 1 ≤ n) (hn2 : n + 2 < 2 ^ 32) :
    count_blockgrouped_file_blocks b s n =
      group_desc_blocks_per_group + bitmap_blocks_per_group + ceilDiv n (b.toNat / s) ∧
    1 ≤ b.toNat / s := by
  obtain ⟨bn, rfl⟩ : ∃ bn : Nat, b = (bn : Int) := ⟨b.toNat, by omega⟩
  have hsb' : s ≤ bn := by exact_mod_cast hsb
  have hq : 1 ≤ bn / s := (Nat.le_div_iff_mul_le hs).mpr (by omega)
  have hq2 : bn / s ≤ bn := Nat.div_le_self _ _
  have hsm : s % 2 ^ 32 = s := Nat.mod_eq_of_lt hs2
  have hcast : toU64 (Int.tdiv (bn : Int) (s : Int)) = bn / s := by
    rw [Int.tdiv_eq_ediv (by omega) (by omega)]
    unfold toU64
    have h0 : ((bn : Int) / (s : Int)) = ((bn / s : Nat) : Int) := (Int.natCast_div bn s).symm
    rw [h0]
    generalize bn / s = q at *
    omega
  have hc : ceilDiv n (bn / s) = (n - 1) / (bn / s) + 1 := by
    unfold ceilDiv
    rw [show n + bn / s - 1 = (n - 1) + bn / s by omega, Nat.add_div_right _ (by omega)]
  have hle : (n - 1) / (bn / s) ≤ n - 1 := Nat.div_le_self _ _
  refine ⟨?_, by simpa using hq⟩
  unfold count_blockgrouped_file_blocks group_desc_blocks_per_group bitmap_blocks_per_group
  simp only [hsm, hcast, Int.toNat_ofNat, hc]
  have h1 : (n % 2 ^ 32 + 2 ^ 32 - 1) % 2 ^ 32 = n - 1 := by omega
  rw [h1]
  generalize (n - 1) / (bn / s) = q at *
  omega

/-- When the entry size divides the block size, the number of entry blocks is
also `ceil(n * s / b)`. -/
theorem ceilDiv_mul_of_dvd (n s b : Nat) (hs : 0 < s) (hd : s ∣ b) (hb : 0 < b) :
    ceilDiv n (b / s) = ceilDiv (n * s) b := by
  obtain ⟨k, rfl⟩ := hd
  have hk : 0 < k := by
    rcases Nat.eq_zero_or_pos k with h | h
    · rw [h] at hb; omega
    · exact h
  rw [Nat.mul_div_cancel_left k hs]
  have h1 := ceilDiv_spec n k hk
  have h2 := ceilDiv_spec (n * s) (s * k) hb
  apply le_antisymm
  · apply h1.2
    have := h2.1
    have e : ceilDiv (n * s) (s * k) * (s * k) = (ceilDiv (n * s) (s * k) * k) * s := by ring
    rw [e] at this
    exact Nat.le_of_mul_le_mul_right this hs
  · apply h2.2
    have := Nat.mul_le_mul_right s h1.1
    have e : ceilDiv n k * (s * k) = ceilDiv n k * k * s := by ring
    rw [e]
    exact this

/-- C26 as amended: for every block size `b`, entry size `s` with `0 < s <=
b` and entry count `n >= 1`, `count_blockgrouped_file_blocks` returns the
descriptor block, the bitmap block and `ceil(n / floor(b / s))` entry blocks;
this is `2 + ceil(n * s / b)` when `s` divides `b`. The value that
`count_ifile_blocks` and `count_dat_blocks` return, when they return, is this
one for the sizes of an inode and of a DAT entry. Sizes and counts are taken
small enough for the 32-bit results not to wrap. -/
theorem blockgrouped_file_blocks (c : Consts) (b : Int) (s n : Nat) (hs : 0 < s)
    (hsb : (s : Int) ≤ b) (hb : b < 2 ^ 63) (hs2 : s < 2 ^ 32) (hn : 1 ≤ n)
    (hn2 : n + 2 < 2 ^ 32) :
    count_blockgrouped_file_blocks b s n =
      group_desc_blocks_per_group + bitmap_blocks_per_group + ceilDiv n (b.toNat / s) ∧
    (s ∣ b.toNat → count_blockgrouped_file_blocks b s n = 2 + ceilDiv (n * s) b.toNat) ∧
    (∀ v, count_ifile_blocks c b = .ok v →
      v = count_blockgrouped_file_blocks b c.sizeof_nilfs_inode c.NILFS_MAX_INITIAL_INO) ∧
    (∀ m v, count_dat_blocks c b m = .ok v →
      v = count_blockgrouped_file_blocks b c.sizeof_nilfs_dat_entry m) := by
  have h := (count_blockgrouped_eq b s n hs hsb hb hs2 hn hn2).1
  refine ⟨h, ?_, ?_, ?_⟩
  · intro hd
    rw [h, ceilDiv_mul_of_dvd n s b.toNat hs hd (by omega)]
    rfl
  · intro v hv
    unfold count_ifile_blocks at hv
    dsimp only at hv
    split_ifs at hv
    exact (Except.ok.inj hv).symm
  · intro m v hv
    unfold count_dat_blocks at hv
    dsimp only at hv
    split_ifs at hv
    exact (Except.ok.inj hv).symm

/-- Witness of the amended C26: 12 inodes of 128 bytes in blocks of 4096
bytes take one entry block, so the inode file has 3 blocks. -/
theorem blockgrouped_file_blocks_witness :
    count_blockgrouped_file_blocks 4096 128 12 =
      group_desc_blocks_per_group + bitmap_blocks_per_group +
        ceilDiv 12 ((4096 : Int).toNat / 128) ∧
    count_blockgrouped_file_blocks 4096 128 12 = 3 ∧
    count_ifile_blocks releaseConsts 4096 = .ok 3 :=
  ⟨(blockgrouped_file_blocks releaseConsts 4096 128 12 (by decide) (by decide) (by decide)
      (by decide) (by decide) (by decide)).1, by decide, by rfl⟩

/-- C26 as stated fails for entries of 24 bytes in blocks of 1024 bytes: 85
entries need 3 entry blocks, since only 42 entries fit in a block, where
`ceil(85 * 24 / 1024)` is 2. -/
theorem blockgrouped_file_blocks_not_ceil_of_product :
    count_blockgrouped_file_blocks 1024 24 85 = 5 ∧ 2 + ceilDiv (85 * 24) 1024 = 4 := by
  decide

set_option maxRecDepth 20000 in
/-- The closed form of `__increment_segsum_size` beyond the current block,
for records of 24 bytes in blocks of 1024 bytes: for 84 records from offset 0
it gives 2048, the start of the third block, while placing the records one at
a time by the rule of `map_segsum_info` ends at 2032, 42 records in each of
the first two blocks. For 83 records the two agree. -/
theorem segsum_closed_form_overshoots :
    increment_segsum_size_raw 0 1024 24 84 = 2048 ∧
    place_records 1024 4 0 24 84 0 = 2032 ∧
    increment_segsum_size_raw 0 1024 24 83 = 2008 ∧
    place_records 1024 4 0 24 83 0 = 2008 := by
  decide

/-! ## Block ranges of the files -/

theorem fileBlocks_append (l1 l2 : List nilfs_file_info) :
    fileBlocks (l1 ++ l2) = fileBlocks l1 + fileBlocks l2 := by
  unfold fileBlocks
  rw [List.map_append, List.sum_append]

theorem add_file_files (c : Consts) (blocksize : Int) (si si1 : nilfs_segment_info)
    (ino nblocks : Nat) (dat_flag : Bool)
    (h : add_file c blocksize si ino nblocks dat_flag = .ok si1) :
    si1.files = si.files ++ [⟨ino, 0, nblocks⟩] ∧
    si1.nblocks = (si.nblocks + nblocks) % 2 ^ 32 := by
  unfold add_file at h
  split_ifs at h
  all_goals first
    | exact Except.noConfusion h
    | (cases h; exact ⟨rfl, rfl⟩)

theorem add_file_sum (c : Consts) (blocksize : Int) (si si1 : nilfs_segment_info)
    (ino nblocks : Nat) (dat_flag : Bool)
    (h : add_file c blocksize si ino nblocks dat_flag = .ok si1)
    (hinv : si.nblocks = fileBlocks si.files % 2 ^ 32) :
    si1.nblocks = fileBlocks si1.files % 2 ^ 32 := by
  obtain ⟨hf, hn⟩ := add_file_files c blocksize si si1 ino nblocks dat_flag h
  rw [hn, hf, fileBlocks_append, hinv]
  have : fileBlocks [(⟨ino, 0, nblocks⟩ : nilfs_file_info)] = nblocks := by
    unfold fileBlocks
    simp
  rw [this]
  omega

/-- The segment that `main` lays out counts in `nblocks` the blocks of its
files, which are the seven files of `main` in the order of the calls. -/
theorem main_add_files_sum (c : Consts) (blocksize : Int) (di di1 : nilfs_disk_info)
    (si1 : nilfs_segment_info) (h0 : di.nseginfo = 0)
    (h : main_add_files c blocksize di = .ok (di1, si1)) :
    si1.nblocks = fileBlocks si1.files % 2 ^ 32 ∧
    si1.files.map (fun fi => fi.ino) =
      [c.NILFS_ROOT_INO, c.NILFS_SKETCH_INO, c.NILFS_NILFS_INO, c.NILFS_IFILE_INO,
        c.NILFS_CPFILE_INO, c.NILFS_SUFILE_INO, c.NILFS_DAT_INO] := by
  unfold main_add_files at h
  obtain ⟨⟨d, s0⟩, hn, h⟩ := except_bind_ok _ _ _ h
  obtain ⟨s1, e1, h⟩ := except_bind_ok _ _ _ h
  obtain ⟨s2, e2, h⟩ := except_bind_ok _ _ _ h
  obtain ⟨s3, e3, h⟩ := except_bind_ok _ _ _ h
  obtain ⟨n4, -, h⟩ := except_bind_ok _ _ _ h
  obtain ⟨s4, e4, h⟩ := except_bind_ok _ _ _ h
  obtain ⟨s5, e5, h⟩ := except_bind_ok _ _ _ h
  obtain ⟨s6, e6, h⟩ := except_bind_ok _ _ _ h
  obtain ⟨n7, -, h⟩ := except_bind_ok _ _ _ h
  obtain ⟨s7, e7, h⟩ := except_bind_ok _ _ _ h
  have hp : (d, s7) = (di1, si1) := by
    have : (pure (d, s7) : Except Fatal (nilfs_disk_info × nilfs_segment_info)) =
        .ok (di1, si1) := h
    exact Except.ok.inj this
  obtain ⟨rfl, rfl⟩ := Prod.mk.inj hp
  unfold new_segment at hn
  simp only [h0, ne_eq, not_true_eq_false, if_false] at hn
  obtain ⟨rfl, rfl⟩ := Prod.mk.inj (Except.ok.inj hn)
  have i0 : ({ zeroed_segment_info with
      sumbytes := c.sizeof_nilfs_segment_summary
      nblk_sum := ROUNDUP_DIV_ul c.sizeof_nilfs_segment_summary (toU64 blocksize) % 2 ^ 32
      start := di.first_segment_block } : nilfs_segment_info).nblocks =
      fileBlocks ({ zeroed_segment_info with
      sumbytes := c.sizeof_nilfs_segment_summary
      nblk_sum := ROUNDUP_DIV_ul c.sizeof_nilfs_segment_summary (toU64 blocksize) % 2 ^ 32
      start := di.first_segment_block } : nilfs_segment_info).files % 2 ^ 32 := rfl
  have i1 := add_file_sum _ _ _ _ _ _ _ e1 i0
  have i2 := add_file_sum _ _ _ _ _ _ _ e2 i1
  have i3 := add_file_sum _ _ _ _ _ _ _ e3 i2
  have i4 := add_file_sum _ _ _ _ _ _ _ e4 i3
  have i5 := add_file_sum _ _ _ _ _ _ _ e5 i4
  have i6 := add_file_sum _ _ _ _ _ _ _ e6 i5
  have i7 := add_file_sum _ _ _ _ _ _ _ e7 i6
  refine ⟨i7, ?_⟩
  rw [(add_file_files _ _ _ _ _ _ _ e7).1, (add_file_files _ _ _ _ _ _ _ e6).1,
    (add_file_files _ _ _ _ _ _ _ e5).1, (add_file_files _ _ _ _ _ _ _ e4).1,
    (add_file_files _ _ _ _ _ _ _ e3).1, (add_file_files _ _ _ _ _ _ _ e2).1,
    (add_file_files _ _ _ _ _ _ _ e1).1]
  rfl

theorem assign_file_starts_blocks : ∀ (files : List nilfs_file_info) (blocknr : Nat),
    (assign_file_starts files blocknr).map (fun fi => (fi.ino, fi.nblocks)) =
      files.map (fun fi => (fi.ino, fi.nblocks)) := by
  intro files
  induction files with
  | nil => intro _; rfl
  | cons fi t ih =>
    intro blocknr
    unfold assign_file_starts
    split_ifs
    · rw [List.map_cons, List.map_cons, ih]
    · rw [List.map_cons, List.map_cons, ih]

theorem assign_file_starts_fileBlocks (files : List nilfs_file_info) (blocknr : Nat) :
    fileBlocks (assign_file_starts files blocknr) = fileBlocks files := by
  have h := congrArg (List.map Prod.snd) (assign_file_starts_blocks files blocknr)
  rw [List.map_map, List.map_map] at h
  exact congrArg List.sum h

/-- The inner loop of `fix_disk_layout` puts the files that have blocks one
after the other, when the block numbers do not wrap. -/
theorem assign_file_starts_consecutive : ∀ (files : List nilfs_file_info) (blocknr : Nat),
    blocknr + fileBlocks files < 2 ^ 64 →
    consecutiveFrom blocknr (assign_file_starts files blocknr) := by
  intro files
  induction files with
  | nil => intro _ _; trivial
  | cons fi t ih =>
    intro blocknr h
    have hfb : fileBlocks (fi :: t) = fi.nblocks + fileBlocks t := by
      unfold fileBlocks
      rw [List.map_cons, List.sum_cons]
    rw [hfb] at h
    unfold assign_file_starts
    by_cases h0 : fi.nblocks = 0
    · rw [if_pos h0]
      unfold consecutiveFrom
      rw [if_pos h0]
      exact ih blocknr (by omega)
    · rw [if_neg h0]
      unfold consecutiveFrom
      dsimp only
      rw [if_neg h0, Nat.mod_eq_of_lt (by omega)]
      exact ⟨rfl, ih _ (by omega)⟩

/-- Files that lie one after the other from `blocknr` on stay inside the
range that their blocks fill, and do not overlap. -/
theorem consecutiveFrom_bounds : ∀ (files : List nilfs_file_info) (blocknr : Nat),
    consecutiveFrom blocknr files →
    (∀ fi ∈ files, fi.nblocks ≠ 0 →
      blocknr ≤ fi.start ∧ fi.start + fi.nblocks ≤ blocknr + fileBlocks files) ∧
    files.Pairwise (fun f g => f.nblocks ≠ 0 → g.nblocks ≠ 0 → f.start + f.nblocks ≤ g.start) := by
  intro files
  induction files with
  | nil => intro _ _; exact ⟨fun _ h => absurd h (List.not_mem_nil _), List.Pairwise.nil⟩
  | cons fi t ih =>
    intro blocknr h
    have hfb : fileBlocks (fi :: t) = fi.nblocks + fileBlocks t := by
      unfold fileBlocks
      rw [List.map_cons, List.sum_cons]
    unfold consecutiveFrom at h
    by_cases h0 : fi.nblocks = 0
    · rw [if_pos h0] at h
      obtain ⟨ih1, ih2⟩ := ih blocknr h
      constructor
      · intro f hf hne
        rcases List.mem_cons.mp hf with rfl | hf
        · exact absurd h0 hne
        · have := ih1 f hf hne
          omega
      · exact List.Pairwise.cons (fun g _ hne => absurd h0 hne) ih2
    · rw [if_neg h0] at h
      obtain ⟨hs, ht⟩ := h
      obtain ⟨ih1, ih2⟩ := ih _ ht
      constructor
      · intro f hf hne
        rcases List.mem_cons.mp hf with rfl | hf
        · omega
        · have := ih1 f hf hne
          omega
      · exact List.Pairwise.cons (fun g hg _ hne => by
          have := ih1 g hg hne
          omega) ih2

/-- The segment that `main` obtains from `fix_disk_layout`, in terms of the
one that the calls of `add_file` built. -/
theorem main_layout_segment (c : Consts) (di0 : nilfs_disk_info) (dev_size : Nat)
    (nilfs_time rnd : Int) (opts : mkfs_options) (di : nilfs_disk_info)
    (si : nilfs_segment_info)
    (h : main_layout c di0 dev_size nilfs_time rnd opts = .ok (di, si)) :
    ∃ d1 s1, main_add_files c opts.blocksize
        (init_disk_layout c di0 dev_size nilfs_time rnd opts).di = .ok (d1, s1) ∧
      (init_disk_layout c di0 dev_size nilfs_time rnd opts).di.nseginfo = 0 ∧
      si.start = s1.start ∧ si.nblk_sum = s1.nblk_sum ∧
      si.nblocks = (s1.nblocks + (s1.nblk_sum + 1) % 2 ^ 32) % 2 ^ 32 ∧
      si.files = assign_file_starts s1.files ((s1.start + s1.nblk_sum) % 2 ^ 64) := by
  unfold main_layout at h
  dsimp only at h
  split at h
  · exact Except.noConfusion h
  · rename_i hacc
    have hnseg := init_disk_layout_nseginfo c di0 dev_size nilfs_time rnd opts hacc
    generalize (init_disk_layout c di0 dev_size nilfs_time rnd opts).di = d0 at *
    split at h
    · exact Except.noConfusion h
    · rename_i d1 s1 hadd
      obtain ⟨rfl, -⟩ := main_add_files_ok c opts.blocksize d0 d1 s1 hnseg hadd
      refine ⟨_, s1, hadd, hnseg, ?_⟩
      rw [fix_disk_layout_single _ s1 rfl] at h
      by_cases hlt : (s1.nblocks + (s1.nblk_sum + 1) % 2 ^ 32) % 2 ^ 32 > d0.blocks_per_segment
      · rw [if_pos hlt] at h
        exact Except.noConfusion h
      · rw [if_neg hlt] at h
        dsimp only at h
        obtain ⟨-, rfl⟩ := Prod.mk.inj (Except.ok.inj h)
        exact ⟨rfl, rfl, rfl, rfl⟩

/-- C30: after `fix_disk_layout`, the files of the initial segment are the
seven files of `main` in the order of the `add_file` calls; those that have
blocks lie one after the other from block `start + nblk_sum` on and do not
overlap; `nblocks` is `nblk_sum` plus the blocks of the files plus 1, so the
files end where the super root block `start + nblocks - 1` begins, and no
file block lies among the summary blocks or on the super root block; the
segment ends at `nblocks_to_write`, the size of the pool. The sizes are
assumed small enough for the 32-bit block count not to wrap. -/
theorem file_block_ranges (c : Consts) (di0 : nilfs_disk_info) (dev_size : Nat)
    (nilfs_time rnd : Int) (opts : mkfs_options) (di : nilfs_disk_info)
    (si : nilfs_segment_info)
    (hb : 0 < opts.blocksize) (hH : 1 ≤ c.NILFS_DISKHDR_SIZE)
    (hH2 : c.NILFS_DISKHDR_SIZE < 2 ^ 31) (hP : c.NILFS_PSEG_MIN_BLOCKS < 2 ^ 31)
    (hR : c.NILFS_MIN_NRSVSEGS < 2 ^ 31) (hU : c.NILFS_MIN_NUSERSEGS < 2 ^ 31)
    (h : main_layout c di0 dev_size nilfs_time rnd opts = .ok (di, si))
    (hsum : fileBlocks si.files + si.nblk_sum + 1 < 2 ^ 32) :
    si.files.map (fun fi => fi.ino) =
      [c.NILFS_ROOT_INO, c.NILFS_SKETCH_INO, c.NILFS_NILFS_INO, c.NILFS_IFILE_INO,
        c.NILFS_CPFILE_INO, c.NILFS_SUFILE_INO, c.NILFS_DAT_INO] ∧
    consecutiveFrom (si.start + si.nblk_sum) si.files ∧
    si.files.Pairwise
      (fun f g => f.nblocks ≠ 0 → g.nblocks ≠ 0 → f.start + f.nblocks ≤ g.start) ∧
    si.nblocks = si.nblk_sum + fileBlocks si.files + 1 ∧
    (∀ fi ∈ si.files, fi.nblocks ≠ 0 →
      si.start + si.nblk_sum ≤ fi.start ∧ fi.start + fi.nblocks ≤ si.start + si.nblocks - 1) ∧
    si.start + si.nblk_sum + fileBlocks si.files = si.start + si.nblocks - 1 ∧
    si.start + si.nblocks = di.nblocks_to_write := by
  obtain ⟨-, hst, hF1, -, -, -, -, -, hnbtw, -, -⟩ :=
    main_layout_ok c di0 dev_size nilfs_time rnd opts di si hb hH hH2 hP hR hU h
  obtain ⟨d1, s1, hadd, hnseg, e1, e2, e3, e4⟩ :=
    main_layout_segment c di0 dev_size nilfs_time rnd opts di si h
  obtain ⟨hinv, hinos⟩ := main_add_files_sum c opts.blocksize _ d1 s1 hnseg hadd
  have hfb : fileBlocks si.files = fileBlocks s1.files := by
    rw [e4, assign_file_starts_fileBlocks]
  have hF : di.first_segment_block < 2 ^ 31 := by
    have := (main_layout_ok c di0 dev_size nilfs_time rnd opts di si hb hH hH2 hP hR hU h).1
    have h2 := (first_segblk_eq c.NILFS_DISKHDR_SIZE opts.blocksize hH (by omega) hb).2
    omega
  have hmod : (s1.start + s1.nblk_sum) % 2 ^ 64 = si.start + si.nblk_sum := by
    rw [← e1, ← e2]
    exact Nat.mod_eq_of_lt (by omega)
  have hnb : si.nblocks = si.nblk_sum + fileBlocks si.files + 1 := by
    rw [e3, hinv, ← e2, ← hfb]
    omega
  have hcons : consecutiveFrom (si.start + si.nblk_sum) si.files := by
    rw [e4, hmod]
    exact assign_file_starts_consecutive s1.files _ (by rw [← hfb]; omega)
  obtain ⟨hb1, hb2⟩ := consecutiveFrom_bounds si.files _ hcons
  refine ⟨?_, hcons, hb2, hnb, ?_, by omega, ?_⟩
  · have h1 := congrArg (List.map Prod.fst)
      (assign_file_starts_blocks s1.files ((s1.start + s1.nblk_sum) % 2 ^ 64))
    rw [List.map_map, List.map_map] at h1
    rw [e4]
    exact h1.trans hinos
  · intro fi hfi hne
    have := hb1 fi hfi hne
    omega
  · rw [hnbtw, hst]

/-- Witness of C30: the sample segment, whose files lie in blocks 2 to 10
between the summary in block 1 and the super root in block 11. -/
theorem file_block_ranges_witness :
    sampleSegment.files.map (fun fi => fi.ino) =
      [releaseConsts.NILFS_ROOT_INO, releaseConsts.NILFS_SKETCH_INO,
        releaseConsts.NILFS_NILFS_INO, releaseConsts.NILFS_IFILE_INO,
        releaseConsts.NILFS_CPFILE_INO, releaseConsts.NILFS_SUFILE_INO,
        releaseConsts.NILFS_DAT_INO] ∧
    consecutiveFrom (sampleSegment.start + sampleSegment.nblk_sum) sampleSegment.files ∧
    sampleSegment.files.Pairwise
      (fun f g => f.nblocks ≠ 0 → g.nblocks ≠ 0 → f.start + f.nblocks ≤ g.start) ∧
    sampleSegment.nblocks = sampleSegment.nblk_sum + fileBlocks sampleSegment.files + 1 ∧
    (∀ fi ∈ sampleSegment.files, fi.nblocks ≠ 0 →
      sampleSegment.start + sampleSegment.nblk_sum ≤ fi.start ∧
        fi.start + fi.nblocks ≤ sampleSegment.start + sampleSegment.nblocks - 1) ∧
    sampleSegment.start + sampleSegment.nblk_sum + fileBlocks sampleSegment.files =
      sampleSegment.start + sampleSegment.nblocks - 1 ∧
    sampleSegment.start + sampleSegment.nblocks = sampleLayout.nblocks_to_write :=
  file_block_ranges releaseConsts sampleDiskInfo (2 ^ 28) 0 0 sampleOptions sampleLayout
    sampleSegment (by decide) (by decide) (by decide) (by decide) (by decide) (by decide)
    (by rfl) (by decide)

/-- C19: for every offset and every record size `s` with `0 < s <=
blocksize`, `map_segsum_info` returns a place for the record that lies in one
block (`offset_in_block + s <= blocksize`): the block of `*offset` when at
least `s` bytes remain there, the start of the next block otherwise; `*offset`
is left just past the record, so that the next record, of size `s2`, starts
at or after the end of this one and lies in one block as well. The offsets are
assumed far enough from 2^64 for nothing to wrap, and the block of the record
inside the pool. -/
theorem segsum_records_in_one_block (blocksize : Int) (size start offset s s2 : Nat)
    (hb : 0 < blocksize) (hs : 0 < s ∧ s ≤ blocksize.toNat)
    (hs2 : 0 < s2 ∧ s2 ≤ blocksize.toNat)
    (ho : start + offset + 2 * blocksize.toNat + s + s2 < 2 ^ 64)
    (hpool : start + offset / blocksize.toNat + 1 < size) :
    (map_segsum_info blocksize size start offset s).fatal = none ∧
    (map_segsum_info blocksize size start offset s).offset_in_block + s ≤ blocksize.toNat ∧
    (map_segsum_info blocksize size start offset s).blocknr =
      (if blocksize.toNat - offset % blocksize.toNat < s then
        start + offset / blocksize.toNat + 1 else start + offset / blocksize.toNat) ∧
    (map_segsum_info blocksize size start offset s).offset_in_block =
      (if blocksize.toNat - offset % blocksize.toNat < s then 0
        else offset % blocksize.toNat) ∧
    (map_segsum_info blocksize size start offset s).offset =
      summaryPosition blocksize start (map_segsum_info blocksize size start offset s).blocknr
        (map_segsum_info blocksize size start offset s).offset_in_block + s ∧
    summaryPosition blocksize start (map_segsum_info blocksize size start offset s).blocknr
        (map_segsum_info blocksize size start offset s).offset_in_block + s ≤
      summaryPosition blocksize start
        (map_segsum_info blocksize size start
          (map_segsum_info blocksize size start offset s).offset s2).blocknr
        (map_segsum_info blocksize size start
          (map_segsum_info blocksize size start offset s).offset s2).offset_in_block ∧
    (map_segsum_info blocksize size start
      (map_segsum_info blocksize size start offset s).offset s2).offset_in_block + s2 ≤
        blocksize.toNat := by
  have hb2 : blocksize < 2 ^ 63 := by omega
  obtain ⟨h1, h2, h3, h4, h5⟩ := map_segsum_info_spec blocksize size start offset s hb hb2 hs.2
    (by omega) (by omega)
  have hfat : (map_segsum_info blocksize size start offset s).fatal =
      if (map_segsum_info blocksize size start offset s).blocknr ≥ size then
        some (.illegal_disk_buffer_access (map_segsum_info blocksize size start offset s).blocknr)
      else none := rfl
  have hblk : (map_segsum_info blocksize size start offset s).blocknr < size := by
    rw [h2]
    generalize offset / blocksize.toNat = q at *
    split_ifs <;> omega
  have hnew : (map_segsum_info blocksize size start offset s).offset ≤
      offset + blocksize.toNat + s := by
    rw [h4, h2, h3]
    unfold summaryPosition
    have hdm := Nat.div_add_mod offset blocksize.toNat
    have hlt := Nat.mod_lt offset (show 0 < blocksize.toNat by omega)
    have hmul : (offset / blocksize.toNat + 1) * blocksize.toNat =
        blocksize.toNat * (offset / blocksize.toNat) + blocksize.toNat := by ring
    have hmul2 : offset / blocksize.toNat * blocksize.toNat =
        blocksize.toNat * (offset / blocksize.toNat) := by ring
    generalize offset / blocksize.toNat = q at *
    generalize offset % blocksize.toNat = r at *
    split_ifs
    · rw [show start + q + 1 - start = q + 1 by omega, hmul]
      omega
    · rw [show start + q - start = q by omega, hmul2]
      omega
  obtain ⟨k1, -, -, -, k5⟩ := map_segsum_info_spec blocksize size start
    (map_segsum_info blocksize size start offset s).offset s2 hb hb2 hs2.2 (by omega) (by omega)
  refine ⟨?_, h1, h2, h3, h4, ?_, k1⟩
  · rw [hfat]
    simp only [ge_iff_le, Nat.not_le.mpr hblk, if_false]
  · rw [← h4]
    exact k5

/-- Witness of C19: with blocks of 4096 bytes, a record of 24 bytes asked
for at offset 4090 goes to the start of the next block, and the record of 16
bytes that follows it starts at byte 24 of that block. -/
theorem segsum_records_in_one_block_witness :
    map_segsum_info 4096 12 1 4090 24 = ⟨4120, 2, 0, none⟩ ∧
    map_segsum_info 4096 12 1 4120 16 = ⟨4136, 2, 24, none⟩ ∧
    (map_segsum_info 4096 12 1 4090 24).fatal = none ∧
    (map_segsum_info 4096 12 1 4090 24).offset_in_block + 24 ≤ (4096 : Int).toNat :=
  ⟨by decide, by decide,
   (segsum_records_in_one_block 4096 12 1 4090 24 16 (by decide) (by decide) (by decide)
      (by decide) (by decide)).1,
   (segsum_records_in_one_block 4096 12 1 4090 24 16 (by decide) (by decide) (by decide)
      (by decide) (by decide)).2.1⟩

/-- C17, evaluated for the device `/dev/sda` while `/dev/sda1` is mounted:
the only line of the mount table has the first field `/dev/sda1`, which is
not the device path, and `check_mount` ends with the mount-conflict error. On
the same table the device `/dev/sdb` passes. -/
theorem check_mount_matches_initial_part :
    check_mount (some "/dev/sda1 / ext4 rw 0 0\n".data) "/dev/sda".data =
      some .currently_mounted ∧
    "/dev/sda1 / ext4 rw 0 0\n".data.splitOn (Char.ofNat 10) =
      ["/dev/sda1 / ext4 rw 0 0".data, []] ∧
    firstField "/dev/sda1 / ext4 rw 0 0".data = "/dev/sda1".data ∧
    mountConflict "/dev/sda1 / ext4 rw 0 0\n".data "/dev/sda".data = false ∧
    check_mount (some "/dev/sda1 / ext4 rw 0 0\n".data) "/dev/sdb".data = none := by
  decide

/-- C25, evaluated for `mkfs -c /dev/sdb` and `mkfs -cc /dev/sdb` with blocks
of 4096 bytes: the command line has 31 and 33 characters, which fit in the
buffer of 1024 bytes, and `disk_scan` ends with the internal error instead of
handing the command to `system`. -/
theorem disk_scan_aborts_when_command_fits :
    badblocks_command "/dev/sdb".data { sampleOptions with cflag := 1 } =
      "badblocks -b 4096 -s  /dev/sdb\n".data ∧
    main_disk_scan "/dev/sdb".data { sampleOptions with cflag := 1 } =
      some (.error .command_line_buffer_overflow) ∧
    badblocks_command "/dev/sdb".data { sampleOptions with cflag := 2 } =
      "badblocks -b 4096 -s -w /dev/sdb\n".data ∧
    main_disk_scan "/dev/sdb".data { sampleOptions with cflag := 2 } =
      some (.error .command_line_buffer_overflow) := by
  refine ⟨by rfl, by rfl, by rfl, by rfl⟩

/-- The loop of chcp away from `ULONG_MAX`: when no argument denotes
`ULONG_MAX` itself, the status is 0 if and only if every argument is a
base-10 number consumed to its end and in range and `nilfs_change_cpmode`
succeeds on each of them, it is 1 otherwise, and `nilfs_change_cpmode` is
called for every valid argument, in order. -/
theorem chcp_exit_status {σ : Type} (change : σ → Nat → Int → σ × Int × Nat) (mode : Int)
    (args : List (List Char)) (fs : σ) (errno : Nat)
    (hmax : ∀ arg ∈ args, (strtoull arg CHCP_BASE).value = ULLONG_MAX →
      strtoul_overflows arg CHCP_BASE = true) :
    ((chcp_loop change mode args ⟨fs, errno, 0, []⟩).status = 0 ↔
      (∀ arg ∈ args, validCno arg = true) ∧
        changesSucceed change mode
          ((args.filter validCno).map (fun arg => (strtoull arg CHCP_BASE).value)) fs = true) ∧
    ((chcp_loop change mode args ⟨fs, errno, 0, []⟩).status = 0 ∨
      (chcp_loop change mode args ⟨fs, errno, 0, []⟩).status = 1) ∧
    (chcp_loop change mode args ⟨fs, errno, 0, []⟩).calls =
      (args.filter validCno).map (fun arg => (strtoull arg CHCP_BASE).value) := by
  obtain ⟨h1, h2⟩ := chcp_loop_spec change mode args ⟨fs, errno, 0, []⟩ hmax
  dsimp only at h1 h2
  rw [List.nil_append] at h1
  refine ⟨?_, ?_, h1⟩
  · rw [h2]
    by_cases hc : (args.all validCno &&
        changesSucceed change mode
          ((args.filter validCno).map (fun arg => (strtoull arg CHCP_BASE).value)) fs) = true
    · rw [if_pos hc]
      rw [Bool.and_eq_true, List.all_eq_true] at hc
      exact ⟨fun _ => hc, fun _ => rfl⟩
    · rw [if_neg hc]
      rw [Bool.and_eq_true, List.all_eq_true] at hc
      exact ⟨fun h => absurd h (by decide), fun h => absurd h hc⟩
  · rw [h2]
    split_ifs
    · exact Or.inl rfl
    · exact Or.inr rfl

/-- The arguments 1 2 3 with checkpoint 2 missing: the calls are made for
1, 2 and 3, checkpoints 1 and 3 are changed and the status is 1. -/
theorem chcp_exit_status_witness :
    (chcp_loop sampleChange 1 ["1".data, "2".data, "3".data] ⟨[], 0, 0, []⟩).status = 1 ∧
    (chcp_loop sampleChange 1 ["1".data, "2".data, "3".data] ⟨[], 0, 0, []⟩).fs = [1, 3] ∧
    (chcp_loop sampleChange 1 ["1".data, "x".data, "3".data] ⟨[], 0, 0, []⟩).fs = [1, 3] ∧
    (chcp_loop sampleChange 1 ["1".data, "2".data, "3".data] ⟨[], 0, 0, []⟩).calls =
      (["1".data, "2".data, "3".data].filter validCno).map
        (fun arg => (strtoull arg CHCP_BASE).value) :=
  ⟨by decide, by decide, by decide,
   (chcp_exit_status sampleChange 1 ["1".data, "2".data, "3".data] [] 0 (by decide)).2.2⟩

/-- C24: chcp tests `errno == ERANGE` after `strtoul` without clearing
`errno` before the call, so a range error of an earlier argument is still
there when a later argument denotes `ULONG_MAX` itself. For the arguments
99999999999999999999 and 18446744073709551615 the second is a base-10
number consumed to its end and in range, on which `nilfs_change_cpmode`
would succeed, yet it is refused and `nilfs_change_cpmode` is never called.
With `errno` equal to `ERANGE` when the loop starts, the single argument
18446744073709551615 gives the status 1 although every argument is valid
and every change would succeed; with `errno` 0 the same argument is changed
and the status is 0. -/
theorem chcp_refuses_max_after_range_error :
    validCno "18446744073709551615".data = true ∧
    (strtoull "18446744073709551615".data CHCP_BASE).value = ULLONG_MAX ∧
    validCno "99999999999999999999".data = false ∧
    0 ≤ (sampleChange [] ULLONG_MAX 1).2.1 ∧
    (chcp_loop sampleChange 1
      ["99999999999999999999".data, "18446744073709551615".data] ⟨[], 0, 0, []⟩).calls = [] ∧
    (chcp_loop sampleChange 1
      ["99999999999999999999".data, "18446744073709551615".data] ⟨[], 0, 0, []⟩).fs = [] ∧
    (chcp_loop sampleChange 1 ["18446744073709551615".data] ⟨[], ERANGE, 0, []⟩).status = 1 ∧
    (chcp_loop sampleChange 1 ["18446744073709551615".data] ⟨[], ERANGE, 0, []⟩).calls = [] ∧
    changesSucceed sampleChange 1 [ULLONG_MAX] [] = true ∧
    (chcp_loop sampleChange 1 ["18446744073709551615".data] ⟨[], 0, 0, []⟩).status = 0 ∧
    (chcp_loop sampleChange 1 ["18446744073709551615".data] ⟨[], 0, 0, []⟩).calls =
      [ULLONG_MAX] := by
  decide

/-! ## The checksums of the initial segment -/

theorem samplePool_wellFormed (a b : List Nat) (ha : a.length = 4096) (hb : b.length = 4096) :
    (samplePool a b).wellFormed 4096 := by
  intro n buf h
  unfold samplePool at h
  dsimp only at h
  split_ifs at h
  · cases h; exact ha
  · cases h; exact hb

/-- C11: in the image that `write_disk` writes, the stored `ss_sumsum` is
the CRC32, seeded with `crc_seed`, of the bytes `[8, sumbytes)` of the block
where the partial segment starts, and these bytes are the ones the summary
held when `fill_in_checksums` was called: no later write changes them. `p` is
the pool that the steps of `commit_segment` before the checksums leave; it
holds the whole segment, the summary fits in its first block, and the
superblock lies before the segment. -/
theorem summary_checksum (crc : Nat → List Nat → Nat) (c : Consts) (bs : Nat)
    (u1 u2 u3 : DiskBuffer → Except Fatal DiskBuffer) (p0 p : DiskBuffer)
    (di : nilfs_disk_info) (si : nilfs_segment_info) (ss sr sb_block : List Nat)
    (hu : (do let a ← u1 p0; let b ← u2 a; u3 b) = .ok p)
    (hbs : 8 ≤ bs) (hbs2 : bs < 2 ^ 63) (hp : p.wellFormed bs)
    (hss : p.block si.start = some ss) (hsr : p.block (super_root_blocknr si) = some sr)
    (hn : 2 ≤ si.nblocks) (hpool : si.start + si.nblocks ≤ p.size) (hsz : p.size ≤ 2 ^ 64)
    (hsum : 8 ≤ si.sumbytes ∧ si.sumbytes ≤ bs)
    (hsrb : 4 ≤ c.NILFS_SR_BYTES ∧ c.NILFS_SR_BYTES ≤ bs)
    (hsb : c.NILFS_SB_OFFSET_BYTES / bs < si.start) :
    ∃ p1, commit_segment crc c bs u1 u2 u3 p0 di si = .ok p1 ∧
      bytes_at (final_image c bs p1 sb_block si.start) 8 (si.sumbytes - 8) =
        bytes_at ss 8 (si.sumbytes - 8) ∧
      load_le32 (final_image c bs p1 sb_block si.start) 4 =
        crc di.crc_seed (bytes_at (final_image c bs p1 sb_block si.start) 8 (si.sumbytes - 8))
          % 2 ^ 32 := by
  obtain ⟨p1, D, hc, -, h1, -, -, -⟩ := final_image_spec crc c bs u1 u2 u3 p0 p di si ss sr
    sb_block hu hbs hbs2 hp hss hsr hn hpool hsz hsum hsrb hsb
  have hd8 : (final_image c bs p1 sb_block si.start).drop 8 = ss.drop 8 := by
    rw [h1, ← List.append_assoc, List.drop_append_of_le_length (by
      rw [List.length_append, le32_bytes_length, le32_bytes_length]),
      List.drop_of_length_le (by
      rw [List.length_append, le32_bytes_length, le32_bytes_length]), List.nil_append]
  have hb8 := bytes_at_eq_of_drop _ _ 8 (si.sumbytes - 8) hd8
  refine ⟨p1, hc, hb8, ?_⟩
  rw [hb8, h1]
  unfold load_le32 bytes_at
  rw [List.drop_append_of_le_length (by rw [le32_bytes_length]),
    List.drop_of_length_le (by rw [le32_bytes_length]), List.nil_append,
    List.take_append_of_le_length (by rw [le32_bytes_length]),
    List.take_of_length_le (by rw [le32_bytes_length]), le32_value_bytes, Nat.mod_mod]

/-- Witness of C11: the sample segment in a pool whose summary and super
root hold zeros, the three earlier steps doing nothing. -/
theorem summary_checksum_witness :
    ∃ p1, commit_segment crc32_le_bitwise releaseConsts 4096 pure pure pure
        (samplePool (List.replicate 4096 0) (List.replicate 4096 0)) sampleLayout
        sampleSegment = .ok p1 ∧
      bytes_at (final_image releaseConsts 4096 p1 (List.replicate 4096 0) sampleSegment.start)
          8 (sampleSegment.sumbytes - 8) =
        bytes_at (List.replicate 4096 0) 8 (sampleSegment.sumbytes - 8) ∧
      load_le32 (final_image releaseConsts 4096 p1 (List.replicate 4096 0) sampleSegment.start)
          4 =
        crc32_le_bitwise sampleLayout.crc_seed
          (bytes_at (final_image releaseConsts 4096 p1 (List.replicate 4096 0)
            sampleSegment.start) 8 (sampleSegment.sumbytes - 8)) % 2 ^ 32 :=
  summary_checksum crc32_le_bitwise releaseConsts 4096 pure pure pure
    (samplePool (List.replicate 4096 0) (List.replicate 4096 0))
    (samplePool (List.replicate 4096 0) (List.replicate 4096 0)) sampleLayout sampleSegment
    (List.replicate 4096 0) (List.replicate 4096 0) (List.replicate 4096 0) rfl (by decide)
    (by decide)
    (samplePool_wellFormed _ _ (List.length_replicate _ _) (List.length_replicate _ _))
    rfl rfl (by decide) (by decide) (by decide) (by decide) (by decide) (by decide)

/-- C12: in the image that `write_disk` writes, the super root is the block
`start + nblocks - 1` of the partial segment, and its stored `sr_sum` is the
CRC32, seeded with `crc_seed`, of its bytes from just after `sr_sum` up to
`NILFS_SR_BYTES`; these bytes are the ones the block held when
`fill_in_checksums` was called, that is after `update_blocknr`,
`commit_cpfile` and `commit_sufile` had written the inodes of the DAT, the
checkpoint file and the segment usage file into it. -/
theorem super_root_checksum (crc : Nat → List Nat → Nat) (c : Consts) (bs : Nat)
    (u1 u2 u3 : DiskBuffer → Except Fatal DiskBuffer) (p0 p : DiskBuffer)
    (di : nilfs_disk_info) (si : nilfs_segment_info) (ss sr sb_block : List Nat)
    (hu : (do let a ← u1 p0; let b ← u2 a; u3 b) = .ok p)
    (hbs : 8 ≤ bs) (hbs2 : bs < 2 ^ 63) (hp : p.wellFormed bs)
    (hss : p.block si.start = some ss) (hsr : p.block (super_root_blocknr si) = some sr)
    (hn : 2 ≤ si.nblocks) (hpool : si.start + si.nblocks ≤ p.size) (hsz : p.size ≤ 2 ^ 64)
    (hsum : 8 ≤ si.sumbytes ∧ si.sumbytes ≤ bs)
    (hsrb : 4 ≤ c.NILFS_SR_BYTES ∧ c.NILFS_SR_BYTES ≤ bs)
    (hsb : c.NILFS_SB_OFFSET_BYTES / bs < si.start) :
    ∃ p1, commit_segment crc c bs u1 u2 u3 p0 di si = .ok p1 ∧
      super_root_blocknr si = si.start + si.nblocks - 1 ∧
      bytes_at (final_image c bs p1 sb_block (si.start + si.nblocks - 1)) 4
          (c.NILFS_SR_BYTES - 4) =
        bytes_at sr 4 (c.NILFS_SR_BYTES - 4) ∧
      load_le32 (final_image c bs p1 sb_block (si.start + si.nblocks - 1)) 0 =
        crc di.crc_seed (bytes_at (final_image c bs p1 sb_block (si.start + si.nblocks - 1)) 4
          (c.NILFS_SR_BYTES - 4)) % 2 ^ 32 := by
  obtain ⟨p1, D, hc, hsrn, -, h2, -, -⟩ := final_image_spec crc c bs u1 u2 u3 p0 p di si ss sr
    sb_block hu hbs hbs2 hp hss hsr hn hpool hsz hsum hsrb hsb
  rw [hsrn] at h2
  have hd4 : (final_image c bs p1 sb_block (si.start + si.nblocks - 1)).drop 4 = sr.drop 4 := by
    rw [h2, List.drop_append_of_le_length (by rw [le32_bytes_length]),
      List.drop_of_length_le (by rw [le32_bytes_length]), List.nil_append]
  have hb4 := bytes_at_eq_of_drop _ _ 4 (c.NILFS_SR_BYTES - 4) hd4
  refine ⟨p1, hc, hsrn, hb4, ?_⟩
  rw [hb4, h2]
  unfold load_le32 bytes_at
  rw [List.drop_zero, List.take_append_of_le_length (by rw [le32_bytes_length]),
    List.take_of_length_le (by rw [le32_bytes_length]), le32_value_bytes, Nat.mod_mod]

/-- Witness of C12: the sample segment, whose super root is block 11. -/
theorem super_root_checksum_witness :
    ∃ p1, commit_segment crc32_le_bitwise releaseConsts 4096 pure pure pure
        (samplePool (List.replicate 4096 0) (List.replicate 4096 0)) sampleLayout
        sampleSegment = .ok p1 ∧
      super_root_blocknr sampleSegment = sampleSegment.start + sampleSegment.nblocks - 1 ∧
      bytes_at (final_image releaseConsts 4096 p1 (List.replicate 4096 0)
          (sampleSegment.start + sampleSegment.nblocks - 1)) 4
          (releaseConsts.NILFS_SR_BYTES - 4) =
        bytes_at (List.replicate 4096 0) 4 (releaseConsts.NILFS_SR_BYTES - 4) ∧
      load_le32 (final_image releaseConsts 4096 p1 (List.replicate 4096 0)
          (sampleSegment.start + sampleSegment.nblocks - 1)) 0 =
        crc32_le_bitwise sampleLayout.crc_seed
          (bytes_at (final_image releaseConsts 4096 p1 (List.replicate 4096 0)
            (sampleSegment.start + sampleSegment.nblocks - 1)) 4
            (releaseConsts.NILFS_SR_BYTES - 4)) % 2 ^ 32 :=
  super_root_checksum crc32_le_bitwise releaseConsts 4096 pure pure pure
    (samplePool (List.replicate 4096 0) (List.replicate 4096 0))
    (samplePool (List.replicate 4096 0) (List.replicate 4096 0)) sampleLayout sampleSegment
    (List.replicate 4096 0) (List.replicate 4096 0) (List.replicate 4096 0) rfl (by decide)
    (by decide)
    (samplePool_wellFormed _ _ (List.length_replicate _ _) (List.length_replicate _ _))
    rfl rfl (by decide) (by decide) (by decide) (by decide) (by decide) (by decide)

/-- C13 as amended: in the image that `write_disk` writes, the stored
`ss_datasum` is the CRC32, seeded with `crc_seed`, chained over the bytes
`[4, blocksize)` of the block where the partial segment starts, which
include the field `ss_sumsum`, and then over every full block of
`[start + 1, start + nblocks)` in ascending order. -/
theorem segment_data_checksum (crc : Nat → List Nat → Nat) (c : Consts) (bs : Nat)
    (u1 u2 u3 : DiskBuffer → Except Fatal DiskBuffer) (p0 p : DiskBuffer)
    (di : nilfs_disk_info) (si : nilfs_segment_info) (ss sr sb_block : List Nat)
    (hu : (do let a ← u1 p0; let b ← u2 a; u3 b) = .ok p)
    (hbs : 8 ≤ bs) (hbs2 : bs < 2 ^ 63) (hp : p.wellFormed bs)
    (hss : p.block si.start = some ss) (hsr : p.block (super_root_blocknr si) = some sr)
    (hn : 2 ≤ si.nblocks) (hpool : si.start + si.nblocks ≤ p.size) (hsz : p.size ≤ 2 ^ 64)
    (hsum : 8 ≤ si.sumbytes ∧ si.sumbytes ≤ bs)
    (hsrb : 4 ≤ c.NILFS_SR_BYTES ∧ c.NILFS_SR_BYTES ≤ bs)
    (hsb : c.NILFS_SB_OFFSET_BYTES / bs < si.start) :
    ∃ p1, commit_segment crc c bs u1 u2 u3 p0 di si = .ok p1 ∧
      load_le32 (final_image c bs p1 sb_block si.start) 0 =
        dataChecksum crc bs (final_image c bs p1 sb_block) di.crc_seed si.start si.nblocks 4 := by
  obtain ⟨p1, D, hc, -, h1, -, -, hD⟩ := final_image_spec crc c bs u1 u2 u3 p0 p di si ss sr
    sb_block hu hbs hbs2 hp hss hsr hn hpool hsz hsum hsrb hsb
  have hssl : ss.length = bs := hp _ _ hss
  refine ⟨p1, hc, ?_⟩
  have hb4 : bytes_at (final_image c bs p1 sb_block si.start) 4 (bs - 4) =
      le32_bytes (crc di.crc_seed (bytes_at ss 8 (si.sumbytes - 8)) % 2 ^ 32) ++ ss.drop 8 := by
    rw [h1]
    unfold bytes_at
    rw [List.drop_append_of_le_length (by rw [le32_bytes_length]),
      List.drop_of_length_le (by rw [le32_bytes_length]), List.nil_append,
      List.take_of_length_le (by
        rw [List.length_append, le32_bytes_length, List.length_drop]
        omega)]
  have hload : load_le32 (final_image c bs p1 sb_block si.start) 0 = D % 2 ^ 32 := by
    rw [h1]
    unfold load_le32 bytes_at
    rw [List.drop_zero, List.take_append_of_le_length (by rw [le32_bytes_length]),
      List.take_of_length_le (by rw [le32_bytes_length]), le32_value_bytes]
  unfold dataChecksum
  rw [hload, hb4, ← hD]
  exact Nat.mod_eq_of_lt (by
    rw [hD]
    exact chainBlocks_lt crc _ _ _ _ (Nat.mod_lt _ (by norm_num)))

/-- Witness of the amended C13: the sample segment. -/
theorem segment_data_checksum_witness :
    ∃ p1, commit_segment crc32_le_bitwise releaseConsts 4096 pure pure pure
        (samplePool (List.replicate 4096 0) (List.replicate 4096 0)) sampleLayout
        sampleSegment = .ok p1 ∧
      load_le32 (final_image releaseConsts 4096 p1 (List.replicate 4096 0) sampleSegment.start)
          0 =
        dataChecksum crc32_le_bitwise 4096
          (final_image releaseConsts 4096 p1 (List.replicate 4096 0)) sampleLayout.crc_seed
          sampleSegment.start sampleSegment.nblocks 4 :=
  segment_data_checksum crc32_le_bitwise releaseConsts 4096 pure pure pure
    (samplePool (List.replicate 4096 0) (List.replicate 4096 0))
    (samplePool (List.replicate 4096 0) (List.replicate 4096 0)) sampleLayout sampleSegment
    (List.replicate 4096 0) (List.replicate 4096 0) (List.replicate 4096 0) rfl (by decide)
    (by decide)
    (samplePool_wellFormed _ _ (List.length_replicate _ _) (List.length_replicate _ _))
    rfl rfl (by decide) (by decide) (by decide) (by decide) (by decide) (by decide)

theorem smallBlockPool_wellFormed : smallBlockPool.wellFormed 1024 := by
  intro n buf h
  unfold smallBlockPool at h
  dsimp only at h
  split_ifs at h
  · cases h
    rw [List.length_append, List.length_cons, List.length_replicate, List.length_replicate]
  · cases h
    exact List.length_replicate _ _

theorem drop_replicate_append (a b : Nat) (l : List Nat) :
    (List.replicate (a + b) 0 ++ l).drop a = List.replicate b 0 ++ l := by
  induction a with
  | zero => rw [Nat.zero_add, List.drop_zero]
  | succ a ih =>
    rw [show a + 1 + b = (a + b) + 1 by omega, List.replicate_succ, List.cons_append,
      List.drop_succ_cons, ih]

theorem take_replicate_append (b x : Nat) (t : List Nat) :
    (List.replicate b 0 ++ x :: t).take (b + 1) = List.replicate b 0 ++ [x] := by
  induction b with
  | zero => rfl
  | succ b ih =>
    rw [List.replicate_succ, List.cons_append, List.take_succ_cons, ih, List.cons_append]

theorem smallBlockSummary_bytes :
    ∀ b ∈ (List.replicate 327 0 ++ 1 :: List.replicate 696 0 : List Nat).drop 8, b < 256 := by
  intro b hb
  have hb' := List.mem_of_mem_drop hb
  rw [List.mem_append, List.mem_cons] at hb'
  rcases hb' with h | h | h
  · rw [List.eq_of_mem_replicate h]; decide
  · rw [h]; decide
  · rw [List.eq_of_mem_replicate h]; decide

theorem smallBlockSummary_range :
    bytes_at (List.replicate 327 0 ++ 1 :: List.replicate 696 0) 8 (328 - 8) =
      List.replicate 319 0 ++ [1] := by
  have h1 := drop_replicate_append 8 319 (1 :: List.replicate 696 0)
  have h2 := take_replicate_append 319 1 (List.replicate 696 0)
  unfold bytes_at
  exact (congrArg (List.take (319 + 1)) h1).trans h2

/-- C13 as stated fails for blocks of 1024 bytes and segments of 16 blocks,
with the seed 0 and a summary whose last byte is 1: the stored `ss_datasum`
is not the checksum chained from `[8, blocksize)` of the first block, because
the code starts at byte 4 and so takes in the field `ss_sumsum`, which here
holds a non-zero value. -/
theorem segment_data_checksum_not_from_byte_8 :
    main_layout releaseConsts sampleDiskInfo (2 ^ 28) 0 0 smallBlockOptions =
      .ok (smallBlockLayout, smallBlockSegment) ∧
    ∃ p1, commit_segment crc32_le_bitwise releaseConsts 1024 pure pure pure smallBlockPool
        smallBlockLayout smallBlockSegment = .ok p1 ∧
      load_le32 (final_image releaseConsts 1024 p1 (List.replicate 1024 0) 4) 0 ≠
        dataChecksum crc32_le_bitwise 1024
          (final_image releaseConsts 1024 p1 (List.replicate 1024 0)) 0 4 12 8 := by
  refine ⟨by rfl, ?_⟩
  obtain ⟨p1, D, hc, hsrn, h1, h2, h3, hD⟩ := final_image_spec crc32_le_bitwise releaseConsts
    1024 pure pure pure smallBlockPool smallBlockPool smallBlockLayout smallBlockSegment
    (List.replicate 327 0 ++ 1 :: List.replicate 696 0) (List.replicate 1024 0)
    (List.replicate 1024 0) rfl (by decide) (by decide) smallBlockPool_wellFormed rfl rfl
    (by decide) (by decide) (by decide) (by decide) (by decide) (by decide)
  refine ⟨p1, hc, ?_⟩
  have hstart : smallBlockSegment.start = 4 := rfl
  have hnb : smallBlockSegment.nblocks - 1 = 11 := rfl
  have hseed : smallBlockLayout.crc_seed = 0 := rfl
  have hsrb : super_root_blocknr smallBlockSegment = 15 := by decide
  rw [hstart, hseed] at h1 hD
  rw [hstart] at h3
  rw [hnb] at hD
  rw [hsrb] at h2 h3
  have hSval : crc32_le_bitwise 0 (List.replicate 319 0 ++ [1]) = crc32_le_bitwise 0 [1] := by
    rw [crc32_le_bitwise_append, crc32_le_bitwise_zeros]
  rw [show smallBlockSegment.sumbytes = 328 from rfl, smallBlockSummary_range, hSval] at h1 hD
  generalize hS : crc32_le_bitwise 0 [1] % 2 ^ 32 = S at h1 hD
  generalize htail : (List.replicate 327 0 ++ 1 :: List.replicate 696 0 : List Nat).drop 8 =
    tail at h1 hD
  have htb : ∀ b ∈ tail, b < 256 := by
    rw [← htail]
    exact smallBlockSummary_bytes
  have htl : tail.length = 1016 := by
    rw [← htail, List.length_drop, List.length_append, List.length_cons, List.length_replicate,
      List.length_replicate]
  have hSb : ∀ b ∈ le32_bytes S, b < 256 := by
    intro b hb
    unfold le32_bytes at hb
    simp only [List.mem_cons, List.mem_singleton, List.not_mem_nil, or_false] at hb
    omega
  -- the two checksums
  have hload : load_le32 (final_image releaseConsts 1024 p1 (List.replicate 1024 0) 4) 0 =
      D := by
    rw [h1]
    unfold load_le32 bytes_at
    rw [List.drop_zero, List.take_append_of_le_length (by rw [le32_bytes_length]),
      List.take_of_length_le (by rw [le32_bytes_length]), le32_value_bytes]
    exact Nat.mod_eq_of_lt (by
      rw [hD]
      exact chainBlocks_lt _ _ _ _ _ (Nat.mod_lt _ (by norm_num)))
  have hb8 : bytes_at (final_image releaseConsts 1024 p1 (List.replicate 1024 0) 4) 8
      (1024 - 8) = tail := by
    rw [h1]
    unfold bytes_at
    rw [← List.append_assoc, List.drop_append_of_le_length (by
      rw [List.length_append, le32_bytes_length, le32_bytes_length]),
      List.drop_of_length_le (by
      rw [List.length_append, le32_bytes_length, le32_bytes_length]), List.nil_append,
      List.take_of_length_le (by omega)]
  unfold dataChecksum
  rw [hload, hb8, show (12 : Nat) - 1 = 11 from rfl]
  intro heq
  rw [hD] at heq
  -- the blocks that follow hold bytes only
  have himg : ∀ m, 4 < m → m ≤ 4 + 11 →
      ∀ b ∈ final_image releaseConsts 1024 p1 (List.replicate 1024 0) m, b < 256 := by
    intro m hm1 hm2 b hb
    by_cases hm : m = 15
    · rw [hm, h2] at hb
      rcases List.mem_append.mp hb with h | h
      · unfold le32_bytes at h
        simp only [List.mem_cons, List.mem_singleton, List.not_mem_nil, or_false] at h
        omega
      · rw [List.eq_of_mem_replicate (List.mem_of_mem_drop h)]
        decide
    · rw [h3 m hm1 hm] at hb
      have himg0 : smallBlockPool.image 1024 m = List.replicate 1024 0 := by
        unfold DiskBuffer.image smallBlockPool
        dsimp only
        rw [if_neg (by omega), if_neg hm]
        rfl
      rw [himg0] at hb
      rw [List.eq_of_mem_replicate hb]
      decide
  have hx : crc32_le_bitwise 0 (le32_bytes S ++ tail) < 2 ^ 32 :=
    crc32_le_bitwise_lt _ 0 (by norm_num) (fun b hb => by
      rcases List.mem_append.mp hb with h | h
      · exact hSb b h
      · exact htb b h)
  have hy : crc32_le_bitwise 0 tail < 2 ^ 32 := crc32_le_bitwise_lt _ 0 (by norm_num) htb
  have h4 := chainBlocks_inj _ 11 4 _ _ (Nat.mod_lt _ (by norm_num)) (Nat.mod_lt _ (by norm_num))
    himg heq
  rw [Nat.mod_eq_of_lt hx, Nat.mod_eq_of_lt hy, crc32_le_bitwise_append] at h4
  have h5 := crc32_le_bitwise_inj tail _ _
    (crc32_le_bitwise_lt _ 0 (by norm_num) hSb) (by norm_num) htb h4
  rw [← hS] at h5
  revert h5
  decide

/-- The three checksums of the segment as read from the final image. -/
theorem final_image_checks (crc : Nat → List Nat → Nat) (c : Consts) (bs : Nat)
    (u1 u2 u3 : DiskBuffer → Except Fatal DiskBuffer) (p0 p : DiskBuffer)
    (di : nilfs_disk_info) (si : nilfs_segment_info) (ss sr sb_block : List Nat)
    (hu : (do let a ← u1 p0; let b ← u2 a; u3 b) = .ok p)
    (hbs : 8 ≤ bs) (hbs2 : bs < 2 ^ 63) (hp : p.wellFormed bs)
    (hss : p.block si.start = some ss) (hsr : p.block (super_root_blocknr si) = some sr)
    (hn : 2 ≤ si.nblocks) (hpool : si.start + si.nblocks ≤ p.size) (hsz : p.size ≤ 2 ^ 64)
    (hsum : 8 ≤ si.sumbytes ∧ si.sumbytes ≤ bs)
    (hsrb : 4 ≤ c.NILFS_SR_BYTES ∧ c.NILFS_SR_BYTES ≤ bs)
    (hsb : c.NILFS_SB_OFFSET_BYTES / bs < si.start) :
    ∃ p1, commit_segment crc c bs u1 u2 u3 p0 di si = .ok p1 ∧
      load_le32 (final_image c bs p1 sb_block si.start) 0 =
        dataChecksum crc bs (final_image c bs p1 sb_block) di.crc_seed si.start si.nblocks 4 ∧
      load_le32 (final_image c bs p1 sb_block si.start) 4 =
        crc di.crc_seed (bytes_at (final_image c bs p1 sb_block si.start) 8 (si.sumbytes - 8))
          % 2 ^ 32 ∧
      load_le32 (final_image c bs p1 sb_block (super_root_blocknr si)) 0 =
        crc di.crc_seed (bytes_at (final_image c bs p1 sb_block (super_root_blocknr si)) 4
          (c.NILFS_SR_BYTES - 4)) % 2 ^ 32 := by
  obtain ⟨p1, D, hc, -, h1, h2, -, hD⟩ := final_image_spec crc c bs u1 u2 u3 p0 p di si ss sr
    sb_block hu hbs hbs2 hp hss hsr hn hpool hsz hsum hsrb hsb
  have hssl : ss.length = bs := hp _ _ hss
  have hl4 : ∀ v, (le32_bytes v).length = 4 := le32_bytes_length
  refine ⟨p1, hc, ?_, ?_, ?_⟩
  · have hb4 : bytes_at (final_image c bs p1 sb_block si.start) 4 (bs - 4) =
        le32_bytes (crc di.crc_seed (bytes_at ss 8 (si.sumbytes - 8)) % 2 ^ 32) ++
          ss.drop 8 := by
      rw [h1]
      unfold bytes_at
      rw [List.drop_append_of_le_length (by rw [hl4]),
        List.drop_of_length_le (by rw [hl4]), List.nil_append,
        List.take_of_length_le (by
          rw [List.length_append, hl4, List.length_drop]
          omega)]
    have hload : load_le32 (final_image c bs p1 sb_block si.start) 0 = D % 2 ^ 32 := by
      rw [h1]
      unfold load_le32 bytes_at
      rw [List.drop_zero, List.take_append_of_le_length (by rw [hl4]),
        List.take_of_length_le (by rw [hl4]), le32_value_bytes]
    unfold dataChecksum
    rw [hload, hb4, ← hD]
    exact Nat.mod_eq_of_lt (by
      rw [hD]
      exact chainBlocks_lt crc _ _ _ _ (Nat.mod_lt _ (by norm_num)))
  · have hd8 : (final_image c bs p1 sb_block si.start).drop 8 = ss.drop 8 := by
      rw [h1, ← List.append_assoc, List.drop_append_of_le_length (by
        rw [List.length_append, hl4, hl4]),
        List.drop_of_length_le (by rw [List.length_append, hl4, hl4]), List.nil_append]
    rw [bytes_at_eq_of_drop _ _ 8 (si.sumbytes - 8) hd8, h1]
    unfold load_le32 bytes_at
    rw [List.drop_append_of_le_length (by rw [hl4]),
      List.drop_of_length_le (by rw [hl4]), List.nil_append,
      List.take_append_of_le_length (by rw [hl4]),
      List.take_of_length_le (by rw [hl4]), le32_value_bytes, Nat.mod_mod]
  · have hd4 : (final_image c bs p1 sb_block (super_root_blocknr si)).drop 4 = sr.drop 4 := by
      rw [h2, List.drop_append_of_le_length (by rw [hl4]),
        List.drop_of_length_le (by rw [hl4]), List.nil_append]
    rw [bytes_at_eq_of_drop _ _ 4 (c.NILFS_SR_BYTES - 4) hd4, h2]
    unfold load_le32 bytes_at
    rw [List.drop_zero, List.take_append_of_le_length (by rw [hl4]),
      List.take_of_length_le (by rw [hl4]), le32_value_bytes, Nat.mod_mod]

/-- C28: `fill_in_checksums` computes the data checksum last. In the image
that `write_disk` writes, the stored `ss_datasum` is the CRC32, seeded with
`crc_seed`, of the first block of the partial segment from the byte after
`ss_datasum` to the end of the block, chained over every following block of
the segment in ascending order; these bytes hold the final `ss_sumsum` and
`sr_sum`, so on that same image the summary checksum and the super root
checksum verify as well. -/
theorem checksums_verify_together (crc : Nat → List Nat → Nat) (c : Consts) (bs : Nat)
    (u1 u2 u3 : DiskBuffer → Except Fatal DiskBuffer) (p0 p : DiskBuffer)
    (di : nilfs_disk_info) (si : nilfs_segment_info) (ss sr sb_block : List Nat)
    (hu : (do let a ← u1 p0; let b ← u2 a; u3 b) = .ok p)
    (hbs : 8 ≤ bs) (hbs2 : bs < 2 ^ 63) (hp : p.wellFormed bs)
    (hss : p.block si.start = some ss) (hsr : p.block (super_root_blocknr si) = some sr)
    (hn : 2 ≤ si.nblocks) (hpool : si.start + si.nblocks ≤ p.size) (hsz : p.size ≤ 2 ^ 64)
    (hsum : 8 ≤ si.sumbytes ∧ si.sumbytes ≤ bs)
    (hsrb : 4 ≤ c.NILFS_SR_BYTES ∧ c.NILFS_SR_BYTES ≤ bs)
    (hsb : c.NILFS_SB_OFFSET_BYTES / bs < si.start) :
    ∃ p1, commit_segment crc c bs u1 u2 u3 p0 di si = .ok p1 ∧
      load_le32 (final_image c bs p1 sb_block si.start) 0 =
        dataChecksum crc bs (final_image c bs p1 sb_block) di.crc_seed si.start si.nblocks
          sizeof_ss_checksum ∧
      load_le32 (final_image c bs p1 sb_block si.start) sizeof_ss_checksum =
        crc di.crc_seed (bytes_at (final_image c bs p1 sb_block si.start)
          (sizeof_ss_checksum + sizeof_ss_checksum)
          (si.sumbytes - (sizeof_ss_checksum + sizeof_ss_checksum))) % 2 ^ 32 ∧
      load_le32 (final_image c bs p1 sb_block (super_root_blocknr si)) 0 =
        crc di.crc_seed (bytes_at (final_image c bs p1 sb_block (super_root_blocknr si))
          sizeof_sr_sum (c.NILFS_SR_BYTES - sizeof_sr_sum)) % 2 ^ 32 :=
  final_image_checks crc c bs u1 u2 u3 p0 p di si ss sr sb_block hu hbs hbs2 hp hss hsr hn
    hpool hsz hsum hsrb hsb

/-- Witness of C28: the sample segment in a pool whose summary and super
root hold zeros. -/
theorem checksums_verify_together_witness :
    ∃ p1, commit_segment crc32_le_bitwise releaseConsts 4096 pure pure pure
        (samplePool (List.replicate 4096 0) (List.replicate 4096 0)) sampleLayout
        sampleSegment = .ok p1 ∧
      load_le32 (final_image releaseConsts 4096 p1 (List.replicate 4096 0) sampleSegment.start)
          0 =
        dataChecksum crc32_le_bitwise 4096
          (final_image releaseConsts 4096 p1 (List.replicate 4096 0)) sampleLayout.crc_seed
          sampleSegment.start sampleSegment.nblocks sizeof_ss_checksum ∧
      load_le32 (final_image releaseConsts 4096 p1 (List.replicate 4096 0) sampleSegment.start)
          sizeof_ss_checksum =
        crc32_le_bitwise sampleLayout.crc_seed
          (bytes_at (final_image releaseConsts 4096 p1 (List.replicate 4096 0)
            sampleSegment.start) (sizeof_ss_checksum + sizeof_ss_checksum)
            (sampleSegment.sumbytes - (sizeof_ss_checksum + sizeof_ss_checksum))) % 2 ^ 32 ∧
      load_le32 (final_image releaseConsts 4096 p1 (List.replicate 4096 0)
          (super_root_blocknr sampleSegment)) 0 =
        crc32_le_bitwise sampleLayout.crc_seed
          (bytes_at (final_image releaseConsts 4096 p1 (List.replicate 4096 0)
            (super_root_blocknr sampleSegment)) sizeof_sr_sum
            (releaseConsts.NILFS_SR_BYTES - sizeof_sr_sum)) % 2 ^ 32 :=
  checksums_verify_together crc32_le_bitwise releaseConsts 4096 pure pure pure
    (samplePool (List.replicate 4096 0) (List.replicate 4096 0))
    (samplePool (List.replicate 4096 0) (List.replicate 4096 0)) sampleLayout sampleSegment
    (List.replicate 4096 0) (List.replicate 4096 0) (List.replicate 4096 0) rfl (by decide)
    (by decide)
    (samplePool_wellFormed _ _ (List.length_replicate _ _) (List.length_replicate _ _))
    rfl rfl (by decide) (by decide) (by decide) (by decide) (by decide) (by decide)

/-- The sizing of `count_dat_blocks` at a number of entries that fills a
block, for blocks of 1024 bytes, which hold 32 DAT entries, and 32 virtual
block numbers: `count_dat_blocks` gives the DAT file 3 blocks, one of them
for entries, with the slots 0 to 31. The calls of `assign_vblocknr` for the
numbers 1 to 31 return, and the call for number 32, whose slot would be in a
fourth block, fails the assertion `entry_block < fi->start + fi->nblocks`. -/
theorem dat_sized_one_slot_short :
    count_dat_blocks releaseConsts 1024 32 = .ok 3 ∧
    failure (do
      let st ← datOnly releaseConsts 1024 3
      assign_vblocknrs releaseConsts 1024 (List.range' 100 31) st) = none ∧
    failure (do
      let st ← datOnly releaseConsts 1024 3
      assign_vblocknrs releaseConsts 1024 (List.range' 100 32) st) =
        some .assertion_failed := by
  refine ⟨by rfl, by rfl, by rfl⟩

/-! ## Files of entries -/

theorem slot_loop_table {σ α : Type} (get : σ → Nat → Nat → α)
    (put : σ → (Nat → Nat → α) → σ) (g : Nat → α → α)
    (body : Nat → Nat → Nat → σ → Except Fatal σ) (k0 : Nat)
    (hgp : ∀ s t, get (put s t) = t) (hpp : ∀ s t u, put (put s t) u = put s u)
    (hpg : ∀ s, put s (get s) = s)
    (hbody : ∀ b i k s, k0 ≤ k →
      body b i k s = .ok (put s (setAt (get s) b i (g k (get s b i)))))
    (b : Nat) : ∀ (n i k : Nat) (s : σ), k0 ≤ k → k + n < 2 ^ 64 →
      slot_loop body b n i k s = .ok (put s (fun b1 i1 =>
        if b1 = b ∧ i ≤ i1 ∧ i1 < i + n then g (k + (i1 - i)) (get s b1 i1)
        else get s b1 i1), k + n) := by
  intro n
  induction n with
  | zero =>
    intro i k s _ _
    have : (fun b1 i1 => if b1 = b ∧ i ≤ i1 ∧ i1 < i + 0 then g (k + (i1 - i)) (get s b1 i1)
        else get s b1 i1) = get s := by
      funext b1 i1
      rw [if_neg (by omega)]
    rw [this, hpg]
    rfl
  | succ n ih =>
    intro i k s hk hlt
    rw [slot_loop, hbody b i k s hk, except_ok_bind, Nat.mod_eq_of_lt (by omega),
      ih (i + 1) (k + 1) _ (by omega) (by omega), hpp, hgp]
    have : (fun b1 i1 => if b1 = b ∧ i + 1 ≤ i1 ∧ i1 < i + 1 + n then
          g (k + 1 + (i1 - (i + 1))) (setAt (get s) b i (g k (get s b i)) b1 i1)
        else setAt (get s) b i (g k (get s b i)) b1 i1) =
        (fun b1 i1 => if b1 = b ∧ i ≤ i1 ∧ i1 < i + (n + 1) then g (k + (i1 - i)) (get s b1 i1)
        else get s b1 i1) := by
      funext b1 i1
      unfold setAt
      by_cases h1 : b1 = b ∧ i + 1 ≤ i1 ∧ i1 < i + 1 + n
      · rw [if_pos h1, if_neg (by omega), if_pos (by omega)]
        congr 1
        omega
      · rw [if_neg h1]
        by_cases h2 : b1 = b ∧ i1 = i
        · rw [if_pos h2, if_pos (by omega)]
          obtain ⟨rfl, rfl⟩ := h2
          rw [Nat.sub_self, Nat.add_zero]
        · rw [if_neg h2, if_neg (by omega)]
    rw [this]
    congr 2
    omega

theorem block_loop_table {σ α : Type} (get : σ → Nat → Nat → α)
    (put : σ → (Nat → Nat → α) → σ) (g : Nat → α → α)
    (body : Nat → Nat → Nat → σ → Except Fatal σ) (k0 : Nat)
    (hgp : ∀ s t, get (put s t) = t) (hpp : ∀ s t u, put (put s t) u = put s u)
    (hpg : ∀ s, put s (get s) = s)
    (hbody : ∀ b i k s, k0 ≤ k →
      body b i k s = .ok (put s (setAt (get s) b i (g k (get s b i)))))
    (size epb first blocknr : Nat) : ∀ (n eb k : Nat) (s : σ), k0 ≤ k → blocknr < eb →
      eb + n ≤ size → k + n * epb < 2 ^ 64 →
      block_loop body size epb first blocknr n eb k s = .ok (put s (fun b1 i1 =>
        if eb ≤ b1 ∧ b1 < eb + n ∧ i1 < epb then g (k + (b1 - eb) * epb + i1) (get s b1 i1)
        else get s b1 i1), k + n * epb) := by
  intro n
  induction n with
  | zero =>
    intro eb k s _ _ _ _
    have : (fun b1 i1 => if eb ≤ b1 ∧ b1 < eb + 0 ∧ i1 < epb then
          g (k + (b1 - eb) * epb + i1) (get s b1 i1)
        else get s b1 i1) = get s := by
      funext b1 i1
      rw [if_neg (by omega)]
    rw [this, hpg, Nat.zero_mul]
    rfl
  | succ n ih =>
    intro eb k s hk hb hsz hlt
    have hmul : (n + 1) * epb = n * epb + epb := Nat.succ_mul n epb
    rw [block_loop, if_neg (by omega), if_neg (by omega)]
    dsimp only
    rw [Nat.sub_zero,
      slot_loop_table get put g body k0 hgp hpp hpg hbody eb epb 0 k s hk (by omega),
      except_ok_bind]
    dsimp only
    rw [ih (eb + 1) (k + epb) _ (by omega) (by omega) (by omega) (by omega), hpp, hgp]
    have : (fun b1 i1 => if eb + 1 ≤ b1 ∧ b1 < eb + 1 + n ∧ i1 < epb then
          g (k + epb + (b1 - (eb + 1)) * epb + i1)
            (if b1 = eb ∧ 0 ≤ i1 ∧ i1 < 0 + epb then g (k + (i1 - 0)) (get s b1 i1)
              else get s b1 i1)
        else if b1 = eb ∧ 0 ≤ i1 ∧ i1 < 0 + epb then g (k + (i1 - 0)) (get s b1 i1)
          else get s b1 i1) =
        (fun b1 i1 => if eb ≤ b1 ∧ b1 < eb + (n + 1) ∧ i1 < epb then
          g (k + (b1 - eb) * epb + i1) (get s b1 i1)
        else get s b1 i1) := by
      funext b1 i1
      by_cases h1 : eb + 1 ≤ b1 ∧ b1 < eb + 1 + n ∧ i1 < epb
      · rw [if_pos h1, if_neg (by omega), if_pos (by omega)]
        congr 1
        obtain ⟨d, rfl⟩ : ∃ d, b1 = eb + 1 + d := ⟨b1 - (eb + 1), by omega⟩
        have e1 : eb + 1 + d - (eb + 1) = d := by omega
        have e2 : eb + 1 + d - eb = d + 1 := by omega
        rw [e1, e2, Nat.succ_mul]
        omega
      · rw [if_neg h1]
        by_cases h2 : b1 = eb ∧ 0 ≤ i1 ∧ i1 < 0 + epb
        · rw [if_pos h2, if_pos (by omega)]
          obtain ⟨rfl, -, -⟩ := h2
          rw [Nat.sub_self, Nat.zero_mul, Nat.add_zero, Nat.sub_zero]
        · rw [if_neg h2, if_neg (by omega)]
    rw [this]
    congr 2
    omega

theorem file_ok (c : Consts) (st : Formatter) (ino : Nat) (fi : nilfs_file_info)
    (h1 : ino < c.NILFS_MAX_INITIAL_INO) (h2 : st.files ino = some fi) :
    st.file c ino = .ok fi := by
  unfold Formatter.file
  rw [if_neg (by omega), h2]

theorem raw_ok (st : Formatter) (ino : Nat) (r : InodeRef) (h : st.raw_inode ino = some r) :
    st.raw ino = .ok r := by
  unfold Formatter.raw
  rw [h]

theorem map_block_ok (st : Formatter) (b : Nat) (h : b < st.disk_buffer_size) :
    map_block st b = .ok () := by
  unfold map_block
  rw [if_neg (by omega)]

theorem init_inode_ok (c : Consts) (blocksize : Int) (ino type mode size : Nat)
    (st : Formatter) (fi : nilfs_file_info) (r : InodeRef)
    (h1 : ino < c.NILFS_MAX_INITIAL_INO) (h2 : st.files ino = some fi)
    (hr : st.raw_inode ino = some r) (hu : ino < c.NILFS_USER_INO) :
    init_inode c blocksize ino type mode size st = .ok { st with
      inode := setAt1 st.inode r
        { st.inode r with
          i_mode := ((type * 2 ^ 12) ||| mode) % 2 ^ 16,
          i_flags := 0,
          i_size := size,
          i_blocks := fi.nblocks,
          i_links_count := 1,
          i_ctime := toU64 st.diskinfo.ctime,
          i_mtime := toU64 st.diskinfo.ctime } } := by
  unfold init_inode
  rw [file_ok c st ino fi h1 h2, except_ok_bind, raw_ok st ino r hr, except_ok_bind,
    if_neg (by omega)]
  rfl

theorem prepare_sufile_ok (h : Helpers) (c : Consts) (blocksize : Int) (st : Formatter)
    (fi : nilfs_file_info) (r : InodeRef)
    (hino : c.NILFS_SUFILE_INO < c.NILFS_MAX_INITIAL_INO)
    (hf : st.files c.NILFS_SUFILE_INO = some fi)
    (hr : st.raw_inode c.NILFS_SUFILE_INO = some r)
    (hu : c.NILFS_SUFILE_INO < c.NILFS_USER_INO)
    (hn : 1 ≤ fi.nblocks) (hnb : fi.nblocks < 2 ^ 32)
    (hpool : fi.start + fi.nblocks ≤ st.disk_buffer_size) (hsize : st.disk_buffer_size < 2 ^ 64)
    (hoff : c.NILFS_SUFILE_FIRST_SEGMENT_USAGE_OFFSET ≤
      (toU64 blocksize / c.sizeof_nilfs_segment_usage) % 2 ^ 32) :
    prepare_sufile h c blocksize st = .ok { st with
      sh := setAt1 st.sh fi.start
        { sh_ncleansegs := (st.diskinfo.nsegments + 2 ^ 64 - nr_initial_segments) % 2 ^ 64,
          sh_ndirtysegs := nr_initial_segments,
          sh_last_alloc := (st.diskinfo.nsegments + 2 ^ 64 - 1) % 2 ^ 64 },
      su := fun b1 i1 =>
        if fi.start ≤ b1 ∧ b1 < fi.start + fi.nblocks ∧
            i1 < (toU64 blocksize / c.sizeof_nilfs_segment_usage) % 2 ^ 32 ∧
            (b1 = fi.start → c.NILFS_SUFILE_FIRST_SEGMENT_USAGE_OFFSET ≤ i1) then
          (if (b1 - fi.start) * ((toU64 blocksize / c.sizeof_nilfs_segment_usage) % 2 ^ 32) + i1 -
              c.NILFS_SUFILE_FIRST_SEGMENT_USAGE_OFFSET < nr_initial_segments then
            h.nilfs_segment_usage_set_dirty (h.nilfs_segment_usage_set_active (st.su b1 i1))
          else h.nilfs_segment_usage_set_clean (st.su b1 i1))
        else st.su b1 i1,
      inode := setAt1 st.inode r
        { st.inode r with
          i_mode := ((DT_REG * 2 ^ 12) ||| 0) % 2 ^ 16,
          i_flags := 0,
          i_size := 0,
          i_blocks := fi.nblocks,
          i_links_count := 1,
          i_ctime := toU64 st.diskinfo.ctime,
          i_mtime := toU64 st.diskinfo.ctime } } := by
  generalize hepb : (toU64 blocksize / c.sizeof_nilfs_segment_usage) % 2 ^ 32 = epb at hoff ⊢
  have hepb2 : epb < 2 ^ 32 := by rw [← hepb]; exact Nat.mod_lt _ (by norm_num)
  obtain ⟨m, hm⟩ : ∃ m, fi.nblocks = m + 1 := ⟨fi.nblocks - 1, by omega⟩
  have hcnt : (fi.start + fi.nblocks) % 2 ^ 64 - fi.start = m + 1 := by
    rw [Nat.mod_eq_of_lt (by omega)]
    omega
  have hprod : m * epb + epb < 2 ^ 64 := by
    have : (m + 1) * epb < 2 ^ 32 * 2 ^ 32 :=
      Nat.mul_lt_mul'' (by omega) hepb2
    rw [Nat.succ_mul] at this
    omega
  have hgp : ∀ (s : Formatter) (t : Nat → Nat → nilfs_segment_usage),
      Formatter.su { s with su := t } = t := fun _ _ => rfl
  have hpp : ∀ (s : Formatter) (t u : Nat → Nat → nilfs_segment_usage),
      ({ ({ s with su := t } : Formatter) with su := u } : Formatter) = { s with su := u } :=
    fun _ _ _ => rfl
  have hpg : ∀ (s : Formatter), ({ s with su := s.su } : Formatter) = s := fun _ => rfl
  have hbody : ∀ (b i k : Nat) (s : Formatter), 0 ≤ k →
      prepare_sufile_slot h b i k s = .ok ((fun (s : Formatter) t => { s with su := t }) s
        (setAt s.su b i ((fun k su => if k < nr_initial_segments then
          h.nilfs_segment_usage_set_dirty (h.nilfs_segment_usage_set_active su)
          else h.nilfs_segment_usage_set_clean su) k (s.su b i)))) :=
    fun _ _ _ _ _ => rfl
  unfold prepare_sufile
  rw [file_ok c st _ fi hino hf, except_ok_bind, hepb]
  dsimp only
  rw [map_block_ok st fi.start (by omega), except_ok_bind, hcnt, block_loop,
    if_neg (by omega), if_pos rfl]
  dsimp only
  rw [slot_loop_table Formatter.su (fun s t => { s with su := t })
    (fun k su => if k < nr_initial_segments then
      h.nilfs_segment_usage_set_dirty (h.nilfs_segment_usage_set_active su)
      else h.nilfs_segment_usage_set_clean su) (prepare_sufile_slot h) 0
    hgp hpp hpg hbody fi.start (epb - c.NILFS_SUFILE_FIRST_SEGMENT_USAGE_OFFSET)
    c.NILFS_SUFILE_FIRST_SEGMENT_USAGE_OFFSET 0 _ (Nat.le_refl 0) (by omega), except_ok_bind]
  dsimp only
  rw [block_loop_table Formatter.su (fun s t => { s with su := t })
    (fun k su => if k < nr_initial_segments then
      h.nilfs_segment_usage_set_dirty (h.nilfs_segment_usage_set_active su)
      else h.nilfs_segment_usage_set_clean su) (prepare_sufile_slot h) 0
    hgp hpp hpg hbody st.disk_buffer_size epb c.NILFS_SUFILE_FIRST_SEGMENT_USAGE_OFFSET fi.start
    m (fi.start + 1) _ _ (Nat.zero_le _) (by omega) (by omega) (by omega), except_ok_bind]
  dsimp only
  refine (init_inode_ok c blocksize c.NILFS_SUFILE_INO DT_REG 0 0 _ fi r hino ?_ ?_ hu).trans ?_
  · exact hf
  · exact hr
  refine congrArg Except.ok ?_
  congr 1
  funext b1 i1
  dsimp only
  generalize c.NILFS_SUFILE_FIRST_SEGMENT_USAGE_OFFSET = off at hoff ⊢
  by_cases hA : fi.start + 1 ≤ b1 ∧ b1 < fi.start + 1 + m ∧ i1 < epb
  · have hB : ¬(b1 = fi.start ∧ off ≤ i1 ∧ i1 < off + (epb - off)) := by omega
    have hR : fi.start ≤ b1 ∧ b1 < fi.start + fi.nblocks ∧ i1 < epb ∧
        (b1 = fi.start → off ≤ i1) := ⟨by omega, by omega, by omega, by omega⟩
    have e : 0 + (epb - off) + (b1 - (fi.start + 1)) * epb + i1 =
        (b1 - fi.start) * epb + i1 - off := by
      obtain ⟨d, rfl⟩ : ∃ d, b1 = fi.start + 1 + d := ⟨b1 - (fi.start + 1), by omega⟩
      have e1 : fi.start + 1 + d - (fi.start + 1) = d := by omega
      have e2 : fi.start + 1 + d - fi.start = d + 1 := by omega
      rw [e1, e2, Nat.succ_mul]
      omega
    rw [if_pos hA, if_pos hR]
    simp only [if_neg hB, e]
  · rw [if_neg hA]
    by_cases hB : b1 = fi.start ∧ off ≤ i1 ∧ i1 < off + (epb - off)
    · have hR : fi.start ≤ b1 ∧ b1 < fi.start + fi.nblocks ∧ i1 < epb ∧
          (b1 = fi.start → off ≤ i1) := ⟨by omega, by omega, by omega, by omega⟩
      have e : 0 + (i1 - off) = (b1 - fi.start) * epb + i1 - off := by
        rw [hB.1, Nat.sub_self, Nat.zero_mul]
        omega
      rw [if_pos hB, if_pos hR, e]
    · have hR : ¬(fi.start ≤ b1 ∧ b1 < fi.start + fi.nblocks ∧ i1 < epb ∧
          (b1 = fi.start → off ≤ i1)) := by omega
      rw [if_neg hB, if_neg hR]

theorem slot_of_number (epb x n : Nat) (he : 0 < epb) (hx : x < n * epb) :
    x / epb < n ∧ x % epb < epb ∧ (x / epb) * epb + x % epb = x := by
  refine ⟨(Nat.div_lt_iff_lt_mul he).2 hx, Nat.mod_lt _ he, ?_⟩
  rw [Nat.mul_comm]
  exact Nat.div_add_mod x epb

/-- C20: `prepare_sufile` returns, for a segment usage file of at least one
block inside the pool whose first block has room for the first entry. The
header then holds `ncleansegs = nsegments - nr_initial_segments`,
`ndirtysegs = nr_initial_segments`, which sum to `nsegments`, and
`last_alloc = nsegments - 1`. The entry of segment `segnum` is slot
`segnum + NILFS_SUFILE_FIRST_SEGMENT_USAGE_OFFSET`, counted over the blocks
of the file, so segment 0 is at that index of the first block; for every
segment whose slot lies in the blocks of the file the entry is set active and
then dirty when `segnum < nr_initial_segments`, and set clean otherwise. -/
theorem prepare_sufile_contents (h : Helpers) (c : Consts) (blocksize : Int) (st : Formatter)
    (fi : nilfs_file_info) (r : InodeRef)
    (hino : c.NILFS_SUFILE_INO < c.NILFS_MAX_INITIAL_INO)
    (hf : st.files c.NILFS_SUFILE_INO = some fi)
    (hr : st.raw_inode c.NILFS_SUFILE_INO = some r)
    (hu : c.NILFS_SUFILE_INO < c.NILFS_USER_INO)
    (hn : 1 ≤ fi.nblocks) (hnb : fi.nblocks < 2 ^ 32)
    (hpool : fi.start + fi.nblocks ≤ st.disk_buffer_size) (hsize : st.disk_buffer_size < 2 ^ 64)
    (hoff : c.NILFS_SUFILE_FIRST_SEGMENT_USAGE_OFFSET <
      (toU64 blocksize / c.sizeof_nilfs_segment_usage) % 2 ^ 32)
    (hN : nr_initial_segments ≤ st.diskinfo.nsegments) (hN2 : st.diskinfo.nsegments < 2 ^ 64) :
    ∃ st1, prepare_sufile h c blocksize st = .ok st1 ∧
      (st1.sh fi.start).sh_ncleansegs = st.diskinfo.nsegments - nr_initial_segments ∧
      (st1.sh fi.start).sh_ndirtysegs = nr_initial_segments ∧
      (st1.sh fi.start).sh_ncleansegs + (st1.sh fi.start).sh_ndirtysegs =
        st.diskinfo.nsegments ∧
      (st1.sh fi.start).sh_last_alloc = st.diskinfo.nsegments - 1 ∧
      ∀ segnum, segnum + c.NILFS_SUFILE_FIRST_SEGMENT_USAGE_OFFSET <
          fi.nblocks * ((toU64 blocksize / c.sizeof_nilfs_segment_usage) % 2 ^ 32) →
        st1.su
          (fi.start + (segnum + c.NILFS_SUFILE_FIRST_SEGMENT_USAGE_OFFSET) /
            ((toU64 blocksize / c.sizeof_nilfs_segment_usage) % 2 ^ 32))
          ((segnum + c.NILFS_SUFILE_FIRST_SEGMENT_USAGE_OFFSET) %
            ((toU64 blocksize / c.sizeof_nilfs_segment_usage) % 2 ^ 32)) =
        if segnum < nr_initial_segments then
          h.nilfs_segment_usage_set_dirty (h.nilfs_segment_usage_set_active
            (st.su
              (fi.start + (segnum + c.NILFS_SUFILE_FIRST_SEGMENT_USAGE_OFFSET) /
                ((toU64 blocksize / c.sizeof_nilfs_segment_usage) % 2 ^ 32))
              ((segnum + c.NILFS_SUFILE_FIRST_SEGMENT_USAGE_OFFSET) %
                ((toU64 blocksize / c.sizeof_nilfs_segment_usage) % 2 ^ 32))))
        else
          h.nilfs_segment_usage_set_clean
            (st.su
              (fi.start + (segnum + c.NILFS_SUFILE_FIRST_SEGMENT_USAGE_OFFSET) /
                ((toU64 blocksize / c.sizeof_nilfs_segment_usage) % 2 ^ 32))
              ((segnum + c.NILFS_SUFILE_FIRST_SEGMENT_USAGE_OFFSET) %
                ((toU64 blocksize / c.sizeof_nilfs_segment_usage) % 2 ^ 32))) := by
  refine ⟨_, prepare_sufile_ok h c blocksize st fi r hino hf hr hu hn hnb hpool hsize
    (Nat.le_of_lt hoff), ?_⟩
  generalize (toU64 blocksize / c.sizeof_nilfs_segment_usage) % 2 ^ 32 = epb at hoff ⊢
  generalize c.NILFS_SUFILE_FIRST_SEGMENT_USAGE_OFFSET = off at hoff ⊢
  have hnr : nr_initial_segments = 2 := rfl
  have e1 : (st.diskinfo.nsegments + 2 ^ 64 - nr_initial_segments) % 2 ^ 64 =
      st.diskinfo.nsegments - nr_initial_segments := by
    have : st.diskinfo.nsegments + 2 ^ 64 - nr_initial_segments =
        st.diskinfo.nsegments - nr_initial_segments + 2 ^ 64 := by omega
    rw [this, Nat.add_mod_right, Nat.mod_eq_of_lt (by omega)]
  have e2 : (st.diskinfo.nsegments + 2 ^ 64 - 1) % 2 ^ 64 = st.diskinfo.nsegments - 1 := by
    have : st.diskinfo.nsegments + 2 ^ 64 - 1 = st.diskinfo.nsegments - 1 + 2 ^ 64 := by omega
    rw [this, Nat.add_mod_right, Nat.mod_eq_of_lt (by omega)]
  simp only [setAt1, if_true]
  refine ⟨e1, trivial, by rw [e1]; omega, e2, ?_⟩
  intro segnum hseg
  obtain ⟨h1, h2, h3⟩ := slot_of_number epb (segnum + off) fi.nblocks (by omega) hseg
  generalize (segnum + off) / epb = q at h1 h3 ⊢
  generalize (segnum + off) % epb = i at h2 h3 ⊢
  have hq : q = 0 → off ≤ i := by
    intro hq0
    rw [hq0, Nat.zero_mul] at h3
    omega
  have hR : fi.start ≤ fi.start + q ∧ fi.start + q < fi.start + fi.nblocks ∧ i < epb ∧
      (fi.start + q = fi.start → off ≤ i) :=
    ⟨by omega, by omega, h2, fun hh => hq (by omega)⟩
  have e3 : (fi.start + q - fi.start) * epb + i - off = segnum := by
    rw [Nat.add_sub_cancel_left, h3]
    omega
  rw [if_pos hR, e3]

/-- Witness of C20: the segment usage file of the sample layout, block 7 of
a device of 32 segments. The header holds 30 clean and 2 dirty segments and
`last_alloc = 31`; the entries at the indexes 2 and 3 of the block, segments 0
and 1, are active and dirty, the entry at index 4 is clean. -/
theorem prepare_sufile_contents_witness :
    ∃ st1, prepare_sufile releaseHelpers releaseConsts 4096 sampleEntered = .ok st1 ∧
      (st1.sh 7).sh_ncleansegs = 30 ∧ (st1.sh 7).sh_ndirtysegs = 2 ∧
      (st1.sh 7).sh_last_alloc = 31 ∧
      st1.su 7 2 = ⟨0, 0, 3⟩ ∧ st1.su 7 3 = ⟨0, 0, 3⟩ ∧ st1.su 7 4 = ⟨0, 0, 0⟩ := by
  obtain ⟨st1, h1, h2, h3, -, h5, h6⟩ :=
    prepare_sufile_contents releaseHelpers releaseConsts 4096 sampleEntered ⟨5, 7, 1⟩ .sr_sufile
      (by decide) (by rfl) (by rfl) (by decide) (by decide) (by decide) (by decide) (by decide)
      (by decide) (by decide) (by decide)
  exact ⟨st1, h1, h2, h3, h5, h6 0 (by decide), h6 1 (by decide), h6 2 (by decide)⟩

theorem prepare_cpfile_slot_first (h : Helpers) (c : Consts) (b i : Nat) (s : Formatter)
    (ifi : nilfs_file_info) (hiino : c.NILFS_IFILE_INO < c.NILFS_MAX_INITIAL_INO)
    (hif : s.files c.NILFS_IFILE_INO = some ifi) :
    prepare_cpfile_slot h c b i 1 s = .ok { s with
      cp := setAt s.cp b i { s.cp b i with cp_cno := 1, cp_create := toU64 s.diskinfo.ctime },
      checkpoint := some (b, i),
      raw_inode := setAt1 s.raw_inode c.NILFS_IFILE_INO (some (.cp_ifile_inode b i)) } := by
  unfold prepare_cpfile_slot
  simp only [if_pos (rfl : (1 : Nat) = first_cno)]
  rw [file_ok c s _ ifi hiino hif, except_ok_bind]
  rfl

theorem prepare_cpfile_ok (h : Helpers) (c : Consts) (blocksize : Int) (st : Formatter)
    (fi ifi : nilfs_file_info) (r : InodeRef)
    (hino : c.NILFS_CPFILE_INO < c.NILFS_MAX_INITIAL_INO)
    (hf : st.files c.NILFS_CPFILE_INO = some fi)
    (hr : st.raw_inode c.NILFS_CPFILE_INO = some r)
    (hu : c.NILFS_CPFILE_INO < c.NILFS_USER_INO)
    (hiino : c.NILFS_IFILE_INO < c.NILFS_MAX_INITIAL_INO)
    (hif : st.files c.NILFS_IFILE_INO = some ifi)
    (hne : c.NILFS_CPFILE_INO ≠ c.NILFS_IFILE_INO)
    (hn : 1 ≤ fi.nblocks) (hnb : fi.nblocks < 2 ^ 32)
    (hpool : fi.start + fi.nblocks ≤ st.disk_buffer_size) (hsize : st.disk_buffer_size < 2 ^ 64)
    (hoff : c.NILFS_CPFILE_FIRST_CHECKPOINT_OFFSET <
      (toU64 blocksize / c.sizeof_nilfs_checkpoint) % 2 ^ 32) :
    prepare_cpfile h c blocksize st = .ok { st with
      ch := setAt1 st.ch fi.start { st.ch fi.start with ch_ncheckpoints := 1 },
      cp := fun b1 i1 =>
        if b1 = fi.start ∧ i1 = c.NILFS_CPFILE_FIRST_CHECKPOINT_OFFSET then
          { st.cp b1 i1 with cp_cno := 1, cp_create := toU64 st.diskinfo.ctime }
        else if fi.start ≤ b1 ∧ b1 < fi.start + fi.nblocks ∧
            i1 < (toU64 blocksize / c.sizeof_nilfs_checkpoint) % 2 ^ 32 ∧
            (b1 = fi.start → c.NILFS_CPFILE_FIRST_CHECKPOINT_OFFSET ≤ i1) then
          h.nilfs_checkpoint_set_invalid { st.cp b1 i1 with
            cp_cno := (b1 - fi.start) * ((toU64 blocksize / c.sizeof_nilfs_checkpoint) % 2 ^ 32) +
              i1 - c.NILFS_CPFILE_FIRST_CHECKPOINT_OFFSET + 1 }
        else st.cp b1 i1,
      checkpoint := some (fi.start, c.NILFS_CPFILE_FIRST_CHECKPOINT_OFFSET),
      raw_inode := setAt1 st.raw_inode c.NILFS_IFILE_INO
        (some (.cp_ifile_inode fi.start c.NILFS_CPFILE_FIRST_CHECKPOINT_OFFSET)),
      inode := setAt1 st.inode r
        { st.inode r with
          i_mode := ((DT_REG * 2 ^ 12) ||| 0) % 2 ^ 16,
          i_flags := 0,
          i_size := 0,
          i_blocks := fi.nblocks,
          i_links_count := 1,
          i_ctime := toU64 st.diskinfo.ctime,
          i_mtime := toU64 st.diskinfo.ctime } } := by
  generalize hepb : (toU64 blocksize / c.sizeof_nilfs_checkpoint) % 2 ^ 32 = epb at hoff ⊢
  have hepb2 : epb < 2 ^ 32 := by rw [← hepb]; exact Nat.mod_lt _ (by norm_num)
  obtain ⟨m, hm⟩ : ∃ m, fi.nblocks = m + 1 := ⟨fi.nblocks - 1, by omega⟩
  have hcnt : (fi.start + fi.nblocks) % 2 ^ 64 - fi.start = m + 1 := by
    rw [Nat.mod_eq_of_lt (by omega)]
    omega
  have hprod : m * epb + epb + 1 < 2 ^ 64 := by
    have : (m + 1) * epb ≤ (2 ^ 32 - 1) * (2 ^ 32 - 1) :=
      Nat.mul_le_mul (by omega) (by omega)
    rw [Nat.succ_mul] at this
    omega
  obtain ⟨k, hk⟩ : ∃ k, epb - c.NILFS_CPFILE_FIRST_CHECKPOINT_OFFSET = k + 1 :=
    ⟨epb - c.NILFS_CPFILE_FIRST_CHECKPOINT_OFFSET - 1, by omega⟩
  have hgp : ∀ (s : Formatter) (t : Nat → Nat → nilfs_checkpoint),
      Formatter.cp { s with cp := t } = t := fun _ _ => rfl
  have hpp : ∀ (s : Formatter) (t u : Nat → Nat → nilfs_checkpoint),
      ({ ({ s with cp := t } : Formatter) with cp := u } : Formatter) = { s with cp := u } :=
    fun _ _ _ => rfl
  have hpg : ∀ (s : Formatter), ({ s with cp := s.cp } : Formatter) = s := fun _ => rfl
  obtain ⟨g, hg⟩ : ∃ g : Nat → nilfs_checkpoint → nilfs_checkpoint,
      g = fun k cp => h.nilfs_checkpoint_set_invalid { cp with cp_cno := k } := ⟨_, rfl⟩
  have hbody : ∀ (b i k : Nat) (s : Formatter), 2 ≤ k →
      prepare_cpfile_slot h c b i k s = .ok ((fun (s : Formatter) t => { s with cp := t }) s
        (setAt s.cp b i (g k (s.cp b i)))) := by
    intro b i k s hk2
    unfold prepare_cpfile_slot
    have : ¬ k = first_cno := by unfold first_cno; omega
    simp only [if_neg this]
    rw [hg]
    rfl
  unfold prepare_cpfile
  rw [file_ok c st _ fi hino hf, except_ok_bind, hepb]
  dsimp only
  rw [map_block_ok st fi.start (by omega), except_ok_bind, hcnt, block_loop,
    if_neg (by omega), if_pos rfl]
  dsimp only
  rw [hk, slot_loop, prepare_cpfile_slot_first h c fi.start c.NILFS_CPFILE_FIRST_CHECKPOINT_OFFSET
    ({ st with ch := setAt1 st.ch fi.start { st.ch fi.start with ch_ncheckpoints := 1 } })
    ifi hiino hif, except_ok_bind]
  dsimp only
  rw [slot_loop_table Formatter.cp (fun s t => { s with cp := t }) g
    (prepare_cpfile_slot h c) 2
    hgp hpp hpg hbody fi.start k
    (c.NILFS_CPFILE_FIRST_CHECKPOINT_OFFSET + 1) ((1 + 1) % 2 ^ 64) _ (by decide) (by omega),
    except_ok_bind]
  dsimp only
  rw [block_loop_table Formatter.cp (fun s t => { s with cp := t }) g
    (prepare_cpfile_slot h c) 2
    hgp hpp hpg hbody st.disk_buffer_size epb c.NILFS_CPFILE_FIRST_CHECKPOINT_OFFSET fi.start
    m (fi.start + 1) _ _ (by omega) (by omega) (by omega) (by omega), except_ok_bind]
  dsimp only
  refine (init_inode_ok c blocksize c.NILFS_CPFILE_INO DT_REG 0 0 _ fi r hino ?_ ?_ hu).trans ?_
  · exact hf
  · show setAt1 st.raw_inode c.NILFS_IFILE_INO _ c.NILFS_CPFILE_INO = some r
    unfold setAt1
    rw [if_neg hne]
    exact hr
  refine congrArg Except.ok ?_
  congr 1
  funext b1 i1
  dsimp only
  generalize c.NILFS_CPFILE_FIRST_CHECKPOINT_OFFSET = off at hoff hk ⊢
  unfold setAt
  by_cases hV : b1 = fi.start ∧ i1 = off
  · have hA : ¬(fi.start + 1 ≤ b1 ∧ b1 < fi.start + 1 + m ∧ i1 < epb) := by omega
    have hB : ¬(b1 = fi.start ∧ off + 1 ≤ i1 ∧ i1 < off + 1 + k) := by omega
    simp only [if_neg hA, if_neg hB, if_pos hV]
    rw [hV.1, hV.2]
  · by_cases hA : fi.start + 1 ≤ b1 ∧ b1 < fi.start + 1 + m ∧ i1 < epb
    · have hB : ¬(b1 = fi.start ∧ off + 1 ≤ i1 ∧ i1 < off + 1 + k) := by omega
      have hR : fi.start ≤ b1 ∧ b1 < fi.start + fi.nblocks ∧ i1 < epb ∧
          (b1 = fi.start → off ≤ i1) := ⟨by omega, by omega, by omega, by omega⟩
      have e : (1 + 1) % 2 ^ 64 + k + (b1 - (fi.start + 1)) * epb + i1 =
          (b1 - fi.start) * epb + i1 - off + 1 := by
        obtain ⟨d, rfl⟩ : ∃ d, b1 = fi.start + 1 + d := ⟨b1 - (fi.start + 1), by omega⟩
        have e1 : fi.start + 1 + d - (fi.start + 1) = d := by omega
        have e2 : fi.start + 1 + d - fi.start = d + 1 := by omega
        rw [e1, e2, Nat.succ_mul]
        omega
      simp only [if_pos hA, if_neg hB, if_neg hV, if_pos hR, e]
      rw [hg]
    · by_cases hB : b1 = fi.start ∧ off + 1 ≤ i1 ∧ i1 < off + 1 + k
      · have hR : fi.start ≤ b1 ∧ b1 < fi.start + fi.nblocks ∧ i1 < epb ∧
            (b1 = fi.start → off ≤ i1) := ⟨by omega, by omega, by omega, by omega⟩
        have e : (1 + 1) % 2 ^ 64 + (i1 - (off + 1)) = (b1 - fi.start) * epb + i1 - off + 1 := by
          rw [hB.1, Nat.sub_self, Nat.zero_mul]
          omega
        simp only [if_neg hA, if_pos hB, if_neg hV, if_pos hR, e]
        rw [hg]
      · have hR : ¬(fi.start ≤ b1 ∧ b1 < fi.start + fi.nblocks ∧ i1 < epb ∧
            (b1 = fi.start → off ≤ i1)) := by omega
        simp only [if_neg hA, if_neg hB, if_neg hV, if_neg hR]

/-- C22: `prepare_cpfile` returns, for a checkpoint file of at least one
block inside the pool whose blocks are freshly mapped and whose first block
has room for the first checkpoint. The header then holds
`ch_ncheckpoints = 1` and an empty snapshot list. The slot at index
`NILFS_CPFILE_FIRST_CHECKPOINT_OFFSET` of the first block carries
`cp_cno = 1` and `cp_create = ctime` and is not passed to
`nilfs_checkpoint_set_invalid`; every other slot of the blocks of the file,
slot `n >= 1` counted from there, carries `cp_cno = n + 1` and is marked
invalid. `nilfs.checkpoint` points to the valid slot, and the `raw_inode` of
the inode file is the inline inode of that slot, so the `init_inode` of the
inode file writes there. -/
theorem prepare_cpfile_contents (h : Helpers) (c : Consts) (blocksize : Int) (st : Formatter)
    (fi ifi : nilfs_file_info) (r : InodeRef)
    (hino : c.NILFS_CPFILE_INO < c.NILFS_MAX_INITIAL_INO)
    (hf : st.files c.NILFS_CPFILE_INO = some fi)
    (hr : st.raw_inode c.NILFS_CPFILE_INO = some r)
    (hu : c.NILFS_CPFILE_INO < c.NILFS_USER_INO)
    (hiino : c.NILFS_IFILE_INO < c.NILFS_MAX_INITIAL_INO)
    (hif : st.files c.NILFS_IFILE_INO = some ifi)
    (hiu : c.NILFS_IFILE_INO < c.NILFS_USER_INO)
    (hne : c.NILFS_CPFILE_INO ≠ c.NILFS_IFILE_INO)
    (hn : 1 ≤ fi.nblocks) (hnb : fi.nblocks < 2 ^ 32)
    (hpool : fi.start + fi.nblocks ≤ st.disk_buffer_size) (hsize : st.disk_buffer_size < 2 ^ 64)
    (hoff : c.NILFS_CPFILE_FIRST_CHECKPOINT_OFFSET <
      (toU64 blocksize / c.sizeof_nilfs_checkpoint) % 2 ^ 32)
    (hch : st.ch fi.start = ⟨0, 0, 0, 0⟩)
    (hcp : ∀ b i, fi.start ≤ b → b < fi.start + fi.nblocks →
      st.cp b i = ⟨0, 0, 0, 0, 0, 0, 0, 0, 0⟩) :
    ∃ st1, prepare_cpfile h c blocksize st = .ok st1 ∧
      st1.ch fi.start = ⟨1, 0, 0, 0⟩ ∧
      st1.cp fi.start c.NILFS_CPFILE_FIRST_CHECKPOINT_OFFSET =
        ⟨0, 0, 0, 0, 1, toU64 st.diskinfo.ctime, 0, 0, 0⟩ ∧
      (∀ n, 1 ≤ n → n + c.NILFS_CPFILE_FIRST_CHECKPOINT_OFFSET <
          fi.nblocks * ((toU64 blocksize / c.sizeof_nilfs_checkpoint) % 2 ^ 32) →
        st1.cp
          (fi.start + (n + c.NILFS_CPFILE_FIRST_CHECKPOINT_OFFSET) /
            ((toU64 blocksize / c.sizeof_nilfs_checkpoint) % 2 ^ 32))
          ((n + c.NILFS_CPFILE_FIRST_CHECKPOINT_OFFSET) %
            ((toU64 blocksize / c.sizeof_nilfs_checkpoint) % 2 ^ 32)) =
        h.nilfs_checkpoint_set_invalid ⟨0, 0, 0, 0, n + 1, 0, 0, 0, 0⟩) ∧
      st1.checkpoint = some (fi.start, c.NILFS_CPFILE_FIRST_CHECKPOINT_OFFSET) ∧
      st1.raw_inode c.NILFS_IFILE_INO =
        some (.cp_ifile_inode fi.start c.NILFS_CPFILE_FIRST_CHECKPOINT_OFFSET) ∧
      ∀ type mode size, ∃ st2,
        init_inode c blocksize c.NILFS_IFILE_INO type mode size st1 = .ok st2 ∧
        (st2.inode (.cp_ifile_inode fi.start c.NILFS_CPFILE_FIRST_CHECKPOINT_OFFSET)).i_blocks =
          ifi.nblocks ∧
        (st2.inode
          (.cp_ifile_inode fi.start c.NILFS_CPFILE_FIRST_CHECKPOINT_OFFSET)).i_links_count = 1 := by
  refine ⟨_, prepare_cpfile_ok h c blocksize st fi ifi r hino hf hr hu hiino hif hne hn hnb hpool
    hsize hoff, ?_⟩
  generalize (toU64 blocksize / c.sizeof_nilfs_checkpoint) % 2 ^ 32 = epb at hoff ⊢
  generalize c.NILFS_CPFILE_FIRST_CHECKPOINT_OFFSET = off at hoff ⊢
  refine ⟨?_, ?_, ?_, rfl, ?_, ?_⟩
  · simp only [setAt1, if_true, hch]
  · simp only [if_true, and_self, hcp fi.start off (Nat.le_refl _) (by omega)]
  · intro n hn1 hseg
    obtain ⟨h1, h2, h3⟩ := slot_of_number epb (n + off) fi.nblocks (by omega) hseg
    generalize (n + off) / epb = q at h1 h3 ⊢
    generalize (n + off) % epb = i at h2 h3 ⊢
    have hV : ¬(fi.start + q = fi.start ∧ i = off) := by
      rintro ⟨hq, hi⟩
      have hq0 : q = 0 := by omega
      rw [hq0, Nat.zero_mul] at h3
      omega
    have hR : fi.start ≤ fi.start + q ∧ fi.start + q < fi.start + fi.nblocks ∧ i < epb ∧
        (fi.start + q = fi.start → off ≤ i) := by
      refine ⟨by omega, by omega, h2, fun hh => ?_⟩
      have hq0 : q = 0 := by omega
      rw [hq0, Nat.zero_mul] at h3
      omega
    have e3 : (fi.start + q - fi.start) * epb + i - off + 1 = n + 1 := by
      rw [Nat.add_sub_cancel_left, h3]
      omega
    simp only [if_neg hV, if_pos hR, e3, hcp (fi.start + q) i (by omega) (by omega)]
  · simp only [setAt1, if_true]
  · intro type mode size
    refine ⟨_, init_inode_ok c blocksize c.NILFS_IFILE_INO type mode size _ ifi
      (.cp_ifile_inode fi.start off) hiino ?_ ?_ hiu, ?_, ?_⟩
    · exact hif
    · simp only [setAt1, if_true]
    · simp only [setAt1, if_true]
    · simp only [setAt1, if_true]

/-- Witness of C22: the checkpoint file of the sample layout, block 6. The
valid checkpoint is at index 1, the slots 2 and 3 are invalid with the
numbers 2 and 3, and the inode of the inode file is that of slot 1. -/
theorem prepare_cpfile_contents_witness :
    ∃ st1, prepare_cpfile releaseHelpers releaseConsts 4096 sampleEntered = .ok st1 ∧
      st1.ch 6 = ⟨1, 0, 0, 0⟩ ∧ st1.cp 6 1 = ⟨0, 0, 0, 0, 1, 1262304000, 0, 0, 0⟩ ∧
      st1.cp 6 2 = ⟨2, 0, 0, 0, 2, 0, 0, 0, 0⟩ ∧ st1.cp 6 3 = ⟨2, 0, 0, 0, 3, 0, 0, 0, 0⟩ ∧
      st1.checkpoint = some (6, 1) ∧ st1.raw_inode 6 = some (.cp_ifile_inode 6 1) := by
  obtain ⟨st1, h1, h2, h3, h4, h5, h6, -⟩ :=
    prepare_cpfile_contents releaseHelpers releaseConsts 4096 sampleEntered ⟨4, 6, 1⟩ ⟨6, 3, 3⟩
      .sr_cpfile (by decide) (by rfl) (by rfl) (by decide) (by decide) (by rfl) (by decide)
      (by decide) (by decide) (by decide) (by decide) (by decide) (by decide) (by rfl)
      (fun _ _ _ _ => rfl)
  exact ⟨st1, h1, h2, h3, h4 1 (by decide) (by decide), h4 2 (by decide) (by decide), h5, h6⟩

/-! ## The root directory -/

theorem store_bytes_ok (b : Nat) (blk : Nat → Nat) (off : Nat) (bytes : List Nat)
    (h : off + bytes.length ≤ b) :
    store_bytes b blk off bytes =
      .ok (fun k => if off ≤ k ∧ k < off + bytes.length then bytes.getD (k - off) 0 else blk k) := by
  unfold store_bytes
  rw [if_neg (by omega)]

theorem le_bytes_length (n v : Nat) : (le_bytes n v).length = n := by
  induction n generalizing v with
  | zero => rfl
  | succ n ih => simp [le_bytes, ih]

theorem store_dir_entry_ok (b : Nat) (blk : Nat → Nat) (de ino name_len rec_len file_type : Nat)
    (name : List Nat) (hn : name.length = 8) (h : de + 20 ≤ b) :
    ∃ blk1, store_dir_entry b blk de ino name_len rec_len file_type name = .ok blk1 ∧
      (∀ k, k < 8 → blk1 (de + 12 + k) = name.getD k 0) ∧
      blk1 (de + 11) = file_type ∧ blk1 (de + 10) = name_len ∧
      blk1 (de + 8) = rec_len % 256 ∧ blk1 (de + 9) = rec_len / 256 % 256 ∧
      (∀ k, k < 8 → blk1 (de + k) = (le_bytes 8 ino).getD k 0) ∧
      ∀ k, (k < de ∨ de + 20 ≤ k) → blk1 k = blk k := by
  unfold store_dir_entry nilfs_dir_entry_inode nilfs_dir_entry_name_len nilfs_dir_entry_rec_len
    nilfs_dir_entry_file_type nilfs_dir_entry_name
  rw [store_bytes_ok b _ _ _ (by rw [le_bytes_length]; omega), except_ok_bind,
    store_bytes_ok b _ _ _ (by simp only [List.length_singleton]; omega), except_ok_bind,
    store_bytes_ok b _ _ _ (by rw [le_bytes_length]; omega), except_ok_bind,
    store_bytes_ok b _ _ _ (by simp only [List.length_singleton]; omega), except_ok_bind,
    store_bytes_ok b _ _ _ (by omega)]
  refine ⟨_, rfl, ?_, ?_, ?_, ?_, ?_, ?_, ?_⟩
  · intro k hk
    simp only [hn]
    rw [if_pos (by omega), Nat.add_sub_cancel_left]
  · simp only [hn, le_bytes_length, List.length_singleton, Nat.add_zero]
    rw [if_neg (by omega), if_pos (by omega), Nat.sub_self]
    rfl
  · simp only [hn, le_bytes_length, List.length_singleton, Nat.add_zero]
    rw [if_neg (by omega), if_neg (by omega), if_neg (by omega), if_pos (by omega), Nat.sub_self]
    rfl
  · simp only [hn, le_bytes_length, List.length_singleton, Nat.add_zero]
    rw [if_neg (by omega), if_neg (by omega), if_pos (by omega), Nat.sub_self]
    rfl
  · simp only [hn, le_bytes_length, List.length_singleton, Nat.add_zero]
    rw [if_neg (by omega), if_neg (by omega), if_pos (by omega),
      (by omega : de + 9 - (de + 8) = 1)]
    rfl
  · intro k hk
    simp only [hn, le_bytes_length, List.length_singleton, Nat.add_zero]
    rw [if_neg (by omega), if_neg (by omega), if_neg (by omega), if_neg (by omega),
      if_pos (by omega), Nat.add_sub_cancel_left]
  · intro k hk
    simp only [hn, le_bytes_length, List.length_singleton, Nat.add_zero]
    rw [if_neg (by omega), if_neg (by omega), if_neg (by omega), if_neg (by omega),
      if_neg (by omega)]

theorem load_le_le_bytes (blk : Nat → Nat) (n : Nat) : ∀ (off v : Nat),
    (∀ k, k < n → blk (off + k) = (le_bytes n v).getD k 0) →
    load_le blk n off = v % 256 ^ n := by
  induction n with
  | zero =>
    intro off v _
    rw [load_le, pow_zero, Nat.mod_one]
  | succ n ih =>
    intro off v h
    have h0 := h 0 (by omega)
    rw [Nat.add_zero] at h0
    rw [load_le, h0, ih (off + 1) (v / 256), pow_succ', Nat.mod_mul]
    · rfl
    · intro k hk
      have := h (k + 1) (by omega)
      rw [Nat.add_assoc, Nat.add_comm 1 k, this]
      rfl

theorem range_map_eq_take (f : Nat → Nat) (l : List Nat) (n : Nat) (hn : n ≤ l.length)
    (h : ∀ k, k < n → f k = l.getD k 0) : (List.range n).map f = l.take n := by
  apply List.ext_getElem
  · rw [List.length_map, List.length_range, List.length_take, Nat.min_eq_left hn]
  · intro k h1 h2
    rw [List.length_map, List.length_range] at h1
    rw [List.getElem_map, List.getElem_range, List.getElem_take, h k h1,
      List.getD_eq_getElem l 0 (by omega)]

theorem read_dir_entry_eq (blk : Nat → Nat) (de ino name_len rec_len file_type : Nat)
    (name : List Nat) (hino : ino < 2 ^ 64) (hrl : rec_len < 2 ^ 16)
    (hnl : name_len ≤ name.length)
    (h1 : ∀ k, k < 8 → blk (de + k) = (le_bytes 8 ino).getD k 0)
    (h2 : blk (de + 8) = rec_len % 256) (h3 : blk (de + 9) = rec_len / 256 % 256)
    (h4 : blk (de + 10) = name_len) (h5 : blk (de + 11) = file_type)
    (h6 : ∀ k, k < name_len → blk (de + 12 + k) = name.getD k 0) :
    read_dir_entry blk de = ⟨ino, rec_len, name_len, file_type, name.take name_len⟩ ∧
    next_dir_entry blk de = de + rec_len := by
  have hr : load_le blk 2 (de + 8) = rec_len := by
    rw [load_le, load_le, load_le, h2, h3]
    omega
  constructor
  · unfold read_dir_entry nilfs_dir_entry_inode nilfs_dir_entry_name_len nilfs_dir_entry_rec_len
      nilfs_dir_entry_file_type nilfs_dir_entry_name
    rw [Nat.add_zero, load_le_le_bytes blk 8 de ino h1, hr, h4, h5,
      range_map_eq_take _ name name_len hnl h6, Nat.mod_eq_of_lt (by norm_num; omega)]
  · unfold next_dir_entry nilfs_dir_entry_rec_len
    rw [hr]

theorem next_dir_entry_eq (blk : Nat → Nat) (de rec_len : Nat) (hrl : rec_len < 2 ^ 16)
    (h2 : blk (de + 8) = rec_len % 256) (h3 : blk (de + 9) = rec_len / 256 % 256) :
    next_dir_entry blk de = de + rec_len := by
  unfold next_dir_entry nilfs_dir_entry_rec_len
  rw [load_le, load_le, load_le, h2, h3]
  omega

theorem make_empty_dir_block_ok (c : Consts) (blocksize : Int) (blk : Nat → Nat)
    (dir_ino parent_ino : Nat) (hb : 76 ≤ blocksize) (hb2 : blocksize < 2 ^ 16 + 56)
    (hd : dir_ino < 2 ^ 64) (hp : parent_ino < 2 ^ 64) (hs : c.NILFS_SKETCH_INO < 2 ^ 64)
    (hn : c.NILFS_NILFS_INO < 2 ^ 64) :
    ∃ blk1, make_empty_dir_block c blocksize blk dir_ino parent_ino = .ok blk1 ∧
      read_dir_entry blk1 0 = ⟨dir_ino, 16, 1, NILFS_FT_DIR, [46]⟩ ∧
      next_dir_entry blk1 0 = 16 ∧
      read_dir_entry blk1 16 = ⟨parent_ino, 16, 2, NILFS_FT_DIR, [46, 46]⟩ ∧
      next_dir_entry blk1 16 = 32 ∧
      read_dir_entry blk1 32 =
        ⟨c.NILFS_SKETCH_INO, 24, 7, NILFS_FT_REG_FILE, [46, 115, 107, 101, 116, 99, 104]⟩ ∧
      next_dir_entry blk1 32 = 56 ∧
      read_dir_entry blk1 56 =
        ⟨c.NILFS_NILFS_INO, toU64 blocksize - 56, 6, NILFS_FT_REG_FILE,
          [46, 110, 105, 108, 102, 115]⟩ ∧
      next_dir_entry blk1 56 = toU64 blocksize := by
  obtain ⟨b, rfl⟩ : ∃ b : Nat, blocksize = (b : Int) := ⟨blocksize.toNat, by omega⟩
  have hbu : toU64 (b : Int) = b := by unfold toU64; omega
  have hlast : toU64 ((b : Int) - ((((16 + 16) % 2 ^ 32 + 24) % 2 ^ 32 : Nat) : Int)) = b - 56 := by
    unfold toU64
    omega
  have r1 : NILFS_DIR_REC_LEN 1 = 16 := by decide
  have r2 : NILFS_DIR_REC_LEN 2 = 16 := by decide
  have r7 : NILFS_DIR_REC_LEN 7 = 24 := by decide
  unfold make_empty_dir_block
  rw [hbu, r1, r2, r7]
  dsimp only
  rw [hlast]
  obtain ⟨blk1, e1, n1, f1, l1, a1, c1, i1, -⟩ :=
    store_dir_entry_ok b blk 0 dir_ino 1 16 NILFS_FT_DIR name_dot rfl (by omega)
  have d1 : next_dir_entry blk1 0 = 0 + 16 := next_dir_entry_eq blk1 0 16 (by norm_num) a1 c1
  rw [e1, except_ok_bind, d1]
  obtain ⟨blk2, e2, n2, f2, l2, a2, c2, i2, o2⟩ :=
    store_dir_entry_ok b blk1 (0 + 16) parent_ino 2 16 NILFS_FT_DIR name_dotdot rfl (by omega)
  have d2 : next_dir_entry blk2 (0 + 16) = 0 + 16 + 16 :=
    next_dir_entry_eq blk2 (0 + 16) 16 (by norm_num) a2 c2
  rw [e2, except_ok_bind, d2]
  obtain ⟨blk3, e3, n3, f3, l3, a3, c3, i3, o3⟩ :=
    store_dir_entry_ok b blk2 (0 + 16 + 16) c.NILFS_SKETCH_INO 7 24 NILFS_FT_REG_FILE name_sketch
      rfl (by omega)
  have d3 : next_dir_entry blk3 (0 + 16 + 16) = 0 + 16 + 16 + 24 :=
    next_dir_entry_eq blk3 (0 + 16 + 16) 24 (by norm_num) a3 c3
  rw [e3, except_ok_bind, d3]
  obtain ⟨blk4, e4, n4, f4, l4, a4, c4, i4, o4⟩ :=
    store_dir_entry_ok b blk3 (0 + 16 + 16 + 24) c.NILFS_NILFS_INO 6 (b - 56) NILFS_FT_REG_FILE
      name_nilfs rfl (by omega)
  have t3 : ∀ k, k < 56 → blk4 k = blk3 k := fun k hk => o4 k (Or.inl (by omega))
  have t2 : ∀ k, k < 32 → blk4 k = blk2 k := fun k hk => by
    rw [t3 k (by omega), o3 k (Or.inl (by omega))]
  have t1 : ∀ k, k < 16 → blk4 k = blk1 k := fun k hk => by
    rw [t2 k (by omega), o2 k (Or.inl (by omega))]
  have q1 := read_dir_entry_eq blk4 0 dir_ino 1 16 NILFS_FT_DIR name_dot hd (by norm_num)
    (by decide) (fun k hk => by rw [t1 _ (by omega)]; exact i1 k hk)
    (by rw [t1 _ (by omega)]; exact a1) (by rw [t1 _ (by omega)]; exact c1)
    (by rw [t1 _ (by omega)]; exact l1) (by rw [t1 _ (by omega)]; exact f1)
    (fun k hk => by rw [t1 _ (by omega)]; exact n1 k (by omega))
  have q2 := read_dir_entry_eq blk4 (0 + 16) parent_ino 2 16 NILFS_FT_DIR name_dotdot hp
    (by norm_num) (by decide) (fun k hk => by rw [t2 _ (by omega)]; exact i2 k hk)
    (by rw [t2 _ (by omega)]; exact a2) (by rw [t2 _ (by omega)]; exact c2)
    (by rw [t2 _ (by omega)]; exact l2) (by rw [t2 _ (by omega)]; exact f2)
    (fun k hk => by rw [t2 _ (by omega)]; exact n2 k (by omega))
  have q3 := read_dir_entry_eq blk4 (0 + 16 + 16) c.NILFS_SKETCH_INO 7 24 NILFS_FT_REG_FILE
    name_sketch hs (by norm_num) (by decide)
    (fun k hk => by rw [t3 _ (by omega)]; exact i3 k hk)
    (by rw [t3 _ (by omega)]; exact a3) (by rw [t3 _ (by omega)]; exact c3)
    (by rw [t3 _ (by omega)]; exact l3) (by rw [t3 _ (by omega)]; exact f3)
    (fun k hk => by rw [t3 _ (by omega)]; exact n3 k (by omega))
  have q4 := read_dir_entry_eq blk4 (0 + 16 + 16 + 24) c.NILFS_NILFS_INO 6 (b - 56)
    NILFS_FT_REG_FILE name_nilfs hn (by omega) (by decide) i4 a4 c4 l4 f4
    (fun k hk => n4 k (by omega))
  refine ⟨blk4, e4, q1.1, q1.2, q2.1, q2.2, q3.1, q3.2, q4.1, ?_⟩
  rw [show (56 : Nat) = 0 + 16 + 16 + 24 from rfl, q4.2]
  omega

theorem make_empty_dir_ok (c : Consts) (blocksize : Int) (dir_ino parent_ino : Nat)
    (st : Formatter) (fi : nilfs_file_info) (blk1 : Nat → Nat)
    (hino : dir_ino < c.NILFS_MAX_INITIAL_INO) (hf : st.files dir_ino = some fi)
    (hpool : fi.start < st.disk_buffer_size)
    (hblk : make_empty_dir_block c blocksize (st.dir fi.start) dir_ino parent_ino = .ok blk1) :
    make_empty_dir c blocksize dir_ino parent_ino st =
      .ok { st with dir := setAt1 st.dir fi.start blk1 } := by
  unfold make_empty_dir
  rw [file_ok c st _ fi hino hf, except_ok_bind, map_block_ok st fi.start hpool, except_ok_bind,
    hblk, except_ok_bind]
  rfl

theorem inc_link_count_ok (c : Consts) (ino : Nat) (st : Formatter) (fi : nilfs_file_info)
    (r : InodeRef) (hino : ino < c.NILFS_MAX_INITIAL_INO) (hf : st.files ino = some fi)
    (hr : st.raw_inode ino = some r) :
    inc_link_count c ino st = .ok { st with
      inode := setAt1 st.inode r
        { st.inode r with i_links_count := ((st.inode r).i_links_count + 1) % 2 ^ 16 } } := by
  unfold inc_link_count
  rw [file_ok c st _ fi hino hf, except_ok_bind, raw_ok st ino r hr, except_ok_bind]
  rfl

theorem init_inode_ex (c : Consts) (blocksize : Int) (ino type mode size : Nat)
    (st : Formatter) (fi : nilfs_file_info) (r : InodeRef)
    (h1 : ino < c.NILFS_MAX_INITIAL_INO) (h2 : st.files ino = some fi)
    (hr : st.raw_inode ino = some r) (hu : ino < c.NILFS_USER_INO) :
    ∃ st1, init_inode c blocksize ino type mode size st = .ok st1 ∧
      st1.files = st.files ∧ st1.raw_inode = st.raw_inode ∧
      st1.disk_buffer_size = st.disk_buffer_size ∧ st1.dir = st.dir ∧
      st1.bitmap = st.bitmap ∧ st1.pg_nfrees = st.pg_nfrees ∧
      (∀ q, (st1.inode q).i_bmap = (st.inode q).i_bmap) :=
  ⟨_, init_inode_ok c blocksize ino type mode size st fi r h1 h2 hr hu, rfl, rfl, rfl, rfl, rfl,
    rfl, fun q => by
      show (setAt1 st.inode r _ q).i_bmap = _
      unfold setAt1
      by_cases hq : q = r
      · rw [if_pos hq, hq]
      · rw [if_neg hq]⟩

theorem make_empty_dir_ex (c : Consts) (blocksize : Int) (dir_ino parent_ino : Nat)
    (st : Formatter) (fi : nilfs_file_info) (blk1 : Nat → Nat)
    (hino : dir_ino < c.NILFS_MAX_INITIAL_INO) (hf : st.files dir_ino = some fi)
    (hpool : fi.start < st.disk_buffer_size)
    (hblk : make_empty_dir_block c blocksize (st.dir fi.start) dir_ino parent_ino = .ok blk1) :
    ∃ st1, make_empty_dir c blocksize dir_ino parent_ino st = .ok st1 ∧
      st1.dir fi.start = blk1 ∧ st1.files = st.files ∧ st1.raw_inode = st.raw_inode ∧
      st1.disk_buffer_size = st.disk_buffer_size ∧
      st1.bitmap = st.bitmap ∧ st1.pg_nfrees = st.pg_nfrees ∧ st1.inode = st.inode :=
  ⟨_, make_empty_dir_ok c blocksize dir_ino parent_ino st fi blk1 hino hf hpool hblk, by
      show setAt1 st.dir fi.start blk1 fi.start = blk1
      unfold setAt1
      rw [if_pos rfl], rfl, rfl, rfl, rfl, rfl, rfl⟩

theorem inc_link_count_ex (c : Consts) (ino : Nat) (st : Formatter) (fi : nilfs_file_info)
    (r : InodeRef) (hino : ino < c.NILFS_MAX_INITIAL_INO) (hf : st.files ino = some fi)
    (hr : st.raw_inode ino = some r) :
    ∃ st1, inc_link_count c ino st = .ok st1 ∧
      st1.dir = st.dir ∧ st1.files = st.files ∧ st1.raw_inode = st.raw_inode ∧
      st1.disk_buffer_size = st.disk_buffer_size ∧
      st1.bitmap = st.bitmap ∧ st1.pg_nfrees = st.pg_nfrees ∧
      (∀ q, (st1.inode q).i_bmap = (st.inode q).i_bmap) :=
  ⟨_, inc_link_count_ok c ino st fi r hino hf hr, rfl, rfl, rfl, rfl, rfl, rfl, fun q => by
      show (setAt1 st.inode r _ q).i_bmap = _
      unfold setAt1
      by_cases hq : q = r
      · rw [if_pos hq, hq]
      · rw [if_neg hq]⟩

theorem walk_dir_four (b : Nat) (blk : Nat → Nat) (d1 d2 d3 : Nat) (hb : 5 ≤ b)
    (h1 : d1 < b) (h2 : d2 < b) (h3 : d3 < b)
    (n0 : next_dir_entry blk 0 = d1) (n1 : next_dir_entry blk d1 = d2)
    (n2 : next_dir_entry blk d2 = d3) (n3 : next_dir_entry blk d3 = b) :
    walk_dir b blk b 0 =
      [read_dir_entry blk 0, read_dir_entry blk d1, read_dir_entry blk d2,
        read_dir_entry blk d3] := by
  obtain ⟨n, rfl⟩ : ∃ n, b = n + 5 := ⟨b - 5, by omega⟩
  rw [walk_dir, if_neg (by omega), n0, walk_dir, if_neg (by omega), n1, walk_dir,
    if_neg (by omega), n2, walk_dir, if_neg (by omega), n3, walk_dir, if_pos (by omega)]

/-- C23: `make_rootdir` returns, for a block size between 76 and 65591 bytes
and a root directory whose block is inside the pool. Walking the block of
the directory from offset 0 by `next_dir_entry` to the end of the block then
visits four entries: `.` and `..` with the inode number of the root
directory and the type of a directory, `.sketch` with `NILFS_SKETCH_INO` and
`.nilfs` with `NILFS_NILFS_INO`, both with the type of a regular file. Each
entry has its inode number, name length and type as stored, although eight
bytes are copied for every name, and the four record lengths 16, 16, 24 and
`blocksize - 56` sum to the block size. -/
theorem root_directory_entries (c : Consts) (blocksize : Int) (st : Formatter)
    (fi : nilfs_file_info) (r : InodeRef)
    (hb : 76 ≤ blocksize) (hb2 : blocksize < 2 ^ 16 + 56)
    (hino : c.NILFS_ROOT_INO < c.NILFS_MAX_INITIAL_INO)
    (hf : st.files c.NILFS_ROOT_INO = some fi)
    (hr : st.raw_inode c.NILFS_ROOT_INO = some r)
    (hu : c.NILFS_ROOT_INO < c.NILFS_USER_INO)
    (hpool : fi.start < st.disk_buffer_size)
    (hroot : c.NILFS_ROOT_INO < 2 ^ 64) (hs : c.NILFS_SKETCH_INO < 2 ^ 64)
    (hn : c.NILFS_NILFS_INO < 2 ^ 64) :
    ∃ st1, make_rootdir c blocksize st = .ok st1 ∧
      walk_dir (toU64 blocksize) (st1.dir fi.start) (toU64 blocksize) 0 =
        [⟨c.NILFS_ROOT_INO, 16, 1, NILFS_FT_DIR, [46]⟩,
          ⟨c.NILFS_ROOT_INO, 16, 2, NILFS_FT_DIR, [46, 46]⟩,
          ⟨c.NILFS_SKETCH_INO, 24, 7, NILFS_FT_REG_FILE, [46, 115, 107, 101, 116, 99, 104]⟩,
          ⟨c.NILFS_NILFS_INO, toU64 blocksize - 56, 6, NILFS_FT_REG_FILE,
            [46, 110, 105, 108, 102, 115]⟩] ∧
      ((walk_dir (toU64 blocksize) (st1.dir fi.start) (toU64 blocksize) 0).map
        (fun e => e.rec_len)).sum = toU64 blocksize := by
  obtain ⟨blk1, e, q1, x1, q2, x2, q3, x3, q4, x4⟩ :=
    make_empty_dir_block_ok c blocksize (st.dir fi.start) c.NILFS_ROOT_INO c.NILFS_ROOT_INO
      hb hb2 hroot hroot hs hn
  have hbu : 76 ≤ toU64 blocksize := by unfold toU64; omega
  have hw := walk_dir_four (toU64 blocksize) blk1 16 32 56 (by omega) (by omega) (by omega)
    (by omega) x1 x2 x3 x4
  rw [q1, q2, q3, q4] at hw
  obtain ⟨s1, e1, f1, r1, z1, d1, -⟩ := init_inode_ex c blocksize c.NILFS_ROOT_INO DT_DIR 0o755
    (toU32 blocksize) st fi r hino hf hr hu
  obtain ⟨s2, e2, d2, f2, r2, -⟩ := make_empty_dir_ex c blocksize c.NILFS_ROOT_INO
    c.NILFS_ROOT_INO s1 fi blk1 hino (by rw [f1]; exact hf) (by rw [z1]; exact hpool)
    (by rw [d1]; exact e)
  obtain ⟨s3, e3, d3, -⟩ := inc_link_count_ex c c.NILFS_ROOT_INO s2 fi r hino
    (by rw [f2, f1]; exact hf) (by rw [r2, r1]; exact hr)
  unfold make_rootdir
  dsimp only
  rw [e1, except_ok_bind, e2, except_ok_bind]
  refine ⟨s3, e3, ?_⟩
  rw [d3, d2, hw]
  refine ⟨rfl, ?_⟩
  simp only [List.map_cons, List.map_nil, List.sum_cons, List.sum_nil]
  omega

/-- Witness of C23: the root directory of the sample layout, block 2, with
blocks of 4096 bytes: the entries `.` and `..` of inode 2, `.sketch` of inode
10 and `.nilfs` of inode 11, the last one with a record length of 4040. -/
theorem root_directory_entries_witness :
    ∃ st1, make_rootdir releaseConsts 4096
        { sampleEntered with
          raw_inode := setAt1 sampleEntered.raw_inode 2 (some (.ifile_entry 5 2)) } = .ok st1 ∧
      walk_dir 4096 (st1.dir 2) 4096 0 =
        [⟨2, 16, 1, 2, [46]⟩, ⟨2, 16, 2, 2, [46, 46]⟩,
          ⟨10, 24, 7, 1, [46, 115, 107, 101, 116, 99, 104]⟩,
          ⟨11, 4040, 6, 1, [46, 110, 105, 108, 102, 115]⟩] ∧
      ((walk_dir 4096 (st1.dir 2) 4096 0).map (fun e => e.rec_len)).sum = 4096 :=
  root_directory_entries releaseConsts 4096
    { sampleEntered with
      raw_inode := setAt1 sampleEntered.raw_inode 2 (some (.ifile_entry 5 2)) }
    ⟨2, 2, 1⟩ (.ifile_entry 5 2) (by decide) (by decide) (by decide) (by rfl) (by rfl)
    (by decide) (by decide) (by decide) (by decide) (by decide)

/-! ## What the functions leave alone -/

theorem bind_ok {α β : Type} (x : Except Fatal α) (f : α → Except Fatal β) (b : β)
    (h : (x >>= f) = .ok b) : ∃ a, x = .ok a ∧ f a = .ok b := by
  cases x with
  | error e => cases h
  | ok a => exact ⟨a, rfl, h⟩

theorem alloc_frame (blocksize : Int) (blocknr nr : Nat) (st st1 : Formatter)
    (hh : alloc_blockgrouped_file_entry blocksize blocknr nr st = .ok st1) :
    st1.layout = st.layout ∧ st1.raw_inode = st.raw_inode ∧ st1.checkpoint = st.checkpoint ∧
      st1.vblocknr = st.vblocknr ∧ st1.inode = st.inode ∧ st1.dat = st.dat ∧ st1.su = st.su ∧
      st1.sh = st.sh ∧ st1.cp = st.cp ∧ st1.ch = st.ch ∧ st1.dir = st.dir := by
  unfold alloc_blockgrouped_file_entry map_block at hh
  simp only [bind, Except.bind, pure, Except.pure] at hh
  split_ifs at hh
  all_goals (cases hh <;> exact ⟨rfl, rfl, rfl, rfl, rfl, rfl, rfl, rfl, rfl, rfl, rfl⟩)

theorem reserve_ifile_inode_frame (c : Consts) (blocksize : Int) (ino : Nat)
    (st st1 : Formatter) (hh : reserve_ifile_inode c blocksize ino st = .ok st1) :
    st1.layout = st.layout ∧ st1.raw_inode = st.raw_inode ∧ st1.checkpoint = st.checkpoint ∧
      st1.vblocknr = st.vblocknr ∧ st1.inode = st.inode ∧ st1.dat = st.dat ∧ st1.su = st.su ∧
      st1.sh = st.sh ∧ st1.cp = st.cp ∧ st1.ch = st.ch ∧ st1.dir = st.dir := by
  unfold reserve_ifile_inode at hh
  obtain ⟨fi, -, h2⟩ := bind_ok _ _ _ hh
  exact alloc_frame blocksize fi.start ino st st1 h2

theorem init_inode_frame (c : Consts) (blocksize : Int) (ino type mode size : Nat)
    (st st1 : Formatter) (hh : init_inode c blocksize ino type mode size st = .ok st1) :
    st1.layout = st.layout ∧ st1.raw_inode = st.raw_inode ∧ st1.checkpoint = st.checkpoint ∧
      st1.vblocknr = st.vblocknr ∧ st1.dat = st.dat ∧ st1.su = st.su ∧
      st1.sh = st.sh ∧ st1.cp = st.cp ∧ st1.ch = st.ch ∧ st1.dir = st.dir ∧
      (∀ q, (st1.inode q).i_bmap = (st.inode q).i_bmap) := by
  unfold init_inode at hh
  obtain ⟨fi, -, h2⟩ := bind_ok _ _ _ hh
  obtain ⟨r, -, h3⟩ := bind_ok _ _ _ h2
  have hb : ∀ q, (setAt1 st.inode r
      { st.inode r with
        i_mode := ((type * 2 ^ 12) ||| mode) % 2 ^ 16,
        i_flags := 0,
        i_size := size,
        i_blocks := fi.nblocks,
        i_links_count := 1,
        i_ctime := toU64 st.diskinfo.ctime,
        i_mtime := toU64 st.diskinfo.ctime } q).i_bmap = (st.inode q).i_bmap := by
    intro q
    unfold setAt1
    by_cases hq : q = r
    · rw [if_pos hq, hq]
    · rw [if_neg hq]
  dsimp only at h3
  split_ifs at h3
  · obtain ⟨l, r1, c1, v1, i1, d1, s1, s2, c2, c3, d2⟩ := reserve_ifile_inode_frame c blocksize ino _ st1 h3
    refine ⟨l, r1, c1, v1, d1, s1, s2, c2, c3, d2, ?_⟩
    intro q
    rw [i1]
    exact hb q
  · cases h3
    exact ⟨rfl, rfl, rfl, rfl, rfl, rfl, rfl, rfl, rfl, rfl, hb⟩

theorem inc_link_count_frame (c : Consts) (ino : Nat) (st st1 : Formatter)
    (hh : inc_link_count c ino st = .ok st1) :
    st1.layout = st.layout ∧ st1.raw_inode = st.raw_inode ∧ st1.checkpoint = st.checkpoint ∧
      st1.vblocknr = st.vblocknr ∧ st1.dat = st.dat ∧ st1.su = st.su ∧
      st1.sh = st.sh ∧ st1.cp = st.cp ∧ st1.ch = st.ch ∧ st1.dir = st.dir ∧
      st1.bitmap = st.bitmap ∧ st1.pg_nfrees = st.pg_nfrees ∧
      (∀ q, (st1.inode q).i_bmap = (st.inode q).i_bmap) := by
  unfold inc_link_count at hh
  obtain ⟨fi, -, h2⟩ := bind_ok _ _ _ hh
  obtain ⟨r, -, h3⟩ := bind_ok _ _ _ h2
  cases h3
  refine ⟨rfl, rfl, rfl, rfl, rfl, rfl, rfl, rfl, rfl, rfl, rfl, rfl, ?_⟩
  intro q
  show (setAt1 st.inode r _ q).i_bmap = _
  unfold setAt1
  by_cases hq : q = r
  · rw [if_pos hq, hq]
  · rw [if_neg hq]

theorem make_empty_dir_frame (c : Consts) (blocksize : Int) (dir_ino parent_ino : Nat)
    (st st1 : Formatter) (hh : make_empty_dir c blocksize dir_ino parent_ino st = .ok st1) :
    st1.layout = st.layout ∧ st1.raw_inode = st.raw_inode ∧ st1.checkpoint = st.checkpoint ∧
      st1.vblocknr = st.vblocknr ∧ st1.dat = st.dat ∧ st1.su = st.su ∧
      st1.sh = st.sh ∧ st1.cp = st.cp ∧ st1.ch = st.ch ∧
      st1.bitmap = st.bitmap ∧ st1.pg_nfrees = st.pg_nfrees ∧ st1.inode = st.inode := by
  unfold make_empty_dir at hh
  obtain ⟨fi, -, h2⟩ := bind_ok _ _ _ hh
  obtain ⟨_, -, h3⟩ := bind_ok _ _ _ h2
  obtain ⟨blk, -, h4⟩ := bind_ok _ _ _ h3
  cases h4
  exact ⟨rfl, rfl, rfl, rfl, rfl, rfl, rfl, rfl, rfl, rfl, rfl, rfl⟩

theorem make_rootdir_frame (c : Consts) (blocksize : Int) (st st1 : Formatter)
    (hh : make_rootdir c blocksize st = .ok st1) :
    st1.layout = st.layout ∧ st1.raw_inode = st.raw_inode ∧ st1.checkpoint = st.checkpoint ∧
      st1.vblocknr = st.vblocknr ∧ st1.dat = st.dat ∧ st1.su = st.su ∧
      st1.sh = st.sh ∧ st1.cp = st.cp ∧ st1.ch = st.ch ∧
      (∀ q, (st1.inode q).i_bmap = (st.inode q).i_bmap) := by
  unfold make_rootdir at hh
  obtain ⟨s1, h1, h2⟩ := bind_ok _ _ _ hh
  obtain ⟨s2, h3, h4⟩ := bind_ok _ _ _ h2
  obtain ⟨a1, a2, a3, a4, a5, a6, a7, a8, a9, -, a11⟩ := init_inode_frame _ _ _ _ _ _ _ _ h1
  obtain ⟨b1, b2, b3, b4, b5, b6, b7, b8, b9, -, -, b12⟩ := make_empty_dir_frame _ _ _ _ _ _ h3
  obtain ⟨c1, c2, c3, c4, c5, c6, c7, c8, c9, -, -, -, c13⟩ := inc_link_count_frame _ _ _ _ h4
  refine ⟨by rw [c1, b1, a1], by rw [c2, b2, a2], by rw [c3, b3, a3], by rw [c4, b4, a4],
    by rw [c5, b5, a5], by rw [c6, b6, a6], by rw [c7, b7, a7], by rw [c8, b8, a8],
    by rw [c9, b9, a9], fun q => by rw [c13, b12, a11]⟩

theorem prepare_blockgrouped_file_frame (c : Consts) (blocksize : Int) (blocknr : Nat)
    (st st1 : Formatter) (hh : prepare_blockgrouped_file c blocksize blocknr st = .ok st1) :
    st1.layout = st.layout ∧ st1.raw_inode = st.raw_inode ∧ st1.checkpoint = st.checkpoint ∧
      st1.vblocknr = st.vblocknr ∧ st1.inode = st.inode ∧ st1.dat = st.dat ∧ st1.su = st.su ∧
      st1.sh = st.sh ∧ st1.cp = st.cp ∧ st1.ch = st.ch ∧ st1.dir = st.dir ∧
      st1.bitmap = st.bitmap := by
  unfold prepare_blockgrouped_file map_block at hh
  simp only [bind, Except.bind, pure, Except.pure] at hh
  split_ifs at hh
  all_goals (cases hh <;> exact ⟨rfl, rfl, rfl, rfl, rfl, rfl, rfl, rfl, rfl, rfl, rfl, rfl⟩)

theorem slot_loop_frame {σ : Type} (R : σ → σ → Prop) (hrefl : ∀ s, R s s)
    (htrans : ∀ a b d, R a b → R b d → R a d)
    (body : Nat → Nat → Nat → σ → Except Fatal σ)
    (hbody : ∀ b i k s s1, body b i k s = .ok s1 → R s s1) (b : Nat) :
    ∀ (n i k : Nat) (s s1 : σ) (k1 : Nat), slot_loop body b n i k s = .ok (s1, k1) → R s s1 := by
  intro n
  induction n with
  | zero =>
    intro i k s s1 k1 hh
    cases hh
    exact hrefl s
  | succ n ih =>
    intro i k s s1 k1 hh
    rw [slot_loop] at hh
    obtain ⟨s2, h1, h2⟩ := bind_ok _ _ _ hh
    exact htrans _ _ _ (hbody _ _ _ _ _ h1) (ih _ _ _ _ _ h2)

theorem block_loop_frame {σ : Type} (R : σ → σ → Prop) (hrefl : ∀ s, R s s)
    (htrans : ∀ a b d, R a b → R b d → R a d)
    (body : Nat → Nat → Nat → σ → Except Fatal σ)
    (hbody : ∀ b i k s s1, body b i k s = .ok s1 → R s s1)
    (size epb first blocknr : Nat) :
    ∀ (n eb k : Nat) (s s1 : σ) (k1 : Nat),
      block_loop body size epb first blocknr n eb k s = .ok (s1, k1) → R s s1 := by
  intro n
  induction n with
  | zero =>
    intro eb k s s1 k1 hh
    cases hh
    exact hrefl s
  | succ n ih =>
    intro eb k s s1 k1 hh
    rw [block_loop] at hh
    split_ifs at hh
    all_goals first
      | (cases hh; done)
      | (obtain ⟨⟨s2, k2⟩, h1, h2⟩ := bind_ok _ _ _ hh
         exact htrans _ _ _ (slot_loop_frame R hrefl htrans body hbody _ _ _ _ _ _ _ h1)
           (ih _ _ _ _ _ h2))

theorem reserve_loop_frame (blocksize : Int) (blocknr : Nat) :
    ∀ (n ino : Nat) (st st1 : Formatter), reserve_loop blocksize blocknr n ino st = .ok st1 →
    st1.layout = st.layout ∧ st1.raw_inode = st.raw_inode ∧ st1.checkpoint = st.checkpoint ∧
      st1.vblocknr = st.vblocknr ∧ st1.inode = st.inode ∧ st1.dat = st.dat ∧ st1.su = st.su ∧
      st1.sh = st.sh ∧ st1.cp = st.cp ∧ st1.ch = st.ch ∧ st1.dir = st.dir := by
  intro n
  induction n with
  | zero =>
    intro ino st st1 hh
    cases hh
    exact ⟨rfl, rfl, rfl, rfl, rfl, rfl, rfl, rfl, rfl, rfl, rfl⟩
  | succ n ih =>
    intro ino st st1 hh
    rw [reserve_loop] at hh
    obtain ⟨s2, h1, h2⟩ := bind_ok _ _ _ hh
    obtain ⟨a1, a2, a3, a4, a5, a6, a7, a8, a9, a10, a11⟩ := alloc_frame _ _ _ _ _ h1
    obtain ⟨b1, b2, b3, b4, b5, b6, b7, b8, b9, b10, b11⟩ := ih _ _ _ h2
    exact ⟨by rw [b1, a1], by rw [b2, a2], by rw [b3, a3], by rw [b4, a4], by rw [b5, a5],
      by rw [b6, a6], by rw [b7, a7], by rw [b8, a8], by rw [b9, a9], by rw [b10, a10],
      by rw [b11, a11]⟩

theorem prepare_ifile_frame (c : Consts) (blocksize : Int) (st st1 : Formatter)
    (hh : prepare_ifile c blocksize st = .ok st1) :
    st1.layout = st.layout ∧ st1.checkpoint = st.checkpoint ∧
      st1.vblocknr = st.vblocknr ∧ st1.dat = st.dat ∧ st1.su = st.su ∧
      st1.sh = st.sh ∧ st1.cp = st.cp ∧ st1.ch = st.ch ∧ st1.dir = st.dir ∧
      (∀ q, (st1.inode q).i_bmap = (st.inode q).i_bmap) := by
  unfold prepare_ifile at hh
  obtain ⟨fi, -, h2⟩ := bind_ok _ _ _ hh
  obtain ⟨s1, h3, h4⟩ := bind_ok _ _ _ h2
  obtain ⟨⟨s2, k2⟩, h5, h6⟩ := bind_ok _ _ _ h4
  obtain ⟨s3, h7, h8⟩ := bind_ok _ _ _ h6
  obtain ⟨a1, -, a3, a4, a5, a6, a7, a8, a9, a10, a11, -⟩ :=
    prepare_blockgrouped_file_frame _ _ _ _ _ h3
  have hloop := block_loop_frame
    (fun (s t : Formatter) => t.layout = s.layout ∧ t.checkpoint = s.checkpoint ∧
      t.vblocknr = s.vblocknr ∧ t.inode = s.inode ∧ t.dat = s.dat ∧ t.su = s.su ∧
      t.sh = s.sh ∧ t.cp = s.cp ∧ t.ch = s.ch ∧ t.dir = s.dir)
    (fun _ => ⟨rfl, rfl, rfl, rfl, rfl, rfl, rfl, rfl, rfl, rfl⟩)
    (fun a b d ⟨x1, x2, x3, x4, x5, x6, x7, x8, x9, x10⟩
        ⟨y1, y2, y3, y4, y5, y6, y7, y8, y9, y10⟩ =>
      ⟨by rw [y1, x1], by rw [y2, x2], by rw [y3, x3], by rw [y4, x4], by rw [y5, x5],
        by rw [y6, x6], by rw [y7, x7], by rw [y8, x8], by rw [y9, x9], by rw [y10, x10]⟩)
    _ (fun b i k s t hb => by
      split_ifs at hb
      all_goals (cases hb <;> exact ⟨rfl, rfl, rfl, rfl, rfl, rfl, rfl, rfl, rfl, rfl⟩))
    _ _ _ _ _ _ _ _ _ _ h5
  obtain ⟨b1, b3, b4, b5, b6, b7, b8, b9, b10, b11⟩ := hloop
  obtain ⟨c1, -, c3, c4, c5, c6, c7, c8, c9, c10, c11⟩ := reserve_loop_frame _ _ _ _ _ _ h7
  obtain ⟨d1, -, d3, d4, d6, d7, d8, d9, d10, d11, d12⟩ := init_inode_frame _ _ _ _ _ _ _ _ h8
  refine ⟨by rw [d1, c1, b1, a1], by rw [d3, c3, b3, a3], by rw [d4, c4, b4, a4],
    by rw [d6, c6, b6, a6], by rw [d7, c7, b7, a7], by rw [d8, c8, b8, a8],
    by rw [d9, c9, b9, a9], by rw [d10, c10, b10, a10], by rw [d11, c11, b11, a11],
    fun q => by rw [d12, c5, b5, a5]⟩

theorem prepare_cpfile_frame (h : Helpers) (c : Consts) (blocksize : Int) (st st1 : Formatter)
    (hh : prepare_cpfile h c blocksize st = .ok st1) :
    st1.layout = st.layout ∧ st1.su = st.su := by
  unfold prepare_cpfile at hh
  obtain ⟨fi, -, h2⟩ := bind_ok _ _ _ hh
  obtain ⟨_, -, h3⟩ := bind_ok _ _ _ h2
  obtain ⟨⟨s2, k2⟩, h5, h6⟩ := bind_ok _ _ _ h3
  have hloop := block_loop_frame
    (fun (s t : Formatter) => t.layout = s.layout ∧ t.su = s.su)
    (fun _ => ⟨rfl, rfl⟩)
    (fun a b d ⟨x1, x2⟩ ⟨y1, y2⟩ => ⟨by rw [y1, x1], by rw [y2, x2]⟩)
    _ (fun b i k s t hb => by
      unfold prepare_cpfile_slot at hb
      split_ifs at hb
      · obtain ⟨_, -, h9⟩ := bind_ok _ _ _ hb
        cases h9
        exact ⟨rfl, rfl⟩
      · cases hb
        exact ⟨rfl, rfl⟩)
    _ _ _ _ _ _ _ _ _ _ h5
  obtain ⟨b1, b2⟩ := hloop
  obtain ⟨d1, -, -, -, -, d6, -⟩ := init_inode_frame _ _ _ _ _ _ _ _ h6
  exact ⟨by rw [d1, b1]; rfl, by rw [d6, b2]⟩

theorem prepare_dat_frame (c : Consts) (blocksize : Int) (st st1 : Formatter)
    (hh : prepare_dat c blocksize st = .ok st1) :
    st1.layout = st.layout ∧ st1.su = st.su ∧ st1.raw_inode = st.raw_inode := by
  unfold prepare_dat at hh
  obtain ⟨fi, -, h2⟩ := bind_ok _ _ _ hh
  obtain ⟨s1, h3, h4⟩ := bind_ok _ _ _ h2
  obtain ⟨⟨s2, k2⟩, h5, h6⟩ := bind_ok _ _ _ h4
  obtain ⟨s3, h7, h8⟩ := bind_ok _ _ _ h6
  obtain ⟨a1, a2, -, -, -, -, a7, -⟩ := prepare_blockgrouped_file_frame _ _ _ _ _ h3
  have hloop := block_loop_frame
    (fun (s t : Formatter) => t.layout = s.layout ∧ t.su = s.su ∧ t.raw_inode = s.raw_inode)
    (fun _ => ⟨rfl, rfl, rfl⟩)
    (fun a b d ⟨x1, x2, x3⟩ ⟨y1, y2, y3⟩ => ⟨by rw [y1, x1], by rw [y2, x2], by rw [y3, x3]⟩)
    _ (fun b i k s t hb => by
      cases hb
      exact ⟨rfl, rfl, rfl⟩)
    _ _ _ _ _ _ _ _ _ _ h5
  obtain ⟨b1, b2, b3⟩ := hloop
  obtain ⟨c1, c2, -, -, -, -, c7, -⟩ := alloc_frame _ _ _ _ _ h7
  obtain ⟨d1, d2, -, -, -, d6, -⟩ := init_inode_frame _ _ _ _ _ _ _ _ h8
  exact ⟨by rw [d1, c1, b1, a1], by rw [d6, c7, b2, a7], by rw [d2, c2, b3, a2]⟩

theorem store_bmap_frame (c : Consts) (r : InodeRef) (k v : Nat) (st st1 : Formatter)
    (hh : store_bmap c r k v st = .ok st1) :
    st1.layout = st.layout ∧ st1.su = st.su := by
  unfold store_bmap at hh
  split_ifs at hh
  all_goals (cases hh <;> exact ⟨rfl, rfl⟩)

theorem assign_vblocknr_frame (c : Consts) (blocksize : Int) (blocknr : Nat)
    (st st1 : Formatter) (v : Nat) (hh : assign_vblocknr c blocksize blocknr st = .ok (st1, v)) :
    st1.layout = st.layout ∧ st1.su = st.su := by
  unfold assign_vblocknr at hh
  obtain ⟨fi, -, h2⟩ := bind_ok _ _ _ hh
  dsimp only at h2
  split_ifs at h2
  all_goals first
    | (cases h2; done)
    | (obtain ⟨s1, h3, h4⟩ := bind_ok _ _ _ h2
       cases h4
       done)
    | (obtain ⟨s1, h3, h4⟩ := bind_ok _ _ _ h2
       obtain ⟨a1, -, -, -, -, -, a7, -⟩ := alloc_frame _ _ _ _ _ h3
       obtain ⟨_, -, h5⟩ := bind_ok _ _ _ h4
       cases h5
       exact ⟨a1, a7⟩)

theorem update_blocknr_dat_frame (c : Consts) (fi : nilfs_file_info) (r : InodeRef) :
    ∀ (n i : Nat) (st st1 : Formatter), update_blocknr_dat c fi r n i st = .ok st1 →
      st1.layout = st.layout ∧ st1.su = st.su := by
  intro n
  induction n with
  | zero =>
    intro i st st1 hh
    cases hh
    exact ⟨rfl, rfl⟩
  | succ n ih =>
    intro i st st1 hh
    rw [update_blocknr_dat] at hh
    obtain ⟨s2, h1, h2⟩ := bind_ok _ _ _ hh
    obtain ⟨a1, a2⟩ := store_bmap_frame _ _ _ _ _ _ h1
    obtain ⟨b1, b2⟩ := ih _ _ _ h2
    exact ⟨by rw [b1, a1], by rw [b2, a2]⟩

theorem update_blocknr_file_frame (c : Consts) (blocksize : Int) (fi : nilfs_file_info)
    (r : InodeRef) :
    ∀ (n i : Nat) (st st1 : Formatter), update_blocknr_file c blocksize fi r n i st = .ok st1 →
      st1.layout = st.layout ∧ st1.su = st.su := by
  intro n
  induction n with
  | zero =>
    intro i st st1 hh
    cases hh
    exact ⟨rfl, rfl⟩
  | succ n ih =>
    intro i st st1 hh
    rw [update_blocknr_file] at hh
    obtain ⟨⟨s2, v⟩, h1, h2⟩ := bind_ok _ _ _ hh
    obtain ⟨s3, h3, h4⟩ := bind_ok _ _ _ h2
    obtain ⟨a1, a2⟩ := assign_vblocknr_frame _ _ _ _ _ _ h1
    obtain ⟨b1, b2⟩ := store_bmap_frame _ _ _ _ _ _ h3
    obtain ⟨c1, c2⟩ := ih _ _ _ h4
    exact ⟨by rw [c1, b1, a1], by rw [c2, b2, a2]⟩

theorem update_blocknr_frame (c : Consts) (blocksize : Int) (fi : nilfs_file_info)
    (st st1 : Formatter) (hh : update_blocknr c blocksize fi st = .ok st1) :
    st1.layout = st.layout ∧ st1.su = st.su := by
  unfold update_blocknr at hh
  obtain ⟨r, -, h2⟩ := bind_ok _ _ _ hh
  split_ifs at h2
  · exact store_bmap_frame _ _ _ _ _ _ h2
  · obtain ⟨s2, h3, h4⟩ := bind_ok _ _ _ h2
    obtain ⟨a1, a2⟩ := store_bmap_frame _ _ _ _ _ _ h3
    obtain ⟨b1, b2⟩ := update_blocknr_dat_frame _ _ _ _ _ _ _ h4
    exact ⟨by rw [b1, a1], by rw [b2, a2]⟩
  · obtain ⟨s2, h3, h4⟩ := bind_ok _ _ _ h2
    obtain ⟨a1, a2⟩ := store_bmap_frame _ _ _ _ _ _ h3
    obtain ⟨b1, b2⟩ := update_blocknr_file_frame _ _ _ _ _ _ _ _ h4
    exact ⟨by rw [b1, a1], by rw [b2, a2]⟩

theorem update_blocknrs_frame (c : Consts) (blocksize : Int) :
    ∀ (files : List nilfs_file_info) (st st1 : Formatter),
      update_blocknrs c blocksize files st = .ok st1 →
      st1.layout = st.layout ∧ st1.su = st.su := by
  intro files
  induction files with
  | nil =>
    intro st st1 hh
    cases hh
    exact ⟨rfl, rfl⟩
  | cons fi rest ih =>
    intro st st1 hh
    rw [update_blocknrs] at hh
    obtain ⟨s2, h1, h2⟩ := bind_ok _ _ _ hh
    obtain ⟨a1, a2⟩ := update_blocknr_frame _ _ _ _ _ h1
    obtain ⟨b1, b2⟩ := ih _ _ h2
    exact ⟨by rw [b1, a1], by rw [b2, a2]⟩

theorem commit_cpfile_frame (st st1 : Formatter) (hh : commit_cpfile st = .ok st1) :
    st1.layout = st.layout ∧ st1.su = st.su := by
  unfold commit_cpfile at hh
  split at hh
  · cases hh
  · cases hh
    exact ⟨rfl, rfl⟩

theorem set_raw_inode_frame (c : Consts) (ino : Nat) (r : InodeRef) (st st1 : Formatter)
    (hh : set_raw_inode c ino r st = .ok st1) :
    st1.layout = st.layout ∧ st1.su = st.su ∧
      st1.raw_inode = setAt1 st.raw_inode ino (some r) := by
  unfold set_raw_inode at hh
  obtain ⟨_, -, h2⟩ := bind_ok _ _ _ hh
  cases h2
  exact ⟨rfl, rfl, rfl⟩

theorem enter_files_frame (c : Consts) :
    ∀ (files : List nilfs_file_info) (st st1 : Formatter), enter_files c files st = .ok st1 →
      st1.su = st.su ∧ st1.diskinfo = st.diskinfo ∧
      st1.current_segment = st.current_segment ∧
      st1.disk_buffer_size = st.disk_buffer_size ∧ st1.raw_inode = st.raw_inode := by
  intro files
  induction files with
  | nil =>
    intro st st1 hh
    cases hh
    exact ⟨rfl, rfl, rfl, rfl, rfl⟩
  | cons fi rest ih =>
    intro st st1 hh
    rw [enter_files] at hh
    split_ifs at hh
    all_goals first
      | (cases hh; done)
      | exact ih { st with files := setAt1 st.files fi.ino (some fi) } st1 hh

theorem enter_files_files (c : Consts) :
    ∀ (files : List nilfs_file_info) (st st1 : Formatter), enter_files c files st = .ok st1 →
      ∀ ino, st1.files ino = (match file_of files ino with
        | some f => some f
        | none => st.files ino) := by
  intro files
  induction files with
  | nil =>
    intro st st1 hh ino
    cases hh
    rfl
  | cons fi rest ih =>
    intro st st1 hh ino
    rw [enter_files] at hh
    split_ifs at hh
    all_goals first
      | (cases hh; done)
      | (have h1 := ih { st with files := setAt1 st.files fi.ino (some fi) } st1 hh ino
         rw [h1, file_of]
         cases file_of rest ino with
         | some f => rfl
         | none =>
           show setAt1 st.files fi.ino (some fi) ino = _
           unfold setAt1
           by_cases he : fi.ino = ino
           · rw [if_pos he.symm, if_pos he]
           · rw [if_neg (fun h => he h.symm), if_neg he])

theorem commit_sufile_su (c : Consts) (blocksize : Int) (st st1 : Formatter)
    (fi : nilfs_file_info) (hf : st.files c.NILFS_SUFILE_INO = some fi)
    (hh : commit_sufile c blocksize st = .ok st1) :
    st1.layout = st.layout ∧
    st1.su = setAt st.su
      ((fi.start + (((fi.start / st.diskinfo.blocks_per_segment) % 2 ^ 32 +
        c.NILFS_SUFILE_FIRST_SEGMENT_USAGE_OFFSET) % 2 ^ 32) /
          ((toU64 blocksize / c.sizeof_nilfs_segment_usage) % 2 ^ 32)) % 2 ^ 64)
      ((((fi.start / st.diskinfo.blocks_per_segment) % 2 ^ 32 +
        c.NILFS_SUFILE_FIRST_SEGMENT_USAGE_OFFSET) % 2 ^ 32) %
          ((toU64 blocksize / c.sizeof_nilfs_segment_usage) % 2 ^ 32))
      { st.su
          ((fi.start + (((fi.start / st.diskinfo.blocks_per_segment) % 2 ^ 32 +
            c.NILFS_SUFILE_FIRST_SEGMENT_USAGE_OFFSET) % 2 ^ 32) /
              ((toU64 blocksize / c.sizeof_nilfs_segment_usage) % 2 ^ 32)) % 2 ^ 64)
          ((((fi.start / st.diskinfo.blocks_per_segment) % 2 ^ 32 +
            c.NILFS_SUFILE_FIRST_SEGMENT_USAGE_OFFSET) % 2 ^ 32) %
              ((toU64 blocksize / c.sizeof_nilfs_segment_usage) % 2 ^ 32)) with
        su_lastmod := toU64 st.diskinfo.ctime,
        su_nblocks := st.current_segment.nblocks % 2 ^ 32 } := by
  unfold commit_sufile at hh
  obtain ⟨fi2, h1, h2⟩ := bind_ok _ _ _ hh
  have hfi : fi2 = fi := by
    unfold Formatter.file at h1
    split_ifs at h1
    all_goals first
      | (cases h1; done)
      | (rw [hf] at h1
         cases h1
         rfl)
  subst hfi
  dsimp only at h2
  split_ifs at h2
  all_goals first
    | (cases h2; done)
    | (obtain ⟨_, -, h3⟩ := bind_ok _ _ _ h2
       cases h3
       exact ⟨rfl, rfl⟩)

theorem layout_fields (a b : Formatter) (h : a.layout = b.layout) :
    a.diskinfo = b.diskinfo ∧ a.current_segment = b.current_segment ∧ a.files = b.files ∧
      a.disk_buffer_size = b.disk_buffer_size := by
  unfold Formatter.layout at h
  simp only [Prod.mk.injEq] at h
  exact ⟨h.1, h.2.1, h.2.2.2.2.1, h.2.2.2.2.2.2.2.2⟩

theorem main_format_su (h : Helpers) (c : Consts) (blocksize : Int) (di : nilfs_disk_info)
    (si : nilfs_segment_info) (st : Formatter) (fi : nilfs_file_info)
    (hrun : main_format h c blocksize di si = .ok st)
    (hfile : file_of si.files c.NILFS_SUFILE_INO = some fi)
    (hino : c.NILFS_SUFILE_INO < c.NILFS_MAX_INITIAL_INO)
    (hu : c.NILFS_SUFILE_INO < c.NILFS_USER_INO)
    (hn : 1 ≤ fi.nblocks) (hnb : fi.nblocks < 2 ^ 32)
    (hpool : fi.start + fi.nblocks ≤ di.nblocks_to_write) (hsize : di.nblocks_to_write < 2 ^ 64)
    (hoff : c.NILFS_SUFILE_FIRST_SEGMENT_USAGE_OFFSET ≤
      (toU64 blocksize / c.sizeof_nilfs_segment_usage) % 2 ^ 32) :
    ∃ su1 : Nat → Nat → nilfs_segment_usage,
      (∀ b1 i1, su1 b1 i1 =
        if fi.start ≤ b1 ∧ b1 < fi.start + fi.nblocks ∧
            i1 < (toU64 blocksize / c.sizeof_nilfs_segment_usage) % 2 ^ 32 ∧
            (b1 = fi.start → c.NILFS_SUFILE_FIRST_SEGMENT_USAGE_OFFSET ≤ i1) then
          (if (b1 - fi.start) * ((toU64 blocksize / c.sizeof_nilfs_segment_usage) % 2 ^ 32) + i1 -
              c.NILFS_SUFILE_FIRST_SEGMENT_USAGE_OFFSET < nr_initial_segments then
            h.nilfs_segment_usage_set_dirty (h.nilfs_segment_usage_set_active ⟨0, 0, 0⟩)
          else h.nilfs_segment_usage_set_clean ⟨0, 0, 0⟩)
        else ⟨0, 0, 0⟩) ∧
      st.su = setAt su1
        ((fi.start + (((fi.start / di.blocks_per_segment) % 2 ^ 32 +
          c.NILFS_SUFILE_FIRST_SEGMENT_USAGE_OFFSET) % 2 ^ 32) /
            ((toU64 blocksize / c.sizeof_nilfs_segment_usage) % 2 ^ 32)) % 2 ^ 64)
        ((((fi.start / di.blocks_per_segment) % 2 ^ 32 +
          c.NILFS_SUFILE_FIRST_SEGMENT_USAGE_OFFSET) % 2 ^ 32) %
            ((toU64 blocksize / c.sizeof_nilfs_segment_usage) % 2 ^ 32))
        { su1
            ((fi.start + (((fi.start / di.blocks_per_segment) % 2 ^ 32 +
              c.NILFS_SUFILE_FIRST_SEGMENT_USAGE_OFFSET) % 2 ^ 32) /
                ((toU64 blocksize / c.sizeof_nilfs_segment_usage) % 2 ^ 32)) % 2 ^ 64)
            ((((fi.start / di.blocks_per_segment) % 2 ^ 32 +
              c.NILFS_SUFILE_FIRST_SEGMENT_USAGE_OFFSET) % 2 ^ 32) %
                ((toU64 blocksize / c.sizeof_nilfs_segment_usage) % 2 ^ 32)) with
          su_lastmod := toU64 di.ctime,
          su_nblocks := si.nblocks % 2 ^ 32 } := by
  unfold main_format at hrun
  dsimp only at hrun
  obtain ⟨sG, h1, h2⟩ := bind_ok _ _ _ hrun
  obtain ⟨sH, h3, h4⟩ := bind_ok _ _ _ h2
  obtain ⟨sI, h5, h6⟩ := bind_ok _ _ _ h4
  obtain ⟨sJ, h7, h8⟩ := bind_ok _ _ _ h6
  unfold prepare_segment at h1
  dsimp only at h1
  obtain ⟨sB, e1, e2⟩ := bind_ok _ _ _ h1
  obtain ⟨_, -, e3⟩ := bind_ok _ _ _ e2
  obtain ⟨_, -, e4⟩ := bind_ok _ _ _ e3
  obtain ⟨sC1, r1, e5⟩ := bind_ok _ _ _ e4
  obtain ⟨sC2, r2, e6⟩ := bind_ok _ _ _ e5
  obtain ⟨sC3, r3, e7⟩ := bind_ok _ _ _ e6
  obtain ⟨sD, p1, e8⟩ := bind_ok _ _ _ e7
  obtain ⟨sE, p2, e9⟩ := bind_ok _ _ _ e8
  obtain ⟨sF, p3, p4⟩ := bind_ok _ _ _ e9
  unfold commit_segment_files at h8
  split_ifs at h8
  obtain ⟨sK, k1, k2⟩ := bind_ok _ _ _ h8
  obtain ⟨sL, k3, k4⟩ := bind_ok _ _ _ k2
  -- the state in which prepare_sufile starts
  have hB := enter_files_files c si.files _ sB e1 c.NILFS_SUFILE_INO
  rw [hfile] at hB
  obtain ⟨b1, b2, b3, b4, b5⟩ := enter_files_frame c si.files _ sB e1
  obtain ⟨x1, x2, x3⟩ := set_raw_inode_frame _ _ _ _ _ r1
  obtain ⟨y1, y2, y3⟩ := set_raw_inode_frame _ _ _ _ _ r2
  obtain ⟨z1, z2, z3⟩ := set_raw_inode_frame _ _ _ _ _ r3
  obtain ⟨d1, d2, d3⟩ := prepare_dat_frame _ _ _ _ p1
  have lD := layout_fields sD _ (d1.trans (z1.trans (y1.trans x1)))
  have fD : sD.files c.NILFS_SUFILE_INO = some fi := by
    rw [lD.2.2.1]
    exact hB
  have szD : sD.disk_buffer_size = di.nblocks_to_write := lD.2.2.2.trans b4
  have diD : sD.diskinfo = di := lD.1.trans b2
  have siD : sD.current_segment = si := lD.2.1.trans b3
  have suD : sD.su = fun _ _ => ⟨0, 0, 0⟩ := by
    rw [d2, z2, y2, x2]
    exact b1
  have rD : ∃ r, sD.raw_inode c.NILFS_SUFILE_INO = some r := by
    rw [d3, z3, y3]
    unfold setAt1
    by_cases hd : c.NILFS_SUFILE_INO = c.NILFS_DAT_INO
    · rw [if_pos hd]
      exact ⟨_, rfl⟩
    · rw [if_neg hd, if_pos rfl]
      exact ⟨_, rfl⟩
  obtain ⟨r, hr⟩ := rD
  have okE := prepare_sufile_ok h c blocksize sD fi r hino fD hr hu hn hnb
    (by rw [szD]; exact hpool) (by rw [szD]; exact hsize) hoff
  have eE := Except.ok.inj (p2.symm.trans okE)
  have lE : sE.layout = sD.layout := by rw [eE]; rfl
  have suE : sE.su = fun b1 i1 =>
      if fi.start ≤ b1 ∧ b1 < fi.start + fi.nblocks ∧
          i1 < (toU64 blocksize / c.sizeof_nilfs_segment_usage) % 2 ^ 32 ∧
          (b1 = fi.start → c.NILFS_SUFILE_FIRST_SEGMENT_USAGE_OFFSET ≤ i1) then
        (if (b1 - fi.start) * ((toU64 blocksize / c.sizeof_nilfs_segment_usage) % 2 ^ 32) + i1 -
            c.NILFS_SUFILE_FIRST_SEGMENT_USAGE_OFFSET < nr_initial_segments then
          h.nilfs_segment_usage_set_dirty (h.nilfs_segment_usage_set_active ⟨0, 0, 0⟩)
        else h.nilfs_segment_usage_set_clean ⟨0, 0, 0⟩)
      else ⟨0, 0, 0⟩ := by
    rw [eE]
    dsimp only
    rw [suD]
  obtain ⟨f1, f2⟩ := prepare_cpfile_frame _ _ _ _ _ p3
  obtain ⟨g1, -, -, -, g2, -⟩ := prepare_ifile_frame _ _ _ _ p4
  obtain ⟨m1, -, -, -, -, m2, -⟩ := init_inode_frame _ _ _ _ _ _ _ _ h3
  obtain ⟨n1, -, -, -, -, n2, -⟩ := init_inode_frame _ _ _ _ _ _ _ _ h5
  obtain ⟨o1, -, -, -, -, o2, -⟩ := make_rootdir_frame _ _ _ _ h7
  obtain ⟨q1, q2⟩ := update_blocknrs_frame _ _ _ _ _ k1
  obtain ⟨t1, t2⟩ := commit_cpfile_frame _ _ k3
  have lL : sL.layout = sD.layout := by rw [t1, q1, o1, n1, m1, g1, f1, lE]
  have suL : sL.su = sE.su := by rw [t2, q2, o2, n2, m2, g2, f2]
  have lL2 := layout_fields sL sD lL
  have fL : sL.files c.NILFS_SUFILE_INO = some fi := by rw [lL2.2.2.1]; exact fD
  obtain ⟨-, u2⟩ := commit_sufile_su c blocksize sL st fi fL k4
  rw [lL2.1, lL2.2.1, diD, siD, suL] at u2
  exact ⟨sE.su, fun b1 i1 => by rw [suE], u2⟩

theorem slot_eq_iff (epb x y : Nat) (he : 0 < epb) :
    (x / epb = y / epb ∧ x % epb = y % epb) ↔ x = y := by
  constructor
  · rintro ⟨h1, h2⟩
    rw [← Nat.div_add_mod x epb, ← Nat.div_add_mod y epb, h1, h2]
  · rintro rfl
    exact ⟨rfl, rfl⟩

/-- C21 as amended: in the state that `main` leaves after `commit_segment`,
the segment usage of the segment that holds the segment usage file, segment
`fi.start / blocks_per_segment`, which is segment 0 for the layouts of mkfs,
has `su_nblocks` equal to the block count of the partial segment and
`su_lastmod = ctime`; the entry of every other segment whose slot lies in
the blocks of the file, segment 1 included, has `su_nblocks = 0` and
`su_lastmod = 0`. The helpers of nilfs2_fs.h are assumed to set flags only:
setting a usage active or dirty keeps its two counters, and a cleared usage
that is set clean has both at zero. -/
theorem usage_entries_in_image (h : Helpers) (c : Consts) (blocksize : Int)
    (di : nilfs_disk_info) (si : nilfs_segment_info) (st : Formatter) (fi : nilfs_file_info)
    (hrun : main_format h c blocksize di si = .ok st)
    (hfile : file_of si.files c.NILFS_SUFILE_INO = some fi)
    (hino : c.NILFS_SUFILE_INO < c.NILFS_MAX_INITIAL_INO)
    (hu : c.NILFS_SUFILE_INO < c.NILFS_USER_INO)
    (hn : 1 ≤ fi.nblocks) (hnb : fi.nblocks < 2 ^ 32)
    (hpool : fi.start + fi.nblocks ≤ di.nblocks_to_write) (hsize : di.nblocks_to_write < 2 ^ 64)
    (hoff : c.NILFS_SUFILE_FIRST_SEGMENT_USAGE_OFFSET <
      (toU64 blocksize / c.sizeof_nilfs_segment_usage) % 2 ^ 32)
    (hseg : fi.start / di.blocks_per_segment + c.NILFS_SUFILE_FIRST_SEGMENT_USAGE_OFFSET <
      fi.nblocks * ((toU64 blocksize / c.sizeof_nilfs_segment_usage) % 2 ^ 32))
    (hwrap : fi.start / di.blocks_per_segment + c.NILFS_SUFILE_FIRST_SEGMENT_USAGE_OFFSET <
      2 ^ 32)
    (hA : ∀ e, (h.nilfs_segment_usage_set_active e).su_nblocks = e.su_nblocks ∧
      (h.nilfs_segment_usage_set_active e).su_lastmod = e.su_lastmod)
    (hD : ∀ e, (h.nilfs_segment_usage_set_dirty e).su_nblocks = e.su_nblocks ∧
      (h.nilfs_segment_usage_set_dirty e).su_lastmod = e.su_lastmod)
    (hC : (h.nilfs_segment_usage_set_clean ⟨0, 0, 0⟩).su_nblocks = 0 ∧
      (h.nilfs_segment_usage_set_clean ⟨0, 0, 0⟩).su_lastmod = 0) :
    ∀ segnum, segnum + c.NILFS_SUFILE_FIRST_SEGMENT_USAGE_OFFSET <
        fi.nblocks * ((toU64 blocksize / c.sizeof_nilfs_segment_usage) % 2 ^ 32) →
      (segnum = fi.start / di.blocks_per_segment →
        (st.su
          (fi.start + (segnum + c.NILFS_SUFILE_FIRST_SEGMENT_USAGE_OFFSET) /
            ((toU64 blocksize / c.sizeof_nilfs_segment_usage) % 2 ^ 32))
          ((segnum + c.NILFS_SUFILE_FIRST_SEGMENT_USAGE_OFFSET) %
            ((toU64 blocksize / c.sizeof_nilfs_segment_usage) % 2 ^ 32))).su_nblocks =
          si.nblocks % 2 ^ 32 ∧
        (st.su
          (fi.start + (segnum + c.NILFS_SUFILE_FIRST_SEGMENT_USAGE_OFFSET) /
            ((toU64 blocksize / c.sizeof_nilfs_segment_usage) % 2 ^ 32))
          ((segnum + c.NILFS_SUFILE_FIRST_SEGMENT_USAGE_OFFSET) %
            ((toU64 blocksize / c.sizeof_nilfs_segment_usage) % 2 ^ 32))).su_lastmod =
          toU64 di.ctime) ∧
      (segnum ≠ fi.start / di.blocks_per_segment →
        (st.su
          (fi.start + (segnum + c.NILFS_SUFILE_FIRST_SEGMENT_USAGE_OFFSET) /
            ((toU64 blocksize / c.sizeof_nilfs_segment_usage) % 2 ^ 32))
          ((segnum + c.NILFS_SUFILE_FIRST_SEGMENT_USAGE_OFFSET) %
            ((toU64 blocksize / c.sizeof_nilfs_segment_usage) % 2 ^ 32))).su_nblocks = 0 ∧
        (st.su
          (fi.start + (segnum + c.NILFS_SUFILE_FIRST_SEGMENT_USAGE_OFFSET) /
            ((toU64 blocksize / c.sizeof_nilfs_segment_usage) % 2 ^ 32))
          ((segnum + c.NILFS_SUFILE_FIRST_SEGMENT_USAGE_OFFSET) %
            ((toU64 blocksize / c.sizeof_nilfs_segment_usage) % 2 ^ 32))).su_lastmod = 0) := by
  obtain ⟨su1, hsu1, hst⟩ := main_format_su h c blocksize di si st fi hrun hfile hino hu hn hnb
    hpool hsize (Nat.le_of_lt hoff)
  generalize (toU64 blocksize / c.sizeof_nilfs_segment_usage) % 2 ^ 32 = epb at *
  generalize c.NILFS_SUFILE_FIRST_SEGMENT_USAGE_OFFSET = off at *
  generalize fi.start / di.blocks_per_segment = s0 at *
  have he : 0 < epb := by omega
  have e0 : (s0 % 2 ^ 32 + off) % 2 ^ 32 = s0 + off := by omega
  obtain ⟨x1, x2, x3⟩ := slot_of_number epb (s0 + off) fi.nblocks he hseg
  have e1 : (fi.start + (s0 + off) / epb) % 2 ^ 64 = fi.start + (s0 + off) / epb :=
    Nat.mod_eq_of_lt (by omega)
  rw [e0, e1] at hst
  intro segnum hk
  obtain ⟨h1, h2, h3⟩ := slot_of_number epb (segnum + off) fi.nblocks he hk
  have hval : su1 (fi.start + (segnum + off) / epb) ((segnum + off) % epb) =
      if segnum < nr_initial_segments then
        h.nilfs_segment_usage_set_dirty (h.nilfs_segment_usage_set_active ⟨0, 0, 0⟩)
      else h.nilfs_segment_usage_set_clean ⟨0, 0, 0⟩ := by
    rw [hsu1]
    generalize (segnum + off) / epb = q at h1 h3 ⊢
    generalize (segnum + off) % epb = i at h2 h3 ⊢
    have hR : fi.start ≤ fi.start + q ∧ fi.start + q < fi.start + fi.nblocks ∧ i < epb ∧
        (fi.start + q = fi.start → off ≤ i) := by
      refine ⟨by omega, by omega, h2, fun hh => ?_⟩
      have hq0 : q = 0 := by omega
      rw [hq0, Nat.zero_mul] at h3
      omega
    have e3 : (fi.start + q - fi.start) * epb + i - off = segnum := by
      rw [Nat.add_sub_cancel_left, h3]
      omega
    rw [if_pos hR, e3]
  have hzero : (su1 (fi.start + (segnum + off) / epb) ((segnum + off) % epb)).su_nblocks = 0 ∧
      (su1 (fi.start + (segnum + off) / epb) ((segnum + off) % epb)).su_lastmod = 0 := by
    rw [hval]
    by_cases hlt : segnum < nr_initial_segments
    · rw [if_pos hlt, (hD _).1, (hA _).1, (hD _).2, (hA _).2]
      exact ⟨rfl, rfl⟩
    · rw [if_neg hlt]
      exact hC
  rw [hst]
  unfold setAt
  constructor
  · intro hs
    subst hs
    rw [if_pos ⟨rfl, rfl⟩]
    exact ⟨rfl, rfl⟩
  · intro hs
    have hne : ¬(fi.start + (segnum + off) / epb = fi.start + (s0 + off) / epb ∧
        (segnum + off) % epb = (s0 + off) % epb) := by
      rintro ⟨a1, a2⟩
      have := (slot_eq_iff epb (segnum + off) (s0 + off) he).1 ⟨by omega, a2⟩
      omega
    rw [if_neg hne]
    exact hzero

set_option maxRecDepth 100000 in
/-- Witness of the amended C21: the sample layout with blocks of 4096 bytes.
The entry of segment 0, at index 2 of block 7, has the 11 blocks of the
partial segment and the creation time; the entries of the segments 1 and 2
have no blocks and no time. -/
theorem usage_entries_in_image_witness :
    main_format releaseHelpers releaseConsts 4096 datedLayout sampleSegment = .ok sampleFormat ∧
    (sampleFormat.su 7 2).su_nblocks = 11 ∧ (sampleFormat.su 7 2).su_lastmod = 1262304000 ∧
    (sampleFormat.su 7 3).su_nblocks = 0 ∧ (sampleFormat.su 7 3).su_lastmod = 0 ∧
    (sampleFormat.su 7 4).su_nblocks = 0 ∧ (sampleFormat.su 7 4).su_lastmod = 0 := by
  have hw := usage_entries_in_image releaseHelpers releaseConsts 4096 datedLayout sampleSegment
    sampleFormat ⟨5, 7, 1⟩ (by rfl) (by rfl) (by decide) (by decide) (by decide) (by decide)
    (by decide) (by decide) (by decide) (by decide) (by decide)
    (fun _ => ⟨rfl, rfl⟩) (fun _ => ⟨rfl, rfl⟩) ⟨rfl, rfl⟩
  exact ⟨by rfl, ((hw 0 (by decide)).1 (by decide)).1, ((hw 0 (by decide)).1 (by decide)).2,
    ((hw 1 (by decide)).2 (by decide)).1, ((hw 1 (by decide)).2 (by decide)).2,
    ((hw 2 (by decide)).2 (by decide)).1, ((hw 2 (by decide)).2 (by decide)).2⟩

set_option maxRecDepth 100000 in
/-- C21 as stated fails for the sample layout: segment 1 is one of the
`nr_initial_segments` segments, and in the state that `main` leaves its
segment usage, at index 3 of block 7, is active and dirty but has
`su_nblocks = 0`; only segment 0 has blocks. -/
theorem next_segment_usage_has_no_blocks :
    main_format releaseHelpers releaseConsts 4096 datedLayout sampleSegment = .ok sampleFormat ∧
    1 < nr_initial_segments ∧
    sampleFormat.su 7 (1 + releaseConsts.NILFS_SUFILE_FIRST_SEGMENT_USAGE_OFFSET) =
      ⟨0, 0, 3⟩ ∧
    sampleFormat.su 7 (0 + releaseConsts.NILFS_SUFILE_FIRST_SEGMENT_USAGE_OFFSET) =
      ⟨1262304000, 11, 3⟩ := by
  refine ⟨by rfl, by decide, by rfl, by rfl⟩

/-! ## The bitmap of the inode file -/

theorem alloc_other (blocksize : Int) (blocknr nr d : Nat) (st st1 : Formatter)
    (hd : d < 2 ^ 64) (hs : st.disk_buffer_size ≤ 2 ^ 64) (hne : blocknr ≠ d)
    (hh : alloc_blockgrouped_file_entry blocksize blocknr nr st = .ok st1) :
    st1.bitmap ((d + 1) % 2 ^ 64) = st.bitmap ((d + 1) % 2 ^ 64) ∧
      st1.pg_nfrees d = st.pg_nfrees d := by
  unfold alloc_blockgrouped_file_entry map_block at hh
  simp only [bind, Except.bind, pure, Except.pure] at hh
  split_ifs at hh with h1 h2 h3 h4 h5
  all_goals first
    | (cases hh; done)
    | (cases hh
       constructor
       · funext k
         show setAt st.bitmap _ _ _ _ k = _
         unfold setAt
         rw [if_neg]
         rintro ⟨e, -⟩
         have e1 : (d + 1) % 2 ^ 64 = (blocknr + 1) % 2 ^ 64 := e
         omega
       · funext i
         show setAt st.pg_nfrees _ _ _ _ i = _
         unfold setAt
         rw [if_neg]
         rintro ⟨e, -⟩
         exact hne e.symm)

theorem alloc_fresh (blocksize : Int) (nr d : Nat) (st st1 : Formatter)
    (hf : ifile_fresh d st) (hh : alloc_blockgrouped_file_entry blocksize d nr st = .ok st1) :
    False := by
  unfold alloc_blockgrouped_file_entry map_block at hh
  simp only [bind, Except.bind, pure, Except.pure] at hh
  split_ifs at hh with h1 h2 h3 h4 h5
  all_goals first
    | (cases hh; done)
    | exact h5 hf.2

theorem alloc_bits (blocksize : Int) (nr d n : Nat) (s : List Nat) (st st1 : Formatter)
    (hh : alloc_blockgrouped_file_entry blocksize d nr st = .ok st1)
    (hn : n ≤ 2 ^ 32) (hb : ifile_bits d n s st) :
    ifile_bits d n (nr :: s) st1 ∧ nr < toU64 blocksize * 8 := by
  obtain ⟨b1, b2, b3⟩ := hb
  unfold alloc_blockgrouped_file_entry map_block at hh
  simp only [bind, Except.bind, pure, Except.pure] at hh
  split_ifs at hh with h1 h2 h3 h4 h5
  all_goals first
    | (cases hh; done)
    | (cases hh
       have hns : nr ∉ s := fun hm => h4 ((b2 nr).2 hm)
       refine ⟨⟨List.nodup_cons.2 ⟨hns, b1⟩, ?_, ?_⟩, by omega⟩
       · intro k
         show setAt st.bitmap _ _ _ _ k = true ↔ _
         unfold setAt
         by_cases hk : k = nr
         · rw [if_pos ⟨rfl, hk⟩, hk]
           simp
         · rw [if_neg (fun hc => hk hc.2), b2 k]
           simp [hk]
       · show setAt st.pg_nfrees _ _ _ _ 0 + (nr :: s).length = n
         unfold setAt
         rw [if_pos ⟨rfl, rfl⟩, List.length_cons]
         rw [Nat.mod_eq_of_lt (by omega)]
         omega)

theorem ifile_fresh_congr (d : Nat) (st st1 : Formatter)
    (hb : st1.bitmap ((d + 1) % 2 ^ 64) = st.bitmap ((d + 1) % 2 ^ 64))
    (hp : st1.pg_nfrees d = st.pg_nfrees d) (hf : ifile_fresh d st) : ifile_fresh d st1 :=
  ⟨fun k => by rw [hb]; exact hf.1 k, by rw [hp]; exact hf.2⟩

theorem ifile_bits_congr (d n : Nat) (s : List Nat) (st st1 : Formatter)
    (hb : st1.bitmap ((d + 1) % 2 ^ 64) = st.bitmap ((d + 1) % 2 ^ 64))
    (hp : st1.pg_nfrees d = st.pg_nfrees d) (hf : ifile_bits d n s st) : ifile_bits d n s st1 :=
  ⟨hf.1, fun k => by rw [hb]; exact hf.2.1 k, by rw [hp]; exact hf.2.2⟩

theorem file_inv (c : Consts) (st : Formatter) (ino : Nat) (fi : nilfs_file_info)
    (hh : st.file c ino = .ok fi) : st.files ino = some fi ∧ ino < c.NILFS_MAX_INITIAL_INO := by
  unfold Formatter.file at hh
  split_ifs at hh with h1
  all_goals first
    | (cases hh; done)
    | (split at hh
       · cases hh
       · cases hh
         exact ⟨by assumption, by omega⟩)

theorem layout_files (a b : Formatter) (h : a.layout = b.layout) : a.files = b.files :=
  (layout_fields a b h).2.2.1

theorem layout_size (a b : Formatter) (h : a.layout = b.layout) :
    a.disk_buffer_size = b.disk_buffer_size :=
  (layout_fields a b h).2.2.2

theorem reserve_fresh (c : Consts) (blocksize : Int) (ino : Nat) (st st1 : Formatter)
    (fi : nilfs_file_info) (hh : reserve_ifile_inode c blocksize ino st = .ok st1)
    (hfi : st.files c.NILFS_IFILE_INO = some fi) (hf : ifile_fresh fi.start st) :
    False := by
  unfold reserve_ifile_inode at hh
  obtain ⟨fi2, h1, h2⟩ := bind_ok _ _ _ hh
  have e := (file_inv c st _ fi2 h1).1
  rw [hfi] at e
  cases e
  exact alloc_fresh blocksize ino fi.start st st1 hf h2

theorem init_inode_fresh (c : Consts) (blocksize : Int) (ino type mode size : Nat)
    (st st1 : Formatter) (fi : nilfs_file_info)
    (hfi : st.files c.NILFS_IFILE_INO = some fi) (hf : ifile_fresh fi.start st)
    (hh : init_inode c blocksize ino type mode size st = .ok st1) :
    ino < c.NILFS_USER_INO ∧ st1.layout = st.layout ∧ ifile_fresh fi.start st1 := by
  unfold init_inode at hh
  obtain ⟨fi2, -, h2⟩ := bind_ok _ _ _ hh
  obtain ⟨r, -, h3⟩ := bind_ok _ _ _ h2
  dsimp only at h3
  split_ifs at h3 with hu
  · exact (reserve_fresh c blocksize ino _ st1 fi h3 hfi hf).elim
  · cases h3
    exact ⟨by omega, rfl, hf⟩

theorem init_inode_bits (c : Consts) (blocksize : Int) (ino type mode size n : Nat)
    (s : List Nat) (st st1 : Formatter) (fi : nilfs_file_info) (hn : n ≤ 2 ^ 32)
    (hfi : st.files c.NILFS_IFILE_INO = some fi) (hb : ifile_bits fi.start n s st)
    (hh : init_inode c blocksize ino type mode size st = .ok st1) :
    st1.layout = st.layout ∧ ∃ s1, ifile_bits fi.start n s1 st1 ∧
      ∀ k, k ∈ s1 ↔ (k ∈ s ∨ (k = ino ∧ c.NILFS_USER_INO ≤ ino)) := by
  have hl := (init_inode_frame c blocksize ino type mode size st st1 hh).1
  refine ⟨hl, ?_⟩
  unfold init_inode at hh
  obtain ⟨fi2, -, h2⟩ := bind_ok _ _ _ hh
  obtain ⟨r, -, h3⟩ := bind_ok _ _ _ h2
  dsimp only at h3
  split_ifs at h3 with hu
  · unfold reserve_ifile_inode at h3
    obtain ⟨fi3, g1, g2⟩ := bind_ok _ _ _ h3
    have e := (file_inv c _ _ fi3 g1).1
    have e2 : some fi3 = some fi := e.symm.trans hfi
    cases e2
    obtain ⟨a1, -⟩ := alloc_bits blocksize ino fi.start n s _ st1 g2 hn hb
    refine ⟨ino :: s, a1, fun k => ?_⟩
    rw [List.mem_cons]
    constructor
    · rintro (hk | hk)
      · exact Or.inr ⟨hk, hu⟩
      · exact Or.inl hk
    · rintro (hk | ⟨hk, -⟩)
      · exact Or.inr hk
      · exact Or.inl hk
  · cases h3
    refine ⟨s, hb, fun k => ?_⟩
    constructor
    · exact fun hk => Or.inl hk
    · rintro (hk | ⟨-, hk⟩)
      · exact hk
      · exact absurd hk hu

theorem pbf_other (c : Consts) (blocksize : Int) (blocknr d : Nat) (st st1 : Formatter)
    (hne : blocknr ≠ d) (hh : prepare_blockgrouped_file c blocksize blocknr st = .ok st1) :
    st1.layout = st.layout ∧ st1.bitmap = st.bitmap ∧ st1.pg_nfrees d = st.pg_nfrees d := by
  unfold prepare_blockgrouped_file map_block at hh
  simp only [bind, Except.bind, pure, Except.pure] at hh
  split_ifs at hh
  all_goals first
    | (cases hh; done)
    | (cases hh
       refine ⟨rfl, rfl, ?_⟩
       funext i
       show (if d = blocknr ∧ _ then _ else _) = _
       rw [if_neg (fun hc => hne hc.1.symm)])

theorem pbf_self (c : Consts) (blocksize : Int) (d : Nat) (st st1 : Formatter)
    (hg : 1 ≤ (toU64 blocksize / c.sizeof_nilfs_persistent_group_desc) % 2 ^ 32)
    (hf : ifile_fresh d st) (hh : prepare_blockgrouped_file c blocksize d st = .ok st1) :
    st1.layout = st.layout ∧
      ifile_bits d (toU32 (blocksize * (c.NILFS_CHAR_BIT : Int))) [] st1 := by
  unfold prepare_blockgrouped_file map_block at hh
  simp only [bind, Except.bind, pure, Except.pure] at hh
  split_ifs at hh
  all_goals first
    | (cases hh; done)
    | (cases hh
       refine ⟨rfl, List.nodup_nil, fun k => ?_, ?_⟩
       · show st.bitmap _ k = true ↔ _
         rw [hf.1 k]
         simp
       · show (if d = d ∧ _ then _ else _) + 0 = _
         rw [if_pos ⟨rfl, by omega⟩]
         rfl)

theorem reserve_loop_bits (blocksize : Int) (d n : Nat) (hn : n ≤ 2 ^ 32) :
    ∀ (m ino : Nat) (s : List Nat) (st st1 : Formatter), ifile_bits d n s st →
      reserve_loop blocksize d m ino st = .ok st1 →
      ∃ s1, ifile_bits d n s1 st1 ∧ ∀ k, k ∈ s1 ↔ (k ∈ s ∨ (ino ≤ k ∧ k < ino + m)) := by
  intro m
  induction m with
  | zero =>
    intro ino s st st1 hb hh
    cases hh
    refine ⟨s, hb, fun k => ?_⟩
    constructor
    · exact fun hk => Or.inl hk
    · rintro (hk | hk)
      · exact hk
      · omega
  | succ m ih =>
    intro ino s st st1 hb hh
    rw [reserve_loop] at hh
    obtain ⟨s2, h1, h2⟩ := bind_ok _ _ _ hh
    obtain ⟨a1, -⟩ := alloc_bits blocksize ino d n s st s2 h1 hn hb
    obtain ⟨s1, b1, b2⟩ := ih (ino + 1) (ino :: s) s2 st1 a1 h2
    refine ⟨s1, b1, fun k => ?_⟩
    rw [b2 k, List.mem_cons]
    constructor
    · rintro ((hk | hk) | hk)
      · exact Or.inr (by omega)
      · exact Or.inl hk
      · exact Or.inr (by omega)
    · rintro (hk | hk)
      · exact Or.inl (Or.inr hk)
      · by_cases he : k = ino
        · exact Or.inl (Or.inl he)
        · exact Or.inr (by omega)

theorem keep_loop (body : Nat → Nat → Nat → Formatter → Except Fatal Formatter)
    (hbody : ∀ b i k s s1, body b i k s = .ok s1 →
      s1.layout = s.layout ∧ s1.bitmap = s.bitmap ∧ s1.pg_nfrees = s.pg_nfrees)
    (size epb first blocknr n eb k : Nat) (s s1 : Formatter) (k1 : Nat)
    (hh : block_loop body size epb first blocknr n eb k s = .ok (s1, k1)) :
    s1.layout = s.layout ∧ s1.bitmap = s.bitmap ∧ s1.pg_nfrees = s.pg_nfrees :=
  block_loop_frame
    (fun (s t : Formatter) => t.layout = s.layout ∧ t.bitmap = s.bitmap ∧
      t.pg_nfrees = s.pg_nfrees)
    (fun _ => ⟨rfl, rfl, rfl⟩)
    (fun a b d ⟨x1, x2, x3⟩ ⟨y1, y2, y3⟩ => ⟨by rw [y1, x1], by rw [y2, x2], by rw [y3, x3]⟩)
    body hbody size epb first blocknr n eb k s s1 k1 hh

theorem prepare_dat_fresh (c : Consts) (blocksize : Int) (st st1 : Formatter)
    (fi : nilfs_file_info) (hh : prepare_dat c blocksize st = .ok st1)
    (hfi : st.files c.NILFS_IFILE_INO = some fi) (hf : ifile_fresh fi.start st)
    (hd : fi.start < 2 ^ 64) (hs : st.disk_buffer_size ≤ 2 ^ 64)
    (hne : ∀ dfi, st.files c.NILFS_DAT_INO = some dfi → dfi.start ≠ fi.start) :
    c.NILFS_DAT_INO < c.NILFS_USER_INO ∧ st1.layout = st.layout ∧ ifile_fresh fi.start st1 := by
  unfold prepare_dat at hh
  obtain ⟨dfi, h1, h2⟩ := bind_ok _ _ _ hh
  obtain ⟨s1, h3, h4⟩ := bind_ok _ _ _ h2
  obtain ⟨⟨s2, k2⟩, h5, h6⟩ := bind_ok _ _ _ h4
  obtain ⟨s3, h7, h8⟩ := bind_ok _ _ _ h6
  have hdne := hne dfi (file_inv c st _ dfi h1).1
  obtain ⟨a1, a2, a3⟩ := pbf_other c blocksize dfi.start fi.start st s1 hdne h3
  obtain ⟨b1, b2, b3⟩ := keep_loop _ (fun b i k s t hb => by
    cases hb
    exact ⟨rfl, rfl, rfl⟩) _ _ _ _ _ _ _ _ _ _ h5
  have l2 : s2.layout = st.layout := b1.trans a1
  obtain ⟨c1, c2⟩ := alloc_other blocksize dfi.start 0 fi.start s2 s3 hd
    (by rw [layout_size s2 st l2]; exact hs) hdne h7
  obtain ⟨c3, -⟩ := alloc_frame _ _ _ _ _ h7
  have l3 : s3.layout = st.layout := c3.trans l2
  have f3 : ifile_fresh fi.start s3 :=
    ifile_fresh_congr _ st s3 (by rw [c1, b2, a2]) (by rw [c2, b3, a3]) hf
  obtain ⟨d1, d2, d3⟩ := init_inode_fresh c blocksize _ _ _ _ s3 st1 fi
    (by rw [layout_files s3 st l3]; exact hfi) f3 h8
  exact ⟨d1, d2.trans l3, d3⟩

theorem prepare_sufile_fresh (h : Helpers) (c : Consts) (blocksize : Int) (st st1 : Formatter)
    (fi : nilfs_file_info) (hh : prepare_sufile h c blocksize st = .ok st1)
    (hfi : st.files c.NILFS_IFILE_INO = some fi) (hf : ifile_fresh fi.start st) :
    c.NILFS_SUFILE_INO < c.NILFS_USER_INO ∧ st1.layout = st.layout ∧
      ifile_fresh fi.start st1 := by
  unfold prepare_sufile at hh
  obtain ⟨sfi, -, h2⟩ := bind_ok _ _ _ hh
  obtain ⟨_, -, h3⟩ := bind_ok _ _ _ h2
  obtain ⟨⟨s2, k2⟩, h5, h6⟩ := bind_ok _ _ _ h3
  obtain ⟨b1, b2, b3⟩ := keep_loop _ (fun b i k s t hb => by
    unfold prepare_sufile_slot at hb
    cases hb
    exact ⟨rfl, rfl, rfl⟩) _ _ _ _ _ _ _ _ _ _ h5
  have f2 : ifile_fresh fi.start s2 :=
    ifile_fresh_congr _ st s2 (by rw [b2]) (by rw [b3]) hf
  obtain ⟨d1, d2, d3⟩ := init_inode_fresh c blocksize _ _ _ _ s2 st1 fi
    (by rw [layout_files s2 _ b1]; exact hfi) f2 h6
  exact ⟨d1, d2.trans b1, d3⟩

theorem prepare_cpfile_fresh (h : Helpers) (c : Consts) (blocksize : Int) (st st1 : Formatter)
    (fi : nilfs_file_info) (hh : prepare_cpfile h c blocksize st = .ok st1)
    (hfi : st.files c.NILFS_IFILE_INO = some fi) (hf : ifile_fresh fi.start st) :
    c.NILFS_CPFILE_INO < c.NILFS_USER_INO ∧ st1.layout = st.layout ∧
      ifile_fresh fi.start st1 := by
  unfold prepare_cpfile at hh
  obtain ⟨sfi, -, h2⟩ := bind_ok _ _ _ hh
  obtain ⟨_, -, h3⟩ := bind_ok _ _ _ h2
  obtain ⟨⟨s2, k2⟩, h5, h6⟩ := bind_ok _ _ _ h3
  obtain ⟨b1, b2, b3⟩ := keep_loop _ (fun b i k s t hb => by
    unfold prepare_cpfile_slot at hb
    split_ifs at hb
    · obtain ⟨_, -, h9⟩ := bind_ok _ _ _ hb
      cases h9
      exact ⟨rfl, rfl, rfl⟩
    · cases hb
      exact ⟨rfl, rfl, rfl⟩) _ _ _ _ _ _ _ _ _ _ h5
  have f2 : ifile_fresh fi.start s2 :=
    ifile_fresh_congr _ st s2 (by rw [b2]) (by rw [b3]) hf
  obtain ⟨d1, d2, d3⟩ := init_inode_fresh c blocksize _ _ _ _ s2 st1 fi
    (by rw [layout_files s2 _ b1]; exact hfi) f2 h6
  exact ⟨d1, d2.trans b1, d3⟩

theorem prepare_ifile_bits (c : Consts) (blocksize : Int) (st st1 : Formatter)
    (fi : nilfs_file_info) (hh : prepare_ifile c blocksize st = .ok st1)
    (hfi : st.files c.NILFS_IFILE_INO = some fi) (hf : ifile_fresh fi.start st)
    (hg : 1 ≤ (toU64 blocksize / c.sizeof_nilfs_persistent_group_desc) % 2 ^ 32) :
    st1.layout = st.layout ∧
      ∃ s1, ifile_bits fi.start (toU32 (blocksize * (c.NILFS_CHAR_BIT : Int))) s1 st1 ∧
        ∀ k, k ∈ s1 ↔ (k < c.NILFS_USER_INO ∨
          (k = c.NILFS_IFILE_INO ∧ c.NILFS_USER_INO ≤ c.NILFS_IFILE_INO)) := by
  have hn : toU32 (blocksize * (c.NILFS_CHAR_BIT : Int)) ≤ 2 ^ 32 := by
    unfold toU32
    omega
  unfold prepare_ifile at hh
  obtain ⟨fi2, g1, h2⟩ := bind_ok _ _ _ hh
  have e := (file_inv c st _ fi2 g1).1
  rw [hfi] at e
  cases e
  obtain ⟨s1, h3, h4⟩ := bind_ok _ _ _ h2
  obtain ⟨⟨s2, k2⟩, h5, h6⟩ := bind_ok _ _ _ h4
  obtain ⟨s3, h7, h8⟩ := bind_ok _ _ _ h6
  obtain ⟨a1, a2⟩ := pbf_self c blocksize fi.start st s1 hg hf h3
  obtain ⟨b1, b2, b3⟩ := keep_loop _ (fun b i k s t hb => by
    split_ifs at hb
    all_goals (cases hb <;> exact ⟨rfl, rfl, rfl⟩)) _ _ _ _ _ _ _ _ _ _ h5
  have l2 : s2.layout = st.layout := b1.trans a1
  have f2 := ifile_bits_congr fi.start _ [] s1 s2 (by rw [b2]) (by rw [b3]) a2
  obtain ⟨t3, c1, c2⟩ := reserve_loop_bits blocksize fi.start _ hn _ _ _ s2 s3 f2 h7
  obtain ⟨c3, -⟩ := reserve_loop_frame _ _ _ _ _ _ h7
  have l3 : s3.layout = st.layout := c3.trans l2
  obtain ⟨d1, t4, d2, d3⟩ := init_inode_bits c blocksize _ _ _ _ _ t3 s3 st1 fi hn
    (by rw [layout_files s3 st l3]; exact hfi) c1 h8
  refine ⟨d1.trans l3, t4, d2, fun k => ?_⟩
  rw [d3 k, c2 k]
  constructor
  · rintro ((hk | hk) | hk)
    · exact absurd hk (List.not_mem_nil k)
    · exact Or.inl (by omega)
    · exact Or.inr hk
  · rintro (hk | hk)
    · exact Or.inl (Or.inr (by omega))
    · exact Or.inr hk

theorem enter_files_keep (c : Consts) :
    ∀ (files : List nilfs_file_info) (st st1 : Formatter), enter_files c files st = .ok st1 →
      st1.bitmap = st.bitmap ∧ st1.pg_nfrees = st.pg_nfrees ∧ st1.vblocknr = st.vblocknr ∧
      st1.cno = st.cno ∧ st1.dat = st.dat ∧ st1.inode = st.inode := by
  intro files
  induction files with
  | nil =>
    intro st st1 hh
    cases hh
    exact ⟨rfl, rfl, rfl, rfl, rfl, rfl⟩
  | cons fi rest ih =>
    intro st st1 hh
    rw [enter_files] at hh
    split_ifs at hh
    all_goals first
      | (cases hh; done)
      | exact ih { st with files := setAt1 st.files fi.ino (some fi) } st1 hh

theorem set_raw_inode_keep (c : Consts) (ino : Nat) (r : InodeRef) (st st1 : Formatter)
    (hh : set_raw_inode c ino r st = .ok st1) :
    st1.bitmap = st.bitmap ∧ st1.pg_nfrees = st.pg_nfrees ∧ st1.vblocknr = st.vblocknr ∧
      st1.dat = st.dat ∧ st1.inode = st.inode := by
  unfold set_raw_inode at hh
  obtain ⟨_, -, h2⟩ := bind_ok _ _ _ hh
  cases h2
  exact ⟨rfl, rfl, rfl, rfl, rfl⟩

theorem reserved_iff (k U D SU CP I S N R : Nat) (hD : D < U) (hSU : SU < U) (hCP : CP < U) :
    (((((k < U ∨ (k = I ∧ U ≤ I)) ∨ (k = S ∧ U ≤ S)) ∨ (k = N ∧ U ≤ N)) ∨ (k = R ∧ U ≤ R)) ↔
      (k < U ∨ (U ≤ k ∧ (k = D ∨ k = SU ∨ k = CP ∨ k = I ∨ k = S ∨ k = N ∨ k = R)))) := by
  constructor
  · intro hk
    omega
  · intro hk
    omega

theorem prepare_segment_bits (h : Helpers) (c : Consts) (blocksize : Int)
    (si : nilfs_segment_info) (st0 sG : Formatter) (fi : nilfs_file_info)
    (h1 : prepare_segment h c blocksize si st0 = .ok sG)
    (hfile : file_of si.files c.NILFS_IFILE_INO = some fi)
    (hdat : ∀ dfi, file_of si.files c.NILFS_DAT_INO = some dfi → dfi.start ≠ fi.start)
    (hstart : fi.start + 1 < 2 ^ 64) (hsize : st0.disk_buffer_size ≤ 2 ^ 64)
    (hbit : ∀ b k, st0.bitmap b k = false) (hpg : ∀ b i, st0.pg_nfrees b i = 0)
    (hg : 1 ≤ (toU64 blocksize / c.sizeof_nilfs_persistent_group_desc) % 2 ^ 32) :
    sG.files c.NILFS_IFILE_INO = some fi ∧
    c.NILFS_DAT_INO < c.NILFS_USER_INO ∧ c.NILFS_SUFILE_INO < c.NILFS_USER_INO ∧
    c.NILFS_CPFILE_INO < c.NILFS_USER_INO ∧
    ∃ s1, ifile_bits fi.start (toU32 (blocksize * (c.NILFS_CHAR_BIT : Int))) s1 sG ∧
      ∀ k, k ∈ s1 ↔ (k < c.NILFS_USER_INO ∨
        (k = c.NILFS_IFILE_INO ∧ c.NILFS_USER_INO ≤ c.NILFS_IFILE_INO)) := by
  unfold prepare_segment at h1
  dsimp only at h1
  obtain ⟨sB, e1, e2⟩ := bind_ok _ _ _ h1
  obtain ⟨_, -, e3⟩ := bind_ok _ _ _ e2
  obtain ⟨_, -, e4⟩ := bind_ok _ _ _ e3
  obtain ⟨sC1, r1, e5⟩ := bind_ok _ _ _ e4
  obtain ⟨sC2, r2, e6⟩ := bind_ok _ _ _ e5
  obtain ⟨sC3, r3, e7⟩ := bind_ok _ _ _ e6
  obtain ⟨sD, p1, e8⟩ := bind_ok _ _ _ e7
  obtain ⟨sE, p2, e9⟩ := bind_ok _ _ _ e8
  obtain ⟨sF, p3, p4⟩ := bind_ok _ _ _ e9
  have hBi := enter_files_files c si.files _ sB e1 c.NILFS_IFILE_INO
  rw [hfile] at hBi
  have hBd := enter_files_files c si.files _ sB e1 c.NILFS_DAT_INO
  obtain ⟨b1, b2, -⟩ := enter_files_keep c si.files _ sB e1
  obtain ⟨-, -, -, b4, -⟩ := enter_files_frame c si.files _ sB e1
  obtain ⟨x1, -, -⟩ := set_raw_inode_frame _ _ _ _ _ r1
  obtain ⟨y1, -, -⟩ := set_raw_inode_frame _ _ _ _ _ r2
  obtain ⟨z1, -, -⟩ := set_raw_inode_frame _ _ _ _ _ r3
  obtain ⟨x2, x3, -⟩ := set_raw_inode_keep _ _ _ _ _ r1
  obtain ⟨y2, y3, -⟩ := set_raw_inode_keep _ _ _ _ _ r2
  obtain ⟨z2, z3, -⟩ := set_raw_inode_keep _ _ _ _ _ r3
  have lC := layout_fields sC3 _ (z1.trans (y1.trans x1))
  have fC : sC3.files = sB.files := lC.2.2.1
  have szC : sC3.disk_buffer_size = st0.disk_buffer_size := lC.2.2.2.trans b4
  have fiC : sC3.files c.NILFS_IFILE_INO = some fi := by rw [fC]; exact hBi
  have frC : ifile_fresh fi.start sC3 := by
    constructor
    · intro k
      rw [z2, y2, x2]
      show sB.bitmap _ k = false
      rw [b1]
      exact hbit _ k
    · rw [z3, y3, x3]
      show sB.pg_nfrees _ 0 = 0
      rw [b2]
      exact hpg _ 0
  have hneC : ∀ dfi, sC3.files c.NILFS_DAT_INO = some dfi → dfi.start ≠ fi.start := by
    intro dfi hd
    rw [fC, hBd] at hd
    cases hfo : file_of si.files c.NILFS_DAT_INO with
    | none =>
      rw [hfo] at hd
      cases hd
    | some f =>
      rw [hfo] at hd
      cases hd
      exact hdat dfi hfo
  obtain ⟨u1, lD, frD⟩ := prepare_dat_fresh c blocksize sC3 sD fi p1 fiC frC (by omega)
    (by rw [szC]; exact hsize) hneC
  have fiD : sD.files c.NILFS_IFILE_INO = some fi := by rw [layout_files sD sC3 lD]; exact fiC
  obtain ⟨u2, lE, frE⟩ := prepare_sufile_fresh h c blocksize sD sE fi p2 fiD frD
  have fiE : sE.files c.NILFS_IFILE_INO = some fi := by rw [layout_files sE sD lE]; exact fiD
  obtain ⟨u3, lF, frF⟩ := prepare_cpfile_fresh h c blocksize sE sF fi p3 fiE frE
  have fiF : sF.files c.NILFS_IFILE_INO = some fi := by rw [layout_files sF sE lF]; exact fiE
  obtain ⟨lG, t1, bG, mG⟩ := prepare_ifile_bits c blocksize sF sG fi p4 fiF frF hg
  have fiG : sG.files c.NILFS_IFILE_INO = some fi := by rw [layout_files sG sF lG]; exact fiF
  exact ⟨fiG, u1, u2, u3, t1, bG, mG⟩

/-- C15: when the calls that build the initial segment, `prepare_segment`,
`make_sketch`, `make_dot_nilfs` and `make_rootdir`, return, there is a list
of bit numbers without repetition that holds exactly the set bits of the
bitmap block of the inode file. Bit `k` is in it if and only if
`k < NILFS_USER_INO`, or `k >= NILFS_USER_INO` and `k` is one of the inode
numbers passed to `init_inode`; and the free count of the first group
descriptor plus the length of the list is `blocksize * 8`, so every set bit
was allocated once. The descriptor block is assumed to hold at least one
descriptor, the DAT file to start at another block than the inode file, and
`blocksize * 8` to fit in 32 bits. -/
theorem ifile_bitmap_bits (h : Helpers) (c : Consts) (blocksize : Int) (di : nilfs_disk_info)
    (si : nilfs_segment_info) (st : Formatter) (fi : nilfs_file_info)
    (hrun : initial_segment h c blocksize di si = .ok st)
    (hfile : file_of si.files c.NILFS_IFILE_INO = some fi)
    (hdat : ∀ dfi, file_of si.files c.NILFS_DAT_INO = some dfi → dfi.start ≠ fi.start)
    (hstart : fi.start + 1 < 2 ^ 64) (hsize : di.nblocks_to_write ≤ 2 ^ 64)
    (hg : 1 ≤ (toU64 blocksize / c.sizeof_nilfs_persistent_group_desc) % 2 ^ 32)
    (hcb : c.NILFS_CHAR_BIT = 8) (hb : 0 ≤ blocksize) (hb2 : blocksize * 8 < 2 ^ 32) :
    ∃ s : List Nat, s.Nodup ∧
      (∀ k, st.bitmap (fi.start + 1) k = true ↔ k ∈ s) ∧
      (∀ k, k ∈ s ↔ (k < c.NILFS_USER_INO ∨ (c.NILFS_USER_INO ≤ k ∧
        k ∈ [c.NILFS_DAT_INO, c.NILFS_SUFILE_INO, c.NILFS_CPFILE_INO, c.NILFS_IFILE_INO,
          c.NILFS_SKETCH_INO, c.NILFS_NILFS_INO, c.NILFS_ROOT_INO]))) ∧
      st.pg_nfrees fi.start 0 + s.length = toU64 blocksize * 8 := by
  have hN : toU32 (blocksize * (c.NILFS_CHAR_BIT : Int)) = toU64 blocksize * 8 := by
    rw [hcb]
    unfold toU32 toU64
    omega
  have hn : toU32 (blocksize * (c.NILFS_CHAR_BIT : Int)) ≤ 2 ^ 32 := by
    unfold toU32
    omega
  have hblk : (fi.start + 1) % 2 ^ 64 = fi.start + 1 := Nat.mod_eq_of_lt hstart
  unfold initial_segment at hrun
  dsimp only at hrun
  obtain ⟨sG, h1, h2⟩ := bind_ok _ _ _ hrun
  obtain ⟨sH, h3, h4⟩ := bind_ok _ _ _ h2
  obtain ⟨sI, h5, h7⟩ := bind_ok _ _ _ h4
  obtain ⟨fiG, u1, u2, u3, t1, bG, mG⟩ := prepare_segment_bits h c blocksize si _ sG fi h1
    hfile hdat hstart hsize (fun _ _ => rfl) (fun _ _ => rfl) hg
  unfold make_sketch at h3
  obtain ⟨lH, t2, bH, mH⟩ := init_inode_bits c blocksize _ _ _ _ _ t1 sG sH fi hn fiG bG h3
  have fiH : sH.files c.NILFS_IFILE_INO = some fi := by rw [layout_files sH sG lH]; exact fiG
  unfold make_dot_nilfs at h5
  obtain ⟨lI, t3, bI, mI⟩ := init_inode_bits c blocksize _ _ _ _ _ t2 sH sI fi hn fiH bH h5
  have fiI : sI.files c.NILFS_IFILE_INO = some fi := by rw [layout_files sI sH lI]; exact fiH
  unfold make_rootdir at h7
  obtain ⟨sJ, j1, j2⟩ := bind_ok _ _ _ h7
  obtain ⟨sK, j3, j4⟩ := bind_ok _ _ _ j2
  obtain ⟨-, t4, bJ, mJ⟩ := init_inode_bits c blocksize _ _ _ _ _ t3 sI sJ fi hn fiI bI j1
  obtain ⟨-, -, -, -, -, -, -, -, -, k1, k2, -⟩ := make_empty_dir_frame _ _ _ _ _ _ j3
  obtain ⟨-, -, -, -, -, -, -, -, -, -, k3, k4, -⟩ := inc_link_count_frame _ _ _ _ j4
  have bS := ifile_bits_congr fi.start _ t4 sJ st (by rw [k3, k1]) (by rw [k4, k2]) bJ
  obtain ⟨n1, n2, n3⟩ := bS
  rw [hblk] at n2
  rw [hN] at n3
  refine ⟨t4, n1, n2, fun k => ?_, n3⟩
  rw [mJ k, mI k, mH k, mG k]
  simp only [List.mem_cons, List.mem_singleton, List.mem_nil_iff, or_false]
  exact reserved_iff k _ _ _ _ _ _ _ _ u1 u2 u3

set_option maxRecDepth 100000 in
/-- The bitmap of the inode file after the build of the sample device: the
set bits are those below `NILFS_USER_INO = 11` and bit 11 of `.nilfs`. -/
theorem ifile_bitmap_bits_witness :
    initial_segment releaseHelpers releaseConsts 4096 datedLayout sampleSegment = .ok sampleBuilt ∧
    file_of sampleSegment.files releaseConsts.NILFS_IFILE_INO = some ⟨6, 3, 3⟩ ∧
    ∃ s : List Nat, s.Nodup ∧
      (∀ k, sampleBuilt.bitmap (3 + 1) k = true ↔ k ∈ s) ∧
      (∀ k, k ∈ s ↔ (k < releaseConsts.NILFS_USER_INO ∨ (releaseConsts.NILFS_USER_INO ≤ k ∧
        k ∈ [releaseConsts.NILFS_DAT_INO, releaseConsts.NILFS_SUFILE_INO,
          releaseConsts.NILFS_CPFILE_INO, releaseConsts.NILFS_IFILE_INO,
          releaseConsts.NILFS_SKETCH_INO, releaseConsts.NILFS_NILFS_INO,
          releaseConsts.NILFS_ROOT_INO]))) ∧
      sampleBuilt.pg_nfrees 3 0 + s.length = toU64 4096 * 8 :=
  ⟨by rfl, by rfl,
    ifile_bitmap_bits releaseHelpers releaseConsts 4096 datedLayout sampleSegment sampleBuilt
      ⟨6, 3, 3⟩ (by rfl) (by rfl)
      (by
        intro dfi hd
        have hf : file_of sampleSegment.files releaseConsts.NILFS_DAT_INO = some ⟨3, 8, 3⟩ := by
          rfl
        rw [hf] at hd
        cases hd
        decide)
      (by decide) (by decide) (by decide) (by rfl) (by decide) (by decide)⟩

/-! ## Virtual block numbers -/

theorem layout_cno (a b : Formatter) (h : a.layout = b.layout) : a.cno = b.cno := by
  unfold Formatter.layout at h
  simp only [Prod.mk.injEq] at h
  exact h.2.2.2.2.2.2.2.1

theorem alloc_nr (blocksize : Int) (blocknr nr : Nat) (st st1 : Formatter)
    (hh : alloc_blockgrouped_file_entry blocksize blocknr nr st = .ok st1) :
    nr < toU64 blocksize * 8 := by
  unfold alloc_blockgrouped_file_entry map_block at hh
  simp only [bind, Except.bind, pure, Except.pure] at hh
  split_ifs at hh with h1 h2 h3 h4 h5
  all_goals first
    | (cases hh; done)
    | omega

theorem assign_vblocknr_ex (c : Consts) (blocksize : Int) (blocknr : Nat)
    (st st1 : Formatter) (v : Nat) (hh : assign_vblocknr c blocksize blocknr st = .ok (st1, v)) :
    v = st.vblocknr ∧ st1.vblocknr = (st.vblocknr + 1) % 2 ^ 64 ∧ st1.layout = st.layout ∧
      st1.raw_inode = st.raw_inode ∧ st1.inode = st.inode ∧ v < toU64 blocksize * 8 ∧
      (toU64 blocksize / c.sizeof_nilfs_dat_entry) % 2 ^ 32 ≠ 0 ∧
      ∃ D, st.files c.NILFS_DAT_INO = some D ∧
        st1.dat = setAt st.dat
          ((D.start + group_desc_blocks_per_group + bitmap_blocks_per_group +
            v / ((toU64 blocksize / c.sizeof_nilfs_dat_entry) % 2 ^ 32)) % 2 ^ 64)
          (v % ((toU64 blocksize / c.sizeof_nilfs_dat_entry) % 2 ^ 32))
          ⟨blocknr, st.cno, NILFS_CNO_MAX⟩ := by
  unfold assign_vblocknr at hh
  obtain ⟨fi, hfi, h2⟩ := bind_ok _ _ _ hh
  obtain ⟨hD, -⟩ := file_inv c st _ fi hfi
  dsimp only at h2
  split_ifs at h2 with he
  all_goals first
    | (cases h2; done)
    | (obtain ⟨s1, h3, h4⟩ := bind_ok _ _ _ h2
       cases h4
       done)
    | (obtain ⟨s1, h3, h4⟩ := bind_ok _ _ _ h2
       obtain ⟨a1, a2, -, a4, a5, a6, -⟩ := alloc_frame _ _ _ _ _ h3
       have a7 := alloc_nr _ _ _ _ _ h3
       have a8 := layout_cno _ _ a1
       obtain ⟨_, -, h5⟩ := bind_ok _ _ _ h4
       cases h5
       refine ⟨rfl, a4, a1, a2, a5, a7, he, fi, hD, ?_⟩
       show setAt s1.dat _ _ ⟨blocknr, s1.cno, NILFS_CNO_MAX⟩ = _
       rw [a6, a8])

theorem store_bmap_ex (c : Consts) (r : InodeRef) (k v : Nat) (st st1 : Formatter)
    (hh : store_bmap c r k v st = .ok st1) :
    st1.layout = st.layout ∧ st1.raw_inode = st.raw_inode ∧ st1.vblocknr = st.vblocknr ∧
      st1.dat = st.dat ∧ (∀ q, q ≠ r → st1.inode q = st.inode q) ∧
      (st1.inode r).i_bmap k = v ∧
      (∀ j, j ≠ k → (st1.inode r).i_bmap j = (st.inode r).i_bmap j) := by
  unfold store_bmap at hh
  split_ifs at hh
  all_goals first
    | (cases hh; done)
    | (cases hh
       refine ⟨rfl, rfl, rfl, rfl, fun q hq => ?_, ?_, fun j hj => ?_⟩
       · show setAt1 st.inode r _ q = _
         unfold setAt1
         rw [if_neg hq]
       · show (setAt1 st.inode r _ r).i_bmap k = v
         unfold setAt1
         rw [if_pos rfl]
         show (if k = k then v else _) = v
         rw [if_pos rfl]
       · show (setAt1 st.inode r _ r).i_bmap j = _
         unfold setAt1
         rw [if_pos rfl]
         show (if j = k then v else _) = _
         rw [if_neg hj])

theorem update_blocknr_dat_ex (c : Consts) (fi : nilfs_file_info) (r : InodeRef) :
    ∀ (n i : Nat) (st st1 : Formatter), update_blocknr_dat c fi r n i st = .ok st1 →
      st1.layout = st.layout ∧ st1.raw_inode = st.raw_inode ∧ st1.vblocknr = st.vblocknr ∧
      st1.dat = st.dat ∧ (∀ q, q ≠ r → st1.inode q = st.inode q) := by
  intro n
  induction n with
  | zero =>
    intro i st st1 hh
    cases hh
    exact ⟨rfl, rfl, rfl, rfl, fun _ _ => rfl⟩
  | succ n ih =>
    intro i st st1 hh
    rw [update_blocknr_dat] at hh
    obtain ⟨s2, h1, h2⟩ := bind_ok _ _ _ hh
    obtain ⟨a1, a2, a3, a4, a5, -⟩ := store_bmap_ex _ _ _ _ _ _ h1
    obtain ⟨b1, b2, b3, b4, b5⟩ := ih _ _ _ h2
    exact ⟨by rw [b1, a1], by rw [b2, a2], by rw [b3, a3], by rw [b4, a4],
      fun q hq => by rw [b5 q hq, a5 q hq]⟩

theorem dat_entry_congr (c : Consts) (blocksize : Int) (D : nilfs_file_info)
    (st st1 : Formatter) (v : Nat) (h : st1.dat = st.dat) :
    dat_entry c blocksize D st1 v = dat_entry c blocksize D st v := by
  unfold dat_entry
  rw [h]

theorem dat_entry_set_same (c : Consts) (blocksize : Int) (D : nilfs_file_info)
    (st st1 : Formatter) (v : Nat) (e : nilfs_dat_entry)
    (h : st1.dat = setAt st.dat
      ((D.start + group_desc_blocks_per_group + bitmap_blocks_per_group +
        v / ((toU64 blocksize / c.sizeof_nilfs_dat_entry) % 2 ^ 32)) % 2 ^ 64)
      (v % ((toU64 blocksize / c.sizeof_nilfs_dat_entry) % 2 ^ 32)) e) :
    dat_entry c blocksize D st1 v = e := by
  unfold dat_entry
  rw [h]
  unfold setAt
  dsimp only
  rw [if_pos ⟨rfl, rfl⟩]

theorem dat_entry_set_other (c : Consts) (blocksize : Int) (D : nilfs_file_info)
    (st st1 : Formatter) (v w : Nat) (e : nilfs_dat_entry)
    (h : st1.dat = setAt st.dat
      ((D.start + group_desc_blocks_per_group + bitmap_blocks_per_group +
        v / ((toU64 blocksize / c.sizeof_nilfs_dat_entry) % 2 ^ 32)) % 2 ^ 64)
      (v % ((toU64 blocksize / c.sizeof_nilfs_dat_entry) % 2 ^ 32)) e)
    (hv : v < 2 ^ 64) (hw : w < 2 ^ 64) (hne : w ≠ v) :
    dat_entry c blocksize D st1 w = dat_entry c blocksize D st w := by
  unfold dat_entry
  rw [h]
  unfold setAt
  dsimp only
  rw [if_neg]
  rintro ⟨h1, h2⟩
  generalize (toU64 blocksize / c.sizeof_nilfs_dat_entry) % 2 ^ 32 = epb at h1 h2
  have e1 := (Nat.div_add_mod w epb).symm
  have e2 := (Nat.div_add_mod v epb).symm
  have l1 := Nat.div_le_self w epb
  have l2 := Nat.div_le_self v epb
  have hq : w / epb = v / epb := by
    generalize w / epb = qw at h1 l1
    generalize v / epb = qv at h1 l2
    omega
  rw [hq, h2] at e1
  exact hne (e1.trans e2.symm)

theorem update_blocknr_file_ex (c : Consts) (blocksize : Int) (fi D : nilfs_file_info)
    (r : InodeRef) (hbs : toU64 blocksize * 8 < 2 ^ 64) :
    ∀ (n i : Nat) (st st1 : Formatter), update_blocknr_file c blocksize fi r n i st = .ok st1 →
      st.files c.NILFS_DAT_INO = some D → i + n < 2 ^ 32 →
      st1.vblocknr = st.vblocknr + n ∧ st1.layout = st.layout ∧
      st1.raw_inode = st.raw_inode ∧
      (∀ q, q ≠ r → st1.inode q = st.inode q) ∧
      (∀ k, k ≤ i → (st1.inode r).i_bmap k = (st.inode r).i_bmap k) ∧
      (∀ j, j < n → (st1.inode r).i_bmap (i + j + 1) = st.vblocknr + j) ∧
      (∀ j, j < n → dat_entry c blocksize D st1 (st.vblocknr + j) =
        ⟨(fi.start + (i + j)) % 2 ^ 64, st.cno, NILFS_CNO_MAX⟩) ∧
      (∀ v, v < st.vblocknr → dat_entry c blocksize D st1 v = dat_entry c blocksize D st v) := by
  intro n
  induction n with
  | zero =>
    intro i st st1 hh _ _
    cases hh
    exact ⟨rfl, rfl, rfl, fun _ _ => rfl, fun _ _ => rfl, fun j hj => absurd hj (by omega),
      fun j hj => absurd hj (by omega), fun _ _ => rfl⟩
  | succ n ih =>
    intro i st st1 hh hD hin
    rw [update_blocknr_file] at hh
    obtain ⟨⟨s2, v⟩, h1, h2⟩ := bind_ok _ _ _ hh
    obtain ⟨s3, h3, h4⟩ := bind_ok _ _ _ h2
    obtain ⟨a1, a2, a3, a4, a5, a6, -, D1, a8, a9⟩ := assign_vblocknr_ex _ _ _ _ _ _ h1
    rw [hD] at a8
    cases a8
    obtain ⟨b1, b2, b3, b4, b5, b6, b7⟩ := store_bmap_ex _ _ _ _ _ _ h3
    have hi1 : (i + 1) % 2 ^ 32 = i + 1 := Nat.mod_eq_of_lt (by omega)
    rw [hi1] at b6 b7
    have hv1 : s3.vblocknr = st.vblocknr + 1 := by
      rw [b3, a2]
      exact Nat.mod_eq_of_lt (by omega)
    have hD3 : s3.files c.NILFS_DAT_INO = some D := by
      rw [layout_files s3 s2 b1, layout_files s2 st a3]
      exact hD
    have hc3 : s3.cno = st.cno := by
      rw [layout_cno s3 s2 b1, layout_cno s2 st a3]
    obtain ⟨c1, c2, c3, c4, c5, c6, c7, c8⟩ := ih (i + 1) s3 st1 h4 hD3 (by omega)
    have hin2 : ∀ q, s2.inode q = st.inode q := fun q => by rw [a5]
    refine ⟨by rw [c1, hv1]; omega, by rw [c2, b1, a3], by rw [c3, b2, a4],
      fun q hq => by rw [c4 q hq, b5 q hq, a5], fun k hk => ?_, fun j hj => ?_, fun j hj => ?_,
      fun w hw => ?_⟩
    · rw [c5 k (by omega), b7 k (by omega), a5]
    · cases j with
      | zero =>
        rw [c5 (i + 0 + 1) (by omega)]
        show (s3.inode r).i_bmap (i + 1) = _
        rw [b6, a1]
        rfl
      | succ j =>
        have e : i + (j + 1) + 1 = i + 1 + j + 1 := by omega
        rw [e, c6 j (by omega), hv1]
        omega
    · cases j with
      | zero =>
        show dat_entry c blocksize D st1 st.vblocknr = _
        rw [c8 _ (by omega), dat_entry_congr c blocksize D s2 s3 _ b4]
        rw [← a1]
        exact dat_entry_set_same c blocksize D st s2 v _ a9
      | succ j =>
        have e : st.vblocknr + (j + 1) = s3.vblocknr + j := by omega
        have e2 : i + (j + 1) = i + 1 + j := by omega
        rw [e, e2, c7 j (by omega), hc3]
    · rw [c8 w (by omega), dat_entry_congr c blocksize D s2 s3 _ b4]
      exact dat_entry_set_other c blocksize D st s2 v w _ a9 (by omega) (by omega) (by omega)

theorem raw_inv (st : Formatter) (ino : Nat) (r : InodeRef) (hh : st.raw ino = .ok r) :
    st.raw_inode ino = some r := by
  unfold Formatter.raw at hh
  split at hh
  · cases hh
  · cases hh
    assumption

theorem vblocks_cons (c : Consts) (fi : nilfs_file_info) (rest : List nilfs_file_info) :
    vblocks c (fi :: rest) =
      (if fi.ino = c.NILFS_DAT_INO then 0 else fi.nblocks) + vblocks c rest := by
  rw [vblocks]

theorem vblocks_single (c : Consts) (fi : nilfs_file_info) :
    vblocks c [fi] = if fi.ino = c.NILFS_DAT_INO then 0 else fi.nblocks := by
  rw [vblocks, vblocks]
  rfl

theorem update_blocknr_keep (c : Consts) (blocksize : Int) (g D : nilfs_file_info)
    (st st1 : Formatter) (hbs : toU64 blocksize * 8 < 2 ^ 64)
    (hh : update_blocknr c blocksize g st = .ok st1)
    (hD : st.files c.NILFS_DAT_INO = some D) (hg : g.nblocks < 2 ^ 32) :
    st1.layout = st.layout ∧ st1.raw_inode = st.raw_inode ∧
      st1.vblocknr = st.vblocknr + vblocks c [g] ∧
      (∀ q, st.raw_inode g.ino ≠ some q → st1.inode q = st.inode q) ∧
      (∀ v, v < st.vblocknr → dat_entry c blocksize D st1 v = dat_entry c blocksize D st v) := by
  unfold update_blocknr at hh
  obtain ⟨r, hr, h2⟩ := bind_ok _ _ _ hh
  have hr1 := raw_inv _ _ _ hr
  have hq : ∀ q, st.raw_inode g.ino ≠ some q → q ≠ r := by
    intro q hq he
    rw [he] at hq
    exact hq hr1
  rw [vblocks_single]
  split_ifs at h2 with h0 hd
  · obtain ⟨a1, a2, a3, a4, a5, -⟩ := store_bmap_ex _ _ _ _ _ _ h2
    refine ⟨a1, a2, ?_, fun q h => a5 q (hq q h),
      fun v _ => dat_entry_congr c blocksize D st st1 v a4⟩
    rw [a3, h0]
    split_ifs <;> rfl
  · obtain ⟨s2, h3, h4⟩ := bind_ok _ _ _ h2
    obtain ⟨a1, a2, a3, a4, a5, -⟩ := store_bmap_ex _ _ _ _ _ _ h3
    obtain ⟨b1, b2, b3, b4, b5⟩ := update_blocknr_dat_ex _ _ _ _ _ _ _ h4
    refine ⟨by rw [b1, a1], by rw [b2, a2], ?_,
      fun q h => by rw [b5 q (hq q h), a5 q (hq q h)],
      fun v _ => by
        rw [dat_entry_congr c blocksize D s2 st1 v b4, dat_entry_congr c blocksize D st s2 v a4]⟩
    rw [b3, a3, if_pos hd]
    rfl
  · obtain ⟨s2, h3, h4⟩ := bind_ok _ _ _ h2
    obtain ⟨a1, a2, a3, a4, a5, -⟩ := store_bmap_ex _ _ _ _ _ _ h3
    have hD2 : s2.files c.NILFS_DAT_INO = some D := by
      rw [layout_files s2 st a1]
      exact hD
    obtain ⟨b1, b2, b3, b4, -, -, -, b8⟩ :=
      update_blocknr_file_ex c blocksize g D r hbs _ _ _ _ h4 hD2 (by omega)
    refine ⟨by rw [b2, a1], by rw [b3, a2], ?_,
      fun q h => by rw [b4 q (hq q h), a5 q (hq q h)],
      fun v hv => by
        rw [b8 v (by omega), dat_entry_congr c blocksize D st s2 v a4]⟩
    rw [b1, a3, if_neg hd]

theorem update_blocknrs_keep (c : Consts) (blocksize : Int) (D : nilfs_file_info)
    (hbs : toU64 blocksize * 8 < 2 ^ 64) :
    ∀ (files : List nilfs_file_info) (st st1 : Formatter),
      update_blocknrs c blocksize files st = .ok st1 →
      st.files c.NILFS_DAT_INO = some D → (∀ g ∈ files, g.nblocks < 2 ^ 32) →
      st1.layout = st.layout ∧ st1.raw_inode = st.raw_inode ∧
      st1.vblocknr = st.vblocknr + vblocks c files ∧
      (∀ q, (∀ g ∈ files, st.raw_inode g.ino ≠ some q) → st1.inode q = st.inode q) ∧
      (∀ v, v < st.vblocknr → dat_entry c blocksize D st1 v = dat_entry c blocksize D st v) := by
  intro files
  induction files with
  | nil =>
    intro st st1 hh _ _
    cases hh
    exact ⟨rfl, rfl, rfl, fun _ _ => rfl, fun _ _ => rfl⟩
  | cons fi rest ih =>
    intro st st1 hh hD hn
    rw [update_blocknrs] at hh
    obtain ⟨s2, h1, h2⟩ := bind_ok _ _ _ hh
    obtain ⟨a1, a2, a3, a4, a5⟩ := update_blocknr_keep c blocksize fi D st s2 hbs h1 hD
      (hn fi (List.mem_cons_self _ _))
    have hD2 : s2.files c.NILFS_DAT_INO = some D := by
      rw [layout_files s2 st a1]
      exact hD
    obtain ⟨b1, b2, b3, b4, b5⟩ := ih s2 st1 h2 hD2
      (fun g hg => hn g (List.mem_cons_of_mem _ hg))
    have hvb : vblocks c (fi :: rest) = vblocks c [fi] + vblocks c rest := by
      rw [vblocks_cons, vblocks_single]
    refine ⟨by rw [b1, a1], by rw [b2, a2], by rw [b3, a3, hvb]; omega, fun q hq => ?_,
      fun v hv => by rw [b5 v (by omega), a5 v hv]⟩
    rw [b4 q (fun g hg => by rw [a2]; exact hq g (List.mem_cons_of_mem _ hg)),
      a4 q (hq fi (List.mem_cons_self _ _))]

theorem update_blocknrs_append (c : Consts) (blocksize : Int) :
    ∀ (pre rest : List nilfs_file_info) (st st2 : Formatter),
      update_blocknrs c blocksize (pre ++ rest) st = .ok st2 →
      ∃ st1, update_blocknrs c blocksize pre st = .ok st1 ∧
        update_blocknrs c blocksize rest st1 = .ok st2 := by
  intro pre
  induction pre with
  | nil =>
    intro rest st st2 hh
    exact ⟨st, rfl, hh⟩
  | cons fi pre ih =>
    intro rest st st2 hh
    rw [List.cons_append, update_blocknrs] at hh
    obtain ⟨s2, h1, h2⟩ := bind_ok _ _ _ hh
    obtain ⟨s3, h3, h4⟩ := ih rest s2 st2 h2
    refine ⟨s3, ?_, h4⟩
    rw [update_blocknrs, h1]
    exact h3

theorem commit_cpfile_keep (st st1 : Formatter) (hh : commit_cpfile st = .ok st1) :
    st1.raw_inode = st.raw_inode ∧ st1.inode = st.inode ∧ st1.dat = st.dat ∧
      st1.vblocknr = st.vblocknr := by
  unfold commit_cpfile at hh
  split at hh
  · cases hh
  · cases hh
    exact ⟨rfl, rfl, rfl, rfl⟩

theorem commit_sufile_keep (c : Consts) (blocksize : Int) (st st1 : Formatter)
    (hh : commit_sufile c blocksize st = .ok st1) :
    st1.raw_inode = st.raw_inode ∧ st1.inode = st.inode ∧ st1.dat = st.dat ∧
      st1.vblocknr = st.vblocknr := by
  unfold commit_sufile at hh
  obtain ⟨fi, -, h2⟩ := bind_ok _ _ _ hh
  dsimp only at h2
  split_ifs at h2
  all_goals first
    | (cases h2; done)
    | (obtain ⟨_, -, h3⟩ := bind_ok _ _ _ h2
       cases h3
       exact ⟨rfl, rfl, rfl, rfl⟩)

theorem prepare_dat_vblocknr (c : Consts) (blocksize : Int) (st st1 : Formatter)
    (hh : prepare_dat c blocksize st = .ok st1) : st1.vblocknr = st.vblocknr := by
  unfold prepare_dat at hh
  obtain ⟨fi, -, h2⟩ := bind_ok _ _ _ hh
  obtain ⟨s1, h3, h4⟩ := bind_ok _ _ _ h2
  obtain ⟨⟨s2, k2⟩, h5, h6⟩ := bind_ok _ _ _ h4
  obtain ⟨s3, h7, h8⟩ := bind_ok _ _ _ h6
  obtain ⟨-, -, -, a4, -⟩ := prepare_blockgrouped_file_frame _ _ _ _ _ h3
  have b4 := block_loop_frame
    (fun (s t : Formatter) => t.vblocknr = s.vblocknr)
    (fun _ => rfl)
    (fun a b d x y => y.trans x)
    _ (fun b i k s t hb => by
      cases hb
      rfl)
    _ _ _ _ _ _ _ _ _ _ h5
  obtain ⟨-, -, -, c4, -⟩ := alloc_frame _ _ _ _ _ h7
  obtain ⟨-, -, -, d4, -⟩ := init_inode_frame _ _ _ _ _ _ _ _ h8
  rw [d4, c4, b4, a4]

theorem prepare_sufile_vblocknr (h : Helpers) (c : Consts) (blocksize : Int)
    (st st1 : Formatter) (hh : prepare_sufile h c blocksize st = .ok st1) :
    st1.layout = st.layout ∧ st1.vblocknr = st.vblocknr := by
  unfold prepare_sufile at hh
  obtain ⟨sfi, -, h2⟩ := bind_ok _ _ _ hh
  obtain ⟨_, -, h3⟩ := bind_ok _ _ _ h2
  obtain ⟨⟨s2, k2⟩, h5, h6⟩ := bind_ok _ _ _ h3
  obtain ⟨b1, b4⟩ := block_loop_frame
    (fun (s t : Formatter) => t.layout = s.layout ∧ t.vblocknr = s.vblocknr)
    (fun _ => ⟨rfl, rfl⟩)
    (fun a b d x y => ⟨y.1.trans x.1, y.2.trans x.2⟩)
    _ (fun b i k s t hb => by
      unfold prepare_sufile_slot at hb
      cases hb
      exact ⟨rfl, rfl⟩)
    _ _ _ _ _ _ _ _ _ _ h5
  obtain ⟨d1, -, -, d4, -⟩ := init_inode_frame _ _ _ _ _ _ _ _ h6
  exact ⟨by rw [d1, b1]; rfl, by rw [d4, b4]⟩

theorem prepare_cpfile_vblocknr (h : Helpers) (c : Consts) (blocksize : Int)
    (st st1 : Formatter) (hh : prepare_cpfile h c blocksize st = .ok st1) :
    st1.vblocknr = st.vblocknr := by
  unfold prepare_cpfile at hh
  obtain ⟨sfi, -, h2⟩ := bind_ok _ _ _ hh
  obtain ⟨_, -, h3⟩ := bind_ok _ _ _ h2
  obtain ⟨⟨s2, k2⟩, h5, h6⟩ := bind_ok _ _ _ h3
  have b4 := block_loop_frame
    (fun (s t : Formatter) => t.vblocknr = s.vblocknr)
    (fun _ => rfl)
    (fun a b d x y => y.trans x)
    _ (fun b i k s t hb => by
      unfold prepare_cpfile_slot at hb
      split_ifs at hb
      · obtain ⟨_, -, h9⟩ := bind_ok _ _ _ hb
        cases h9
        rfl
      · cases hb
        rfl)
    _ _ _ _ _ _ _ _ _ _ h5
  obtain ⟨-, -, -, d4, -⟩ := init_inode_frame _ _ _ _ _ _ _ _ h6
  rw [d4, b4]

theorem vblocks_append (c : Consts) (l1 l2 : List nilfs_file_info) :
    vblocks c (l1 ++ l2) = vblocks c l1 + vblocks c l2 := by
  induction l1 with
  | nil =>
    rw [List.nil_append, vblocks]
    omega
  | cons fi t ih =>
    rw [List.cons_append, vblocks_cons, vblocks_cons, ih]
    omega

theorem vblocks_before (c : Consts) (pre mid : List nilfs_file_info) (fi : nilfs_file_info)
    (hino : fi.ino ≠ c.NILFS_DAT_INO) :
    vblocks c (pre ++ fi :: mid) = vblocks c pre + fi.nblocks + vblocks c mid := by
  rw [vblocks_append, vblocks_cons, if_neg hino]
  omega

theorem vbn_injective (c : Consts) (pre post pre2 post2 : List nilfs_file_info)
    (fi fi2 : nilfs_file_info) (i i2 : Nat)
    (h : pre ++ fi :: post = pre2 ++ fi2 :: post2)
    (hino : fi.ino ≠ c.NILFS_DAT_INO) (hino2 : fi2.ino ≠ c.NILFS_DAT_INO)
    (hi : i < fi.nblocks) (hi2 : i2 < fi2.nblocks)
    (he : 1 + vblocks c pre2 + i2 = 1 + vblocks c pre + i) : pre2 = pre ∧ i2 = i := by
  rcases List.append_eq_append_iff.1 h with ⟨a, h1, h2⟩ | ⟨a, h1, h2⟩
  · cases a with
    | nil =>
      rw [List.append_nil] at h1
      rw [h1] at he
      exact ⟨h1, by omega⟩
    | cons x a =>
      rw [List.cons_append] at h2
      obtain ⟨hx, -⟩ := List.cons.inj h2
      rw [← hx] at h1
      rw [h1, vblocks_before c pre a fi hino] at he
      omega
  · cases a with
    | nil =>
      rw [List.append_nil] at h1
      rw [h1] at he
      exact ⟨h1.symm, by omega⟩
    | cons x a =>
      rw [List.cons_append] at h2
      obtain ⟨hx, -⟩ := List.cons.inj h2
      rw [← hx] at h1
      rw [h1, vblocks_before c pre2 a fi2 hino2] at he
      omega

/-- The block maps that `commit_segment` leaves, for any constants and any
segment: when `main`, from `init_nilfs` to `commit_segment`, returns, block
`i` of a file `fi` other than the DAT file, with the files `pre` before it,
has in `i_bmap[i + 1]` the virtual block number `1 + n + i`, `n` being the
number of blocks of the files of `pre` other than the DAT file, and the DAT
entry of that number is `(fi.start + i, 1, NILFS_CNO_MAX)`. -/
theorem commit_segment_block_maps (h : Helpers) (c : Consts) (blocksize : Int)
    (di : nilfs_disk_info) (si : nilfs_segment_info) (st : Formatter)
    (pre post : List nilfs_file_info) (fi D : nilfs_file_info) (r : InodeRef) (i : Nat)
    (hrun : main_format h c blocksize di si = .ok st)
    (hfiles : si.files = pre ++ fi :: post)
    (hnodup : (si.files.map (fun g => g.ino)).Nodup)
    (hsize : ∀ g ∈ si.files, g.nblocks < 2 ^ 32)
    (hino : fi.ino ≠ c.NILFS_DAT_INO) (hi : i < fi.nblocks)
    (hD : file_of si.files c.NILFS_DAT_INO = some D)
    (hr : st.raw_inode fi.ino = some r)
    (hinj : ∀ g ∈ si.files, st.raw_inode g.ino = some r → g.ino = fi.ino)
    (hbs : toU64 blocksize * 8 < 2 ^ 64)
    (hseg : di.first_segment_block ≤ fi.start ∧ fi.start + fi.nblocks ≤ di.blocks_per_segment)
    (hbps : di.blocks_per_segment < 2 ^ 64) :
    (st.inode r).i_bmap (i + 1) = 1 + vblocks c pre + i ∧
    dat_entry c blocksize D st (1 + vblocks c pre + i) = ⟨fi.start + i, 1, NILFS_CNO_MAX⟩ ∧
    segment_start_blocknr di 0 ≤
      (dat_entry c blocksize D st (1 + vblocks c pre + i)).de_blocknr ∧
    (dat_entry c blocksize D st (1 + vblocks c pre + i)).de_blocknr <
      segment_start_blocknr di 1 ∧
    1 + vblocks c pre + i < st.vblocknr ∧ st.vblocknr = 1 + vblocks c si.files ∧
    (∀ (pre2 post2 : List nilfs_file_info) (fi2 : nilfs_file_info) (i2 : Nat),
      si.files = pre2 ++ fi2 :: post2 → fi2.ino ≠ c.NILFS_DAT_INO → i2 < fi2.nblocks →
      1 + vblocks c pre2 + i2 = 1 + vblocks c pre + i → pre2 = pre ∧ i2 = i) := by
  unfold main_format at hrun
  dsimp only at hrun
  obtain ⟨sG, h1, h2⟩ := bind_ok _ _ _ hrun
  obtain ⟨sH, h3, h4⟩ := bind_ok _ _ _ h2
  obtain ⟨sI, h5, h6⟩ := bind_ok _ _ _ h4
  obtain ⟨sJ, h7, h8⟩ := bind_ok _ _ _ h6
  unfold prepare_segment at h1
  dsimp only at h1
  obtain ⟨sB, e1, e2⟩ := bind_ok _ _ _ h1
  obtain ⟨_, -, e3⟩ := bind_ok _ _ _ e2
  obtain ⟨_, -, e4⟩ := bind_ok _ _ _ e3
  obtain ⟨sC1, r1, e5⟩ := bind_ok _ _ _ e4
  obtain ⟨sC2, r2, e6⟩ := bind_ok _ _ _ e5
  obtain ⟨sC3, r3, e7⟩ := bind_ok _ _ _ e6
  obtain ⟨sD, p1, e8⟩ := bind_ok _ _ _ e7
  obtain ⟨sE, p2, e9⟩ := bind_ok _ _ _ e8
  obtain ⟨sF, p3, p4⟩ := bind_ok _ _ _ e9
  unfold commit_segment_files at h8
  split_ifs at h8
  obtain ⟨sK, k1, k2⟩ := bind_ok _ _ _ h8
  obtain ⟨sL, k3, k4⟩ := bind_ok _ _ _ k2
  -- the counters and the files when commit_segment starts
  have hBd := enter_files_files c si.files _ sB e1 c.NILFS_DAT_INO
  rw [hD] at hBd
  obtain ⟨-, -, bv, bc, -⟩ := enter_files_keep c si.files _ sB e1
  obtain ⟨-, -, bs, -⟩ := enter_files_frame c si.files _ sB e1
  obtain ⟨x1, -, -⟩ := set_raw_inode_frame _ _ _ _ _ r1
  obtain ⟨y1, -, -⟩ := set_raw_inode_frame _ _ _ _ _ r2
  obtain ⟨z1, -, -⟩ := set_raw_inode_frame _ _ _ _ _ r3
  obtain ⟨-, -, xv, -⟩ := set_raw_inode_keep _ _ _ _ _ r1
  obtain ⟨-, -, yv, -⟩ := set_raw_inode_keep _ _ _ _ _ r2
  obtain ⟨-, -, zv, -⟩ := set_raw_inode_keep _ _ _ _ _ r3
  obtain ⟨d1, -⟩ := prepare_dat_frame _ _ _ _ p1
  have dv := prepare_dat_vblocknr _ _ _ _ p1
  obtain ⟨s1, sv⟩ := prepare_sufile_vblocknr _ _ _ _ _ p2
  obtain ⟨c1, -⟩ := prepare_cpfile_frame _ _ _ _ _ p3
  have cv := prepare_cpfile_vblocknr _ _ _ _ _ p3
  obtain ⟨i1, -, iv, -⟩ := prepare_ifile_frame _ _ _ _ p4
  unfold make_sketch at h3
  obtain ⟨m1, -, -, mv, -⟩ := init_inode_frame _ _ _ _ _ _ _ _ h3
  unfold make_dot_nilfs at h5
  obtain ⟨n1, -, -, nv, -⟩ := init_inode_frame _ _ _ _ _ _ _ _ h5
  obtain ⟨o1, -, -, ov, -⟩ := make_rootdir_frame _ _ _ _ h7
  have lJ :=
    o1.trans (n1.trans (m1.trans (i1.trans (c1.trans (s1.trans (d1.trans
      (z1.trans (y1.trans x1))))))))
  have vJ : sJ.vblocknr = 1 := by
    rw [ov, nv, mv, iv, cv, sv, dv, zv, yv, xv]
    show sB.vblocknr = 1
    rw [bv]
    rfl
  have cJ : sJ.cno = 1 := by
    have hc := layout_cno sJ _ lJ
    rw [hc]
    show sB.cno = 1
    rw [bc]
    rfl
  have fJ : sJ.files c.NILFS_DAT_INO = some D := by
    have hf := layout_files sJ _ lJ
    rw [hf]
    exact hBd
  have siJ : sJ.current_segment = si := (layout_fields sJ _ lJ).2.1.trans bs
  -- the loop of commit_segment
  rw [siJ] at k1
  obtain ⟨w1, w2, w3, -⟩ := update_blocknrs_keep c blocksize D hbs _ _ _ k1 fJ hsize
  obtain ⟨u2, u3, u4, u5⟩ := commit_cpfile_keep _ _ k3
  obtain ⟨t2, t3, t4, t5⟩ := commit_sufile_keep _ _ _ _ k4
  have rJ : st.raw_inode = sJ.raw_inode := by rw [t2, u2, w2]
  rw [hfiles] at k1
  obtain ⟨sP, q1, q2⟩ := update_blocknrs_append c blocksize pre (fi :: post) sJ sK k1
  rw [update_blocknrs] at q2
  obtain ⟨sQ, q3, q4⟩ := bind_ok _ _ _ q2
  have hsz : ∀ g, g ∈ pre ∨ g = fi ∨ g ∈ post → g.nblocks < 2 ^ 32 := by
    intro g hg
    apply hsize g
    rw [hfiles]
    simp only [List.mem_append, List.mem_cons]
    exact hg
  obtain ⟨a1, a2, a3, -⟩ := update_blocknrs_keep c blocksize D hbs pre sJ sP q1 fJ
    (fun g hg => hsz g (Or.inl hg))
  have fP : sP.files c.NILFS_DAT_INO = some D := by
    rw [layout_files sP sJ a1]
    exact fJ
  have vP : sP.vblocknr = 1 + vblocks c pre := by rw [a3, vJ]
  have cP : sP.cno = 1 := by rw [layout_cno sP sJ a1, cJ]
  have rP : sP.raw_inode fi.ino = some r := by
    rw [a2, ← rJ]
    exact hr
  -- the blocks of the file
  unfold update_blocknr at q3
  obtain ⟨r0, g1, g2⟩ := bind_ok _ _ _ q3
  have g3 := raw_inv _ _ _ g1
  rw [rP] at g3
  cases g3
  rw [if_neg (by omega), if_neg hino] at g2
  obtain ⟨sR, g4, g5⟩ := bind_ok _ _ _ g2
  obtain ⟨b1, b2, b3, b4, -⟩ := store_bmap_ex _ _ _ _ _ _ g4
  have fR : sR.files c.NILFS_DAT_INO = some D := by
    rw [layout_files sR sP b1]
    exact fP
  have hn := hsz fi (Or.inr (Or.inl rfl))
  obtain ⟨f1, f2, f3, -, -, f6, f7, -⟩ :=
    update_blocknr_file_ex c blocksize fi D r hbs _ _ _ _ g5 fR (by omega)
  have e6 := f6 i hi
  have e7 := f7 i hi
  rw [Nat.zero_add] at e6 e7
  rw [b3, vP] at e6 e7
  rw [layout_cno sR sP b1, cP, Nat.mod_eq_of_lt (by omega)] at e7
  -- the files after it
  have fQ : sQ.files c.NILFS_DAT_INO = some D := by
    rw [layout_files sQ sR f2]
    exact fR
  have vQ : sQ.vblocknr = 1 + vblocks c pre + fi.nblocks := by rw [f1, b3, vP]
  have rQ : sQ.raw_inode = st.raw_inode := by rw [f3, b2, a2, rJ]
  have hpost : ∀ g ∈ post, sQ.raw_inode g.ino ≠ some r := by
    intro g hg hc
    rw [rQ] at hc
    have hgi := hinj g (by
      rw [hfiles]
      simp only [List.mem_append, List.mem_cons]
      exact Or.inr (Or.inr hg)) hc
    rw [hfiles, List.map_append, List.map_cons] at hnodup
    have hnd := (List.nodup_cons.1 (List.nodup_append.1 hnodup).2.1).1
    apply hnd
    rw [← hgi]
    exact List.mem_map_of_mem _ hg
  obtain ⟨-, -, -, j4, j5⟩ := update_blocknrs_keep c blocksize D hbs post sQ sK q4 fQ
    (fun g hg => hsz g (Or.inr (Or.inr hg)))
  have hinode : st.inode r = sQ.inode r := by rw [t3, u3, j4 r hpost]
  have hdat : dat_entry c blocksize D st (1 + vblocks c pre + i) =
      ⟨fi.start + i, 1, NILFS_CNO_MAX⟩ := by
    rw [dat_entry_congr c blocksize D sL st _ t4, dat_entry_congr c blocksize D sK sL _ u4,
      j5 _ (by omega)]
    exact e7
  refine ⟨by rw [hinode]; exact e6, hdat, ?_, ?_, ?_, ?_, ?_⟩
  · rw [hdat]
    unfold segment_start_blocknr
    rw [if_neg (by omega)]
    show di.first_segment_block ≤ fi.start + i
    omega
  · rw [hdat]
    unfold segment_start_blocknr
    rw [if_pos (by omega), Nat.mul_one, Nat.mod_eq_of_lt hbps]
    show fi.start + i < di.blocks_per_segment
    omega
  · rw [t5, u5, w3, vJ, hfiles, vblocks_before c pre post fi hino]
    omega
  · rw [t5, u5, w3, vJ]
  · intro pre2 post2 fi2 i2 hf2 hino2 hi2 he
    exact vbn_injective c pre post pre2 post2 fi fi2 i i2 (hfiles.symm.trans hf2) hino hino2
      hi hi2 he

/-! ## The layouts that `main` reaches -/

theorem toU64_natCast (b : Nat) (h : b < 2 ^ 64) : toU64 (b : Int) = b := by
  unfold toU64
  omega

theorem ceilDiv_one (n e : Nat) (h1 : 1 ≤ n) (h2 : n ≤ e) : ceilDiv n e = 1 := by
  unfold ceilDiv
  exact Nat.div_eq_of_lt_le (by omega) (by omega)

theorem ceilDiv_two (n e : Nat) (h1 : e < n) (h2 : n ≤ 2 * e) : ceilDiv n e = 2 := by
  unfold ceilDiv
  exact Nat.div_eq_of_lt_le (by omega) (by omega)

theorem count_ifile_blocks_release (b : Nat) (h1 : 1024 ≤ b) (h2 : b < 2 ^ 31) :
    count_ifile_blocks releaseConsts (b : Int) = .ok (if b < 1536 then 4 else 3) := by
  unfold count_ifile_blocks
  have hs : releaseConsts.sizeof_nilfs_inode = 128 := rfl
  have hm : releaseConsts.NILFS_MAX_INITIAL_INO = 12 := rfl
  have hp : releaseConsts.NILFS_MAX_BMAP_ROOT_PTRS = 6 := rfl
  obtain ⟨hc, -⟩ := count_blockgrouped_eq (b : Int) 128 12 (by omega) (by omega) (by omega)
    (by omega) (by omega) (by omega)
  have hg : toU64 ((b : Int) * 8) = b * 8 := by
    unfold toU64
    omega
  simp only [hs, hm, hp, hc, hg, Int.toNat_ofNat]
  unfold group_desc_blocks_per_group bitmap_blocks_per_group
  by_cases hb : b < 1536
  · rw [ceilDiv_two 12 (b / 128) (by omega) (by omega), if_neg (by omega), if_pos hb]
  · rw [ceilDiv_one 12 (b / 128) (by omega) (by omega), if_neg (by omega), if_neg hb]

theorem count_dat_blocks_release (b n : Nat) (h1 : 1024 ≤ b) (h2 : b < 2 ^ 31) (hn : 1 ≤ n)
    (hn2 : n ≤ 32) : count_dat_blocks releaseConsts (b : Int) n = .ok 3 := by
  unfold count_dat_blocks
  have hs : releaseConsts.sizeof_nilfs_dat_entry = 32 := rfl
  have hp : releaseConsts.NILFS_MAX_BMAP_ROOT_PTRS = 6 := rfl
  obtain ⟨hc, -⟩ := count_blockgrouped_eq (b : Int) 32 n (by omega) (by omega) (by omega)
    (by omega) (by omega) (by omega)
  have hg : toU64 ((b : Int) * 8) = b * 8 := by
    unfold toU64
    omega
  simp only [hs, hp, hc, hg, Int.toNat_ofNat]
  unfold group_desc_blocks_per_group bitmap_blocks_per_group
  rw [ceilDiv_one n (b / 32) (by omega) (by omega), if_neg (by omega)]

theorem ROUNDUP_DIV_ul_one (n m : Nat) (h1 : 1 ≤ n) (h2 : n ≤ m) (h3 : m < 2 ^ 64) :
    ROUNDUP_DIV_ul n m = 1 := by
  unfold ROUNDUP_DIV_ul
  have e1 : (n % 2 ^ 64 + 2 ^ 64 - 1) % 2 ^ 64 = n - 1 := by omega
  have e2 : m % 2 ^ 64 = m := by omega
  rw [e1, e2, Nat.div_eq_of_lt (by omega)]
  rfl

theorem count_cpfile_blocks_release (b : Nat) (h1 : 1024 ≤ b) (h2 : b < 2 ^ 31) :
    count_cpfile_blocks releaseConsts (b : Int) = 1 := by
  unfold count_cpfile_blocks
  have hs : releaseConsts.sizeof_nilfs_checkpoint = 192 := rfl
  have ho : releaseConsts.NILFS_CPFILE_FIRST_CHECKPOINT_OFFSET = 1 := rfl
  simp only [hs, ho, toU64_natCast b (by omega)]
  rw [ROUNDUP_DIV_ul_one _ _ (by omega) (by omega) (by omega)]
  rfl

theorem count_sufile_blocks_release (b : Nat) (h1 : 1024 ≤ b) (h2 : b < 2 ^ 31) :
    count_sufile_blocks releaseConsts (b : Int) = 1 := by
  unfold count_sufile_blocks nr_initial_segments
  have hs : releaseConsts.sizeof_nilfs_segment_usage = 16 := rfl
  have ho : releaseConsts.NILFS_SUFILE_FIRST_SEGMENT_USAGE_OFFSET = 2 := rfl
  simp only [hs, ho, toU64_natCast b (by omega)]
  rw [ROUNDUP_DIV_ul_one _ _ (by omega) (by omega) (by omega)]
  rfl

theorem increment_segsum_size_raw_fits (offset b s count : Nat) (hb : 0 < b) (hb2 : b < 2 ^ 31)
    (hs : 0 < s) (ho : offset % b + s * count ≤ b) (ho2 : offset < 2 ^ 32) :
    increment_segsum_size_raw offset (b : Int) s count = offset + s * count := by
  unfold increment_segsum_size_raw
  have hlt := Nat.mod_lt offset hb
  have hu := toU64_natCast b (by omega)
  simp only [hu]
  have e1 : (b + 2 ^ 64 - offset % b) % 2 ^ 64 = b - offset % b := by omega
  rw [e1]
  have hc : count ≤ (b - offset % b) / s := (Nat.le_div_iff_mul_le hs).mpr (by
    rw [Nat.mul_comm]
    omega)
  have hq : (b - offset % b) / s ≤ b := (Nat.div_le_self _ _).trans (by omega)
  rw [Nat.mod_eq_of_lt (by omega), if_pos hc, Nat.mod_eq_of_lt (by omega),
    Nat.mod_eq_of_lt (by omega)]

theorem add_file_release (b : Nat) (si si1 : nilfs_segment_info) (ino nblocks : Nat)
    (dat_flag : Bool) (h1 : 1024 ≤ b) (h2 : b < 2 ^ 31)
    (hsum : 1 ≤ si.sumbytes ∧ si.sumbytes + 24 + 16 * nblocks ≤ 1024)
    (hsmall : si.nblocks + nblocks < 2 ^ 32 ∧ si.nfinfo + 1 < 2 ^ 32 ∧
      si.nvblocknrs + nblocks < 2 ^ 32)
    (h : add_file releaseConsts (b : Int) si ino nblocks dat_flag = .ok si1) :
    si1.start = si.start ∧ si1.files = si.files ++ [⟨ino, 0, nblocks⟩] ∧
    si1.nfiles = si.nfiles + 1 ∧ si1.nblocks = si.nblocks + nblocks ∧
    si1.nblocks_used = si.nblocks_used ∧
    (nblocks = 0 → si1.sumbytes = si.sumbytes ∧ si1.nblk_sum = si.nblk_sum ∧
      si1.nfinfo = si.nfinfo ∧ si1.nvblocknrs = si.nvblocknrs) ∧
    (0 < nblocks →
      si1.sumbytes = si.sumbytes + 24 + (if dat_flag then 8 else 16) * nblocks ∧
      si1.nblk_sum = 1 ∧ si1.nfinfo = si.nfinfo + 1 ∧
      si1.nvblocknrs = (if dat_flag then si.nvblocknrs else si.nvblocknrs + nblocks)) := by
  have hf : releaseConsts.sizeof_nilfs_finfo = 24 := rfl
  have hv : releaseConsts.sizeof_nilfs_binfo_v = 16 := rfl
  have hm : si.sumbytes % b = si.sumbytes := Nat.mod_eq_of_lt (by omega)
  have r1 : increment_segsum_size_raw si.sumbytes (b : Int) 24 1 = si.sumbytes + 24 :=
    increment_segsum_size_raw_fits _ _ _ _ (by omega) h2 (by omega) (by rw [hm]; omega)
      (by omega)
  have r2 : ∀ k, 0 < k → k ≤ 16 → 0 < nblocks →
      increment_segsum_size_raw (si.sumbytes + 24) (b : Int) k nblocks =
        si.sumbytes + 24 + k * nblocks := by
    intro k hk hk2 hn
    have hkn : k * nblocks ≤ 16 * nblocks := Nat.mul_le_mul_right _ hk2
    have hm2 : (si.sumbytes + 24) % b = si.sumbytes + 24 := Nat.mod_eq_of_lt (by omega)
    exact increment_segsum_size_raw_fits _ _ _ _ (by omega) h2 hk (by rw [hm2]; omega)
      (by omega)
  have hu := toU64_natCast b (by omega)
  have h8 : 8 * nblocks ≤ 16 * nblocks := Nat.mul_le_mul_right _ (by omega)
  unfold add_file increment_segsum_size at h
  simp only [hf, hv, hu] at h
  split_ifs at h with c1 c2 c3 c4
  · cases h
    refine ⟨rfl, rfl, rfl, Nat.mod_eq_of_lt (by omega), rfl, fun h0 => by omega, fun _ => ?_⟩
    refine ⟨?_, ?_, Nat.mod_eq_of_lt (by omega), ?_⟩
    · show increment_segsum_size_raw (increment_segsum_size_raw _ _ _ _) _ _ _ = _
      rw [r1, r2 _ (by omega) (by omega) c3, if_pos c4]
    · show ROUNDUP_DIV_ul (increment_segsum_size_raw
        (increment_segsum_size_raw _ _ _ _) _ _ _) _ % 2 ^ 32 = 1
      rw [r1, r2 _ (by omega) (by omega) c3,
        ROUNDUP_DIV_ul_one _ _ (by omega) (by omega) (by omega)]
      rfl
    · rw [if_pos c4]
  · cases h
    refine ⟨rfl, rfl, rfl, Nat.mod_eq_of_lt (by omega), rfl, fun h0 => by omega, fun _ => ?_⟩
    refine ⟨?_, ?_, Nat.mod_eq_of_lt (by omega), ?_⟩
    · show increment_segsum_size_raw (increment_segsum_size_raw _ _ _ _) _ _ _ = _
      rw [r1, r2 _ (by omega) (by omega) c3, if_neg c4]
    · show ROUNDUP_DIV_ul (increment_segsum_size_raw
        (increment_segsum_size_raw _ _ _ _) _ _ _) _ % 2 ^ 32 = 1
      rw [r1, r2 _ (by omega) (by omega) c3,
        ROUNDUP_DIV_ul_one _ _ (by omega) (by omega) (by omega)]
      rfl
    · rw [if_neg c4]
      exact Nat.mod_eq_of_lt (by omega)
  · cases h
    exact ⟨rfl, rfl, rfl, Nat.mod_eq_of_lt (by omega), rfl, fun _ => ⟨rfl, rfl, rfl, rfl⟩,
      fun hp => by omega⟩

theorem add_file_step (b : Nat) (t t1 : nilfs_segment_info) (ino nb : Nat) (dat_flag : Bool)
    (st nbk nfi sb nvb nf : Nat) (fl : List nilfs_file_info) (h1 : 1024 ≤ b) (h2 : b < 2 ^ 31)
    (hin : t.start = st ∧ t.nblocks = nbk ∧ t.nfinfo = nfi ∧ t.sumbytes = sb ∧
      t.nvblocknrs = nvb ∧ t.files = fl ∧ t.nfiles = nf)
    (hb : 1 ≤ sb ∧ sb + 24 + 16 * nb ≤ 1024 ∧ nbk + nb < 2 ^ 32 ∧ nfi + 1 < 2 ^ 32 ∧
      nvb + nb < 2 ^ 32)
    (e : add_file releaseConsts (b : Int) t ino nb dat_flag = .ok t1) :
    (t1.start = st ∧ t1.nblocks = nbk + nb ∧
      t1.nfinfo = (if nb = 0 then nfi else nfi + 1) ∧
      t1.sumbytes = (if nb = 0 then sb else sb + 24 + (if dat_flag then 8 else 16) * nb) ∧
      t1.nvblocknrs = (if nb = 0 then nvb else if dat_flag then nvb else nvb + nb) ∧
      t1.files = fl ++ [⟨ino, 0, nb⟩] ∧ t1.nfiles = nf + 1) ∧
    (0 < nb → t1.nblk_sum = 1) := by
  obtain ⟨i1, i2, i3, i4, i5, i6, i7⟩ := hin
  obtain ⟨a1, a2, a3, a4, -, a6, a7⟩ := add_file_release b t t1 ino nb dat_flag h1 h2
    ⟨by omega, by omega⟩ ⟨by omega, by omega, by omega⟩ e
  by_cases h0 : nb = 0
  · obtain ⟨c1, c2, c3, c4⟩ := a6 h0
    rw [if_pos h0, if_pos h0, if_pos h0]
    exact ⟨⟨by rw [a1, i1], by rw [a4, i2], by rw [c3, i3], by rw [c1, i4], by rw [c4, i5],
      by rw [a2, i6], by rw [a3, i7]⟩, fun hp => by omega⟩
  · obtain ⟨c1, c2, c3, c4⟩ := a7 (by omega)
    rw [if_neg h0, if_neg h0, if_neg h0]
    refine ⟨⟨by rw [a1, i1], by rw [a4, i2], by rw [c3, i3], by rw [c1, i4], ?_,
      by rw [a2, i6], by rw [a3, i7]⟩, fun _ => c2⟩
    rw [c4, i5]

/-- The segment that the `add_file` calls of `main` build with the header
constants of the release, for a block size from 1024 bytes on: the inode
file has 4 blocks below 1536 bytes and 3 blocks from there on, every other
count is the same for all block sizes. -/
theorem main_add_files_release (b : Nat) (di d1 : nilfs_disk_info) (s1 : nilfs_segment_info)
    (h1 : 1024 ≤ b) (h2 : b < 2 ^ 31) (h0 : di.nseginfo = 0)
    (h : main_add_files releaseConsts (b : Int) di = .ok (d1, s1)) :
    ∃ n, n = (if b < 1536 then 4 else 3) ∧ s1.start = di.first_segment_block ∧
      s1.nblocks = 6 + n ∧ s1.nblk_sum = 1 ∧
      s1.files = [⟨2, 0, 1⟩, ⟨10, 0, 0⟩, ⟨11, 0, 0⟩, ⟨6, 0, n⟩, ⟨4, 0, 1⟩, ⟨5, 0, 1⟩,
        ⟨3, 0, 3⟩] ∧
      s1.nvblocknrs = 3 + n ∧ s1.sumbytes = 264 + 16 * n ∧ s1.nfinfo = 5 ∧ s1.nfiles = 7 := by
  unfold main_add_files at h
  obtain ⟨⟨d, t0⟩, hn, h⟩ := except_bind_ok _ _ _ h
  obtain ⟨t1, e1, h⟩ := except_bind_ok _ _ _ h
  obtain ⟨t2, e2, h⟩ := except_bind_ok _ _ _ h
  obtain ⟨t3, e3, h⟩ := except_bind_ok _ _ _ h
  obtain ⟨n4, c4, h⟩ := except_bind_ok _ _ _ h
  obtain ⟨t4, e4, h⟩ := except_bind_ok _ _ _ h
  obtain ⟨t5, e5, h⟩ := except_bind_ok _ _ _ h
  obtain ⟨t6, e6, h⟩ := except_bind_ok _ _ _ h
  obtain ⟨n7, c7, h⟩ := except_bind_ok _ _ _ h
  obtain ⟨t7, e7, h⟩ := except_bind_ok _ _ _ h
  have hp : (d, t7) = (d1, s1) := by
    have : (pure (d, t7) : Except Fatal (nilfs_disk_info × nilfs_segment_info)) =
        .ok (d1, s1) := h
    exact Except.ok.inj this
  obtain ⟨rfl, rfl⟩ := Prod.mk.inj hp
  unfold new_segment at hn
  simp only [h0, ne_eq, not_true_eq_false, if_false] at hn
  obtain ⟨rfl, rfl⟩ := Prod.mk.inj (Except.ok.inj hn)
  rw [count_ifile_blocks_release b h1 h2] at c4
  have hn4 : n4 = if b < 1536 then 4 else 3 := (Except.ok.inj c4).symm
  have hn4b : n4 = 3 ∨ n4 = 4 := by
    rw [hn4]
    split_ifs
    · exact Or.inr rfl
    · exact Or.inl rfl
  rw [count_cpfile_blocks_release b h1 h2] at e5
  rw [count_sufile_blocks_release b h1 h2] at e6
  obtain ⟨t0, ht0, z⟩ : ∃ t0 : nilfs_segment_info,
      t0 = { zeroed_segment_info with
        sumbytes := releaseConsts.sizeof_nilfs_segment_summary
        nblk_sum := ROUNDUP_DIV_ul releaseConsts.sizeof_nilfs_segment_summary
          (toU64 (b : Int)) % 2 ^ 32
        start := di.first_segment_block } ∧
      (t0.start = di.first_segment_block ∧ t0.nblocks = 0 ∧ t0.nfinfo = 0 ∧ t0.sumbytes = 72 ∧
        t0.nvblocknrs = 0 ∧ t0.files = [] ∧ t0.nfiles = 0) :=
    ⟨_, rfl, rfl, rfl, rfl, rfl, rfl, rfl, rfl⟩
  rw [← ht0] at e1
  have q1 := (add_file_step b t0 t1 _ 1 false _ _ _ _ _ _ _ h1 h2 z (by decide) e1).1
  have q2 := (add_file_step b t1 t2 _ 0 false _ _ _ _ _ _ _ h1 h2 q1 (by decide) e2).1
  have q3 := (add_file_step b t2 t3 _ 0 false _ _ _ _ _ _ _ h1 h2 q2 (by decide) e3).1
  have q4 := (add_file_step b t3 t4 _ n4 false _ _ _ _ _ _ _ h1 h2 q3
    (by rcases hn4b with r | r <;> rw [r] <;> decide) e4).1
  have q5 := (add_file_step b t4 t5 _ 1 false _ _ _ _ _ _ _ h1 h2 q4
    (by rcases hn4b with r | r <;> rw [r] <;> decide) e5).1
  have q6 := (add_file_step b t5 t6 _ 1 false _ _ _ _ _ _ _ h1 h2 q5
    (by rcases hn4b with r | r <;> rw [r] <;> decide) e6).1
  have v6 : t6.nvblocknrs = 3 + n4 := by
    rw [q6.2.2.2.2.1]
    rcases hn4b with r | r <;> rw [r] <;> rfl
  rw [count_dat_blocks_release b t6.nvblocknrs h1 h2 (by omega) (by omega)] at c7
  have hn7 : n7 = 3 := (Except.ok.inj c7).symm
  rw [hn7] at e7
  have q7 := add_file_step b t6 t7 _ 3 true _ _ _ _ _ _ _ h1 h2 q6
    (by rcases hn4b with r | r <;> rw [r] <;> decide) e7
  obtain ⟨⟨w1, w2, w3, w4, w5, w6, w7⟩, w8⟩ := q7
  refine ⟨n4, hn4, w1, ?_, w8 (by decide), ?_, ?_, ?_, ?_, ?_⟩
  · rw [w2]
    rcases hn4b with r | r <;> rw [r] <;> rfl
  · rw [w6]
    rcases hn4b with r | r <;> rw [r] <;> rfl
  · rw [w5]
    rcases hn4b with r | r <;> rw [r] <;> rfl
  · rw [w4]
    rcases hn4b with r | r <;> rw [r] <;> rfl
  · rw [w3]
    rcases hn4b with r | r <;> rw [r] <;> rfl
  · rw [w7]

theorem main_layout_segment_rest (c : Consts) (di0 : nilfs_disk_info) (dev_size : Nat)
    (nilfs_time rnd : Int) (opts : mkfs_options) (di : nilfs_disk_info)
    (s1 : nilfs_segment_info)
    (d2 : nilfs_disk_info) (si2 : nilfs_segment_info)
    (hadd : main_add_files c opts.blocksize
      (init_disk_layout c di0 dev_size nilfs_time rnd opts).di = .ok (d2, s1))
    (h : main_layout c di0 dev_size nilfs_time rnd opts = .ok (di, si2)) :
    si2.nvblocknrs = s1.nvblocknrs ∧ si2.sumbytes = s1.sumbytes ∧ si2.nfinfo = s1.nfinfo ∧
    si2.nfiles = s1.nfiles ∧ di.blocks_per_segment = toU64 opts.blocks_per_segment := by
  have hbps := init_disk_layout_bps c di0 dev_size nilfs_time rnd opts
  unfold main_layout at h
  dsimp only at h
  split at h
  · exact Except.noConfusion h
  · rename_i hacc
    have hnseg := init_disk_layout_nseginfo c di0 dev_size nilfs_time rnd opts hacc
    generalize (init_disk_layout c di0 dev_size nilfs_time rnd opts).di = d0 at *
    rw [hadd] at h
    dsimp only at h
    obtain ⟨rfl, -⟩ := main_add_files_ok c opts.blocksize d0 d2 s1 hnseg hadd
    rw [fix_disk_layout_single _ s1 rfl] at h
    by_cases hlt : (s1.nblocks + (s1.nblk_sum + 1) % 2 ^ 32) % 2 ^ 32 > d0.blocks_per_segment
    · rw [if_pos hlt] at h
      exact Except.noConfusion h
    · rw [if_neg hlt] at h
      dsimp only at h
      obtain ⟨rfl, rfl⟩ := Prod.mk.inj (Except.ok.inj h)
      exact ⟨rfl, rfl, rfl, rfl, hbps⟩

theorem checked_options_sizes (pagesize seg_min_blocks : Int) (opts : mkfs_options)
    (hopt : checked_options pagesize seg_min_blocks opts) :
    1024 ≤ opts.blocksize ∧ opts.blocksize < 2 ^ 31 ∧ 16 ≤ opts.blocks_per_segment ∧
    opts.blocks_per_segment < 2 ^ 63 := by
  obtain ⟨h1, h2, h3, h4, h5⟩ := hopt
  obtain ⟨-, g2, g3⟩ := (check_blocksize_spec releaseConsts pagesize opts.blocksize
    (by decide)).1.1 h1
  have hm : (releaseConsts.NILFS_MIN_BLOCKSIZE : Int) = 1024 := rfl
  rw [hm] at g2
  unfold check_blocks_per_segment at h3
  rw [Bool.or_eq_false_iff, decide_eq_false_iff_not] at h3
  exact ⟨g2, by omega, by omega, h5⟩

/-- The layout with which `main` of mkfs.c goes on after `fix_disk_layout`,
for options that passed `parse_options` and the header constants of the
release: the partial segment starts at block `F = ceil(4096 / blocksize)`,
which is at most 4, has the summary block, the files and the super root in
`8 + n` blocks, where `n` is 3 or 4 blocks of the inode file, and ends at
block 16 or before. -/
theorem main_layout_release (di0 : nilfs_disk_info) (dev_size : Nat) (nilfs_time rnd : Int)
    (opts : mkfs_options) (pagesize seg_min_blocks : Int) (di : nilfs_disk_info)
    (si : nilfs_segment_info) (hopt : checked_options pagesize seg_min_blocks opts)
    (h : main_layout releaseConsts di0 dev_size nilfs_time rnd opts = .ok (di, si)) :
    ∃ F n, 1 ≤ F ∧ F ≤ 4 ∧ n = (if opts.blocksize < 1536 then 4 else 3) ∧
      F = ceilDiv 4096 opts.blocksize.toNat ∧
      di.first_segment_block = F ∧ si.start = F ∧ si.nblocks = 8 + n ∧ si.nblk_sum = 1 ∧
      si.files = [⟨2, F + 1, 1⟩, ⟨10, 0, 0⟩, ⟨11, 0, 0⟩, ⟨6, F + 2, n⟩, ⟨4, F + 2 + n, 1⟩,
        ⟨5, F + 3 + n, 1⟩, ⟨3, F + 4 + n, 3⟩] ∧
      si.nvblocknrs = 3 + n ∧ si.sumbytes = 264 + 16 * n ∧ si.nfinfo = 5 ∧
      di.blocks_per_segment = opts.blocks_per_segment.toNat ∧ 16 ≤ di.blocks_per_segment ∧
      di.blocks_per_segment < 2 ^ 63 ∧ di.nblocks_to_write = F + 8 + n ∧
      di.nsegments_to_write = 1 := by
  obtain ⟨g1, g2, g3, g4⟩ := checked_options_sizes pagesize seg_min_blocks opts hopt
  obtain ⟨k1, k2, k3, -, -, -, -, -, k9, k10, -⟩ := main_layout_ok releaseConsts di0 dev_size
    nilfs_time rnd opts di si (by omega) (by decide) (by decide) (by decide) (by decide)
    (by decide) h
  obtain ⟨d1, s1, hadd, hnseg, e1, e2, e3, e4⟩ :=
    main_layout_segment releaseConsts di0 dev_size nilfs_time rnd opts di si h
  obtain ⟨r1, r2, r3, -, r5⟩ := main_layout_segment_rest releaseConsts di0 dev_size nilfs_time
    rnd opts di s1 d1 si hadd h
  obtain ⟨b, hb⟩ : ∃ b : Nat, opts.blocksize = (b : Int) := ⟨opts.blocksize.toNat, by omega⟩
  rw [hb] at hadd
  obtain ⟨n, hn, m1, m2, m3, m4, m5, m6, m7, -⟩ := main_add_files_release b _ d1 s1 (by omega)
    (by omega) hnseg hadd
  have hH : releaseConsts.NILFS_DISKHDR_SIZE = 4096 := rfl
  rw [hH] at k1
  have hF4 : ceilDiv 4096 opts.blocksize.toNat ≤ 4 := by
    unfold ceilDiv
    have : opts.blocksize.toNat = b := by omega
    rw [this]
    exact Nat.le_of_lt_succ ((Nat.div_lt_iff_lt_mul (by omega)).2 (by omega))
  have hbps : di.blocks_per_segment = opts.blocks_per_segment.toNat := by
    rw [r5]
    unfold toU64
    omega
  have hn34 : n = 3 ∨ n = 4 := by
    rw [hn]
    split_ifs
    · exact Or.inr rfl
    · exact Or.inl rfl
  have hnb : si.nblocks = 8 + n := by
    rw [e3, m2, m3]
    omega
  refine ⟨ceilDiv 4096 opts.blocksize.toNat, n, ?_, hF4, ?_, rfl, k1, by rw [k2, k1], hnb,
    by rw [e2, m3], ?_, by rw [r1, m5], by rw [r2, m6], by rw [r3, m7], hbps, by omega,
    by omega, ?_, ?_⟩
  · rw [← k1]
    exact k3
  · rw [hn, hb]
    by_cases hc : b < 1536
    · rw [if_pos hc, if_pos (by omega)]
    · rw [if_neg hc, if_neg (by omega)]
  · rw [e4, m4, m3, m1]
    have hd : (init_disk_layout releaseConsts di0 dev_size nilfs_time rnd opts).di.first_segment_block
        = ceilDiv 4096 opts.blocksize.toNat := by
      rw [← k1, ← k2, e1, m1]
    rw [hd]
    generalize ceilDiv 4096 opts.blocksize.toNat = F at hF4 k1 k3 ⊢
    have hF1 : 1 ≤ F := by omega
    interval_cases F <;> rcases hn34 with r | r <;> rw [r] <;> rfl
  · rw [k9, k1, hnb]
    omega
  · rw [k10, k9, k1, hnb]
    exact ceilDiv_one _ _ (by omega) (by omega)

/-- C18: for the options that pass `parse_options` (a block size that
`check_blocksize` lets through, blocks per segment that
`check_blocks_per_segment` lets through) and the header constants of the
release, every layout that `init_disk_layout` and `fix_disk_layout` accept
has the initial partial segment start at
`first_segment_block = ceil(NILFS_DISKHDR_SIZE / blocksize)` and lie wholly
inside segment 0: `first_segment_block + nblocks <= blocks_per_segment`,
`nsegments_to_write` is 1, and every block of the partial segment is at or
after the start of segment 0 and before the start block of segment 1, which
`init_nilfs` puts in `nilfs.next` for `ss_next`. -/
theorem initial_segment_inside_segment_zero (di0 : nilfs_disk_info) (dev_size : Nat)
    (nilfs_time rnd : Int) (opts : mkfs_options) (pagesize seg_min_blocks : Int)
    (di : nilfs_disk_info) (si : nilfs_segment_info)
    (hopt : checked_options pagesize seg_min_blocks opts)
    (h : main_layout releaseConsts di0 dev_size nilfs_time rnd opts = .ok (di, si)) :
    di.first_segment_block = ceilDiv releaseConsts.NILFS_DISKHDR_SIZE opts.blocksize.toNat ∧
    si.start = di.first_segment_block ∧
    di.first_segment_block + si.nblocks ≤ di.blocks_per_segment ∧
    di.nsegments_to_write = 1 ∧
    (init_nilfs di di.nblocks_to_write).next = segment_start_blocknr di 1 ∧
    ∀ blocknr, si.start ≤ blocknr → blocknr < si.start + si.nblocks →
      segment_start_blocknr di 0 ≤ blocknr ∧ blocknr < segment_start_blocknr di 1 := by
  obtain ⟨F, n, f1, f2, hn, hF, a1, a2, a3, -, -, -, -, -, -, a9, a10, -, a12⟩ :=
    main_layout_release di0 dev_size nilfs_time rnd opts pagesize seg_min_blocks di si hopt h
  have hn34 : n = 3 ∨ n = 4 := by
    rw [hn]
    split_ifs
    · exact Or.inr rfl
    · exact Or.inl rfl
  have hs1 : segment_start_blocknr di 1 = di.blocks_per_segment := by
    unfold segment_start_blocknr
    rw [if_pos (by omega), Nat.mul_one, Nat.mod_eq_of_lt (by omega)]
  have hs0 : segment_start_blocknr di 0 = di.first_segment_block := by
    unfold segment_start_blocknr
    rw [if_neg (by omega)]
  refine ⟨?_, by rw [a2, a1], by omega, a12, rfl, fun blocknr h1 h2 => ?_⟩
  · rw [a1, hF]
    rfl
  · rw [hs0, hs1]
    omega

/-- The options of `mkfs -b 4096 -B 2048` on a device of 2^28 bytes: the
partial segment starts at block 1, has 11 blocks and ends at block 12, far
before block 2048, where segment 1 starts. -/
theorem initial_segment_inside_segment_zero_witness :
    checked_options 4096 16 sampleOptions ∧
    main_layout releaseConsts sampleDiskInfo (2 ^ 28) 0 0 sampleOptions =
      .ok (sampleLayout, sampleSegment) ∧
    sampleLayout.first_segment_block = 1 ∧ sampleSegment.start = 1 ∧
    sampleLayout.first_segment_block + sampleSegment.nblocks ≤ 2048 ∧
    sampleLayout.nsegments_to_write = 1 :=
  have H := initial_segment_inside_segment_zero sampleDiskInfo (2 ^ 28) 0 0 sampleOptions
    4096 16 sampleLayout sampleSegment ⟨by decide, by decide, by decide, by decide, by decide⟩
    (by rfl)
  ⟨⟨by decide, by decide, by decide, by decide, by decide⟩, by rfl, H.1, H.2.1, H.2.2.1,
    H.2.2.2.1⟩

theorem release_file_cases (F n : Nat) (fi : nilfs_file_info)
    (hm : fi ∈ ([⟨2, F + 1, 1⟩, ⟨10, 0, 0⟩, ⟨11, 0, 0⟩, ⟨6, F + 2, n⟩, ⟨4, F + 2 + n, 1⟩,
      ⟨5, F + 3 + n, 1⟩, ⟨3, F + 4 + n, 3⟩] : List nilfs_file_info))
    (hn : n = 3 ∨ n = 4) :
    fi.nblocks ≤ 4 ∧ (fi.nblocks ≠ 0 → F + 1 ≤ fi.start ∧
      (fi.ino ≠ 3 → fi.start + fi.nblocks ≤ F + 4 + n) ∧ fi.start + fi.nblocks ≤ F + 7 + n) := by
  simp only [List.mem_cons, List.mem_singleton, List.mem_nil_iff, or_false] at hm
  rcases hm with rfl | rfl | rfl | rfl | rfl | rfl | rfl
  all_goals (dsimp only; omega)

/-- C14: when `main` of mkfs.c, run on options that passed `parse_options`
with the header constants of the release, returns from `commit_segment`,
take a file `fi` of the initial segment other than the DAT file, with the
files `pre` before it, and a block index `i < fi.nblocks`. Then
`i_bmap[i + 1]` of the inode of `fi` holds the virtual block number
`v = 1 + n + i`, where `n` counts the blocks of the files of `pre` other
than the DAT file, so the numbers are given out as 1, 2, 3, ... in the order
of the blocks and 0 is never given. The DAT entry of `v` is
`de_blocknr = fi.start + i`, `de_start = 1`, `de_end = NILFS_CNO_MAX`, and
`de_blocknr` is a block of segment 0: at or after its first block and before
the first block of segment 1. The counter ends at 1 plus the number of all
these blocks, and two blocks that receive the same number are the same block
of the same file. The inode of `fi` is assumed to be the inode of no other
file of the segment. -/
theorem block_map_dat_entries (h : Helpers) (di0 : nilfs_disk_info) (dev_size : Nat)
    (nilfs_time rnd : Int) (opts : mkfs_options) (pagesize seg_min_blocks : Int)
    (di : nilfs_disk_info) (si : nilfs_segment_info) (st : Formatter)
    (pre post : List nilfs_file_info) (fi : nilfs_file_info) (r : InodeRef) (i : Nat)
    (hopt : checked_options pagesize seg_min_blocks opts)
    (hlay : main_layout releaseConsts di0 dev_size nilfs_time rnd opts = .ok (di, si))
    (hrun : main_format h releaseConsts opts.blocksize di si = .ok st)
    (hfiles : si.files = pre ++ fi :: post)
    (hino : fi.ino ≠ releaseConsts.NILFS_DAT_INO) (hi : i < fi.nblocks)
    (hr : st.raw_inode fi.ino = some r)
    (hinj : ∀ g ∈ si.files, st.raw_inode g.ino = some r → g.ino = fi.ino) :
    ∃ D, file_of si.files releaseConsts.NILFS_DAT_INO = some D ∧
    (st.inode r).i_bmap (i + 1) = 1 + vblocks releaseConsts pre + i ∧
    dat_entry releaseConsts opts.blocksize D st (1 + vblocks releaseConsts pre + i) =
      ⟨fi.start + i, 1, NILFS_CNO_MAX⟩ ∧
    segment_start_blocknr di 0 ≤
      (dat_entry releaseConsts opts.blocksize D st
        (1 + vblocks releaseConsts pre + i)).de_blocknr ∧
    (dat_entry releaseConsts opts.blocksize D st
        (1 + vblocks releaseConsts pre + i)).de_blocknr < segment_start_blocknr di 1 ∧
    1 + vblocks releaseConsts pre + i < st.vblocknr ∧
    st.vblocknr = 1 + vblocks releaseConsts si.files ∧
    (∀ (pre2 post2 : List nilfs_file_info) (fi2 : nilfs_file_info) (i2 : Nat),
      si.files = pre2 ++ fi2 :: post2 → fi2.ino ≠ releaseConsts.NILFS_DAT_INO →
      i2 < fi2.nblocks →
      1 + vblocks releaseConsts pre2 + i2 = 1 + vblocks releaseConsts pre + i →
      pre2 = pre ∧ i2 = i) := by
  obtain ⟨g1, g2, g3, g4⟩ := checked_options_sizes pagesize seg_min_blocks opts hopt
  obtain ⟨F, n, f1, f2, hn, hF, a1, a2, a3, a4, a5, a6, a7, a8, a9, a10, a11, a12, a13⟩ :=
    main_layout_release di0 dev_size nilfs_time rnd opts pagesize seg_min_blocks di si hopt hlay
  have hn34 : n = 3 ∨ n = 4 := by
    rw [hn]
    split_ifs
    · exact Or.inr rfl
    · exact Or.inl rfl
  have hmem : fi ∈ si.files := by
    rw [hfiles]
    exact List.mem_append_right _ (List.mem_cons_self _ _)
  have hD : file_of si.files releaseConsts.NILFS_DAT_INO = some ⟨3, F + 4 + n, 3⟩ := by
    rw [a5]
    rfl
  have hnodup : (si.files.map (fun g => g.ino)).Nodup := by
    rw [a5]
    show ([2, 10, 11, 6, 4, 5, 3] : List Nat).Nodup
    decide
  have hsize : ∀ g ∈ si.files, g.nblocks < 2 ^ 32 := by
    intro g hg
    rw [a5] at hg
    have := (release_file_cases F n g hg hn34).1
    omega
  have hfi := release_file_cases F n fi (by rw [← a5]; exact hmem) hn34
  have hdat3 : releaseConsts.NILFS_DAT_INO = 3 := rfl
  rw [hdat3] at hino
  obtain ⟨-, k2⟩ := hfi
  obtain ⟨k3, k4, -⟩ := k2 (by omega)
  have hbs : toU64 opts.blocksize * 8 < 2 ^ 64 := by
    unfold toU64
    omega
  exact ⟨_, hD, commit_segment_block_maps h releaseConsts opts.blocksize di si st pre post fi _ r i
    hrun hfiles hnodup hsize (by rw [hdat3]; exact hino) hi hD hr hinj hbs
    ⟨by omega, by have := k4 hino; omega⟩ (by omega)⟩

set_option maxRecDepth 100000 in
/-- The run of `mkfs -b 4096 -B 2048` on a device of 2^28 bytes at time
1262304000: the second block of the inode file, block 4, comes after the
block of the root directory and the first block of the inode file, has the
virtual block number 3, whose DAT entry is `(4, 1, NILFS_CNO_MAX)`, and lies
in segment 0, which has the blocks 1 to 2047. -/
theorem block_map_dat_entries_witness :
    checked_options 4096 16 sampleOptions ∧
    main_layout releaseConsts sampleDiskInfo (2 ^ 28) 1262304000 0 sampleOptions =
      .ok (datedLayout, sampleSegment) ∧
    main_format releaseHelpers releaseConsts 4096 datedLayout sampleSegment = .ok sampleFormat ∧
    (sampleFormat.inode (.cp_ifile_inode 6 1)).i_bmap 2 = 3 ∧
    dat_entry releaseConsts 4096 ⟨3, 8, 3⟩ sampleFormat 3 = ⟨4, 1, NILFS_CNO_MAX⟩ ∧
    segment_start_blocknr datedLayout 0 ≤ 4 ∧ 4 < segment_start_blocknr datedLayout 1 ∧
    sampleFormat.vblocknr = 7 :=
  have H := block_map_dat_entries releaseHelpers sampleDiskInfo (2 ^ 28) 1262304000 0
    sampleOptions 4096 16 datedLayout sampleSegment sampleFormat
    [⟨2, 2, 1⟩, ⟨10, 0, 0⟩, ⟨11, 0, 0⟩] [⟨4, 6, 1⟩, ⟨5, 7, 1⟩, ⟨3, 8, 3⟩]
    ⟨6, 3, 3⟩ (.cp_ifile_inode 6 1) 1
    ⟨by decide, by decide, by decide, by decide, by decide⟩ (by rfl) (by rfl) (by rfl)
    (by decide) (by decide) (by rfl)
    (by
      intro g hg
      have e2 : sampleFormat.raw_inode 2 = some (.ifile_entry 5 2) := by rfl
      have e10 : sampleFormat.raw_inode 10 = some (.ifile_entry 5 10) := by rfl
      have e11 : sampleFormat.raw_inode 11 = some (.ifile_entry 5 11) := by rfl
      have e4 : sampleFormat.raw_inode 4 = some .sr_cpfile := by rfl
      have e5 : sampleFormat.raw_inode 5 = some .sr_sufile := by rfl
      have e3 : sampleFormat.raw_inode 3 = some .sr_dat := by rfl
      have hm : g ∈ ([⟨2, 2, 1⟩, ⟨10, 0, 0⟩, ⟨11, 0, 0⟩, ⟨6, 3, 3⟩, ⟨4, 6, 1⟩, ⟨5, 7, 1⟩,
        ⟨3, 8, 3⟩] : List nilfs_file_info) := hg
      simp only [List.mem_cons, List.mem_singleton, List.mem_nil_iff, or_false] at hm
      rcases hm with rfl | rfl | rfl | rfl | rfl | rfl | rfl
      · intro hc
        rw [e2] at hc
        cases hc
      · intro hc
        rw [e10] at hc
        cases hc
      · intro hc
        rw [e11] at hc
        cases hc
      · intro _
        rfl
      · intro hc
        rw [e4] at hc
        cases hc
      · intro hc
        rw [e5] at hc
        cases hc
      · intro hc
        rw [e3] at hc
        cases hc)
  ⟨⟨by decide, by decide, by decide, by decide, by decide⟩, by rfl, by rfl,
    (Exists.elim H fun D hD => by
      obtain ⟨d0, d1, d2, d3, d4, d5, d6, -⟩ := hD
      have hd : D = ⟨3, 8, 3⟩ := (Option.some.inj d0).symm
      rw [hd] at d2 d3 d4
      exact ⟨d1, d2, d3, d4, d6⟩)⟩

end Nilfs
